import Mathlib

/-!
# virgl_gbm: buffer layout and guest/host transfer

A shallow embedding of `src/virgl_gbm.c`: the planar layout table, the
scatter-gather sweep `virgl_gbm_transfer_internal`, the plane loop
`virgl_gbm_transfer`, the export resolver `virgl_gbm_export_query`, the
render node locator `rendernode_open`, the device handle `virgl_gbm_init`
and `virgl_gbm_fini`, and the converters `virgl_gbm_convert_format` and
`virgl_gbm_convert_flags`; and of `vtest/vtest_fuzzer.c`: the command table
`vtest_commands` and the loop `vtest_fuzzer_run_renderer`.

Conventions of the embedding.
* `uint32_t` values are natural numbers reduced with `u32` wherever the C
  code computes them.
* Host memory is a total map from byte offsets (relative to the address
  returned by `gbm_bo_map`) to bytes; the offsets every copy uses are kept
  in a log so that bounds can be stated about them.
* A guest segment is the list of bytes its `iov_base` points to, `iov_len`
  being the length of that list.
* Calls into the system and into libgbm are answered by parameters: what
  `readdir`, `open` and `drmGetVersion` report for each directory entry,
  what `gbm_create_device` and `drmPrimeHandleToFD` return. The calls that
  open, close or free something are kept in a list of events.
-/

set_option autoImplicit false

namespace VirglGbm

/-! ## Machine integers -/

/-- Reduction of a natural number to a `uint32_t` value. -/
def u32 (n : Nat) : Nat := n % 4294967296

/-- Conversion of a C `int` to `uint32_t`. -/
def u32_of_int (i : Int) : Nat := (i % 4294967296).toNat

/-! ## Planar layouts -/

/-- The C `struct planar_layout`; the three arrays have four entries, the
ones the initialiser leaves out being zero. -/
structure planar_layout where
  num_planes : Nat
  horizontal_subsampling : List Nat
  vertical_subsampling : List Nat
  bytes_per_pixel : List Nat
deriving DecidableEq, Repr

def packed_1bpp_layout : planar_layout :=
  ⟨1, [1, 0, 0, 0], [1, 0, 0, 0], [1, 0, 0, 0]⟩

def packed_2bpp_layout : planar_layout :=
  ⟨1, [1, 0, 0, 0], [1, 0, 0, 0], [2, 0, 0, 0]⟩

def packed_4bpp_layout : planar_layout :=
  ⟨1, [1, 0, 0, 0], [1, 0, 0, 0], [4, 0, 0, 0]⟩

def biplanar_yuv_420_layout : planar_layout :=
  ⟨2, [1, 2, 0, 0], [1, 2, 0, 0], [1, 2, 0, 0]⟩

def triplanar_yuv_420_layout : planar_layout :=
  ⟨3, [1, 2, 2, 0], [1, 2, 2, 0], [1, 1, 1, 0]⟩

/-- The fourcc code of four characters, as `__gbm_fourcc_code` of `gbm.h`. -/
def gbm_fourcc_code (a b c d : Char) : Nat :=
  a.toNat + b.toNat * 256 + c.toNat * 65536 + d.toNat * 16777216

def GBM_FORMAT_R8 : Nat := gbm_fourcc_code 'R' '8' ' ' ' '
def GBM_FORMAT_RGB565 : Nat := gbm_fourcc_code 'R' 'G' '1' '6'
def GBM_FORMAT_ARGB8888 : Nat := gbm_fourcc_code 'A' 'R' '2' '4'
def GBM_FORMAT_XRGB8888 : Nat := gbm_fourcc_code 'X' 'R' '2' '4'
def GBM_FORMAT_ABGR8888 : Nat := gbm_fourcc_code 'A' 'B' '2' '4'
def GBM_FORMAT_XBGR8888 : Nat := gbm_fourcc_code 'X' 'B' '2' '4'
def GBM_FORMAT_NV12 : Nat := gbm_fourcc_code 'N' 'V' '1' '2'
def GBM_FORMAT_YVU420 : Nat := gbm_fourcc_code 'Y' 'V' '1' '2'

/-- The C `layout_from_format`; `none` is the NULL result. -/
def layout_from_format (format : Nat) : Option planar_layout :=
  if format = GBM_FORMAT_R8 then some packed_1bpp_layout
  else if format = GBM_FORMAT_YVU420 then some triplanar_yuv_420_layout
  else if format = GBM_FORMAT_NV12 then some biplanar_yuv_420_layout
  else if format = GBM_FORMAT_RGB565 then some packed_2bpp_layout
  else if format = GBM_FORMAT_ARGB8888 ∨ format = GBM_FORMAT_XRGB8888 ∨
      format = GBM_FORMAT_ABGR8888 ∨ format = GBM_FORMAT_XBGR8888 then
    some packed_4bpp_layout
  else none

/-! ## Memory -/

/-- Host memory as seen through the mapping: offset from the mapped address to byte. -/
abbrev HostMem := Nat → UInt8

/-- The C `struct iovec`: `iov_base` holds the bytes of the segment. -/
structure iovec where
  iov_base : List UInt8
deriving DecidableEq, Repr

/-- The `iov_len` field of a segment. -/
def iovec.iov_len (v : iovec) : Nat := v.iov_base.length

/-- `memcpy(host_start, guest_start, n)`: `n` bytes of the segment, from
`off` on, land in host memory from `hoff` on. -/
def memcpy_to_host (host : HostMem) (hoff : Nat) (v : iovec) (off n : Nat) : HostMem :=
  fun a => if hoff ≤ a ∧ a < hoff + n then v.iov_base.getD (off + (a - hoff)) 0 else host a

/-- `memcpy(guest_start, host_start, n)`: `n` bytes of host memory, from
`hoff` on, land in the segment from `off` on. -/
def memcpy_to_guest (v : iovec) (off : Nat) (host : HostMem) (hoff n : Nat) : iovec :=
  ⟨(List.range v.iov_base.length).map fun j =>
    if off ≤ j ∧ j < off + n then host (hoff + (j - off)) else v.iov_base.getD j 0⟩

/-- One `memcpy` of the sweep: segment index, offset in the segment, host
offset (from the mapped address) and byte count. -/
structure CopyOp where
  iov : Nat
  offset_in_iovec : Nat
  host_offset : Nat
  copy_iovec_size : Nat
deriving DecidableEq, Repr

/-! ## The sweep `virgl_gbm_transfer_internal` -/

/-- The direction constant of `vrend_renderer.h`; the sweep only compares a
direction with it. -/
def VIRGL_TRANSFER_TO_HOST : Nat := 1

/-- The other direction constant of `vrend_renderer.h`. -/
def VIRGL_TRANSFER_FROM_HOST : Nat := 2

/-- The scalar arguments of `virgl_gbm_transfer_internal`; `host_address` is
the offset of the plane origin from the mapped address. -/
structure SweepArgs where
  planar_bytes_per_pixel : Nat
  subsampled_width : Nat
  subsampled_height : Nat
  guest_plane_stride : Nat
  guest_resource_offset : Nat
  host_plane_stride : Nat
  host_address : Nat
  direction : Nat
deriving DecidableEq, Repr

/-- The loop variables of the sweep together with the memory it works on
and the log of the copies made so far. -/
structure SweepState where
  current_height : Nat
  current_iovec : Nat
  iovec_start_offset : Nat
  host : HostMem
  iovecs : List iovec
  log : List CopyOp

/-! The local variables of one iteration, as functions of the arguments and
of the loop state at the start of the iteration. -/

/-- The segment `iovecs[current_iovec]`. -/
def cur_iovec (s : SweepState) : iovec := s.iovecs.getD s.current_iovec ⟨[]⟩

def iovec_size (s : SweepState) : Nat := u32 (cur_iovec s).iov_len

def iovec_end_offset (s : SweepState) : Nat := u32 (s.iovec_start_offset + iovec_size s)

def box_start_offset (a : SweepArgs) (s : SweepState) : Nat :=
  u32 (a.guest_resource_offset + u32 (s.current_height * a.guest_plane_stride))

def box_end_offset (a : SweepArgs) (s : SweepState) : Nat :=
  u32 (box_start_offset a s + u32 (a.subsampled_width * a.planar_bytes_per_pixel))

def max_start (a : SweepArgs) (s : SweepState) : Nat :=
  max s.iovec_start_offset (box_start_offset a s)

def min_end (a : SweepArgs) (s : SweepState) : Nat :=
  min (iovec_end_offset s) (box_end_offset a s)

def offset_in_iovec (a : SweepArgs) (s : SweepState) : Nat :=
  if max_start a s > s.iovec_start_offset then max_start a s - s.iovec_start_offset else 0

def copy_iovec_size (a : SweepArgs) (s : SweepState) : Nat := min_end a s - max_start a s

/-- The offset of `host_start` from the mapped address. -/
def host_start (a : SweepArgs) (s : SweepState) : Nat :=
  a.host_address + u32 (s.current_height * a.host_plane_stride) +
    (max_start a s - box_start_offset a s)

/-- The flag `next_iovec` at the end of the iteration; `next_line` is its
negation in both branches. -/
def next_iovec (a : SweepArgs) (s : SweepState) : Bool :=
  if max_start a s < min_end a s then decide (min_end a s ≥ iovec_end_offset s)
  else decide (box_start_offset a s ≥ s.iovec_start_offset)

/-- One iteration of the `while` loop of `virgl_gbm_transfer_internal`. -/
def sweep_step (a : SweepArgs) (s : SweepState) : SweepState :=
  if max_start a s < min_end a s then
    { current_height := if next_iovec a s then s.current_height else s.current_height + 1
      current_iovec := if next_iovec a s then s.current_iovec + 1 else s.current_iovec
      iovec_start_offset :=
        if next_iovec a s then u32 (s.iovec_start_offset + iovec_size s)
        else s.iovec_start_offset
      host :=
        if a.direction = VIRGL_TRANSFER_TO_HOST then
          memcpy_to_host s.host (host_start a s) (cur_iovec s) (offset_in_iovec a s)
            (copy_iovec_size a s)
        else s.host
      iovecs :=
        if a.direction = VIRGL_TRANSFER_TO_HOST then s.iovecs
        else s.iovecs.set s.current_iovec
          (memcpy_to_guest (cur_iovec s) (offset_in_iovec a s) s.host (host_start a s)
            (copy_iovec_size a s))
      log := s.log ++
        [⟨s.current_iovec, offset_in_iovec a s, host_start a s, copy_iovec_size a s⟩] }
  else
    { current_height := if next_iovec a s then s.current_height else s.current_height + 1
      current_iovec := if next_iovec a s then s.current_iovec + 1 else s.current_iovec
      iovec_start_offset :=
        if next_iovec a s then u32 (s.iovec_start_offset + iovec_size s)
        else s.iovec_start_offset
      host := s.host
      iovecs := s.iovecs
      log := s.log }

/-- The `while` loop, run for at most `fuel` iterations. -/
def sweep_loop (a : SweepArgs) : Nat → SweepState → SweepState
  | 0, s => s
  | fuel + 1, s =>
    if s.current_height < a.subsampled_height ∧ s.current_iovec < s.iovecs.length then
      sweep_loop a fuel (sweep_step a s)
    else s

/-- The C `virgl_gbm_transfer_internal`; `num_iovecs` is the length of
`iovecs`. Every iteration advances the row or the segment, so
`subsampled_height + num_iovecs` iterations reach the exit of the loop
(`transfer_internal_exit`). -/
def virgl_gbm_transfer_internal (a : SweepArgs) (host : HostMem) (iovecs : List iovec) :
    SweepState :=
  sweep_loop a (a.subsampled_height + iovecs.length) ⟨0, 0, 0, host, iovecs, []⟩

/-! ## The plane loop `virgl_gbm_transfer` -/

/-- What the gbm accessors report about a buffer object. `map_stride` is the
outcome of `gbm_bo_map` over the whole buffer: `none` when it returns NULL,
otherwise the stride it stores. -/
structure gbm_bo where
  width : Nat
  height : Nat
  format : Nat
  plane_count : Int
  offset : Nat → Nat
  stride_for_plane : Nat → Nat
  handle_for_plane : Nat → Nat
  modifier : Nat
  map_stride : Option Nat

/-- The fields of `struct pipe_box` the transfer reads, for a box with
non-negative coordinates. -/
structure pipe_box where
  x : Nat
  y : Nat
  width : Nat
  height : Nat
deriving DecidableEq, Repr

/-- The fields of `struct vrend_transfer_info` the transfer reads, and
`offset`, the base offset of the request in the guest resource, which it
does not read; `level` is a C `int`. -/
structure vrend_transfer_info where
  level : Int
  stride : Nat
  offset : Nat
  box : pipe_box
deriving DecidableEq, Repr

/-- The `calc_stride0` of `virgl_gbm_transfer`. -/
def calc_stride0 (bo : gbm_bo) (layout : planar_layout) : Nat :=
  u32 (bo.width * layout.bytes_per_pixel.getD 0 0)

/-- The `guest_stride0` of `virgl_gbm_transfer` once it is resolved
(the assignments before the two validation tests). -/
def resolve_guest_stride0 (info : vrend_transfer_info) (calc_stride : Nat) : Nat :=
  let guest_stride0 := info.stride
  if guest_stride0 = 0 then
    if info.level > 0 then u32_of_int info.level else calc_stride
  else guest_stride0

/-- The variables the plane loop carries from one plane to the next, the
memory and the log of copies, each with the plane it was made for. -/
structure PlaneState where
  host_plane_offset : Nat
  guest_plane_offset : Nat
  host : HostMem
  iovecs : List iovec
  log : List (Nat × CopyOp)

/-- The arguments the plane loop passes to the sweep for `plane`, given the
values `host_plane_offset` and `guest_plane_offset` have when the iteration
starts. -/
def plane_args (bo : gbm_bo) (layout : planar_layout) (info : vrend_transfer_info)
    (direction guest_stride0 host_map_stride0 plane : Nat)
    (host_plane_offset_in guest_plane_offset : Nat) : SweepArgs :=
  let hsub := layout.horizontal_subsampling.getD plane 0
  let vsub := layout.vertical_subsampling.getD plane 0
  let bpp := layout.bytes_per_pixel.getD plane 0
  let host_plane_offset := u32 (host_plane_offset_in + bo.offset plane)
  let subsampled_x := u32 (info.box.x / hsub)
  let subsampled_y := u32 (info.box.y / vsub)
  let subsampled_width := u32 (info.box.width / hsub)
  let subsampled_height := u32 (info.box.height / vsub)
  let guest_plane_stride := guest_stride0 / hsub
  let host_plane_stride := host_map_stride0 / hsub
  let guest_resource_offset :=
    u32 (u32 (guest_plane_offset + u32 (subsampled_y * guest_plane_stride)) +
      u32 (subsampled_x * bpp))
  let host_resource_offset :=
    u32 (u32 (host_plane_offset + u32 (subsampled_y * host_plane_stride)) +
      u32 (subsampled_x * bpp))
  { planar_bytes_per_pixel := bpp
    subsampled_width := subsampled_width
    subsampled_height := subsampled_height
    guest_plane_stride := guest_plane_stride
    guest_resource_offset := guest_resource_offset
    host_plane_stride := host_plane_stride
    host_address := host_resource_offset
    direction := direction }

/-- One iteration of the `for` loop over the planes. A zero divisor (a plane
the layout does not have) is undefined behaviour in C: `none`. -/
def plane_step (bo : gbm_bo) (layout : planar_layout) (info : vrend_transfer_info)
    (direction guest_stride0 host_map_stride0 plane : Nat) (s : PlaneState) :
    Option PlaneState :=
  let hsub := layout.horizontal_subsampling.getD plane 0
  let vsub := layout.vertical_subsampling.getD plane 0
  if hsub = 0 ∨ vsub = 0 then none
  else
    let a := plane_args bo layout info direction guest_stride0 host_map_stride0 plane
      s.host_plane_offset s.guest_plane_offset
    let plane_height := bo.height / vsub
    let r := virgl_gbm_transfer_internal a s.host s.iovecs
    some
      { host_plane_offset := u32 (s.host_plane_offset + bo.offset plane)
        guest_plane_offset :=
          u32 (s.guest_plane_offset + u32 (plane_height * a.guest_plane_stride))
        host := r.host
        iovecs := r.iovecs
        log := s.log ++ r.log.map fun op => (plane, op) }

/-- The `for` loop: `count` iterations starting at `plane`. -/
def plane_loop (bo : gbm_bo) (layout : planar_layout) (info : vrend_transfer_info)
    (direction guest_stride0 host_map_stride0 : Nat) :
    Nat → Nat → PlaneState → Option PlaneState
  | 0, _, s => some s
  | count + 1, plane, s =>
    match plane_step bo layout info direction guest_stride0 host_map_stride0 plane s with
    | none => none
    | some s' =>
      plane_loop bo layout info direction guest_stride0 host_map_stride0 count (plane + 1) s'

/-- What a call of `virgl_gbm_transfer` leaves behind: the value returned,
the memory, the copies made, and how often the buffer was mapped and
unmapped. -/
structure TransferResult where
  ret : Int
  host : HostMem
  iovecs : List iovec
  log : List (Nat × CopyOp)
  maps : Nat
  unmaps : Nat

/-- The part of `virgl_gbm_transfer` that follows the resolution of
`guest_stride0`: the two validation tests, the plane loop and the unmap.
The buffer is mapped (`maps = 1`) when this part starts. -/
def transfer_mapped (bo : gbm_bo) (layout : planar_layout) (direction : Nat)
    (host : HostMem) (iovecs : List iovec) (info : vrend_transfer_info)
    (host_map_stride0 guest_stride0 : Nat) : Option TransferResult :=
  if guest_stride0 < calc_stride0 bo layout then some ⟨-1, host, iovecs, [], 1, 0⟩
  else if guest_stride0 > host_map_stride0 then some ⟨-1, host, iovecs, [], 1, 0⟩
  else
    match plane_loop bo layout info direction guest_stride0 host_map_stride0
        bo.plane_count.toNat 0 ⟨0, 0, host, iovecs, []⟩ with
    | none => none
    | some s => some ⟨0, s.host, s.iovecs, s.log, 1, 1⟩

/-- The C `virgl_gbm_transfer`; `none` stands for undefined behaviour
(division by a zero subsampling factor). -/
def virgl_gbm_transfer (bo : gbm_bo) (direction : Nat) (host : HostMem)
    (iovecs : List iovec) (info : vrend_transfer_info) : Option TransferResult :=
  match layout_from_format bo.format with
  | none => some ⟨-1, host, iovecs, [], 0, 0⟩
  | some layout =>
    match bo.map_stride with
    | none => some ⟨-1, host, iovecs, [], 0, 0⟩
    | some host_map_stride0 =>
      transfer_mapped bo layout direction host iovecs info host_map_stride0
        (resolve_guest_stride0 info (calc_stride0 bo layout))

/-! ## The export resolver `virgl_gbm_export_query` -/

/-- The C `struct virgl_renderer_export_query`, without its header. -/
structure virgl_renderer_export_query where
  in_export_fds : Nat
  out_num_fds : Nat
  out_fds : List Int
  out_strides : List Nat
  out_offsets : List Nat
  out_modifier : Nat
  out_fourcc : Nat
deriving DecidableEq, Repr

/-- The outcome of one `drmPrimeHandleToFD` call: the value returned and,
when that is 0, the descriptor stored through the out pointer. -/
structure PrimeResult where
  ret : Int
  fd : Int
deriving DecidableEq, Repr

/-- The state of the export loop: the query being filled, the handles passed
to `drmPrimeHandleToFD` so far and the descriptors closed so far. -/
structure ExportState where
  query : virgl_renderer_export_query
  resolved : List Nat
  closed : List Int
deriving DecidableEq, Repr

/-- The inner `for (i = 0; i < query->out_num_fds; i++)` search; the result
is the value of `i` after the loop. -/
def find_handle (handles : List Nat) (out_num_fds handle : Nat) : Nat → Nat → Nat
  | 0, i => i
  | fuel + 1, i =>
    if i < out_num_fds then
      if handles.getD out_num_fds 0 = handle then i
      else find_handle handles out_num_fds handle fuel (i + 1)
    else i

/-- The body of the loop over the planes; `Except.error` carries the state
at the `goto err_close` together with `ret`. -/
def export_plane (bo : gbm_bo) (prime : Nat → Nat → PrimeResult) (handles : List Nat)
    (plane : Nat) (s : ExportState) : Except (Int × ExportState) ExportState :=
  let q := { s.query with
    out_strides := s.query.out_strides.set plane (bo.stride_for_plane plane)
    out_offsets := s.query.out_offsets.set plane (bo.offset plane) }
  let handle := bo.handle_for_plane plane
  let i := find_handle handles q.out_num_fds handle q.out_num_fds 0
  if i = q.out_num_fds then
    if q.in_export_fds ≠ 0 then
      let r := prime s.resolved.length handle
      if r.ret ≠ 0 then
        .error (r.ret, { s with query := q, resolved := s.resolved ++ [handle] })
      else
        .ok { s with
          query := { q with
            out_fds := q.out_fds.set q.out_num_fds r.fd
            out_num_fds := q.out_num_fds + 1 }
          resolved := s.resolved ++ [handle] }
    else .ok { s with query := { q with out_num_fds := q.out_num_fds + 1 } }
  else .ok { s with query := q }

/-- The loop over the planes: `count` iterations starting at `plane`. -/
def export_loop (bo : gbm_bo) (prime : Nat → Nat → PrimeResult) (handles : List Nat) :
    Nat → Nat → ExportState → Except (Int × ExportState) ExportState
  | 0, _, s => .ok s
  | count + 1, plane, s =>
    match export_plane bo prime handles plane s with
    | .error e => .error e
    | .ok s' => export_loop bo prime handles count (plane + 1) s'

/-- The `err_close` block: every descriptor that is open is closed and the
out fields are reset. -/
def err_close (s : ExportState) : ExportState :=
  { query := { s.query with
      out_fds := s.query.out_fds.map fun fd => if fd ≥ 0 then (-1 : Int) else fd
      out_strides := s.query.out_strides.map fun _ => 0
      out_offsets := s.query.out_offsets.map fun _ => 0
      out_num_fds := 0 }
    resolved := s.resolved
    closed := s.closed ++ s.query.out_fds.filter fun fd => decide (fd ≥ 0) }

/-- The C `virgl_gbm_export_query`: the value returned and the final state.
`handles` is the local array, which the function never writes. -/
def virgl_gbm_export_query (bo : gbm_bo) (prime : Nat → Nat → PrimeResult)
    (query : virgl_renderer_export_query) : Int × ExportState :=
  let handles : List Nat := [0, 0, 0, 0]
  let num_planes := bo.plane_count
  if num_planes < 0 ∨ num_planes > 4 then (-1, ⟨query, [], []⟩)
  else
    let q0 : virgl_renderer_export_query :=
      { query with
        out_num_fds := 0
        out_fourcc := 0
        out_modifier := 0
        out_fds := [-1, -1, -1, -1]
        out_strides := [0, 0, 0, 0]
        out_offsets := [0, 0, 0, 0] }
    match export_loop bo prime handles num_planes.toNat 0 ⟨q0, [], []⟩ with
    | .ok s =>
      (0, { s with query := { s.query with
              out_modifier := bo.modifier
              out_fourcc := bo.format } })
    | .error (ret, s) => (ret, err_close s)

/-! ## The render node locator `rendernode_open` -/

/-- What the system answers for one entry that `readdir` returns from
`/dev/dri`: whether `d_type` is `DT_CHR`, the name, whether `asprintf`
succeeds for its path, the descriptor `open` returns (`none` when it fails)
and the driver name of `drmGetVersion` (`none` when that returns NULL). -/
structure dir_entry where
  is_chr : Bool
  d_name : String
  asprintf_ok : Bool
  open_fd : Option Nat
  version_name : Option String
deriving DecidableEq, Repr

/-- The system calls with an effect on descriptors and allocations, in the
order the code makes them. -/
inductive SysEvent where
  | opened (fd : Int)
  | closed (fd : Int)
  | closedir
  | device_destroyed (device : Nat)
  | freed
deriving DecidableEq, Repr

/-- The local array `undesired` of `rendernode_open`. -/
def undesired : List (Option String) := [some "vgem", some "pvr", none]

/-- The loop over `undesired`: whether `strcmp` finds the driver name among
the entries that are not NULL. -/
def undesired_found (name : String) : Bool :=
  undesired.any fun u =>
    match u with
    | some s => decide (name = s)
    | none => false

/-- The test `strncmp(d_name, "renderD", 7) == 0`. -/
def named_renderD (d_name : String) : Bool :=
  decide (d_name.toList.take 7 = "renderD".toList)

/-- The `while ((dir_ent = readdir(dir)))` loop of `rendernode_open` over the
entries still to be read; `fd` is the local variable, the result is its
value at the label `out` together with the calls made. -/
def rendernode_scan : List dir_entry → Int → List SysEvent → Int × List SysEvent
  | [], fd, log => (fd, log)
  | e :: rest, fd, log =>
    if !e.is_chr then rendernode_scan rest fd log
    else if !named_renderD e.d_name then rendernode_scan rest fd log
    else if !e.asprintf_ok then (fd, log)
    else
      match e.open_fd with
      | none => rendernode_scan rest (-1) log
      | some n =>
        let fd : Int := n
        let log := log ++ [SysEvent.opened fd]
        match e.version_name with
        | none => rendernode_scan rest (-1) (log ++ [SysEvent.closed fd])
        | some name =>
          if undesired_found name then
            rendernode_scan rest (-1) (log ++ [SysEvent.closed fd])
          else (fd, log)

/-- The C `rendernode_open`; `dir` is `none` when `opendir` fails, otherwise
the entries `readdir` returns, in order. -/
def rendernode_open (dir : Option (List dir_entry)) : Int × List SysEvent :=
  match dir with
  | none => (-1, [])
  | some entries =>
    let r := rendernode_scan entries (-1) []
    (r.1, r.2 ++ [SysEvent.closedir])

/-! ## The device handle `virgl_gbm_init` and `virgl_gbm_fini` -/

/-- The C `struct virgl_gbm`; `device` stands for the pointer
`gbm_create_device` returned. -/
structure virgl_gbm where
  fd : Int
  device : Nat
deriving DecidableEq, Repr

/-- The C `virgl_gbm_init`: the handle (`none` for NULL) and the calls made.
`calloc_ok` tells whether `calloc` succeeds, `dir` is what `rendernode_open`
finds and `gbm_create_device` answers `none` for NULL. -/
def virgl_gbm_init (calloc_ok : Bool) (dir : Option (List dir_entry))
    (gbm_create_device : Int → Option Nat) (fd : Int) :
    Option virgl_gbm × List SysEvent :=
  if !calloc_ok then (none, [])
  else if fd < 0 then
    let r := rendernode_open dir
    if r.1 < 0 then (none, r.2 ++ [SysEvent.freed])
    else
      match gbm_create_device r.1 with
      | none => (none, r.2 ++ [SysEvent.closed r.1, SysEvent.freed])
      | some device => (some ⟨r.1, device⟩, r.2)
  else
    match gbm_create_device fd with
    | none => (none, [SysEvent.freed])
    | some device => (some ⟨-1, device⟩, [])

/-- The C `virgl_gbm_fini`: the calls made. -/
def virgl_gbm_fini (gbm : virgl_gbm) : List SysEvent :=
  [SysEvent.device_destroyed gbm.device] ++
    (if gbm.fd ≥ 0 then [SysEvent.closed gbm.fd] else []) ++ [SysEvent.freed]

/-! ## The format and flag converters -/

/-- The values of the `VIRGL_FORMAT_*` enumerators that
`virgl_gbm_convert_format` names. They are defined in `virgl_hw.h`, which is
not among the translated sources, so they are parameters. -/
structure virgl_formats where
  VIRGL_FORMAT_B5G6R5_UNORM : Nat
  VIRGL_FORMAT_B8G8R8A8_UNORM : Nat
  VIRGL_FORMAT_B8G8R8X8_UNORM : Nat
  VIRGL_FORMAT_NV12 : Nat
  VIRGL_FORMAT_R8G8B8A8_UNORM : Nat
  VIRGL_FORMAT_R8G8B8X8_UNORM : Nat
  VIRGL_FORMAT_R8_UNORM : Nat
  VIRGL_FORMAT_YV12 : Nat
deriving DecidableEq, Repr

/-- The C `virgl_gbm_convert_format`: the `switch`, its cases in the order
of the source. -/
def virgl_gbm_convert_format (c : virgl_formats) (virgl_format : Nat) : Nat :=
  if virgl_format = c.VIRGL_FORMAT_B5G6R5_UNORM then GBM_FORMAT_RGB565
  else if virgl_format = c.VIRGL_FORMAT_B8G8R8A8_UNORM then GBM_FORMAT_ARGB8888
  else if virgl_format = c.VIRGL_FORMAT_B8G8R8X8_UNORM then GBM_FORMAT_XRGB8888
  else if virgl_format = c.VIRGL_FORMAT_NV12 then GBM_FORMAT_NV12
  else if virgl_format = c.VIRGL_FORMAT_R8G8B8A8_UNORM then GBM_FORMAT_ABGR8888
  else if virgl_format = c.VIRGL_FORMAT_R8G8B8X8_UNORM then GBM_FORMAT_XBGR8888
  else if virgl_format = c.VIRGL_FORMAT_R8_UNORM then GBM_FORMAT_R8
  else if virgl_format = c.VIRGL_FORMAT_YV12 then GBM_FORMAT_YVU420
  else 0

/-- The values of the `VIRGL_BIND_*` masks that `virgl_gbm_convert_flags`
tests, parameters for the same reason as `virgl_formats`. -/
structure virgl_binds where
  VIRGL_BIND_RENDER_TARGET : Nat
  VIRGL_BIND_SCANOUT : Nat
  VIRGL_BIND_CURSOR : Nat
deriving DecidableEq, Repr

/-- The usage bits of `enum gbm_bo_flags` of `gbm.h` that the converter
sets. -/
def GBM_BO_USE_SCANOUT : Nat := 1 <<< 0
def GBM_BO_USE_CURSOR : Nat := 1 <<< 1
def GBM_BO_USE_RENDERING : Nat := 1 <<< 2

/-- The C `virgl_gbm_convert_flags`. -/
def virgl_gbm_convert_flags (c : virgl_binds) (virgl_bind_flags : Nat) : Nat :=
  let flags := 0
  let flags :=
    if virgl_bind_flags &&& c.VIRGL_BIND_RENDER_TARGET ≠ 0 then flags ||| GBM_BO_USE_RENDERING
    else flags
  let flags :=
    if virgl_bind_flags &&& c.VIRGL_BIND_SCANOUT ≠ 0 then flags ||| GBM_BO_USE_SCANOUT
    else flags
  let flags :=
    if virgl_bind_flags &&& c.VIRGL_BIND_CURSOR ≠ 0 then flags ||| GBM_BO_USE_CURSOR
    else flags
  flags

/-! ## The fuzzer loop `vtest_fuzzer_run_renderer` -/

/-- The handlers named in the table `vtest_commands` of
`vtest/vtest_fuzzer.c`. -/
inductive vtest_handler where
  | vtest_send_caps
  | vtest_create_resource
  | vtest_resource_unref
  | vtest_transfer_get_nop
  | vtest_transfer_put_nop
  | vtest_submit_cmd
  | vtest_resource_busy_wait
  | vtest_send_caps2
  | vtest_ping_protocol_version
  | vtest_protocol_version
  | vtest_create_resource2
  | vtest_transfer_get2_nop
  | vtest_transfer_put2_nop
deriving DecidableEq, Repr

/-- The table `vtest_commands`, indexed by command id; `none` is NULL. -/
def vtest_commands : List (Option vtest_handler) :=
  [none,
   some vtest_handler.vtest_send_caps,
   some vtest_handler.vtest_create_resource,
   some vtest_handler.vtest_resource_unref,
   some vtest_handler.vtest_transfer_get_nop,
   some vtest_handler.vtest_transfer_put_nop,
   some vtest_handler.vtest_submit_cmd,
   some vtest_handler.vtest_resource_busy_wait,
   none,
   some vtest_handler.vtest_send_caps2,
   some vtest_handler.vtest_ping_protocol_version,
   some vtest_handler.vtest_protocol_version,
   some vtest_handler.vtest_create_resource2,
   some vtest_handler.vtest_transfer_get2_nop,
   some vtest_handler.vtest_transfer_put2_nop]

/-- The constants of `vtest_protocol.h` that `vtest_fuzzer_run_renderer`
uses. -/
structure vtest_protocol where
  VTEST_HDR_SIZE : Nat
  VCMD_CREATE_RENDERER : Nat
  VCMD_SUBMIT_CMD : Nat
  VCMD_RESOURCE_CREATE : Nat
  VCMD_RESOURCE_CREATE2 : Nat
deriving DecidableEq, Repr

/-- What one iteration of the loop gets from outside: the value `input->read`
returns for the header, the words `header[0]` and `header[1]` it stored, and
the value returned by the call the iteration makes for this header, if it
makes one (`vtest_create_renderer` or the handler of the table). -/
structure vtest_read where
  ret : Int
  header0 : Nat
  header1 : Nat
  call_ret : Int
deriving DecidableEq, Repr

/-- The calls `vtest_fuzzer_run_renderer` makes, in order. -/
inductive FuzzEvent where
  | read
  | create_renderer (length : Nat) (ret : Int)
  | poll
  | handler (id : Nat) (f : vtest_handler) (length : Nat) (ret : Int)
  | create_fence
  | destroy_renderer
deriving DecidableEq, Repr

/-- The `do ... while (1)` loop of `vtest_fuzzer_run_renderer`: the calls it
makes from the current iteration on. The list holds what the coming header
reads return, a read beyond the list fails; the Boolean is the local
variable `initialized`. -/
def vtest_fuzzer_loop (c : vtest_protocol) (create_fences : Bool) :
    List vtest_read → Bool → List FuzzEvent
  | [], _ => [FuzzEvent.read]
  | r :: rest, initialized =>
    FuzzEvent.read ::
    (if r.ret < 0 ∨ r.ret.toNat < 4 * c.VTEST_HDR_SIZE then []
     else if !initialized then
       if r.header1 ≠ c.VCMD_CREATE_RENDERER then []
       else
         FuzzEvent.create_renderer r.header0 r.call_ret ::
         (if r.call_ret < 0 then []
          else FuzzEvent.poll :: vtest_fuzzer_loop c create_fences rest true)
     else
       FuzzEvent.poll ::
       (if r.header1 ≤ 0 ∨ r.header1 ≥ vtest_commands.length then []
        else
          match vtest_commands.getD r.header1 none with
          | none => []
          | some f =>
            FuzzEvent.handler r.header1 f r.header0 r.call_ret ::
            (if r.call_ret < 0 then []
             else
               (if create_fences = true ∧
                   (r.header1 = c.VCMD_SUBMIT_CMD ∨ r.header1 = c.VCMD_RESOURCE_CREATE ∨
                     r.header1 = c.VCMD_RESOURCE_CREATE2)
                then [FuzzEvent.create_fence] else []) ++
               vtest_fuzzer_loop c create_fences rest true)))

/-- The C `vtest_fuzzer_run_renderer`: the calls it makes. -/
def vtest_fuzzer_run_renderer (c : vtest_protocol) (create_fences : Bool)
    (reads : List vtest_read) : List FuzzEvent :=
  vtest_fuzzer_loop c create_fences reads false ++ [FuzzEvent.destroy_renderer]

/-! ## Specification-side definitions -/

/-- The stride resolution in the words of the specification: the explicit
stride when nonzero, otherwise the level reinterpreted when nonzero,
otherwise the minimal stride. -/
def spec_guest_stride0 (info : vrend_transfer_info) (calc_stride : Nat) : Nat :=
  if info.stride ≠ 0 then info.stride
  else if info.level ≠ 0 then u32_of_int info.level
  else calc_stride

/-- A copy stays inside its segment and moves at least one byte; `lens` are
the lengths of the segments. -/
def CopyOp.in_segment (lens : List Nat) (op : CopyOp) : Prop :=
  op.iov < lens.length ∧ 0 < op.copy_iovec_size ∧
    op.offset_in_iovec + op.copy_iovec_size ≤ lens.getD op.iov 0

/-- The total length of the segments. -/
def total_len (iovecs : List iovec) : Nat := (iovecs.map iovec.iov_len).sum

/-- The logical offset at which segment `k` starts: the `iovec_start_offset`
of the sweep when it reaches that segment. -/
def seg_start (iovecs : List iovec) (k : Nat) : Nat := total_len (iovecs.take k)

/-- The concatenation of the segments: the guest region as one byte range. -/
def guest_bytes (iovecs : List iovec) : List UInt8 := (iovecs.map iovec.iov_base).flatten

/-- The byte at logical offset `g` of the concatenated segments. -/
def guest_byte (iovecs : List iovec) (g : Nat) : Option UInt8 := (guest_bytes iovecs)[g]?

/-- The logical offset at which row `r` of the box starts (`box_start_offset`
without the reductions). -/
def row_start (a : SweepArgs) (r : Nat) : Nat :=
  a.guest_resource_offset + r * a.guest_plane_stride

/-- The number of bytes in a row of the box. -/
def row_bytes (a : SweepArgs) : Nat := a.subsampled_width * a.planar_bytes_per_pixel

/-- No 32-bit computation of the sweep wraps: the segments' total length, the
end offset of every row and every row's host displacement fit in 32 bits. -/
def NoWrap (a : SweepArgs) (iovecs : List iovec) : Prop :=
  total_len iovecs < 4294967296 ∧
  (∀ r < a.subsampled_height, row_start a r + row_bytes a < 4294967296) ∧
  (∀ r < a.subsampled_height, r * a.host_plane_stride < 4294967296)

instance (a : SweepArgs) (iovecs : List iovec) : Decidable (NoWrap a iovecs) := by
  unfold NoWrap; infer_instance

/-- The pair (row `r`, column byte `c`) is still to be copied when the sweep
stands at row `r0` with the current segment starting at `s0`. -/
def Pending (a : SweepArgs) (r0 s0 r c : Nat) : Prop :=
  r0 ≤ r ∧ r < a.subsampled_height ∧ c < row_bytes a ∧ s0 ≤ row_start a r + c

/-- What the loop state satisfies at every iteration when nothing wraps:
`iovec_start_offset` is the logical start of the current segment. -/
structure SweepInv (a : SweepArgs) (s : SweepState) : Prop where
  start_eq : s.iovec_start_offset = seg_start s.iovecs s.current_iovec
  pos : ∀ n ∈ s.iovecs.map iovec.iov_len, 0 < n
  nowrap : NoWrap a s.iovecs

/-- The value of `host_plane_offset` when the iteration for `plane` starts. -/
def host_plane_offset_at (bo : gbm_bo) : Nat → Nat
  | 0 => 0
  | plane + 1 => u32 (host_plane_offset_at bo plane + bo.offset plane)

/-- The value of `guest_plane_offset` when the iteration for `plane` starts. -/
def guest_plane_offset_at (bo : gbm_bo) (layout : planar_layout) (guest_stride0 : Nat) :
    Nat → Nat
  | 0 => 0
  | plane + 1 =>
    u32 (guest_plane_offset_at bo layout guest_stride0 plane +
      u32 (bo.height / layout.vertical_subsampling.getD plane 0 *
        (guest_stride0 / layout.horizontal_subsampling.getD plane 0)))

/-- The arguments of the sweep for `plane` in a run of the plane loop that
starts at plane 0. -/
def sweep_args_at (bo : gbm_bo) (layout : planar_layout) (info : vrend_transfer_info)
    (direction guest_stride0 host_map_stride0 plane : Nat) : SweepArgs :=
  plane_args bo layout info direction guest_stride0 host_map_stride0 plane
    (host_plane_offset_at bo plane) (guest_plane_offset_at bo layout guest_stride0 plane)

/-- A copy of the sweep stays, on the host side, in the row it is made for. -/
def CopyOp.in_host_rows (a : SweepArgs) (op : CopyOp) : Prop :=
  a.host_address ≤ op.host_offset ∧
    ∃ r, r < a.subsampled_height ∧
      op.host_offset + op.copy_iovec_size ≤
        a.host_address + r * a.host_plane_stride + row_bytes a

/-- A copy stays inside the mapped host memory of `plane`: the rows of the
plane, at the plane's share of the host-mapped stride, from the offset the
allocator reports for the plane. -/
def CopyOp.in_host_plane (bo : gbm_bo) (layout : planar_layout) (host_map_stride0 plane : Nat)
    (op : CopyOp) : Prop :=
  bo.offset plane ≤ op.host_offset ∧
    op.host_offset + op.copy_iovec_size ≤
      bo.offset plane + bo.height / layout.vertical_subsampling.getD plane 0 *
        (host_map_stride0 / layout.horizontal_subsampling.getD plane 0)

instance (bo : gbm_bo) (layout : planar_layout) (host_map_stride0 plane : Nat) (op : CopyOp) :
    Decidable (CopyOp.in_host_plane bo layout host_map_stride0 plane op) := by
  unfold CopyOp.in_host_plane; infer_instance

/-- The logical offset from which each row is copied in the rest of the
sweep: the value of `iovec_start_offset` when the sweep enters the row. -/
def entry_start (a : SweepArgs) : Nat → SweepState → Nat → Nat
  | 0, s => fun _ => s.iovec_start_offset
  | fuel + 1, s =>
    if s.current_height < a.subsampled_height ∧ s.current_iovec < s.iovecs.length then
      Function.update (entry_start a fuel (sweep_step a s)) s.current_height
        s.iovec_start_offset
    else fun _ => s.iovec_start_offset

/-- Row `r` copies the byte at logical offset `g` when it is entered with
the current segment starting at `t`. -/
def Copied (a : SweepArgs) (total r t g : Nat) : Prop :=
  r < a.subsampled_height ∧ row_start a r ≤ g ∧ g < row_start a r + row_bytes a ∧
    t ≤ g ∧ g < total

/-- The host offset of the byte of row `r` that is at logical offset `g`. -/
def host_addr (a : SweepArgs) (r g : Nat) : Nat :=
  a.host_address + r * a.host_plane_stride + (g - row_start a r)

/-- Two loop states with the same loop variables over segments of the same
lengths. -/
def CtrlEq (s s' : SweepState) : Prop :=
  s.current_height = s'.current_height ∧ s.current_iovec = s'.current_iovec ∧
    s.iovec_start_offset = s'.iovec_start_offset ∧
    s.iovecs.map iovec.iov_len = s'.iovecs.map iovec.iov_len

/-- The thresholds of a sweep that starts on segments with the lengths of
`ref`. -/
def row_entry (a : SweepArgs) (ref : List iovec) : Nat → Nat :=
  entry_start a (a.subsampled_height + ref.length) ⟨0, 0, 0, fun _ => 0, ref, []⟩

/-- Row `r` of the sweep with arguments `a` over segments with the lengths
of `ref` copies the byte at logical offset `g`. -/
def RowCopies (a : SweepArgs) (ref : List iovec) (r g : Nat) : Prop :=
  Copied a (total_len ref) r (row_entry a ref r) g

/-- What a transfer leaves to be observed: the value returned, the host
memory and the guest bytes as one range. -/
def TransferResult.contents (r : TransferResult) : Int × HostMem × List UInt8 :=
  (r.ret, r.host, guest_bytes r.iovecs)

/-- A guest buffer of the same geometry, all bytes zero. -/
def zeroed (iovecs : List iovec) : List iovec :=
  iovecs.map fun v => ⟨v.iov_base.map fun _ => 0⟩

/-- The arguments of the sweep for `plane` in a transfer of the request
`info` on the buffer `bo` mapped with stride `host_map_stride0` (the
direction field is not looked at where these are used). -/
def transfer_args (bo : gbm_bo) (layout : planar_layout) (info : vrend_transfer_info)
    (host_map_stride0 plane : Nat) : SweepArgs :=
  sweep_args_at bo layout info VIRGL_TRANSFER_TO_HOST
    (resolve_guest_stride0 info (calc_stride0 bo layout)) host_map_stride0 plane

/-- No host byte of a row of the box is shared by the sweeps with arguments
`a` and `b`. -/
def HostDisjoint (a b : SweepArgs) : Prop :=
  ∀ r < a.subsampled_height, ∀ c < row_bytes a,
    ∀ r' < b.subsampled_height, ∀ c' < row_bytes b,
      a.host_address + r * a.host_plane_stride + c ≠
        b.host_address + r' * b.host_plane_stride + c'

instance (a b : SweepArgs) : Decidable (HostDisjoint a b) := by
  unfold HostDisjoint; infer_instance

/-- The two transfers of the round trip: to the host, then back into a zeroed
buffer; the two values returned and the guest bytes at the end. -/
def round_trip (bo : gbm_bo) (host : HostMem) (iovecs : List iovec)
    (info : vrend_transfer_info) : Option (Int × Int × List UInt8) :=
  (virgl_gbm_transfer bo VIRGL_TRANSFER_TO_HOST host iovecs info).bind fun r1 =>
    (virgl_gbm_transfer bo VIRGL_TRANSFER_FROM_HOST r1.host (zeroed iovecs) info).map fun r2 =>
      (r1.ret, r2.ret, guest_bytes r2.iovecs)

/-- The descriptors that the calls of `drmPrimeHandleToFD` made so far have
opened: those of the calls that returned 0, in the order of the calls.
`resolved` lists the handles passed, the call with index `k` being answered
by `prime k`. -/
def opened_fds (prime : Nat → Nat → PrimeResult) (resolved : List Nat) : List Int :=
  (List.range resolved.length).filterMap fun k =>
    if (prime k (resolved.getD k 0)).ret = 0 then some (prime k (resolved.getD k 0)).fd
    else none

/-- What holds of the state of the export loop before the iteration for
`plane`, `query` being the structure the caller passed. -/
structure ExportInv (bo : gbm_bo) (prime : Nat → Nat → PrimeResult)
    (query : virgl_renderer_export_query) (plane : Nat) (s : ExportState) : Prop where
  in_export : s.query.in_export_fds = query.in_export_fds
  num_le : s.query.out_num_fds ≤ plane
  fds_len : s.query.out_fds.length = 4
  strides_len : s.query.out_strides.length = 4
  offsets_len : s.query.out_offsets.length = 4
  fds_tail : ∀ i, s.query.out_num_fds ≤ i → s.query.out_fds.getD i (-1) = -1
  strides_lo : ∀ p, p < plane → s.query.out_strides.getD p 0 = bo.stride_for_plane p
  strides_hi : ∀ p, plane ≤ p → s.query.out_strides.getD p 0 = 0
  offsets_lo : ∀ p, p < plane → s.query.out_offsets.getD p 0 = bo.offset p
  offsets_hi : ∀ p, plane ≤ p → s.query.out_offsets.getD p 0 = 0
  closed_nil : s.closed = []
  resolved_len : s.query.in_export_fds ≠ 0 → s.resolved.length = s.query.out_num_fds
  resolved_none : s.query.in_export_fds = 0 → s.resolved = []
  resolved_ok : ∀ k, k < s.resolved.length →
    (prime k (s.resolved.getD k 0)).ret = 0 ∧
      s.query.out_fds.getD k (-1) = (prime k (s.resolved.getD k 0)).fd

/-- What holds of the state at the `goto err_close`, `ret` being the value
`drmPrimeHandleToFD` returned. -/
structure ExportErr (prime : Nat → Nat → PrimeResult) (ret : Int) (s : ExportState) :
    Prop where
  ret_ne : ret ≠ 0
  num_lt : s.query.out_num_fds < 4
  fds_len : s.query.out_fds.length = 4
  strides_len : s.query.out_strides.length = 4
  offsets_len : s.query.out_offsets.length = 4
  fds_tail : ∀ i, s.query.out_num_fds ≤ i → s.query.out_fds.getD i (-1) = -1
  closed_nil : s.closed = []
  resolved_len : s.resolved.length = s.query.out_num_fds + 1
  failed : (prime s.query.out_num_fds (s.resolved.getD s.query.out_num_fds 0)).ret = ret
  resolved_ok : ∀ k, k < s.query.out_num_fds →
    (prime k (s.resolved.getD k 0)).ret = 0 ∧
      s.query.out_fds.getD k (-1) = (prime k (s.resolved.getD k 0)).fd

/-- The eight virtual formats that `virgl_gbm_convert_format` names. -/
def virgl_formats.codes (c : virgl_formats) : List Nat :=
  [c.VIRGL_FORMAT_B5G6R5_UNORM, c.VIRGL_FORMAT_B8G8R8A8_UNORM, c.VIRGL_FORMAT_B8G8R8X8_UNORM,
    c.VIRGL_FORMAT_NV12, c.VIRGL_FORMAT_R8G8B8A8_UNORM, c.VIRGL_FORMAT_R8G8B8X8_UNORM,
    c.VIRGL_FORMAT_R8_UNORM, c.VIRGL_FORMAT_YV12]

/-- The eight native formats that `layout_from_format` names. -/
def gbm_formats : List Nat :=
  [GBM_FORMAT_R8, GBM_FORMAT_RGB565, GBM_FORMAT_ARGB8888, GBM_FORMAT_XRGB8888,
    GBM_FORMAT_ABGR8888, GBM_FORMAT_XBGR8888, GBM_FORMAT_NV12, GBM_FORMAT_YVU420]

/-- The three masks that `virgl_gbm_convert_flags` tests, in one. -/
def virgl_binds.recognized (c : virgl_binds) : Nat :=
  c.VIRGL_BIND_RENDER_TARGET ||| c.VIRGL_BIND_SCANOUT ||| c.VIRGL_BIND_CURSOR

/-- An entry that the scan tries to open: a character device whose name
starts with `renderD`. -/
def dir_entry.candidate (e : dir_entry) : Bool :=
  e.is_chr && named_renderD e.d_name

/-- An entry in the words of the specification of the locator: a character
device named with the prefix `renderD` that opens, answers the version query
and whose driver name is neither `vgem` nor `pvr`. -/
def dir_entry.acceptable (e : dir_entry) : Bool :=
  e.is_chr && named_renderD e.d_name && e.open_fd.isSome &&
    match e.version_name with
    | some name => decide (name ≠ "vgem") && decide (name ≠ "pvr")
    | none => false

/-- The descriptor `open` returns for an entry, -1 when it fails. -/
def dir_entry.fd (e : dir_entry) : Int :=
  match e.open_fd with
  | some n => n
  | none => -1

/-- The result of the locator in the words of the specification: the
descriptor of the first acceptable entry, -1 when there is none or the
directory cannot be opened. -/
def claim_rendernode_open (dir : Option (List dir_entry)) : Int :=
  match dir with
  | none => -1
  | some entries =>
    match entries.find? dir_entry.acceptable with
    | some e => e.fd
    | none => -1

/-- An entry at which the scan ends: a candidate that is acceptable or whose
path cannot be allocated. -/
def dir_entry.decisive (e : dir_entry) : Bool :=
  e.candidate && (!e.asprintf_ok || e.acceptable)

/-- The result of the locator with the allocation of the path taken into
account: the scan ends at the first decisive entry, with -1 when the path of
that entry cannot be allocated, and with -1 when there is no such entry or
the directory cannot be opened. -/
def spec_rendernode_open (dir : Option (List dir_entry)) : Int :=
  match dir with
  | none => -1
  | some entries =>
    match entries.find? dir_entry.decisive with
    | some e => if e.asprintf_ok then e.fd else -1
    | none => -1

/-- The events of descriptors that are opened and closed at once, one after
the other. -/
def rejected_events : List Int → List SysEvent
  | [] => []
  | fd :: rest => SysEvent.opened fd :: SysEvent.closed fd :: rejected_events rest

/-- The state of the plane loop when the iteration for `plane` starts, in a
run that starts at plane 0 as in `transfer_mapped`; `none` when an earlier
iteration divides by zero. -/
def plane_state_at (bo : gbm_bo) (layout : planar_layout) (info : vrend_transfer_info)
    (direction guest_stride0 host_map_stride0 : Nat) (host : HostMem) (iovecs : List iovec)
    (plane : Nat) : Option PlaneState :=
  plane_loop bo layout info direction guest_stride0 host_map_stride0 plane 0
    ⟨0, 0, host, iovecs, []⟩

/-- The arguments with which the iteration for `plane` calls the sweep;
`none` when that iteration or an earlier one divides by zero. -/
def sweep_call_at (bo : gbm_bo) (layout : planar_layout) (info : vrend_transfer_info)
    (direction guest_stride0 host_map_stride0 : Nat) (host : HostMem) (iovecs : List iovec)
    (plane : Nat) : Option SweepArgs :=
  (plane_state_at bo layout info direction guest_stride0 host_map_stride0 host iovecs
    plane).bind fun s =>
    if layout.horizontal_subsampling.getD plane 0 = 0 ∨
        layout.vertical_subsampling.getD plane 0 = 0 then none
    else some (plane_args bo layout info direction guest_stride0 host_map_stride0 plane
      s.host_plane_offset s.guest_plane_offset)

/-- The arguments with which `virgl_gbm_transfer` calls the sweep for
`plane`; `none` when it makes no such call: the format has no layout, the
mapping or the validation fails, the plane is not below the plane count, or
a division by zero comes first. -/
def transfer_call_at (bo : gbm_bo) (direction : Nat) (host : HostMem) (iovecs : List iovec)
    (info : vrend_transfer_info) (plane : Nat) : Option SweepArgs :=
  match layout_from_format bo.format with
  | none => none
  | some layout =>
    match bo.map_stride with
    | none => none
    | some host_map_stride0 =>
      let guest_stride0 := resolve_guest_stride0 info (calc_stride0 bo layout)
      if guest_stride0 < calc_stride0 bo layout then none
      else if guest_stride0 > host_map_stride0 then none
      else if (plane : Int) < bo.plane_count then
        sweep_call_at bo layout info direction guest_stride0 host_map_stride0 host iovecs plane
      else none

/-- The sum of the offsets the allocator reports for the planes up to and
including `plane`. -/
def offset_sum (bo : gbm_bo) (plane : Nat) : Nat :=
  ((List.range (plane + 1)).map bo.offset).sum

/-- The host offset at which the sweep places row `r`: `host_address` plus
the 32-bit product of the row and the host stride. -/
def host_row_lo (a : SweepArgs) (r : Nat) : Nat :=
  a.host_address + u32 (r * a.host_plane_stride)

/-- The `box_start_offset` of row `r`. -/
def guest_row_lo (a : SweepArgs) (r : Nat) : Nat :=
  u32 (a.guest_resource_offset + u32 (r * a.guest_plane_stride))

/-- The `box_end_offset` of row `r`. -/
def guest_row_hi (a : SweepArgs) (r : Nat) : Nat :=
  u32 (guest_row_lo a r + u32 (a.subsampled_width * a.planar_bytes_per_pixel))

/-- The fields of two states of the export loop that do not depend on
whether descriptors are requested. -/
def SameCounts (s t : ExportState) : Prop :=
  s.query.out_num_fds = t.query.out_num_fds ∧ s.query.out_strides = t.query.out_strides ∧
  s.query.out_offsets = t.query.out_offsets ∧ s.query.out_modifier = t.query.out_modifier ∧
  s.query.out_fourcc = t.query.out_fourcc

/-- Whether an event is a call of `input->read` for a header. -/
def FuzzEvent.is_read : FuzzEvent → Bool
  | FuzzEvent.read => true
  | _ => false

/-- Whether an event is a call made for a header: `vtest_create_renderer` or
a handler of the table. -/
def FuzzEvent.is_call : FuzzEvent → Bool
  | FuzzEvent.create_renderer _ _ => true
  | FuzzEvent.handler _ _ _ _ => true
  | _ => false

/-- A header the initialized loop does not dispatch: its command id is 0, or
not below the size of the table, or the entry of the table is NULL. -/
def not_dispatched (r : vtest_read) : Prop :=
  r.header1 = 0 ∨ vtest_commands.length ≤ r.header1 ∨
    vtest_commands.getD r.header1 none = none

instance (r : vtest_read) : Decidable (not_dispatched r) := by
  unfold not_dispatched; infer_instance

/-- The value `iovec_start_offset` has in the sweep when segment `k` is the
current one: the 32-bit running sum of the 32-bit segment sizes. -/
def machine_start (iovecs : List iovec) : Nat → Nat
  | 0 => 0
  | k + 1 => u32 (machine_start iovecs k + u32 (iovecs.getD k ⟨[]⟩).iov_len)

/-- Byte `j` of segment `k`; `none` when there is no such byte. -/
def seg_byte (iovecs : List iovec) (k j : Nat) : Option UInt8 :=
  (iovecs.getD k ⟨[]⟩).iov_base[j]?

/-- The host offset `x` is outside the byte range of every row of every
sweep the transfer runs. -/
def outside_host_rows (bo : gbm_bo) (direction : Nat) (host : HostMem) (iovecs : List iovec)
    (info : vrend_transfer_info) (x : Nat) : Prop :=
  ∀ p < bo.plane_count.toNat, ∀ a ∈ transfer_call_at bo direction host iovecs info p,
    ∀ row < a.subsampled_height,
      ¬ (host_row_lo a row ≤ x ∧ x < host_row_lo a row + row_bytes a)

instance (bo : gbm_bo) (direction : Nat) (host : HostMem) (iovecs : List iovec)
    (info : vrend_transfer_info) (x : Nat) :
    Decidable (outside_host_rows bo direction host iovecs info x) := by
  unfold outside_host_rows; infer_instance

/-- The guest offset `g` is outside the byte range of every row of every
sweep the transfer runs. -/
def outside_guest_rows (bo : gbm_bo) (direction : Nat) (host : HostMem)
    (iovecs : List iovec) (info : vrend_transfer_info) (g : Nat) : Prop :=
  ∀ p < bo.plane_count.toNat, ∀ a ∈ transfer_call_at bo direction host iovecs info p,
    ∀ row < a.subsampled_height, ¬ (guest_row_lo a row ≤ g ∧ g < guest_row_hi a row)

instance (bo : gbm_bo) (direction : Nat) (host : HostMem) (iovecs : List iovec)
    (info : vrend_transfer_info) (g : Nat) :
    Decidable (outside_guest_rows bo direction host iovecs info g) := by
  unfold outside_guest_rows; infer_instance

/-! ### Concrete inputs used by the witnesses and counterexamples -/

/-- The twelve guest bytes of an NV12 image of 2x4 pixels. -/
def ex_nv12_bytes : List UInt8 := [1, 2, 3, 4, 5, 6, 7, 8, 9, 10, 11, 12]

/-- The same bytes in two segments, the boundary after byte 10. -/
def ex_nv12_split : List iovec := [⟨[1, 2, 3, 4, 5, 6, 7, 8, 9, 10]⟩, ⟨[11, 12]⟩]

/-- A buffer object with the given geometry, plane offsets, handles and
mapping outcome. -/
def ex_bo (format width height : Nat) (plane_count : Int) (offsets handles : List Nat)
    (map_stride : Option Nat) : gbm_bo :=
  { width := width
    height := height
    format := format
    plane_count := plane_count
    offset := fun p => offsets.getD p 0
    stride_for_plane := fun _ => 0
    handle_for_plane := fun p => handles.getD p 0
    modifier := 0
    map_stride := map_stride }

/-- A sweep of two rows of two bytes, guest stride 3 from logical offset 1,
host stride 2. -/
def ex_sweep_args (direction : Nat) : SweepArgs := ⟨1, 2, 2, 3, 1, 2, 0, direction⟩

/-- Seven guest bytes in two segments, the boundary inside the first row. -/
def ex_sweep_iovecs : List iovec := [⟨[1, 2, 3]⟩, ⟨[4, 5, 6, 7]⟩]

/-- Host memory holding `offset + 10` at every offset. -/
def ex_host : HostMem := fun a => (a + 10).toUInt8

/-- An NV12 buffer of 2x4 pixels: host stride 4, chroma plane at host
offset 16. -/
def ex_nv12_bo : gbm_bo := ex_bo GBM_FORMAT_NV12 2 4 2 [0, 16] [] (some 4)

/-- The request for the whole of `ex_nv12_bo`, without explicit stride. -/
def ex_nv12_info : vrend_transfer_info := ⟨0, 0, 0, ⟨0, 0, 2, 4⟩⟩

/-- An NV12 buffer of 2x2 pixels: host stride 4, chroma plane at host
offset 8. -/
def ex_small_nv12_bo : gbm_bo := ex_bo GBM_FORMAT_NV12 2 2 2 [0, 8] [] (some 4)

/-- A request on `ex_small_nv12_bo` whose box, 3x4 pixels at x = 1, reaches
beyond the buffer. -/
def ex_outside_info : vrend_transfer_info := ⟨0, 0, 0, ⟨1, 0, 3, 4⟩⟩

/-- Eight guest bytes in one segment. -/
def ex_eight : List iovec := [⟨[4, 11, 18, 25, 32, 39, 46, 53]⟩]

/-- An NV12 buffer of 4x4 pixels whose planes report the strides 64 and 32,
the offsets 0 and 256, the handles 7 and 8 and the modifier 72. -/
def ex_export_bo : gbm_bo :=
  { ex_bo GBM_FORMAT_NV12 4 4 2 [0, 256] [7, 8] (some 64) with
    stride_for_plane := fun p => [64, 32].getD p 0
    modifier := 72 }

/-- Codes for the eight virtual formats, pairwise different. -/
def ex_virgl_formats : virgl_formats := ⟨7, 1, 2, 166, 67, 134, 64, 163⟩

/-- Masks for the three bind flags: bit 1, bit 18 and bit 16. -/
def ex_virgl_binds : virgl_binds := ⟨1 <<< 1, 1 <<< 18, 1 <<< 16⟩

/-- A character device with the given name that opens with the given
descriptor and reports the given driver name. -/
def ex_entry (name : String) (fd : Nat) (driver : String) : dir_entry :=
  ⟨true, name, true, some fd, some driver⟩

/-- A directory with the drivers `vgem`, `pvr` and `accepted_driver`. -/
def ex_dir : List dir_entry :=
  [ex_entry "renderD128" 5 "vgem", ex_entry "renderD129" 6 "pvr",
    ex_entry "renderD130" 7 "accepted_driver"]

/-- A directory whose first candidate has no memory for its path, so that it
is never opened, and whose second is acceptable. -/
def ex_dir_nomem : List dir_entry :=
  [⟨true, "renderD128", false, none, none⟩, ex_entry "renderD129" 6 "i915"]

/-- A YVU420 buffer of 2x2 pixels mapped with stride 2, its planes at the
offsets 0, 4 and 5. -/
def ex_yvu_bo : gbm_bo := ex_bo GBM_FORMAT_YVU420 2 2 3 [0, 4, 5] [] (some 2)

/-- An R8 buffer of 4x1 pixels mapped with stride 4. -/
def ex_r8_bo : gbm_bo := ex_bo GBM_FORMAT_R8 4 1 1 [0] [] (some 4)

/-- Twenty guest bytes, 1 to 20, in one segment. -/
def ex_twenty : List iovec :=
  [⟨[1, 2, 3, 4, 5, 6, 7, 8, 9, 10, 11, 12, 13, 14, 15, 16, 17, 18, 19, 20]⟩]

/-- The values of the constants in `vtest_protocol.h`. -/
def ex_vtest_protocol : vtest_protocol := ⟨2, 8, 6, 2, 12⟩

/-- Header reads of a fuzzer run: create the renderer, create a resource,
submit a command, then a header with the command id 8, whose table entry is
NULL, followed by one more header that is never read. -/
def ex_reads : List vtest_read :=
  [⟨8, 1, 8, 0⟩, ⟨8, 10, 2, 0⟩, ⟨8, 3, 6, 0⟩, ⟨8, 0, 8, 0⟩, ⟨8, 0, 1, 0⟩]

/-! ## Theorems -/

/-! ### Basic facts -/

theorem u32_le (n : Nat) : u32 n ≤ n := Nat.mod_le _ _

theorem u32_lt (n : Nat) : u32 n < 4294967296 := Nat.mod_lt _ (by decide)

theorem u32_eq_self {n : Nat} (h : n < 4294967296) : u32 n = n := Nat.mod_eq_of_lt h

theorem memcpy_to_guest_iov_len (v : iovec) (off : Nat) (host : HostMem) (hoff n : Nat) :
    (memcpy_to_guest v off host hoff n).iov_len = v.iov_len := by
  simp [memcpy_to_guest, iovec.iov_len]

theorem map_iov_len_set (l : List iovec) (k : Nat) (v : iovec)
    (h : v.iov_len = (l.getD k ⟨[]⟩).iov_len) :
    (l.set k v).map iovec.iov_len = l.map iovec.iov_len := by
  induction l generalizing k with
  | nil => simp
  | cons x xs ih =>
    cases k with
    | zero => simpa using h
    | succ k => simpa using ih k (by simpa using h)

/-- The segment lengths never change during the sweep. -/
theorem sweep_step_lens (a : SweepArgs) (s : SweepState) :
    (sweep_step a s).iovecs.map iovec.iov_len = s.iovecs.map iovec.iov_len := by
  unfold sweep_step
  split
  · simp only []
    split
    · rfl
    · exact map_iov_len_set _ _ _ (memcpy_to_guest_iov_len _ _ _ _ _)
  · rfl

theorem sweep_step_length (a : SweepArgs) (s : SweepState) :
    (sweep_step a s).iovecs.length = s.iovecs.length := by
  have h := congrArg List.length (sweep_step_lens a s)
  simpa using h

theorem sweep_step_log (a : SweepArgs) (s : SweepState) :
    (sweep_step a s).log =
      if max_start a s < min_end a s then
        s.log ++ [⟨s.current_iovec, offset_in_iovec a s, host_start a s, copy_iovec_size a s⟩]
      else s.log := by
  unfold sweep_step
  split <;> rfl

theorem getD_map_iov_len (l : List iovec) (k : Nat) (h : k < l.length) :
    (l.map iovec.iov_len).getD k 0 = (l.getD k ⟨[]⟩).iov_len := by
  simp [List.getD_eq_getElem?_getD, List.getElem?_eq_getElem h]

/-- In an iteration that copies, the span copied lies in the current segment. -/
theorem copy_in_segment (a : SweepArgs) (s : SweepState)
    (hk : s.current_iovec < s.iovecs.length) (hov : max_start a s < min_end a s) :
    CopyOp.in_segment (s.iovecs.map iovec.iov_len)
      ⟨s.current_iovec, offset_in_iovec a s, host_start a s, copy_iovec_size a s⟩ := by
  have h1 : iovec_end_offset s ≤ s.iovec_start_offset + iovec_size s := u32_le _
  have h2 : iovec_size s ≤ (cur_iovec s).iov_len := u32_le _
  have h3 : (s.iovecs.map iovec.iov_len).getD s.current_iovec 0 = (cur_iovec s).iov_len :=
    getD_map_iov_len _ _ hk
  refine ⟨by simpa using hk, ?_, ?_⟩
  · simp only [copy_iovec_size]
    omega
  · simp only [h3, offset_in_iovec, copy_iovec_size]
    simp only [max_start, min_end] at hov ⊢
    split <;> omega

theorem sweep_loop_lens (a : SweepArgs) (fuel : Nat) (s : SweepState) :
    (sweep_loop a fuel s).iovecs.map iovec.iov_len = s.iovecs.map iovec.iov_len := by
  induction fuel generalizing s with
  | zero => rfl
  | succ n ih =>
    simp only [sweep_loop]
    split
    · rw [ih, sweep_step_lens]
    · rfl

/-- An iteration advances exactly one of the row and the segment, by one. -/
theorem sweep_step_advance (a : SweepArgs) (s : SweepState) :
    ((sweep_step a s).current_height = s.current_height ∧
      (sweep_step a s).current_iovec = s.current_iovec + 1) ∨
    ((sweep_step a s).current_height = s.current_height + 1 ∧
      (sweep_step a s).current_iovec = s.current_iovec) := by
  unfold sweep_step
  split <;> cases next_iovec a s <;> simp

/-- With fuel for every row and every segment that is left, the loop stops
because its condition fails, not because the fuel runs out. -/
theorem sweep_loop_exit (a : SweepArgs) (fuel : Nat) (s : SweepState)
    (h : (a.subsampled_height - s.current_height) +
      (s.iovecs.length - s.current_iovec) ≤ fuel) :
    ¬ ((sweep_loop a fuel s).current_height < a.subsampled_height ∧
      (sweep_loop a fuel s).current_iovec < (sweep_loop a fuel s).iovecs.length) := by
  induction fuel generalizing s with
  | zero =>
    simp only [sweep_loop]
    omega
  | succ n ih =>
    simp only [sweep_loop]
    split
    · rename_i hc
      apply ih
      have hl := sweep_step_length a s
      rcases sweep_step_advance a s with ⟨e1, e2⟩ | ⟨e1, e2⟩ <;> omega
    · assumption

theorem transfer_internal_exit (a : SweepArgs) (host : HostMem) (iovecs : List iovec) :
    ¬ ((virgl_gbm_transfer_internal a host iovecs).current_height < a.subsampled_height ∧
      (virgl_gbm_transfer_internal a host iovecs).current_iovec <
        (virgl_gbm_transfer_internal a host iovecs).iovecs.length) :=
  sweep_loop_exit a _ _ (by simp)

theorem sweep_loop_in_segment (a : SweepArgs) (fuel : Nat) (s : SweepState)
    (h : ∀ op ∈ s.log, CopyOp.in_segment (s.iovecs.map iovec.iov_len) op) :
    ∀ op ∈ (sweep_loop a fuel s).log, CopyOp.in_segment (s.iovecs.map iovec.iov_len) op := by
  induction fuel generalizing s with
  | zero => exact h
  | succ n ih =>
    simp only [sweep_loop]
    split
    · rename_i hc
      rw [← sweep_step_lens a s]
      apply ih
      rw [sweep_step_lens, sweep_step_log]
      split
      · intro op hop
        rcases List.mem_append.mp hop with h1 | h1
        · exact h op h1
        · rw [List.mem_singleton] at h1
          subst h1
          exact copy_in_segment a s hc.2 (by assumption)
      · exact h
    · exact h

/-- C7. Every copy step of `virgl_gbm_transfer_internal` addresses an
existing segment, moves at least one byte, and its guest-side span
`[offset_in_iovec, offset_in_iovec + copy_iovec_size)` lies inside
`[0, iov_len)` of that segment. It holds for every input, wraparound or not. -/
theorem transfer_internal_segment_bounds (a : SweepArgs) (host : HostMem)
    (iovecs : List iovec) :
    ∀ op ∈ (virgl_gbm_transfer_internal a host iovecs).log,
      op.iov < iovecs.length ∧ 0 < op.copy_iovec_size ∧
        op.offset_in_iovec + op.copy_iovec_size ≤ (iovecs.getD op.iov ⟨[]⟩).iov_len := by
  intro op hop
  have h := sweep_loop_in_segment a (a.subsampled_height + iovecs.length)
    ⟨0, 0, 0, host, iovecs, []⟩ (by simp) op hop
  obtain ⟨h1, h2, h3⟩ := h
  have h1' : op.iov < iovecs.length := by simpa using h1
  exact ⟨h1', h2, by rw [← getD_map_iov_len _ _ h1']; exact h3⟩

/-! ### The guest region as one byte range -/

theorem guest_bytes_length (l : List iovec) : (guest_bytes l).length = total_len l := by
  induction l with
  | nil => rfl
  | cons v vs ih =>
    simp only [guest_bytes, total_len, List.map_cons, List.flatten_cons, List.length_append,
      List.sum_cons] at ih ⊢
    rw [ih]; rfl

theorem total_len_cons (v : iovec) (vs : List iovec) :
    total_len (v :: vs) = v.iov_len + total_len vs := by
  simp [total_len]

theorem guest_byte_cons (v : iovec) (vs : List iovec) (g : Nat) :
    guest_byte (v :: vs) g =
      if g < v.iov_len then v.iov_base[g]? else guest_byte vs (g - v.iov_len) := by
  simp only [guest_byte, guest_bytes, List.map_cons, List.flatten_cons, List.getElem?_append,
    iovec.iov_len]

theorem seg_start_zero (l : List iovec) : seg_start l 0 = 0 := by
  simp [seg_start, total_len]

theorem seg_start_cons_succ (v : iovec) (vs : List iovec) (k : Nat) :
    seg_start (v :: vs) (k + 1) = v.iov_len + seg_start vs k := by
  simp [seg_start, total_len]

theorem seg_start_succ (l : List iovec) (k : Nat) (hk : k < l.length) :
    seg_start l (k + 1) = seg_start l k + (l.getD k ⟨[]⟩).iov_len := by
  induction l generalizing k with
  | nil => simp at hk
  | cons v vs ih =>
    cases k with
    | zero => simp [seg_start, total_len]
    | succ k =>
      have hk' : k < vs.length := by simpa using hk
      rw [seg_start_cons_succ, seg_start_cons_succ, ih k hk', List.getD_cons_succ]
      omega

theorem seg_start_le (l : List iovec) (k : Nat) : seg_start l k ≤ total_len l := by
  induction l generalizing k with
  | nil => simp [seg_start, total_len]
  | cons v vs ih =>
    cases k with
    | zero => simp [seg_start_zero]
    | succ k =>
      rw [seg_start_cons_succ, total_len_cons]
      have := ih k
      omega

theorem seg_start_of_length_le (l : List iovec) (k : Nat) (hk : l.length ≤ k) :
    seg_start l k = total_len l := by
  simp [seg_start, List.take_of_length_le hk]

theorem seg_start_congr (l l' : List iovec) (k : Nat)
    (h : l.map iovec.iov_len = l'.map iovec.iov_len) : seg_start l k = seg_start l' k := by
  simp only [seg_start, total_len, List.map_take, h]

theorem total_len_congr (l l' : List iovec)
    (h : l.map iovec.iov_len = l'.map iovec.iov_len) : total_len l = total_len l' := by
  simp only [total_len, h]

theorem guest_byte_seg (l : List iovec) (k j : Nat) (hk : k < l.length)
    (hj : j < (l.getD k ⟨[]⟩).iov_len) :
    guest_byte l (seg_start l k + j) = (l.getD k ⟨[]⟩).iov_base[j]? := by
  induction l generalizing k with
  | nil => simp at hk
  | cons v vs ih =>
    cases k with
    | zero =>
      have hj' : j < v.iov_len := by simpa using hj
      simp [seg_start_zero, guest_byte_cons, hj']
    | succ k =>
      have hk' : k < vs.length := by simpa using hk
      rw [seg_start_cons_succ, guest_byte_cons, if_neg (by omega), List.getD_cons_succ]
      rw [show v.iov_len + seg_start vs k + j - v.iov_len = seg_start vs k + j by omega]
      exact ih k hk' (by simpa using hj)

theorem guest_byte_set (l : List iovec) (k : Nat) (v' : iovec) (g : Nat) (hk : k < l.length)
    (hv : v'.iov_len = (l.getD k ⟨[]⟩).iov_len) :
    guest_byte (l.set k v') g =
      if seg_start l k ≤ g ∧ g < seg_start l k + v'.iov_len then v'.iov_base[g - seg_start l k]?
      else guest_byte l g := by
  induction l generalizing k g with
  | nil => simp at hk
  | cons v vs ih =>
    cases k with
    | zero =>
      have hv' : v'.iov_len = v.iov_len := by simpa using hv
      simp only [List.set_cons_zero, guest_byte_cons, seg_start_zero, Nat.zero_le, true_and,
        Nat.zero_add, Nat.sub_zero, hv']
      split <;> rfl
    | succ k =>
      have hk' : k < vs.length := by simpa using hk
      have hv' : v'.iov_len = (vs.getD k ⟨[]⟩).iov_len := by simpa using hv
      simp only [List.set_cons_succ, guest_byte_cons, seg_start_cons_succ]
      by_cases h1 : g < v.iov_len
      · rw [if_pos h1, if_pos h1, if_neg (by omega)]
      · rw [if_neg h1, if_neg h1, ih k (g - v.iov_len) hk' hv']
        by_cases h2 : seg_start vs k ≤ g - v.iov_len ∧ g - v.iov_len < seg_start vs k + v'.iov_len
        · rw [if_pos h2, if_pos (by omega)]
          congr 1
          omega
        · rw [if_neg h2, if_neg (by omega)]

theorem memcpy_to_guest_getElem? (v : iovec) (off : Nat) (host : HostMem) (hoff n j : Nat)
    (hj : j < v.iov_len) :
    (memcpy_to_guest v off host hoff n).iov_base[j]? =
      if off ≤ j ∧ j < off + n then some (host (hoff + (j - off))) else v.iov_base[j]? := by
  have hj' : j < v.iov_base.length := hj
  simp only [memcpy_to_guest, List.getElem?_map, List.getElem?_range hj', Option.map_some',
    List.getD_eq_getElem?_getD, List.getElem?_eq_getElem hj', Option.getD_some]
  split <;> rfl

theorem guest_byte_lt (l : List iovec) (g : Nat) (h : g < total_len l) :
    ∃ b, guest_byte l g = some b := by
  rw [← guest_bytes_length] at h
  exact ⟨_, List.getElem?_eq_getElem h⟩

/-! ### One iteration of the sweep -/

theorem cur_iovec_eq (s : SweepState) (hk : s.current_iovec < s.iovecs.length) :
    cur_iovec s = s.iovecs[s.current_iovec] := by
  simp [cur_iovec, List.getD_eq_getElem?_getD, List.getElem?_eq_getElem hk]

theorem cur_iovec_pos (a : SweepArgs) (s : SweepState) (hinv : SweepInv a s)
    (hk : s.current_iovec < s.iovecs.length) : 0 < (cur_iovec s).iov_len := by
  apply hinv.pos
  rw [cur_iovec_eq s hk]
  exact List.mem_map_of_mem _ (List.getElem_mem _)

theorem seg_end_le (s : SweepState) (hk : s.current_iovec < s.iovecs.length) :
    seg_start s.iovecs s.current_iovec + (cur_iovec s).iov_len ≤ total_len s.iovecs := by
  have h := seg_start_succ s.iovecs s.current_iovec hk
  have h2 := seg_start_le s.iovecs (s.current_iovec + 1)
  unfold cur_iovec
  omega

/-- Under the invariant the locals of an iteration have their exact values. -/
theorem step_geom (a : SweepArgs) (s : SweepState) (hinv : SweepInv a s)
    (hr : s.current_height < a.subsampled_height) (hk : s.current_iovec < s.iovecs.length) :
    iovec_size s = (cur_iovec s).iov_len ∧
    iovec_end_offset s = s.iovec_start_offset + (cur_iovec s).iov_len ∧
    box_start_offset a s = row_start a s.current_height ∧
    box_end_offset a s = row_start a s.current_height + row_bytes a ∧
    u32 (s.current_height * a.host_plane_stride) = s.current_height * a.host_plane_stride := by
  obtain ⟨h1, h2, h3⟩ := hinv.nowrap
  have h4 := seg_end_le s hk
  have h5 := hinv.start_eq
  have h6 := h2 _ hr
  have e1 : iovec_size s = (cur_iovec s).iov_len := u32_eq_self (by omega)
  have e2 : iovec_end_offset s = s.iovec_start_offset + (cur_iovec s).iov_len := by
    unfold iovec_end_offset; rw [e1]; exact u32_eq_self (by omega)
  simp only [row_start, row_bytes] at h6 ⊢
  have e3 : box_start_offset a s =
      a.guest_resource_offset + s.current_height * a.guest_plane_stride := by
    unfold box_start_offset
    rw [u32_eq_self (n := s.current_height * a.guest_plane_stride) (by omega)]
    exact u32_eq_self (by omega)
  have e4 : box_end_offset a s = a.guest_resource_offset +
      s.current_height * a.guest_plane_stride +
      a.subsampled_width * a.planar_bytes_per_pixel := by
    unfold box_end_offset
    rw [e3, u32_eq_self (n := a.subsampled_width * a.planar_bytes_per_pixel) (by omega)]
    exact u32_eq_self (by omega)
  exact ⟨e1, e2, e3, e4, u32_eq_self (h3 _ hr)⟩

theorem sweep_step_ctrl (a : SweepArgs) (s : SweepState) :
    (sweep_step a s).current_height =
      (if next_iovec a s then s.current_height else s.current_height + 1) ∧
    (sweep_step a s).current_iovec =
      (if next_iovec a s then s.current_iovec + 1 else s.current_iovec) ∧
    (sweep_step a s).iovec_start_offset =
      (if next_iovec a s then u32 (s.iovec_start_offset + iovec_size s)
        else s.iovec_start_offset) := by
  unfold sweep_step
  split <;> exact ⟨rfl, rfl, rfl⟩

theorem sweep_step_host (a : SweepArgs) (s : SweepState) :
    (sweep_step a s).host =
      if max_start a s < min_end a s ∧ a.direction = VIRGL_TRANSFER_TO_HOST then
        memcpy_to_host s.host (host_start a s) (cur_iovec s) (offset_in_iovec a s)
          (copy_iovec_size a s)
      else s.host := by
  unfold sweep_step
  by_cases h1 : max_start a s < min_end a s <;>
    by_cases h2 : a.direction = VIRGL_TRANSFER_TO_HOST <;> simp [h1, h2]

theorem sweep_step_iovecs (a : SweepArgs) (s : SweepState) :
    (sweep_step a s).iovecs =
      if max_start a s < min_end a s ∧ a.direction ≠ VIRGL_TRANSFER_TO_HOST then
        s.iovecs.set s.current_iovec
          (memcpy_to_guest (cur_iovec s) (offset_in_iovec a s) s.host (host_start a s)
            (copy_iovec_size a s))
      else s.iovecs := by
  unfold sweep_step
  by_cases h1 : max_start a s < min_end a s <;>
    by_cases h2 : a.direction = VIRGL_TRANSFER_TO_HOST <;> simp [h1, h2]

/-- The invariant is kept by an iteration. -/
theorem sweep_step_inv (a : SweepArgs) (s : SweepState) (hinv : SweepInv a s)
    (hr : s.current_height < a.subsampled_height) (hk : s.current_iovec < s.iovecs.length) :
    SweepInv a (sweep_step a s) := by
  obtain ⟨e1, e2, e3, e4, e5⟩ := step_geom a s hinv hr hk
  obtain ⟨c1, c2, c3⟩ := sweep_step_ctrl a s
  have hl := sweep_step_lens a s
  have h4 := seg_end_le s hk
  have hT := hinv.nowrap.1
  have hS := hinv.start_eq
  refine ⟨?_, ?_, ?_⟩
  · rw [c3, c2, seg_start_congr _ _ _ hl]
    split
    · rw [seg_start_succ _ _ hk, e1, ← hS]
      exact u32_eq_self (by unfold cur_iovec at h4 ⊢; omega)
    · exact hS
  · rw [hl]; exact hinv.pos
  · obtain ⟨h1, h2, h3⟩ := hinv.nowrap
    exact ⟨by rw [total_len_congr _ _ hl]; exact h1, h2, h3⟩

theorem row_start_step (a : SweepArgs) (r r' : Nat) (h : r < r') :
    row_start a r + a.guest_plane_stride ≤ row_start a r' := by
  have h1 : (r + 1) * a.guest_plane_stride ≤ r' * a.guest_plane_stride :=
    Nat.mul_le_mul_right _ h
  rw [Nat.succ_mul] at h1
  simp only [row_start]
  omega

theorem row_start_mono (a : SweepArgs) (r r' : Nat) (h : r ≤ r') :
    row_start a r ≤ row_start a r' := by
  have h1 : r * a.guest_plane_stride ≤ r' * a.guest_plane_stride :=
    Nat.mul_le_mul_right _ h
  simp only [row_start]
  omega

/-- With rows that do not overlap, a logical offset lies in one row only. -/
theorem row_unique (a : SweepArgs) (hW : row_bytes a ≤ a.guest_plane_stride)
    (r c r' c' : Nat) (hc : c < row_bytes a) (hc' : c' < row_bytes a)
    (h : row_start a r + c = row_start a r' + c') : r = r' ∧ c = c' := by
  rcases Nat.lt_trichotomy r r' with h1 | h1 | h1
  · have := row_start_step a r r' h1; omega
  · subst h1; exact ⟨rfl, by omega⟩
  · have := row_start_step a r' r h1; omega

/-- The four ways an iteration can go, with the exact values of the locals. -/
theorem sweep_step_cases (a : SweepArgs) (s : SweepState) (hinv : SweepInv a s)
    (hr : s.current_height < a.subsampled_height) (hk : s.current_iovec < s.iovecs.length) :
    max_start a s = max s.iovec_start_offset (row_start a s.current_height) ∧
    min_end a s = min (s.iovec_start_offset + (cur_iovec s).iov_len)
      (row_start a s.current_height + row_bytes a) ∧
    (((sweep_step a s).current_height = s.current_height ∧
      (sweep_step a s).current_iovec = s.current_iovec + 1 ∧
      (sweep_step a s).iovec_start_offset = s.iovec_start_offset + (cur_iovec s).iov_len ∧
      (max_start a s < min_end a s →
        s.iovec_start_offset + (cur_iovec s).iov_len ≤
          row_start a s.current_height + row_bytes a) ∧
      (¬ max_start a s < min_end a s →
        s.iovec_start_offset ≤ row_start a s.current_height)) ∨
     ((sweep_step a s).current_height = s.current_height + 1 ∧
      (sweep_step a s).current_iovec = s.current_iovec ∧
      (sweep_step a s).iovec_start_offset = s.iovec_start_offset ∧
      (max_start a s < min_end a s →
        row_start a s.current_height + row_bytes a <
          s.iovec_start_offset + (cur_iovec s).iov_len) ∧
      (¬ max_start a s < min_end a s →
        row_start a s.current_height < s.iovec_start_offset))) := by
  obtain ⟨e1, e2, e3, e4, _⟩ := step_geom a s hinv hr hk
  obtain ⟨c1, c2, c3⟩ := sweep_step_ctrl a s
  have hms : max_start a s = max s.iovec_start_offset (row_start a s.current_height) := by
    simp only [max_start, e3]
  have hme : min_end a s = min (s.iovec_start_offset + (cur_iovec s).iov_len)
      (row_start a s.current_height + row_bytes a) := by
    simp only [min_end, e2, e4]
  refine ⟨hms, hme, ?_⟩
  have eu : u32 (s.iovec_start_offset + (cur_iovec s).iov_len) =
      s.iovec_start_offset + (cur_iovec s).iov_len := by
    have h := e2
    unfold iovec_end_offset at h
    rwa [e1] at h
  rw [c1, c2, c3, e1, eu]
  rcases Bool.eq_false_or_eq_true (next_iovec a s) with hn | hn
  · left
    simp only [hn, if_true, true_and]
    refine ⟨?_, ?_⟩
    · intro hov
      simp only [next_iovec, if_pos hov, decide_eq_true_eq, e2] at hn
      rw [hme] at hn
      omega
    · intro hov
      simp only [next_iovec, if_neg hov, decide_eq_true_eq, e3] at hn
      exact hn
  · right
    simp only [hn, Bool.false_eq_true, if_false, true_and]
    refine ⟨?_, ?_⟩
    · intro hov
      simp only [next_iovec, if_pos hov, decide_eq_false_iff_not, e2] at hn
      rw [hme] at hn
      omega
    · intro hov
      simp only [next_iovec, if_neg hov, decide_eq_false_iff_not, e3] at hn
      omega

theorem pending_step (a : SweepArgs) (s : SweepState) (hinv : SweepInv a s)
    (hr : s.current_height < a.subsampled_height) (hk : s.current_iovec < s.iovecs.length)
    (hW : row_bytes a ≤ a.guest_plane_stride) (r c : Nat)
    (hp : Pending a s.current_height s.iovec_start_offset r c) :
    Pending a (sweep_step a s).current_height (sweep_step a s).iovec_start_offset r c ∨
    (r = s.current_height ∧ max_start a s < min_end a s ∧
      max_start a s ≤ row_start a r + c ∧ row_start a r + c < min_end a s) := by
  obtain ⟨hms, hme, hcases⟩ := sweep_step_cases a s hinv hr hk
  have hlen := cur_iovec_pos a s hinv hk
  obtain ⟨p1, p2, p3, p4⟩ := hp
  have hmono := row_start_mono a _ _ p1
  by_cases hrr : r = s.current_height
  · subst hrr
    rcases hcases with ⟨c1, c2, c3, c4, c5⟩ | ⟨c1, c2, c3, c4, c5⟩
    · by_cases hov : max_start a s < min_end a s
      · have := c4 hov
        by_cases hg : s.iovec_start_offset + (cur_iovec s).iov_len ≤
            row_start a s.current_height + c
        · left; exact ⟨by omega, p2, p3, by omega⟩
        · right; exact ⟨rfl, hov, by omega, by omega⟩
      · have := c5 hov
        left; exact ⟨by omega, p2, p3, by omega⟩
    · by_cases hov : max_start a s < min_end a s
      · have := c4 hov
        right; exact ⟨rfl, hov, by omega, by omega⟩
      · have := c5 hov
        exfalso; omega
  · have hlt : s.current_height < r := by omega
    have hstep := row_start_step a _ _ hlt
    left
    rcases hcases with ⟨c1, c2, c3, c4, c5⟩ | ⟨c1, c2, c3, c4, c5⟩
    · refine ⟨by omega, p2, p3, ?_⟩
      by_cases hov : max_start a s < min_end a s
      · have := c4 hov; omega
      · have := c5 hov; omega
    · exact ⟨by omega, p2, p3, by omega⟩

theorem pending_of_step (a : SweepArgs) (s : SweepState) (hinv : SweepInv a s)
    (hr : s.current_height < a.subsampled_height) (hk : s.current_iovec < s.iovecs.length)
    (r c : Nat)
    (hp : Pending a (sweep_step a s).current_height (sweep_step a s).iovec_start_offset r c) :
    Pending a s.current_height s.iovec_start_offset r c := by
  obtain ⟨_, _, hcases⟩ := sweep_step_cases a s hinv hr hk
  obtain ⟨p1, p2, p3, p4⟩ := hp
  rcases hcases with ⟨c1, c2, c3, _, _⟩ | ⟨c1, c2, c3, _, _⟩ <;>
    exact ⟨by omega, p2, p3, by omega⟩

/-- A logical offset copied in this iteration belongs to a pending pair of the
current row and lies below the total length. -/
theorem copied_pending (a : SweepArgs) (s : SweepState) (hinv : SweepInv a s)
    (hr : s.current_height < a.subsampled_height) (hk : s.current_iovec < s.iovecs.length)
    (g : Nat) (h1 : max_start a s ≤ g) (h2 : g < min_end a s) :
    Pending a s.current_height s.iovec_start_offset s.current_height
      (g - row_start a s.current_height) ∧
    g = row_start a s.current_height + (g - row_start a s.current_height) ∧
    g < total_len s.iovecs := by
  obtain ⟨hms, hme, _⟩ := sweep_step_cases a s hinv hr hk
  have h4 := seg_end_le s hk
  have hS := hinv.start_eq
  exact ⟨⟨le_refl _, hr, by omega, by omega⟩, by omega, by omega⟩

theorem offset_in_iovec_eq (a : SweepArgs) (s : SweepState) :
    offset_in_iovec a s = max_start a s - s.iovec_start_offset := by
  unfold offset_in_iovec
  split
  · rfl
  · have : s.iovec_start_offset ≤ max_start a s := le_max_left _ _
    omega

/-- The guest bytes after an iteration that copies towards the guest. -/
theorem sweep_step_guest_byte (a : SweepArgs) (s : SweepState) (hinv : SweepInv a s)
    (hr : s.current_height < a.subsampled_height) (hk : s.current_iovec < s.iovecs.length)
    (hd : a.direction ≠ VIRGL_TRANSFER_TO_HOST) (g : Nat) :
    guest_byte (sweep_step a s).iovecs g =
      if max_start a s ≤ g ∧ g < min_end a s then
        some (s.host (a.host_address + s.current_height * a.host_plane_stride +
          (g - row_start a s.current_height)))
      else guest_byte s.iovecs g := by
  obtain ⟨hms, hme, _⟩ := sweep_step_cases a s hinv hr hk
  obtain ⟨_, _, e3, _, e5⟩ := step_geom a s hinv hr hk
  have hS := hinv.start_eq
  rw [sweep_step_iovecs]
  by_cases hov : max_start a s < min_end a s
  · have hcur : cur_iovec s = s.iovecs.getD s.current_iovec ⟨[]⟩ := rfl
    have hset := guest_byte_set s.iovecs s.current_iovec
      (memcpy_to_guest (cur_iovec s) (offset_in_iovec a s) s.host (host_start a s)
        (copy_iovec_size a s)) g hk (memcpy_to_guest_iov_len _ _ _ _ _)
    rw [if_pos ⟨hov, hd⟩, hset, memcpy_to_guest_iov_len, ← hS]
    by_cases hin : s.iovec_start_offset ≤ g ∧
        g < s.iovec_start_offset + (cur_iovec s).iov_len
    · rw [if_pos hin, memcpy_to_guest_getElem? _ _ _ _ _ _ (by omega), offset_in_iovec_eq]
      by_cases hg : max_start a s ≤ g ∧ g < min_end a s
      · rw [if_pos hg, if_pos (by simp only [copy_iovec_size]; omega)]
        simp only [host_start, e3, e5]
        congr 2
        omega
      · rw [if_neg hg, if_neg (by simp only [copy_iovec_size]; omega)]
        have h := guest_byte_seg s.iovecs s.current_iovec (g - s.iovec_start_offset) hk
          (by rw [← hcur]; omega)
        rw [← hS, ← hcur, show s.iovec_start_offset + (g - s.iovec_start_offset) = g by omega]
          at h
        exact h.symm
    · rw [if_neg hin, if_neg (by omega)]
  · rw [if_neg (by tauto), if_neg (by omega)]

/-- The host bytes after an iteration that copies towards the host. -/
theorem sweep_step_host_byte (a : SweepArgs) (s : SweepState) (hinv : SweepInv a s)
    (hr : s.current_height < a.subsampled_height) (hk : s.current_iovec < s.iovecs.length)
    (hd : a.direction = VIRGL_TRANSFER_TO_HOST) (h : Nat) :
    (max_start a s < min_end a s → host_start a s ≤ h →
      h < host_start a s + (min_end a s - max_start a s) →
      some ((sweep_step a s).host h) =
        guest_byte s.iovecs (max_start a s + (h - host_start a s))) ∧
    (¬ (max_start a s < min_end a s ∧ host_start a s ≤ h ∧
        h < host_start a s + (min_end a s - max_start a s)) →
      (sweep_step a s).host h = s.host h) := by
  obtain ⟨hms, hme, _⟩ := sweep_step_cases a s hinv hr hk
  have hS := hinv.start_eq
  have hcur : cur_iovec s = s.iovecs.getD s.current_iovec ⟨[]⟩ := rfl
  rw [sweep_step_host]
  constructor
  · intro hov h1 h2
    rw [if_pos ⟨hov, hd⟩]
    simp only [memcpy_to_host, copy_iovec_size]
    rw [if_pos ⟨h1, h2⟩, offset_in_iovec_eq]
    have hj : max_start a s - s.iovec_start_offset + (h - host_start a s) <
        (cur_iovec s).iov_len := by omega
    have hg := guest_byte_seg s.iovecs s.current_iovec _ hk (by rw [← hcur]; exact hj)
    rw [← hS, ← hcur] at hg
    rw [show max_start a s + (h - host_start a s) = s.iovec_start_offset +
      (max_start a s - s.iovec_start_offset + (h - host_start a s)) by omega, hg,
      List.getD_eq_getElem?_getD, List.getElem?_eq_getElem (by exact hj)]
    rfl
  · intro hn
    by_cases hov : max_start a s < min_end a s
    · rw [if_pos ⟨hov, hd⟩]
      simp only [memcpy_to_host, copy_iovec_size]
      rw [if_neg (by tauto)]
    · rw [if_neg (by tauto)]

/-! ### The whole sweep -/

theorem stride_unique (stride w r c r' c' : Nat) (hW : w ≤ stride) (hc : c < w) (hc' : c' < w)
    (h : r * stride + c = r' * stride + c') : r = r' ∧ c = c' := by
  rcases Nat.lt_trichotomy r r' with h1 | h1 | h1
  · have h2 : (r + 1) * stride ≤ r' * stride := Nat.mul_le_mul_right _ h1
    rw [Nat.succ_mul] at h2
    omega
  · subst h1; exact ⟨rfl, by omega⟩
  · have h2 : (r' + 1) * stride ≤ r * stride := Nat.mul_le_mul_right _ h1
    rw [Nat.succ_mul] at h2
    omega

theorem host_start_eq (a : SweepArgs) (s : SweepState) (hinv : SweepInv a s)
    (hr : s.current_height < a.subsampled_height) (hk : s.current_iovec < s.iovecs.length) :
    host_start a s = a.host_address + s.current_height * a.host_plane_stride +
      (max_start a s - row_start a s.current_height) := by
  obtain ⟨_, _, e3, _, e5⟩ := step_geom a s hinv hr hk
  simp only [host_start, e3, e5]

theorem sweep_step_measure (a : SweepArgs) (s : SweepState) (hinv : SweepInv a s)
    (hr : s.current_height < a.subsampled_height) (hk : s.current_iovec < s.iovecs.length) :
    (a.subsampled_height - (sweep_step a s).current_height) +
      ((sweep_step a s).iovecs.length - (sweep_step a s).current_iovec) + 1 =
    (a.subsampled_height - s.current_height) + (s.iovecs.length - s.current_iovec) := by
  obtain ⟨_, _, hcases⟩ := sweep_step_cases a s hinv hr hk
  rw [sweep_step_length]
  rcases hcases with ⟨c1, c2, _⟩ | ⟨c1, c2, _⟩ <;> omega

/-- The sweep towards the guest, from any loop state on: every pending byte
below the total length ends up holding the host byte of its row and column,
every other guest byte and all host memory are as before. -/
theorem sweep_loop_to_guest (a : SweepArgs) (hW : row_bytes a ≤ a.guest_plane_stride)
    (hd : a.direction ≠ VIRGL_TRANSFER_TO_HOST) (fuel : Nat) (s : SweepState)
    (hinv : SweepInv a s)
    (hfuel : (a.subsampled_height - s.current_height) +
      (s.iovecs.length - s.current_iovec) ≤ fuel) :
    (sweep_loop a fuel s).host = s.host ∧
    (∀ r c, Pending a s.current_height s.iovec_start_offset r c →
      row_start a r + c < total_len s.iovecs →
      guest_byte (sweep_loop a fuel s).iovecs (row_start a r + c) =
        some (s.host (a.host_address + r * a.host_plane_stride + c))) ∧
    (∀ g, (∀ r c, Pending a s.current_height s.iovec_start_offset r c →
        g ≠ row_start a r + c) →
      guest_byte (sweep_loop a fuel s).iovecs g = guest_byte s.iovecs g) := by
  induction fuel generalizing s with
  | zero =>
    refine ⟨rfl, ?_, fun _ _ => rfl⟩
    show ∀ r c, _
    intro r c hp hg
    obtain ⟨p1, p2, p3, p4⟩ := hp
    have hS := hinv.start_eq
    rw [seg_start_of_length_le _ _ (by omega)] at hS
    omega
  | succ n ih =>
    simp only [sweep_loop]
    by_cases hcond : s.current_height < a.subsampled_height ∧
        s.current_iovec < s.iovecs.length
    · obtain ⟨hr, hk⟩ := hcond
      rw [if_pos ⟨hr, hk⟩]
      have hinv' := sweep_step_inv a s hinv hr hk
      have hm := sweep_step_measure a s hinv hr hk
      obtain ⟨ih0, ih1, ih2⟩ := ih (sweep_step a s) hinv' (by omega)
      have hhost : (sweep_step a s).host = s.host := by
        rw [sweep_step_host, if_neg (by tauto)]
      have hT : total_len (sweep_step a s).iovecs = total_len s.iovecs :=
        total_len_congr _ _ (sweep_step_lens a s)
      refine ⟨by rw [ih0, hhost], ?_, ?_⟩
      · intro r c hp hg
        by_cases hp' : Pending a (sweep_step a s).current_height
            (sweep_step a s).iovec_start_offset r c
        · rw [ih1 r c hp' (by rw [hT]; exact hg), hhost]
        · rcases pending_step a s hinv hr hk hW r c hp with h1 | ⟨h1, _, h3, h4⟩
          · exact absurd h1 hp'
          · rw [ih2 (row_start a r + c), sweep_step_guest_byte a s hinv hr hk hd,
              if_pos ⟨h3, h4⟩, h1]
            · congr 2
              omega
            · intro r' c' hq heq
              obtain ⟨e1, e2⟩ := row_unique a hW r c r' c' hp.2.2.1 hq.2.2.1 heq
              subst e1; subst e2
              exact hp' hq
      · intro g hg
        rw [ih2 g (fun r c hq => hg r c (pending_of_step a s hinv hr hk r c hq)),
          sweep_step_guest_byte a s hinv hr hk hd]
        by_cases hin : max_start a s ≤ g ∧ g < min_end a s
        · obtain ⟨q1, q2, _⟩ := copied_pending a s hinv hr hk g hin.1 hin.2
          exact absurd q2 (hg _ _ q1)
        · rw [if_neg hin]
    · rw [if_neg hcond]
      refine ⟨rfl, ?_, fun _ _ => rfl⟩
      intro r c hp hg
      obtain ⟨p1, p2, p3, p4⟩ := hp
      have hS := hinv.start_eq
      rw [seg_start_of_length_le _ _ (by omega)] at hS
      omega

/-- The sweep towards the host, from any loop state on. -/
theorem sweep_loop_to_host (a : SweepArgs) (hW : row_bytes a ≤ a.guest_plane_stride)
    (hH : row_bytes a ≤ a.host_plane_stride)
    (hd : a.direction = VIRGL_TRANSFER_TO_HOST) (fuel : Nat) (s : SweepState)
    (hinv : SweepInv a s)
    (hfuel : (a.subsampled_height - s.current_height) +
      (s.iovecs.length - s.current_iovec) ≤ fuel) :
    (sweep_loop a fuel s).iovecs = s.iovecs ∧
    (∀ r c, Pending a s.current_height s.iovec_start_offset r c →
      row_start a r + c < total_len s.iovecs →
      some ((sweep_loop a fuel s).host (a.host_address + r * a.host_plane_stride + c)) =
        guest_byte s.iovecs (row_start a r + c)) ∧
    (∀ h, (∀ r c, Pending a s.current_height s.iovec_start_offset r c →
        row_start a r + c < total_len s.iovecs →
        h ≠ a.host_address + r * a.host_plane_stride + c) →
      (sweep_loop a fuel s).host h = s.host h) := by
  induction fuel generalizing s with
  | zero =>
    refine ⟨rfl, ?_, fun _ _ => rfl⟩
    show ∀ r c, _
    intro r c hp hg
    obtain ⟨p1, p2, p3, p4⟩ := hp
    have hS := hinv.start_eq
    rw [seg_start_of_length_le _ _ (by omega)] at hS
    omega
  | succ n ih =>
    simp only [sweep_loop]
    by_cases hcond : s.current_height < a.subsampled_height ∧
        s.current_iovec < s.iovecs.length
    · obtain ⟨hr, hk⟩ := hcond
      rw [if_pos ⟨hr, hk⟩]
      have hinv' := sweep_step_inv a s hinv hr hk
      have hm := sweep_step_measure a s hinv hr hk
      obtain ⟨ih0, ih1, ih2⟩ := ih (sweep_step a s) hinv' (by omega)
      have hio : (sweep_step a s).iovecs = s.iovecs := by
        rw [sweep_step_iovecs, if_neg (by tauto)]
      have hhs := host_start_eq a s hinv hr hk
      refine ⟨by rw [ih0, hio], ?_, ?_⟩
      · intro r c hp hg
        by_cases hp' : Pending a (sweep_step a s).current_height
            (sweep_step a s).iovec_start_offset r c
        · rw [ih1 r c hp' (by rw [hio]; exact hg), hio]
        · rcases pending_step a s hinv hr hk hW r c hp with h1 | ⟨h1, h2, h3, h4⟩
          · exact absurd h1 hp'
          · subst h1
            have hms : row_start a s.current_height ≤ max_start a s := by
              rw [(sweep_step_cases a s hinv hr hk).1]; exact le_max_right _ _
            rw [ih2 (a.host_address + s.current_height * a.host_plane_stride + c)]
            · rw [(sweep_step_host_byte a s hinv hr hk hd _).1 h2 (by omega) (by omega)]
              congr 1
              omega
            · intro r' c' hq _ heq
              obtain ⟨e1, e2⟩ := stride_unique a.host_plane_stride (row_bytes a)
                s.current_height c r' c' hH hp.2.2.1 hq.2.2.1 (by omega)
              subst e1; subst e2
              exact hp' hq
      · intro h hh
        rw [ih2 h (fun r c hq hg => hh r c (pending_of_step a s hinv hr hk r c hq)
          (by rw [← hio]; exact hg))]
        apply (sweep_step_host_byte a s hinv hr hk hd h).2
        rintro ⟨h1, h2, h3⟩
        have hms : row_start a s.current_height ≤ max_start a s := by
          rw [(sweep_step_cases a s hinv hr hk).1]; exact le_max_right _ _
        obtain ⟨q1, q2, q3⟩ := copied_pending a s hinv hr hk
          (max_start a s + (h - host_start a s)) (by omega) (by omega)
        refine hh _ _ q1 (by rw [← q2]; exact q3) ?_
        omega
    · rw [if_neg hcond]
      refine ⟨rfl, ?_, fun _ _ => rfl⟩
      intro r c hp hg
      obtain ⟨p1, p2, p3, p4⟩ := hp
      have hS := hinv.start_eq
      rw [seg_start_of_length_le _ _ (by omega)] at hS
      omega

theorem sweep_init_inv (a : SweepArgs) (host : HostMem) (iovecs : List iovec)
    (hpos : ∀ v ∈ iovecs, 0 < v.iov_len) (hnw : NoWrap a iovecs) :
    SweepInv a ⟨0, 0, 0, host, iovecs, []⟩ := by
  refine ⟨(seg_start_zero _).symm, ?_, hnw⟩
  intro n hn
  obtain ⟨v, hv, rfl⟩ := List.mem_map.mp hn
  exact hpos v hv

theorem guest_byte_of_total_le (l : List iovec) (g : Nat) (h : total_len l ≤ g) :
    guest_byte l g = none := by
  rw [← guest_bytes_length] at h
  exact List.getElem?_eq_none h

theorem guest_bytes_ext (l l' : List iovec) (h : ∀ g, guest_byte l g = guest_byte l' g) :
    guest_bytes l = guest_bytes l' :=
  List.ext_getElem? h

theorem total_len_of_guest_bytes (l l' : List iovec) (h : guest_bytes l = guest_bytes l') :
    total_len l = total_len l' := by
  rw [← guest_bytes_length, ← guest_bytes_length, h]

theorem NoWrap_of_total (a : SweepArgs) (l l' : List iovec) (h : total_len l = total_len l')
    (hn : NoWrap a l) : NoWrap a l' := by
  obtain ⟨h1, h2, h3⟩ := hn
  exact ⟨h ▸ h1, h2, h3⟩

theorem transfer_internal_lens (a : SweepArgs) (host : HostMem) (iovecs : List iovec) :
    (virgl_gbm_transfer_internal a host iovecs).iovecs.map iovec.iov_len =
      iovecs.map iovec.iov_len :=
  sweep_loop_lens a _ _

theorem transfer_internal_total (a : SweepArgs) (host : HostMem) (iovecs : List iovec) :
    total_len (virgl_gbm_transfer_internal a host iovecs).iovecs = total_len iovecs :=
  total_len_congr _ _ (transfer_internal_lens a host iovecs)

theorem pos_of_lens (l l' : List iovec) (h : l.map iovec.iov_len = l'.map iovec.iov_len)
    (hp : ∀ v ∈ l', 0 < v.iov_len) : ∀ v ∈ l, 0 < v.iov_len := by
  intro v hv
  have h1 : v.iov_len ∈ l.map iovec.iov_len := List.mem_map_of_mem _ hv
  rw [h] at h1
  obtain ⟨w, hw, e⟩ := List.mem_map.mp h1
  rw [← e]; exact hp w hw

/-- The sweep on two fragmentations of the same guest bytes: same host
memory and same guest bytes afterwards. -/
theorem transfer_internal_fragmentation (a : SweepArgs) (host : HostMem)
    (iovecs iovecs' : List iovec) (hb : guest_bytes iovecs = guest_bytes iovecs')
    (hpos : ∀ v ∈ iovecs, 0 < v.iov_len) (hpos' : ∀ v ∈ iovecs', 0 < v.iov_len)
    (hnw : NoWrap a iovecs) (hW : row_bytes a ≤ a.guest_plane_stride)
    (hH : row_bytes a ≤ a.host_plane_stride) :
    (virgl_gbm_transfer_internal a host iovecs).host =
      (virgl_gbm_transfer_internal a host iovecs').host ∧
    guest_bytes (virgl_gbm_transfer_internal a host iovecs).iovecs =
      guest_bytes (virgl_gbm_transfer_internal a host iovecs').iovecs := by
  have hT := total_len_of_guest_bytes _ _ hb
  have hnw' := NoWrap_of_total a _ _ hT hnw
  have hinv := sweep_init_inv a host iovecs hpos hnw
  have hinv' := sweep_init_inv a host iovecs' hpos' hnw'
  have hgb : ∀ g, guest_byte iovecs g = guest_byte iovecs' g := fun g => by
    simp only [guest_byte, hb]
  by_cases hd : a.direction = VIRGL_TRANSFER_TO_HOST
  · obtain ⟨s1, s2, s3⟩ := sweep_loop_to_host a hW hH hd
      (a.subsampled_height + iovecs.length) _ hinv (by simp)
    obtain ⟨t1, t2, t3⟩ := sweep_loop_to_host a hW hH hd
      (a.subsampled_height + iovecs'.length) _ hinv' (by simp)
    refine ⟨?_, ?_⟩
    · funext h
      by_cases hex : ∃ r c, Pending a 0 0 r c ∧ row_start a r + c < total_len iovecs ∧
          h = a.host_address + r * a.host_plane_stride + c
      · obtain ⟨r, c, hp, hg, rfl⟩ := hex
        have e1 := s2 r c hp hg
        have e2 := t2 r c hp (by rw [← hT]; exact hg)
        simp only at e1 e2
        rw [hgb] at e1
        exact Option.some.inj (e1.trans e2.symm)
      · have e1 := s3 h (fun r c hp hg he => hex ⟨r, c, hp, hg, he⟩)
        have e2 := t3 h (fun r c hp hg he => hex ⟨r, c, hp, by rw [hT]; exact hg, he⟩)
        exact e1.trans e2.symm
    · simp only [virgl_gbm_transfer_internal]
      rw [s1, t1]; exact hb
  · obtain ⟨s1, s2, s3⟩ := sweep_loop_to_guest a hW hd
      (a.subsampled_height + iovecs.length) _ hinv (by simp)
    obtain ⟨t1, t2, t3⟩ := sweep_loop_to_guest a hW hd
      (a.subsampled_height + iovecs'.length) _ hinv' (by simp)
    refine ⟨?_, ?_⟩
    · simp only [virgl_gbm_transfer_internal]
      rw [s1, t1]
    · apply guest_bytes_ext
      intro g
      by_cases hgT : g < total_len iovecs
      · by_cases hex : ∃ r c, Pending a 0 0 r c ∧ g = row_start a r + c
        · obtain ⟨r, c, hp, rfl⟩ := hex
          have e1 := s2 r c hp hgT
          have e2 := t2 r c hp (by rw [← hT]; exact hgT)
          exact e1.trans e2.symm
        · have e1 := s3 g (fun r c hp he => hex ⟨r, c, hp, he⟩)
          have e2 := t3 g (fun r c hp he => hex ⟨r, c, hp, he⟩)
          simp only at e1 e2
          exact (e1.trans (hgb g)).trans e2.symm
      · rw [guest_byte_of_total_le _ _ (by rw [transfer_internal_total]; omega),
          guest_byte_of_total_le _ _ (by rw [transfer_internal_total, ← hT]; omega)]

theorem sweep_args_at_strides (bo : gbm_bo) (layout : planar_layout)
    (info : vrend_transfer_info) (direction gs hms p : Nat) (h : gs ≤ hms) :
    (sweep_args_at bo layout info direction gs hms p).guest_plane_stride ≤
      (sweep_args_at bo layout info direction gs hms p).host_plane_stride := by
  simp only [sweep_args_at, plane_args]
  exact Nat.div_le_div_right h

/-- The plane loop on two fragmentations of the same guest bytes. -/
theorem plane_loop_fragmentation (bo : gbm_bo) (layout : planar_layout)
    (info : vrend_transfer_info) (direction gs hms : Nat) (hgh : gs ≤ hms)
    (count plane : Nat) (s s' : PlaneState)
    (hat : s.host_plane_offset = host_plane_offset_at bo plane)
    (hgt : s.guest_plane_offset = guest_plane_offset_at bo layout gs plane)
    (hat' : s'.host_plane_offset = host_plane_offset_at bo plane)
    (hgt' : s'.guest_plane_offset = guest_plane_offset_at bo layout gs plane)
    (hh : s.host = s'.host) (hb : guest_bytes s.iovecs = guest_bytes s'.iovecs)
    (hpos : ∀ v ∈ s.iovecs, 0 < v.iov_len) (hpos' : ∀ v ∈ s'.iovecs, 0 < v.iov_len)
    (hok : ∀ p, plane ≤ p → p < plane + count →
      NoWrap (sweep_args_at bo layout info direction gs hms p) s.iovecs ∧
      row_bytes (sweep_args_at bo layout info direction gs hms p) ≤
        (sweep_args_at bo layout info direction gs hms p).guest_plane_stride) :
    (plane_loop bo layout info direction gs hms count plane s = none ∧
      plane_loop bo layout info direction gs hms count plane s' = none) ∨
    ∃ t t', plane_loop bo layout info direction gs hms count plane s = some t ∧
      plane_loop bo layout info direction gs hms count plane s' = some t' ∧
      t.host = t'.host ∧ guest_bytes t.iovecs = guest_bytes t'.iovecs := by
  induction count generalizing plane s s' with
  | zero => exact Or.inr ⟨s, s', rfl, rfl, hh, hb⟩
  | succ n ih =>
    simp only [plane_loop, plane_step]
    by_cases hz : layout.horizontal_subsampling.getD plane 0 = 0 ∨
        layout.vertical_subsampling.getD plane 0 = 0
    · left; simp only [if_pos hz, and_self]
    · simp only [if_neg hz]
      obtain ⟨hnw, hW⟩ := hok plane (le_refl _) (by omega)
      have hH := le_trans hW (sweep_args_at_strides bo layout info direction gs hms plane hgh)
      have ha : plane_args bo layout info direction gs hms plane s.host_plane_offset
          s.guest_plane_offset = sweep_args_at bo layout info direction gs hms plane := by
        simp only [sweep_args_at, hat, hgt]
      have ha' : plane_args bo layout info direction gs hms plane s'.host_plane_offset
          s'.guest_plane_offset = sweep_args_at bo layout info direction gs hms plane := by
        simp only [sweep_args_at, hat', hgt']
      rw [ha, ha', ← hh]
      obtain ⟨f1, f2⟩ := transfer_internal_fragmentation
        (sweep_args_at bo layout info direction gs hms plane) s.host s.iovecs s'.iovecs hb
        hpos hpos' hnw hW hH
      apply ih
      · simp only [host_plane_offset_at, hat]
      · simp only [guest_plane_offset_at, hgt, sweep_args_at, plane_args]
      · simp only [host_plane_offset_at, hat']
      · simp only [guest_plane_offset_at, hgt', sweep_args_at, plane_args]
      · exact f1
      · exact f2
      · exact pos_of_lens _ _ (transfer_internal_lens _ _ _) hpos
      · exact pos_of_lens _ _ (transfer_internal_lens _ _ _) hpos'
      · intro p hp1 hp2
        obtain ⟨q1, q2⟩ := hok p (by omega) (by omega)
        exact ⟨NoWrap_of_total _ _ _ (transfer_internal_total _ _ _).symm q1, q2⟩

theorem guest_bytes_single (l : List UInt8) : guest_bytes [⟨l⟩] = l := by
  simp [guest_bytes]

theorem total_len_pos (iovecs : List iovec) (hne : iovecs ≠ [])
    (hpos : ∀ v ∈ iovecs, 0 < v.iov_len) : 0 < total_len iovecs := by
  cases iovecs with
  | nil => exact absurd rfl hne
  | cons v vs =>
    rw [total_len_cons]
    have := hpos v (List.mem_cons_self _ _)
    omega

/-- C3 (amended). Fragmentation invariance. For a supported format and a
request whose per-plane rows do not overlap on the guest side (every plane's
guest stride is at least the byte count of a row of the box in that plane)
and whose offsets do not wrap in 32 bits, `virgl_gbm_transfer` on any
splitting of the guest bytes into segments of positive length returns the
same value and leaves the same host memory and the same guest bytes as on
the single segment holding all the bytes. -/
theorem transfer_fragmentation_invariance (bo : gbm_bo) (layout : planar_layout)
    (direction : Nat) (host : HostMem) (iovecs : List iovec) (info : vrend_transfer_info)
    (hms : Nat)
    (hl : layout_from_format bo.format = some layout) (hm : bo.map_stride = some hms)
    (hne : iovecs ≠ []) (hpos : ∀ v ∈ iovecs, 0 < v.iov_len)
    (hok : ∀ p < bo.plane_count.toNat,
      NoWrap (sweep_args_at bo layout info direction
        (resolve_guest_stride0 info (calc_stride0 bo layout)) hms p) iovecs ∧
      row_bytes (sweep_args_at bo layout info direction
        (resolve_guest_stride0 info (calc_stride0 bo layout)) hms p) ≤
        (sweep_args_at bo layout info direction
          (resolve_guest_stride0 info (calc_stride0 bo layout)) hms p).guest_plane_stride) :
    (virgl_gbm_transfer bo direction host iovecs info).map TransferResult.contents =
      (virgl_gbm_transfer bo direction host [⟨guest_bytes iovecs⟩] info).map
        TransferResult.contents := by
  have hT := total_len_pos iovecs hne hpos
  have hb : guest_bytes iovecs = guest_bytes [⟨guest_bytes iovecs⟩] :=
    (guest_bytes_single _).symm
  have hpos' : ∀ v ∈ [(⟨guest_bytes iovecs⟩ : iovec)], 0 < v.iov_len := by
    intro v hv
    rw [List.mem_singleton] at hv
    subst hv
    show 0 < (guest_bytes iovecs).length
    rw [guest_bytes_length]; exact hT
  simp only [virgl_gbm_transfer, hl, hm, transfer_mapped]
  split
  · simp [TransferResult.contents, guest_bytes_single]
  · split
    · simp [TransferResult.contents, guest_bytes_single]
    · rename_i h1 h2
      rcases plane_loop_fragmentation bo layout info direction _ hms (by omega)
        bo.plane_count.toNat 0 ⟨0, 0, host, iovecs, []⟩ ⟨0, 0, host, [⟨guest_bytes iovecs⟩], []⟩
        rfl rfl rfl rfl rfl hb hpos hpos'
        (fun p _ hp => hok p (by omega)) with ⟨e1, e2⟩ | ⟨t, t', e1, e2, e3, e4⟩
      · rw [e1, e2]
      · rw [e1, e2]
        simp [TransferResult.contents, e3, e4]

/-- Witness for C3: an NV12 buffer of 2x2 pixels with guest stride 4, its ten
guest bytes split into two segments of five. -/
theorem transfer_fragmentation_invariance_witness :
    (virgl_gbm_transfer (ex_bo GBM_FORMAT_NV12 2 2 2 [0, 8] [] (some 4))
      VIRGL_TRANSFER_TO_HOST ex_host [⟨[1, 2, 3, 4, 5]⟩, ⟨[6, 7, 8, 9, 10]⟩]
      ⟨0, 4, 0, ⟨0, 0, 2, 2⟩⟩).map TransferResult.contents =
    (virgl_gbm_transfer (ex_bo GBM_FORMAT_NV12 2 2 2 [0, 8] [] (some 4))
      VIRGL_TRANSFER_TO_HOST ex_host
      [⟨guest_bytes [⟨[1, 2, 3, 4, 5]⟩, ⟨[6, 7, 8, 9, 10]⟩]⟩]
      ⟨0, 4, 0, ⟨0, 0, 2, 2⟩⟩).map TransferResult.contents :=
  transfer_fragmentation_invariance (ex_bo GBM_FORMAT_NV12 2 2 2 [0, 8] [] (some 4))
    biplanar_yuv_420_layout VIRGL_TRANSFER_TO_HOST ex_host
    [⟨[1, 2, 3, 4, 5]⟩, ⟨[6, 7, 8, 9, 10]⟩] ⟨0, 4, 0, ⟨0, 0, 2, 2⟩⟩ 4 (by decide) rfl
    (by decide) (by decide) (by decide)

/-- Counterexample to C3 as stated. First, an NV12 buffer of 2x4 pixels
(guest stride 2, host stride 4, chroma plane at host offset 16): the two
chroma rows of the full box are the logical ranges [8,10) and [9,11), which
overlap. On one segment of 12 bytes the byte at 9 reaches host offset 18;
with a boundary after byte 10 the sweep has left the first segment when it
comes to the second chroma row, and host offset 18 keeps its old value.
Second, an R8 buffer of 2x1 pixels: with an empty segment between the two
bytes the row is left at the empty segment and the second byte is never
copied. Both transfers return 0 in both fragmentations. -/
theorem transfer_fragmentation_invariance_counterexample :
    guest_bytes ex_nv12_split = guest_bytes [⟨ex_nv12_bytes⟩] ∧
    (∀ v ∈ ex_nv12_split, 0 < v.iov_len) ∧
    (virgl_gbm_transfer (ex_bo GBM_FORMAT_NV12 2 4 2 [0, 16] [] (some 4))
      VIRGL_TRANSFER_TO_HOST ex_host [⟨ex_nv12_bytes⟩] ⟨0, 0, 0, ⟨0, 0, 2, 4⟩⟩).map
      (fun r => (r.ret, r.host 18)) = some (0, 10) ∧
    (virgl_gbm_transfer (ex_bo GBM_FORMAT_NV12 2 4 2 [0, 16] [] (some 4))
      VIRGL_TRANSFER_TO_HOST ex_host ex_nv12_split ⟨0, 0, 0, ⟨0, 0, 2, 4⟩⟩).map
      (fun r => (r.ret, r.host 18)) = some (0, 28) ∧
    guest_bytes [⟨[7]⟩, ⟨[]⟩, ⟨[9]⟩] = guest_bytes [⟨[7, 9]⟩] ∧
    (virgl_gbm_transfer (ex_bo GBM_FORMAT_R8 2 1 1 [0] [] (some 2))
      VIRGL_TRANSFER_TO_HOST ex_host [⟨[7, 9]⟩] ⟨0, 0, 0, ⟨0, 0, 2, 1⟩⟩).map
      (fun r => (r.ret, r.host 1)) = some (0, 9) ∧
    (virgl_gbm_transfer (ex_bo GBM_FORMAT_R8 2 1 1 [0] [] (some 2))
      VIRGL_TRANSFER_TO_HOST ex_host [⟨[7]⟩, ⟨[]⟩, ⟨[9]⟩] ⟨0, 0, 0, ⟨0, 0, 2, 1⟩⟩).map
      (fun r => (r.ret, r.host 1)) = some (0, 11) := by
  decide

/-! ### The sweep when rows may overlap -/

theorem entry_start_self (a : SweepArgs) (fuel : Nat) (s : SweepState) :
    entry_start a fuel s s.current_height = s.iovec_start_offset := by
  cases fuel with
  | zero => rfl
  | succ n =>
    simp only [entry_start]
    split
    · simp
    · rfl

/-- What the current row copies is what this iteration copies together with
what the row copies later, if the sweep stays in the row. -/
theorem copied_split (a : SweepArgs) (s : SweepState) (hinv : SweepInv a s)
    (hr : s.current_height < a.subsampled_height) (hk : s.current_iovec < s.iovecs.length)
    (g : Nat)
    (hc : Copied a (total_len s.iovecs) s.current_height s.iovec_start_offset g) :
    (max_start a s ≤ g ∧ g < min_end a s) ∨
    ((sweep_step a s).current_height = s.current_height ∧
      Copied a (total_len s.iovecs) s.current_height (sweep_step a s).iovec_start_offset g) := by
  obtain ⟨hms, hme, hcases⟩ := sweep_step_cases a s hinv hr hk
  have hlen := cur_iovec_pos a s hinv hk
  obtain ⟨p1, p2, p3, p4, p5⟩ := hc
  rcases hcases with ⟨c1, c2, c3, c4, c5⟩ | ⟨c1, c2, c3, c4, c5⟩
  · by_cases hg : s.iovec_start_offset + (cur_iovec s).iov_len ≤ g
    · right; exact ⟨c1, p1, p2, p3, by omega, p5⟩
    · left
      by_cases hov : max_start a s < min_end a s
      · have := c4 hov; omega
      · have := c5 hov; omega
  · left
    by_cases hov : max_start a s < min_end a s
    · have := c4 hov; omega
    · have := c5 hov; omega

theorem copied_now (a : SweepArgs) (s : SweepState) (hinv : SweepInv a s)
    (hr : s.current_height < a.subsampled_height) (hk : s.current_iovec < s.iovecs.length)
    (g : Nat) (h1 : max_start a s ≤ g) (h2 : g < min_end a s) :
    Copied a (total_len s.iovecs) s.current_height s.iovec_start_offset g := by
  obtain ⟨hms, hme, _⟩ := sweep_step_cases a s hinv hr hk
  have h4 := seg_end_le s hk
  have hS := hinv.start_eq
  exact ⟨hr, by omega, by omega, by omega, by omega⟩

theorem copied_rest (a : SweepArgs) (s : SweepState) (hinv : SweepInv a s)
    (hr : s.current_height < a.subsampled_height) (hk : s.current_iovec < s.iovecs.length)
    (r g : Nat)
    (hc : Copied a (total_len s.iovecs) r (sweep_step a s).iovec_start_offset g) :
    Copied a (total_len s.iovecs) r s.iovec_start_offset g := by
  obtain ⟨_, _, hcases⟩ := sweep_step_cases a s hinv hr hk
  obtain ⟨p1, p2, p3, p4, p5⟩ := hc
  rcases hcases with ⟨c1, c2, c3, _, _⟩ | ⟨c1, c2, c3, _, _⟩ <;>
    exact ⟨p1, p2, p3, by omega, p5⟩

theorem sweep_step_height (a : SweepArgs) (s : SweepState) (hinv : SweepInv a s)
    (hr : s.current_height < a.subsampled_height) (hk : s.current_iovec < s.iovecs.length) :
    (sweep_step a s).current_height = s.current_height ∨
    (sweep_step a s).current_height = s.current_height + 1 := by
  obtain ⟨_, _, hcases⟩ := sweep_step_cases a s hinv hr hk
  rcases hcases with ⟨c1, _⟩ | ⟨c1, _⟩
  · exact Or.inl c1
  · exact Or.inr c1

/-- The sweep towards the guest without any assumption on the strides: a
byte ends up holding the host byte of the last row that copies it. -/
theorem sweep_loop_to_guest_rows (a : SweepArgs) (hd : a.direction ≠ VIRGL_TRANSFER_TO_HOST)
    (fuel : Nat) (s : SweepState) (hinv : SweepInv a s)
    (hfuel : (a.subsampled_height - s.current_height) +
      (s.iovecs.length - s.current_iovec) ≤ fuel) :
    (sweep_loop a fuel s).host = s.host ∧
    (∀ r g, s.current_height ≤ r →
      Copied a (total_len s.iovecs) r (entry_start a fuel s r) g →
      (∀ r', r < r' → ¬ Copied a (total_len s.iovecs) r' (entry_start a fuel s r') g) →
      guest_byte (sweep_loop a fuel s).iovecs g = some (s.host (host_addr a r g))) ∧
    (∀ g, (∀ r, s.current_height ≤ r →
        ¬ Copied a (total_len s.iovecs) r (entry_start a fuel s r) g) →
      guest_byte (sweep_loop a fuel s).iovecs g = guest_byte s.iovecs g) := by
  induction fuel generalizing s with
  | zero =>
    refine ⟨rfl, ?_, fun _ _ => rfl⟩
    intro r g hr hc _
    obtain ⟨p1, p2, p3, p4, p5⟩ := hc
    have hS := hinv.start_eq
    rw [seg_start_of_length_le _ _ (by omega)] at hS
    simp only [entry_start] at p4
    omega
  | succ n ih =>
    by_cases hcond : s.current_height < a.subsampled_height ∧
        s.current_iovec < s.iovecs.length
    · obtain ⟨hr, hk⟩ := hcond
      simp only [sweep_loop, entry_start, if_pos (And.intro hr hk)]
      have hinv' := sweep_step_inv a s hinv hr hk
      have hm := sweep_step_measure a s hinv hr hk
      have hT : total_len (sweep_step a s).iovecs = total_len s.iovecs :=
        total_len_congr _ _ (sweep_step_lens a s)
      obtain ⟨ih0, ih1, ih2⟩ := ih (sweep_step a s) hinv' (by omega)
      rw [hT] at ih1 ih2
      have hhost : (sweep_step a s).host = s.host := by
        rw [sweep_step_host, if_neg (by tauto)]
      have hstep := sweep_step_height a s hinv hr hk
      have hself := entry_start_self a n (sweep_step a s)
      refine ⟨by rw [ih0, hhost], ?_, ?_⟩
      · intro r g hr0 hc hlater
        by_cases hrr : r = s.current_height
        · subst hrr
          rw [Function.update_same] at hc
          have hlater' : ∀ r', s.current_height < r' →
              ¬ Copied a (total_len s.iovecs) r' (entry_start a n (sweep_step a s) r') g := by
            intro r' hr'
            have := hlater r' hr'
            rwa [Function.update_noteq (by omega)] at this
          by_cases hrest : (sweep_step a s).current_height = s.current_height ∧
              Copied a (total_len s.iovecs) s.current_height
                (sweep_step a s).iovec_start_offset g
          · obtain ⟨q1, q2⟩ := hrest
            rw [q1] at hself
            rw [ih1 s.current_height g (by omega) (by rw [hself]; exact q2) hlater', hhost]
          · rcases copied_split a s hinv hr hk g hc with hnow | h2
            · rw [ih2 g, sweep_step_guest_byte a s hinv hr hk hd, if_pos hnow]
              · rfl
              · intro r hr1
                by_cases hrr : r = s.current_height
                · subst hrr
                  intro hcr
                  have q1 : (sweep_step a s).current_height = s.current_height := by omega
                  rw [q1] at hself
                  rw [hself] at hcr
                  exact hrest ⟨q1, hcr⟩
                · exact hlater' r (by omega)
            · exact absurd h2 hrest
        · rw [Function.update_noteq hrr] at hc
          rw [ih1 r g (by omega) hc, hhost]
          intro r' hr'
          have := hlater r' hr'
          rwa [Function.update_noteq (by omega)] at this
      · intro g hg
        rw [ih2 g, sweep_step_guest_byte a s hinv hr hk hd]
        · by_cases hin : max_start a s ≤ g ∧ g < min_end a s
          · have hc := copied_now a s hinv hr hk g hin.1 hin.2
            have := hg s.current_height (le_refl _)
            rw [Function.update_same] at this
            exact absurd hc this
          · rw [if_neg hin]
        · intro r hr1
          by_cases hrr : r = s.current_height
          · subst hrr
            intro hcr
            have q1 : (sweep_step a s).current_height = s.current_height := by omega
            rw [q1] at hself
            rw [hself] at hcr
            have := hg s.current_height (le_refl _)
            rw [Function.update_same] at this
            exact this (copied_rest a s hinv hr hk _ g hcr)
          · have := hg r (by omega)
            rwa [Function.update_noteq hrr] at this
    · have e1 : sweep_loop a (n + 1) s = s := by simp only [sweep_loop, if_neg hcond]
      have e2 : entry_start a (n + 1) s = fun _ => s.iovec_start_offset := by
        simp only [entry_start, if_neg hcond]
      rw [e1, e2]
      refine ⟨rfl, ?_, fun _ _ => rfl⟩
      intro r g hr hc _
      obtain ⟨p1, p2, p3, p4, p5⟩ := hc
      have hS := hinv.start_eq
      simp only at p4
      by_cases hk : s.current_iovec < s.iovecs.length
      · have : ¬ s.current_height < a.subsampled_height := fun h => hcond ⟨h, hk⟩
        omega
      · rw [seg_start_of_length_le _ _ (by omega)] at hS
        omega

theorem host_addr_inj (a : SweepArgs) (r g g' : Nat) (h1 : row_start a r ≤ g)
    (h2 : row_start a r ≤ g') (h : host_addr a r g' = host_addr a r g) : g' = g := by
  simp only [host_addr] at h
  omega

/-- The sweep towards the host without any assumption on the strides: a host
byte ends up holding the guest byte of the last row that writes it. -/
theorem sweep_loop_to_host_rows (a : SweepArgs) (hd : a.direction = VIRGL_TRANSFER_TO_HOST)
    (fuel : Nat) (s : SweepState) (hinv : SweepInv a s)
    (hfuel : (a.subsampled_height - s.current_height) +
      (s.iovecs.length - s.current_iovec) ≤ fuel) :
    (sweep_loop a fuel s).iovecs = s.iovecs ∧
    (∀ r g, s.current_height ≤ r →
      Copied a (total_len s.iovecs) r (entry_start a fuel s r) g →
      (∀ r' g', r < r' →
        Copied a (total_len s.iovecs) r' (entry_start a fuel s r') g' →
        host_addr a r' g' ≠ host_addr a r g) →
      some ((sweep_loop a fuel s).host (host_addr a r g)) = guest_byte s.iovecs g) ∧
    (∀ h, (∀ r g, s.current_height ≤ r →
        Copied a (total_len s.iovecs) r (entry_start a fuel s r) g → h ≠ host_addr a r g) →
      (sweep_loop a fuel s).host h = s.host h) := by
  induction fuel generalizing s with
  | zero =>
    refine ⟨rfl, ?_, fun _ _ => rfl⟩
    intro r g hr hc _
    obtain ⟨p1, p2, p3, p4, p5⟩ := hc
    have hS := hinv.start_eq
    rw [seg_start_of_length_le _ _ (by omega)] at hS
    simp only [entry_start] at p4
    omega
  | succ n ih =>
    by_cases hcond : s.current_height < a.subsampled_height ∧
        s.current_iovec < s.iovecs.length
    · obtain ⟨hr, hk⟩ := hcond
      simp only [sweep_loop, entry_start, if_pos (And.intro hr hk)]
      have hinv' := sweep_step_inv a s hinv hr hk
      have hm := sweep_step_measure a s hinv hr hk
      have hio : (sweep_step a s).iovecs = s.iovecs := by
        rw [sweep_step_iovecs, if_neg (by tauto)]
      obtain ⟨ih0, ih1, ih2⟩ := ih (sweep_step a s) hinv' (by omega)
      rw [hio] at ih0 ih1 ih2
      have hstep := sweep_step_height a s hinv hr hk
      have hself := entry_start_self a n (sweep_step a s)
      have hhs := host_start_eq a s hinv hr hk
      have hms : row_start a s.current_height ≤ max_start a s := by
        rw [(sweep_step_cases a s hinv hr hk).1]; exact le_max_right _ _
      refine ⟨ih0, ?_, ?_⟩
      · intro r g hr0 hc hlater
        by_cases hrr : r = s.current_height
        · subst hrr
          rw [Function.update_same] at hc
          have hlater' : ∀ r' g', s.current_height < r' →
              Copied a (total_len s.iovecs) r' (entry_start a n (sweep_step a s) r') g' →
              host_addr a r' g' ≠ host_addr a s.current_height g := by
            intro r' g' hr' hc'
            apply hlater r' g' hr'
            rwa [Function.update_noteq (by omega)]
          by_cases hrest : (sweep_step a s).current_height = s.current_height ∧
              Copied a (total_len s.iovecs) s.current_height
                (sweep_step a s).iovec_start_offset g
          · obtain ⟨q1, q2⟩ := hrest
            rw [q1] at hself
            exact ih1 s.current_height g (by omega) (by rw [hself]; exact q2) hlater'
          · rcases copied_split a s hinv hr hk g hc with hnow | h2
            · rw [ih2 (host_addr a s.current_height g)]
              · have e := (sweep_step_host_byte a s hinv hr hk hd
                  (host_addr a s.current_height g)).1 (by omega)
                  (by simp only [host_addr]; omega) (by simp only [host_addr]; omega)
                rw [e]
                congr 1
                simp only [host_addr]
                omega
              · intro r g' hr1 hcr
                by_cases hrr : r = s.current_height
                · subst hrr
                  intro heq
                  have q1 : (sweep_step a s).current_height = s.current_height := by omega
                  rw [q1] at hself
                  rw [hself] at hcr
                  have := host_addr_inj a s.current_height g g' hc.2.1 hcr.2.1 heq.symm
                  subst this
                  exact hrest ⟨q1, hcr⟩
                · exact (hlater' r g' (by omega) hcr).symm
            · exact absurd h2 hrest
        · rw [Function.update_noteq hrr] at hc
          apply ih1 r g (by omega) hc
          intro r' g' hr' hc'
          apply hlater r' g' hr'
          rwa [Function.update_noteq (by omega)]
      · intro h hh
        rw [ih2 h]
        · apply (sweep_step_host_byte a s hinv hr hk hd h).2
          rintro ⟨h1, h2, h3⟩
          have hc := copied_now a s hinv hr hk (max_start a s + (h - host_start a s))
            (by omega) (by omega)
          refine hh s.current_height _ (le_refl _) (by rwa [Function.update_same]) ?_
          simp only [host_addr]
          omega
        · intro r g hr1 hcr
          by_cases hrr : r = s.current_height
          · subst hrr
            have q1 : (sweep_step a s).current_height = s.current_height := by omega
            rw [q1] at hself
            rw [hself] at hcr
            apply hh s.current_height g (le_refl _)
            rw [Function.update_same]
            exact copied_rest a s hinv hr hk _ g hcr
          · apply hh r g (by omega)
            rwa [Function.update_noteq hrr]
    · have e1 : sweep_loop a (n + 1) s = s := by simp only [sweep_loop, if_neg hcond]
      have e2 : entry_start a (n + 1) s = fun _ => s.iovec_start_offset := by
        simp only [entry_start, if_neg hcond]
      rw [e1, e2]
      refine ⟨rfl, ?_, fun _ _ => rfl⟩
      intro r g hr hc _
      obtain ⟨p1, p2, p3, p4, p5⟩ := hc
      have hS := hinv.start_eq
      simp only at p4
      by_cases hk : s.current_iovec < s.iovecs.length
      · have : ¬ s.current_height < a.subsampled_height := fun h => hcond ⟨h, hk⟩
        omega
      · rw [seg_start_of_length_le _ _ (by omega)] at hS
        omega

theorem cur_iovec_len_congr (s s' : SweepState) (h : CtrlEq s s') :
    (cur_iovec s).iov_len = (cur_iovec s').iov_len := by
  obtain ⟨_, h2, _, h4⟩ := h
  have e : ∀ (l : List iovec) (k : Nat), (l.getD k ⟨[]⟩).iov_len =
      (l.map iovec.iov_len).getD k 0 := by
    intro l k
    simp only [List.getD_eq_getElem?_getD, List.getElem?_map]
    cases l[k]? <;> rfl
  simp only [cur_iovec, e, h2, h4]

/-- The loop variables after an iteration depend on the loop variables and on
the lengths of the segments only: not on the direction, the host-side
arguments or the contents of memory. -/
theorem sweep_step_ctrl_congr (a : SweepArgs) (d : Nat) (s s' : SweepState)
    (h : CtrlEq s s') :
    CtrlEq (sweep_step a s) (sweep_step { a with direction := d } s') := by
  have hlen := cur_iovec_len_congr s s' h
  obtain ⟨h1, h2, h3, h4⟩ := h
  have e1 : iovec_size s = iovec_size s' := by simp only [iovec_size, hlen]
  have e2 : iovec_end_offset s = iovec_end_offset s' := by
    simp only [iovec_end_offset, e1, h3]
  have e3 : box_start_offset a s = box_start_offset { a with direction := d } s' := by
    simp only [box_start_offset, h1]
  have e4 : box_end_offset a s = box_end_offset { a with direction := d } s' := by
    simp only [box_end_offset, e3]
  have e5 : max_start a s = max_start { a with direction := d } s' := by
    simp only [max_start, e3, h3]
  have e6 : min_end a s = min_end { a with direction := d } s' := by
    simp only [min_end, e2, e4]
  have e7 : next_iovec a s = next_iovec { a with direction := d } s' := by
    simp only [next_iovec, e5, e6, e2, e3, h3]
  obtain ⟨c1, c2, c3⟩ := sweep_step_ctrl a s
  obtain ⟨c1', c2', c3'⟩ := sweep_step_ctrl { a with direction := d } s'
  refine ⟨?_, ?_, ?_, ?_⟩
  · rw [c1, c1', e7, h1]
  · rw [c2, c2', e7, h2]
  · rw [c3, c3', e7, h3, e1]
  · rw [sweep_step_lens, sweep_step_lens, h4]

theorem entry_start_congr (a : SweepArgs) (d : Nat) (fuel : Nat) (s s' : SweepState)
    (h : CtrlEq s s') :
    entry_start a fuel s = entry_start { a with direction := d } fuel s' := by
  induction fuel generalizing s s' with
  | zero => simp only [entry_start, h.2.2.1]
  | succ n ih =>
    have hl : s.iovecs.length = s'.iovecs.length := by
      have := congrArg List.length h.2.2.2
      simpa using this
    simp only [entry_start, ih _ _ (sweep_step_ctrl_congr a d s s' h), h.1, h.2.1, h.2.2.1, hl]

theorem row_entry_congr (a : SweepArgs) (d : Nat) (ref iovecs : List iovec) (host : HostMem)
    (h : iovecs.map iovec.iov_len = ref.map iovec.iov_len) :
    entry_start { a with direction := d } (a.subsampled_height + iovecs.length)
      ⟨0, 0, 0, host, iovecs, []⟩ = row_entry a ref := by
  have hl : iovecs.length = ref.length := by
    have := congrArg List.length h
    simpa using this
  rw [row_entry, hl]
  exact (entry_start_congr a d _ ⟨0, 0, 0, fun _ => 0, ref, []⟩ ⟨0, 0, 0, host, iovecs, []⟩
    ⟨rfl, rfl, rfl, h.symm⟩).symm

/-- Every byte of a row below the total length is copied by that row or by
an earlier one. -/
theorem sweep_coverage (a : SweepArgs) (fuel : Nat) (s : SweepState) (hinv : SweepInv a s)
    (hfuel : (a.subsampled_height - s.current_height) +
      (s.iovecs.length - s.current_iovec) ≤ fuel)
    (r g : Nat) (hr0 : s.current_height ≤ r) (hr : r < a.subsampled_height)
    (h1 : row_start a r ≤ g) (h2 : g < row_start a r + row_bytes a)
    (h3 : s.iovec_start_offset ≤ g) (h4 : g < total_len s.iovecs) :
    ∃ r', s.current_height ≤ r' ∧ r' ≤ r ∧
      Copied a (total_len s.iovecs) r' (entry_start a fuel s r') g := by
  induction fuel generalizing s with
  | zero =>
    have hS := hinv.start_eq
    rw [seg_start_of_length_le _ _ (by omega)] at hS
    omega
  | succ n ih =>
    by_cases hcond : s.current_height < a.subsampled_height ∧
        s.current_iovec < s.iovecs.length
    · obtain ⟨hr', hk⟩ := hcond
      simp only [entry_start, if_pos (And.intro hr' hk)]
      by_cases hin : g < row_start a s.current_height + row_bytes a
      · refine ⟨s.current_height, le_refl _, hr0, ?_⟩
        rw [Function.update_same]
        exact ⟨hr', le_trans (row_start_mono a _ _ hr0) h1, hin, h3, h4⟩
      · have hinv' := sweep_step_inv a s hinv hr' hk
        have hm := sweep_step_measure a s hinv hr' hk
        have hT : total_len (sweep_step a s).iovecs = total_len s.iovecs :=
          total_len_congr _ _ (sweep_step_lens a s)
        obtain ⟨hms, hme, hcases⟩ := sweep_step_cases a s hinv hr' hk
        have hne : r ≠ s.current_height := by
          intro e; subst e; omega
        have hmono := row_start_mono a _ _ hr0
        have hS' : (sweep_step a s).iovec_start_offset ≤ g := by
          rcases hcases with ⟨c1, c2, c3, c4, c5⟩ | ⟨c1, c2, c3, c4, c5⟩
          · by_cases hov : max_start a s < min_end a s
            · have := c4 hov; omega
            · have := c5 hov; omega
          · omega
        have hr1 : (sweep_step a s).current_height ≤ r := by
          rcases hcases with ⟨c1, _⟩ | ⟨c1, _⟩ <;> omega
        obtain ⟨r', q1, q2, q3⟩ := ih (sweep_step a s) hinv' (by omega) hr1 hS'
          (by rw [hT]; exact h4)
        rw [hT] at q3
        have hr0' : s.current_height ≤ r' := by
          rcases hcases with ⟨c1, _⟩ | ⟨c1, _⟩ <;> omega
        refine ⟨r', hr0', q2, ?_⟩
        by_cases e : r' = s.current_height
        · subst e
          exact absurd q3.2.2.1 hin
        · rwa [Function.update_noteq e]
    · have hS := hinv.start_eq
      by_cases hk : s.current_iovec < s.iovecs.length
      · have : ¬ s.current_height < a.subsampled_height := fun h => hcond ⟨h, hk⟩
        omega
      · rw [seg_start_of_length_le _ _ (by omega)] at hS
        omega

theorem Copied_direction (a : SweepArgs) (d total r t g : Nat) :
    Copied { a with direction := d } total r t g = Copied a total r t g := rfl

theorem host_addr_direction (a : SweepArgs) (d r g : Nat) :
    host_addr { a with direction := d } r g = host_addr a r g := rfl

theorem NoWrap_direction (a : SweepArgs) (d : Nat) (ref iovecs : List iovec)
    (h : iovecs.map iovec.iov_len = ref.map iovec.iov_len) (hn : NoWrap a ref) :
    NoWrap { a with direction := d } iovecs := by
  obtain ⟨h1, h2, h3⟩ := hn
  exact ⟨by rw [total_len_congr _ _ h]; exact h1, h2, h3⟩

/-- The sweep towards the host, in terms of the rows that copy. -/
theorem transfer_internal_to_host_rows (a : SweepArgs) (ref iovecs : List iovec)
    (host : HostMem) (hl : iovecs.map iovec.iov_len = ref.map iovec.iov_len)
    (hpos : ∀ v ∈ ref, 0 < v.iov_len) (hnw : NoWrap a ref) :
    (virgl_gbm_transfer_internal { a with direction := VIRGL_TRANSFER_TO_HOST } host
      iovecs).iovecs = iovecs ∧
    (∀ r g, RowCopies a ref r g →
      (∀ r' g', r < r' → RowCopies a ref r' g' → host_addr a r' g' ≠ host_addr a r g) →
      some ((virgl_gbm_transfer_internal { a with direction := VIRGL_TRANSFER_TO_HOST } host
        iovecs).host (host_addr a r g)) = guest_byte iovecs g) ∧
    (∀ h, (∀ r g, RowCopies a ref r g → h ≠ host_addr a r g) →
      (virgl_gbm_transfer_internal { a with direction := VIRGL_TRANSFER_TO_HOST } host
        iovecs).host h = host h) := by
  have hinv := sweep_init_inv { a with direction := VIRGL_TRANSFER_TO_HOST } host iovecs
    (pos_of_lens _ _ hl hpos) (NoWrap_direction a _ ref iovecs hl hnw)
  obtain ⟨s1, s2, s3⟩ := sweep_loop_to_host_rows
    { a with direction := VIRGL_TRANSFER_TO_HOST } rfl
    (a.subsampled_height + iovecs.length) _ hinv (by simp)
  have hE := row_entry_congr a VIRGL_TRANSFER_TO_HOST ref iovecs host hl
  have hT := total_len_congr _ _ hl
  simp only [hE, hT, Copied_direction, host_addr_direction] at s2 s3
  exact ⟨s1, fun r g hc hlater => s2 r g (Nat.zero_le _) hc
    (fun r' g' hr' hc' => hlater r' g' hr' hc'),
    fun h hh => s3 h (fun r g _ hc => hh r g hc)⟩

/-- The sweep towards the guest, in terms of the rows that copy. -/
theorem transfer_internal_to_guest_rows (a : SweepArgs) (d : Nat)
    (hd : d ≠ VIRGL_TRANSFER_TO_HOST) (ref iovecs : List iovec)
    (host : HostMem) (hl : iovecs.map iovec.iov_len = ref.map iovec.iov_len)
    (hpos : ∀ v ∈ ref, 0 < v.iov_len) (hnw : NoWrap a ref) :
    (virgl_gbm_transfer_internal { a with direction := d } host iovecs).host = host ∧
    (∀ r g, RowCopies a ref r g → (∀ r', r < r' → ¬ RowCopies a ref r' g) →
      guest_byte (virgl_gbm_transfer_internal { a with direction := d } host iovecs).iovecs g =
        some (host (host_addr a r g))) ∧
    (∀ g, (∀ r, ¬ RowCopies a ref r g) →
      guest_byte (virgl_gbm_transfer_internal { a with direction := d } host iovecs).iovecs g =
        guest_byte iovecs g) := by
  have hinv := sweep_init_inv { a with direction := d } host iovecs
    (pos_of_lens _ _ hl hpos) (NoWrap_direction a _ ref iovecs hl hnw)
  obtain ⟨s1, s2, s3⟩ := sweep_loop_to_guest_rows { a with direction := d } hd
    (a.subsampled_height + iovecs.length) _ hinv (by simp)
  have hE := row_entry_congr a d ref iovecs host hl
  have hT := total_len_congr _ _ hl
  simp only [hE, hT, Copied_direction, host_addr_direction] at s2 s3
  exact ⟨s1, fun r g hc hlater => s2 r g (Nat.zero_le _) hc hlater,
    fun g hg => s3 g (fun r _ => hg r)⟩

/-- Every byte of the box below the total length is copied by some row. -/
theorem row_copies_of_in_row (a : SweepArgs) (ref : List iovec)
    (hpos : ∀ v ∈ ref, 0 < v.iov_len) (hnw : NoWrap a ref) (r c : Nat)
    (hr : r < a.subsampled_height) (hc : c < row_bytes a)
    (hg : row_start a r + c < total_len ref) :
    ∃ r', RowCopies a ref r' (row_start a r + c) := by
  have hinv := sweep_init_inv a (fun _ => 0) ref hpos hnw
  obtain ⟨r', _, _, h⟩ := sweep_coverage a (a.subsampled_height + ref.length) _ hinv (by simp)
    r (row_start a r + c) (Nat.zero_le _) hr (by omega) (by omega) (Nat.zero_le _) hg
  exact ⟨r', h⟩

/-- When the host stride is at least the guest stride, no later row writes
another byte to the host offset that the last row copying `g` uses for `g`. -/
theorem last_row_host_safe (a : SweepArgs) (ref : List iovec)
    (hs : a.guest_plane_stride ≤ a.host_plane_stride) (r g : Nat)
    (hc : RowCopies a ref r g) (hlast : ∀ r', r < r' → ¬ RowCopies a ref r' g)
    (r' g' : Nat) (hr' : r < r') (hc' : RowCopies a ref r' g') :
    host_addr a r' g' ≠ host_addr a r g := by
  intro heq
  obtain ⟨p1, p2, p3, p4, p5⟩ := hc
  obtain ⟨q1, q2, q3, q4, q5⟩ := hc'
  obtain ⟨d, rfl⟩ : ∃ d, r' = r + d := ⟨r' - r, by omega⟩
  have e1 : d * a.guest_plane_stride ≤ d * a.host_plane_stride := Nat.mul_le_mul_left _ hs
  simp only [host_addr, row_start, Nat.add_mul] at heq p2 p3 q2 q3
  apply hlast (r + d) hr'
  refine ⟨q1, ?_, ?_, ?_, p5⟩
  · simp only [row_start, Nat.add_mul]; omega
  · simp only [row_start, Nat.add_mul]; omega
  · omega

theorem exists_max_below (P : Nat → Prop) (n : Nat) (h : ∃ p, p < n ∧ P p) :
    ∃ p, p < n ∧ P p ∧ ∀ q, p < q → q < n → ¬ P q := by
  induction n with
  | zero => obtain ⟨p, hp, _⟩ := h; omega
  | succ n ih =>
    by_cases hn : P n
    · exact ⟨n, by omega, hn, fun q h1 h2 => by omega⟩
    · obtain ⟨p, hp, hP⟩ := h
      have hpn : p < n := by
        rcases Nat.lt_succ_iff_lt_or_eq.mp hp with h1 | h1
        · exact h1
        · subst h1; exact absurd hP hn
      obtain ⟨p', h1, h2, h3⟩ := ih ⟨p, hpn, hP⟩
      refine ⟨p', by omega, h2, fun q hq1 hq2 => ?_⟩
      rcases Nat.lt_succ_iff_lt_or_eq.mp hq2 with h4 | h4
      · exact h3 q hq1 h4
      · subst h4; exact hn

/-- Among the rows that copy a byte there is a last one. -/
theorem exists_last_row (a : SweepArgs) (ref : List iovec) (g : Nat)
    (h : ∃ r, RowCopies a ref r g) :
    ∃ r, RowCopies a ref r g ∧ ∀ r', r < r' → ¬ RowCopies a ref r' g := by
  obtain ⟨r, hr⟩ := h
  obtain ⟨p, _, h2, h3⟩ := exists_max_below (fun r => RowCopies a ref r g)
    a.subsampled_height ⟨r, hr.1, hr⟩
  refine ⟨p, h2, fun r' hr' hc => ?_⟩
  exact h3 r' hr' hc.1 hc

/-! ### Host-side bounds and the plane loop -/

theorem copy_in_host_rows (a : SweepArgs) (s : SweepState)
    (hr : s.current_height < a.subsampled_height) (hov : max_start a s < min_end a s) :
    CopyOp.in_host_rows a
      ⟨s.current_iovec, offset_in_iovec a s, host_start a s, copy_iovec_size a s⟩ := by
  have h1 : box_end_offset a s ≤ box_start_offset a s + row_bytes a := by
    unfold box_end_offset row_bytes
    have := u32_le (box_start_offset a s + u32 (a.subsampled_width * a.planar_bytes_per_pixel))
    have := u32_le (a.subsampled_width * a.planar_bytes_per_pixel)
    omega
  have h2 := u32_le (s.current_height * a.host_plane_stride)
  refine ⟨?_, s.current_height, hr, ?_⟩
  · simp only [host_start]; omega
  · simp only [host_start, copy_iovec_size]
    simp only [max_start, min_end] at hov ⊢
    omega

theorem sweep_loop_in_host_rows (a : SweepArgs) (fuel : Nat) (s : SweepState)
    (h : ∀ op ∈ s.log, CopyOp.in_host_rows a op) :
    ∀ op ∈ (sweep_loop a fuel s).log, CopyOp.in_host_rows a op := by
  induction fuel generalizing s with
  | zero => exact h
  | succ n ih =>
    simp only [sweep_loop]
    split
    · rename_i hc
      apply ih
      rw [sweep_step_log]
      split
      · intro op hop
        rcases List.mem_append.mp hop with h1 | h1
        · exact h op h1
        · rw [List.mem_singleton] at h1
          subst h1
          exact copy_in_host_rows a s hc.1 (by assumption)
      · exact h
    · exact h

theorem transfer_internal_in_host_rows (a : SweepArgs) (host : HostMem) (iovecs : List iovec) :
    ∀ op ∈ (virgl_gbm_transfer_internal a host iovecs).log, CopyOp.in_host_rows a op :=
  sweep_loop_in_host_rows a _ _ (by simp)

/-- Every copy the plane loop logs for a plane was made by the sweep called
with the arguments of that plane. -/
theorem plane_loop_log (bo : gbm_bo) (layout : planar_layout) (info : vrend_transfer_info)
    (direction gs hms : Nat) (count plane : Nat) (s s' : PlaneState)
    (hh : s.host_plane_offset = host_plane_offset_at bo plane)
    (hg : s.guest_plane_offset = guest_plane_offset_at bo layout gs plane)
    (hrun : plane_loop bo layout info direction gs hms count plane s = some s') :
    ∀ e ∈ s'.log, e ∈ s.log ∨ (plane ≤ e.1 ∧ e.1 < plane + count ∧
      ∃ host iovecs, e.2 ∈ (virgl_gbm_transfer_internal
        (sweep_args_at bo layout info direction gs hms e.1) host iovecs).log) := by
  induction count generalizing plane s with
  | zero =>
    simp only [plane_loop, Option.some.injEq] at hrun
    subst hrun
    intro e he; exact Or.inl he
  | succ n ih =>
    simp only [plane_loop, plane_step] at hrun
    split at hrun
    · exact absurd hrun (by simp)
    · rename_i s1 hs1
      split at hs1
      · exact absurd hs1 (by simp)
      · simp only [Option.some.injEq] at hs1
        subst hs1
        intro e he
        rcases ih (plane + 1) _ (by simp only [host_plane_offset_at, hh])
          (by simp only [guest_plane_offset_at, hg, plane_args]) hrun e he with h1 | ⟨h1, h2, h3⟩
        · rcases List.mem_append.mp h1 with h4 | h4
          · exact Or.inl h4
          · right
            obtain ⟨op, hop, rfl⟩ := List.mem_map.mp h4
            refine ⟨le_refl _, by omega, s.host, s.iovecs, ?_⟩
            simp only [sweep_args_at, ← hh, ← hg]
            exact hop
        · exact Or.inr ⟨by omega, by omega, h3⟩

theorem layout_plane0 (format : Nat) (layout : planar_layout)
    (hl : layout_from_format format = some layout) :
    layout.horizontal_subsampling.getD 0 0 = 1 ∧ layout.vertical_subsampling.getD 0 0 = 1 := by
  unfold layout_from_format at hl
  split_ifs at hl <;> cases hl <;> exact ⟨rfl, rfl⟩

theorem transfer_mapped_some (bo : gbm_bo) (layout : planar_layout) (direction : Nat)
    (host : HostMem) (iovecs : List iovec) (info : vrend_transfer_info) (hms gs : Nat)
    (res : TransferResult)
    (hres : transfer_mapped bo layout direction host iovecs info hms gs = some res) :
    (res.ret = -1 ∧ res.host = host ∧ res.iovecs = iovecs ∧ res.log = [] ∧ res.maps = 1 ∧
      res.unmaps = 0 ∧ (gs < calc_stride0 bo layout ∨ hms < gs)) ∨
    (res.ret = 0 ∧ calc_stride0 bo layout ≤ gs ∧ gs ≤ hms ∧ res.maps = 1 ∧ res.unmaps = 1 ∧
      ∃ s, plane_loop bo layout info direction gs hms bo.plane_count.toNat 0
        ⟨0, 0, host, iovecs, []⟩ = some s ∧
        res.host = s.host ∧ res.iovecs = s.iovecs ∧ res.log = s.log) := by
  unfold transfer_mapped at hres
  split at hres
  · cases hres; left; exact ⟨rfl, rfl, rfl, rfl, rfl, rfl, Or.inl (by assumption)⟩
  · split at hres
    · cases hres; left; exact ⟨rfl, rfl, rfl, rfl, rfl, rfl, Or.inr (by assumption)⟩
    · split at hres
      · exact absurd hres (by simp)
      · rename_i s hs
        cases hres
        right
        exact ⟨rfl, by omega, by omega, rfl, rfl, s, hs, rfl, rfl, rfl⟩

/-- C8 (amended). Host bounds for plane 0. For a request that passes the
stride validation and whose box lies inside the buffer (`x + width ≤` buffer
width, `y + height ≤` buffer height), with a mapping whose extent fits 32-bit
offsets, every copy made while processing plane 0 stays inside the mapped
host memory of plane 0: `height` rows of the host-mapped stride starting at
the offset the allocator reports for plane 0. -/
theorem transfer_host_bounds_plane0 (bo : gbm_bo) (layout : planar_layout) (direction : Nat)
    (host : HostMem) (iovecs : List iovec) (info : vrend_transfer_info) (hms : Nat)
    (res : TransferResult)
    (hl : layout_from_format bo.format = some layout) (hm : bo.map_stride = some hms)
    (hres : virgl_gbm_transfer bo direction host iovecs info = some res)
    (hx : info.box.x + info.box.width ≤ bo.width)
    (hy : info.box.y + info.box.height ≤ bo.height)
    (hw : bo.width * layout.bytes_per_pixel.getD 0 0 < 4294967296)
    (hfit : bo.offset 0 + bo.height * hms < 4294967296) :
    ∀ op, (0, op) ∈ res.log → CopyOp.in_host_plane bo layout hms 0 op := by
  intro op hop
  simp only [virgl_gbm_transfer, hl, hm] at hres
  rcases transfer_mapped_some _ _ _ _ _ _ _ _ _ hres with
    ⟨_, _, _, h4, _⟩ | ⟨_, hv1, hv2, _, _, s, hs, _, _, hlog⟩
  · rw [h4] at hop; exact absurd hop (by simp)
  rw [hlog] at hop
  rcases plane_loop_log bo layout info direction _ hms _ 0 _ s rfl rfl hs _ hop with
    h1 | ⟨_, _, h0, i0, h3⟩
  · exact absurd h1 (by simp)
  obtain ⟨q1, r, q2, q3⟩ := transfer_internal_in_host_rows _ h0 i0 op h3
  obtain ⟨p1, p2⟩ := layout_plane0 _ _ hl
  simp only [sweep_args_at, plane_args, host_plane_offset_at, guest_plane_offset_at, p1, p2,
    Nat.div_one, Nat.zero_add, row_bytes] at q1 q2 q3
  simp only [CopyOp.in_host_plane, p1, p2, Nat.div_one]
  have hcs : calc_stride0 bo layout = bo.width * layout.bytes_per_pixel.getD 0 0 := by
    rw [calc_stride0, u32_eq_self hw]
  rw [hcs] at hv1 hv2
  -- the products, bounded through the box
  have hr : r < info.box.height := lt_of_lt_of_le q2 (u32_le _)
  have e1 : u32 info.box.y * hms ≤ info.box.y * hms := Nat.mul_le_mul_right _ (u32_le _)
  have e2 : u32 info.box.x * layout.bytes_per_pixel.getD 0 0 ≤
      info.box.x * layout.bytes_per_pixel.getD 0 0 := Nat.mul_le_mul_right _ (u32_le _)
  have e3 : u32 info.box.width * layout.bytes_per_pixel.getD 0 0 ≤
      info.box.width * layout.bytes_per_pixel.getD 0 0 := Nat.mul_le_mul_right _ (u32_le _)
  have e4 : (info.box.x + info.box.width) * layout.bytes_per_pixel.getD 0 0 ≤
      bo.width * layout.bytes_per_pixel.getD 0 0 := Nat.mul_le_mul_right _ hx
  have e5 : (info.box.y + r + 1) * hms ≤ bo.height * hms :=
    Nat.mul_le_mul_right _ (by omega)
  rw [Nat.add_mul] at e4
  rw [Nat.add_mul, Nat.add_mul, Nat.one_mul] at e5
  have f1 : u32 (u32 info.box.y * hms) = u32 info.box.y * hms := u32_eq_self (by omega)
  have f2 : u32 (u32 info.box.x * layout.bytes_per_pixel.getD 0 0) =
      u32 info.box.x * layout.bytes_per_pixel.getD 0 0 := u32_eq_self (by omega)
  have f0 : u32 (bo.offset 0) = bo.offset 0 := u32_eq_self (by omega)
  rw [f0, f1, f2] at q1 q3
  rw [u32_eq_self (n := bo.offset 0 + u32 info.box.y * hms) (by omega)] at q1 q3
  rw [u32_eq_self (n := bo.offset 0 + u32 info.box.y * hms +
    u32 info.box.x * layout.bytes_per_pixel.getD 0 0) (by omega)] at q1 q3
  constructor <;> omega

theorem layout_divisors_pos (format : Nat) (layout : planar_layout)
    (hl : layout_from_format format = some layout) (p : Nat) (hp : p < layout.num_planes) :
    layout.horizontal_subsampling.getD p 0 ≠ 0 ∧ layout.vertical_subsampling.getD p 0 ≠ 0 := by
  unfold layout_from_format at hl
  split_ifs at hl <;> cases hl <;>
    simp only [packed_1bpp_layout, packed_2bpp_layout, packed_4bpp_layout,
      biplanar_yuv_420_layout, triplanar_yuv_420_layout] at hp ⊢ <;>
    interval_cases p <;> decide

theorem plane_loop_isSome (bo : gbm_bo) (layout : planar_layout) (info : vrend_transfer_info)
    (direction gs hms : Nat) (count plane : Nat) (s : PlaneState)
    (h : ∀ p, plane ≤ p → p < plane + count →
      layout.horizontal_subsampling.getD p 0 ≠ 0 ∧ layout.vertical_subsampling.getD p 0 ≠ 0) :
    ∃ s', plane_loop bo layout info direction gs hms count plane s = some s' := by
  induction count generalizing plane s with
  | zero => exact ⟨s, rfl⟩
  | succ n ih =>
    have h0 := h plane (le_refl _) (by omega)
    simp only [plane_loop, plane_step]
    rw [if_neg (by tauto)]
    apply ih
    intro p hp1 hp2
    exact h p (by omega) (by omega)

/-! ### The plane loop in both directions -/

theorem sweep_args_at_direction (bo : gbm_bo) (layout : planar_layout)
    (info : vrend_transfer_info) (d d0 gs hms p : Nat) :
    sweep_args_at bo layout info d gs hms p =
      { sweep_args_at bo layout info d0 gs hms p with direction := d } := rfl

/-- The plane loop towards the host: a host byte written for a copied byte,
and not written again by a later row of the plane, holds that guest byte at
the end; host bytes no plane writes keep their value. -/
theorem plane_loop_to_host (bo : gbm_bo) (layout : planar_layout)
    (info : vrend_transfer_info) (gs hms : Nat) (G : List iovec)
    (hpos : ∀ v ∈ G, 0 < v.iov_len) (N : Nat)
    (hnw : ∀ p, p < N →
      NoWrap (sweep_args_at bo layout info VIRGL_TRANSFER_TO_HOST gs hms p) G)
    (hdisj : ∀ p q r g r' g', p < q → q < N →
      RowCopies (sweep_args_at bo layout info VIRGL_TRANSFER_TO_HOST gs hms p) G r g →
      RowCopies (sweep_args_at bo layout info VIRGL_TRANSFER_TO_HOST gs hms q) G r' g' →
      host_addr (sweep_args_at bo layout info VIRGL_TRANSFER_TO_HOST gs hms p) r g ≠
        host_addr (sweep_args_at bo layout info VIRGL_TRANSFER_TO_HOST gs hms q) r' g')
    (count plane : Nat) (hN : plane + count = N) (s t : PlaneState)
    (hat : s.host_plane_offset = host_plane_offset_at bo plane)
    (hgt : s.guest_plane_offset = guest_plane_offset_at bo layout gs plane)
    (hio : s.iovecs = G)
    (hrun : plane_loop bo layout info VIRGL_TRANSFER_TO_HOST gs hms count plane s = some t) :
    t.iovecs = G ∧
    (∀ p r g, plane ≤ p → p < N →
      RowCopies (sweep_args_at bo layout info VIRGL_TRANSFER_TO_HOST gs hms p) G r g →
      (∀ r' g', r < r' →
        RowCopies (sweep_args_at bo layout info VIRGL_TRANSFER_TO_HOST gs hms p) G r' g' →
        host_addr (sweep_args_at bo layout info VIRGL_TRANSFER_TO_HOST gs hms p) r' g' ≠
          host_addr (sweep_args_at bo layout info VIRGL_TRANSFER_TO_HOST gs hms p) r g) →
      some (t.host
        (host_addr (sweep_args_at bo layout info VIRGL_TRANSFER_TO_HOST gs hms p) r g)) =
        guest_byte G g) ∧
    (∀ h, (∀ p r g, plane ≤ p → p < N →
        RowCopies (sweep_args_at bo layout info VIRGL_TRANSFER_TO_HOST gs hms p) G r g →
        h ≠ host_addr (sweep_args_at bo layout info VIRGL_TRANSFER_TO_HOST gs hms p) r g) →
      t.host h = s.host h) := by
  induction count generalizing plane s with
  | zero =>
    simp only [plane_loop, Option.some.injEq] at hrun
    subst hrun
    exact ⟨hio, fun p r g h1 h2 => by omega, fun _ _ => rfl⟩
  | succ n ih =>
    simp only [plane_loop, plane_step] at hrun
    split at hrun
    · exact absurd hrun (by simp)
    · rename_i s1 hs1
      split at hs1
      · exact absurd hs1 (by simp)
      · simp only [Option.some.injEq] at hs1
        subst hs1
        have ha : plane_args bo layout info VIRGL_TRANSFER_TO_HOST gs hms plane
            s.host_plane_offset s.guest_plane_offset =
            { sweep_args_at bo layout info VIRGL_TRANSFER_TO_HOST gs hms plane with
              direction := VIRGL_TRANSFER_TO_HOST } := by
          rw [hat, hgt]; rfl
        rw [ha] at hrun
        obtain ⟨t1, t2, t3⟩ := transfer_internal_to_host_rows
          (sweep_args_at bo layout info VIRGL_TRANSFER_TO_HOST gs hms plane) G s.iovecs s.host
          (by rw [hio]) hpos (hnw plane (by omega))
        obtain ⟨i1, i2, i3⟩ := ih (plane + 1) (by omega) _
          (by simp only [host_plane_offset_at, hat])
          (by simp only [guest_plane_offset_at, hgt, sweep_args_at, plane_args])
          (t1.trans hio) hrun
        simp only at i3
        refine ⟨i1, ?_, ?_⟩
        · intro p r g hp1 hp2 hc hlater
          by_cases hpp : p = plane
          · subst hpp
            rw [i3, t2 r g hc hlater, hio]
            intro q r' g' hq1 hq2 hc'
            exact hdisj p q r g r' g' (by omega) hq2 hc hc'
          · exact i2 p r g (by omega) hp2 hc hlater
        · intro h hh
          rw [i3 h (fun p r g hp1 hp2 hc => hh p r g (by omega) hp2 hc)]
          exact t3 h (fun r g hc => hh plane r g (le_refl _) (by omega) hc)

/-- The plane loop towards the guest: a guest byte holds the host byte of the
last row of the last plane that copies it; guest bytes no plane copies keep
their value. -/
theorem plane_loop_to_guest (bo : gbm_bo) (layout : planar_layout)
    (info : vrend_transfer_info) (d : Nat) (hd : d ≠ VIRGL_TRANSFER_TO_HOST)
    (gs hms : Nat) (G : List iovec)
    (hpos : ∀ v ∈ G, 0 < v.iov_len) (N : Nat)
    (hnw : ∀ p, p < N →
      NoWrap (sweep_args_at bo layout info VIRGL_TRANSFER_TO_HOST gs hms p) G)
    (count plane : Nat) (hN : plane + count = N) (s t : PlaneState)
    (hat : s.host_plane_offset = host_plane_offset_at bo plane)
    (hgt : s.guest_plane_offset = guest_plane_offset_at bo layout gs plane)
    (hio : s.iovecs.map iovec.iov_len = G.map iovec.iov_len)
    (hrun : plane_loop bo layout info d gs hms count plane s = some t) :
    t.host = s.host ∧
    (∀ p r g, plane ≤ p → p < N →
      RowCopies (sweep_args_at bo layout info VIRGL_TRANSFER_TO_HOST gs hms p) G r g →
      (∀ r', r < r' →
        ¬ RowCopies (sweep_args_at bo layout info VIRGL_TRANSFER_TO_HOST gs hms p) G r' g) →
      (∀ q r', p < q → q < N →
        ¬ RowCopies (sweep_args_at bo layout info VIRGL_TRANSFER_TO_HOST gs hms q) G r' g) →
      guest_byte t.iovecs g = some (s.host
        (host_addr (sweep_args_at bo layout info VIRGL_TRANSFER_TO_HOST gs hms p) r g))) ∧
    (∀ g, (∀ p r, plane ≤ p → p < N →
        ¬ RowCopies (sweep_args_at bo layout info VIRGL_TRANSFER_TO_HOST gs hms p) G r g) →
      guest_byte t.iovecs g = guest_byte s.iovecs g) := by
  induction count generalizing plane s with
  | zero =>
    simp only [plane_loop, Option.some.injEq] at hrun
    subst hrun
    exact ⟨rfl, fun p r g h1 h2 => by omega, fun _ _ => rfl⟩
  | succ n ih =>
    simp only [plane_loop, plane_step] at hrun
    split at hrun
    · exact absurd hrun (by simp)
    · rename_i s1 hs1
      split at hs1
      · exact absurd hs1 (by simp)
      · simp only [Option.some.injEq] at hs1
        subst hs1
        have ha : plane_args bo layout info d gs hms plane
            s.host_plane_offset s.guest_plane_offset =
            { sweep_args_at bo layout info VIRGL_TRANSFER_TO_HOST gs hms plane with
              direction := d } := by
          rw [hat, hgt]; rfl
        rw [ha] at hrun
        obtain ⟨t1, t2, t3⟩ := transfer_internal_to_guest_rows
          (sweep_args_at bo layout info VIRGL_TRANSFER_TO_HOST gs hms plane) d hd G s.iovecs
          s.host hio hpos (hnw plane (by omega))
        obtain ⟨i1, i2, i3⟩ := ih (plane + 1) (by omega) _
          (by simp only [host_plane_offset_at, hat])
          (by simp only [guest_plane_offset_at, hgt, sweep_args_at, plane_args])
          ((transfer_internal_lens _ _ _).trans hio) hrun
        simp only at i1 i2 i3
        refine ⟨by rw [i1, t1], ?_, ?_⟩
        · intro p r g hp1 hp2 hc hlast hlater
          by_cases hpp : p = plane
          · subst hpp
            rw [i3 g (fun q r' hq1 hq2 => hlater q r' (by omega) hq2), t2 r g hc hlast]
          · rw [i2 p r g (by omega) hp2 hc hlast hlater, t1]
        · intro g hg
          rw [i3 g (fun p r hp1 hp2 => hg p r (by omega) hp2)]
          exact t3 g (fun r => hg plane r (le_refl _) (by omega))

/-! ### The round trip -/

/-- The transfer is defined whenever the buffer has no more planes than the
layout of its format. -/
theorem transfer_defined (bo : gbm_bo) (layout : planar_layout) (direction : Nat)
    (host : HostMem) (iovecs : List iovec) (info : vrend_transfer_info)
    (hl : layout_from_format bo.format = some layout)
    (hpc : bo.plane_count ≤ layout.num_planes) :
    ∃ r, virgl_gbm_transfer bo direction host iovecs info = some r := by
  simp only [virgl_gbm_transfer, hl]
  cases hm : bo.map_stride with
  | none => exact ⟨_, rfl⟩
  | some hms =>
    simp only [transfer_mapped]
    split
    · exact ⟨_, rfl⟩
    · split
      · exact ⟨_, rfl⟩
      · obtain ⟨s', hs'⟩ := plane_loop_isSome bo layout info direction
          (resolve_guest_stride0 info (calc_stride0 bo layout)) hms bo.plane_count.toNat 0
          ⟨0, 0, host, iovecs, []⟩
          (fun p _ hp => layout_divisors_pos bo.format layout hl p (by omega))
        rw [hs']
        exact ⟨_, rfl⟩


theorem zeroed_lens (iovecs : List iovec) :
    (zeroed iovecs).map iovec.iov_len = iovecs.map iovec.iov_len := by
  simp [zeroed, iovec.iov_len, Function.comp_def]

/-- C2 (amended). Round trip. For a supported format and a request that
passes the validation, with segments of positive length, no 32-bit wraparound
and the host byte ranges of different planes disjoint, a ToHost transfer
followed by a transfer in the other direction with the same request into a
zeroed guest buffer of the same geometry returns 0 and reproduces every guest
byte of the transferred region (every column byte of every row of the box in
every plane, as far as the segments reach). -/
theorem transfer_round_trip (bo : gbm_bo) (layout : planar_layout) (d : Nat)
    (host : HostMem) (iovecs : List iovec) (info : vrend_transfer_info) (hms : Nat)
    (r1 r2 : TransferResult)
    (hl : layout_from_format bo.format = some layout) (hm : bo.map_stride = some hms)
    (hd : d ≠ VIRGL_TRANSFER_TO_HOST)
    (hpos : ∀ v ∈ iovecs, 0 < v.iov_len)
    (hnw : ∀ p < bo.plane_count.toNat, NoWrap (transfer_args bo layout info hms p) iovecs)
    (hdisj : ∀ q < bo.plane_count.toNat, ∀ p < q,
      HostDisjoint (transfer_args bo layout info hms p) (transfer_args bo layout info hms q))
    (h1 : virgl_gbm_transfer bo VIRGL_TRANSFER_TO_HOST host iovecs info = some r1)
    (hret : r1.ret = 0)
    (h2 : virgl_gbm_transfer bo d r1.host (zeroed iovecs) info = some r2) :
    r2.ret = 0 ∧
    ∀ p < bo.plane_count.toNat,
      ∀ r < (transfer_args bo layout info hms p).subsampled_height,
      ∀ c < row_bytes (transfer_args bo layout info hms p),
        row_start (transfer_args bo layout info hms p) r + c < total_len iovecs →
        guest_byte r2.iovecs (row_start (transfer_args bo layout info hms p) r + c) =
          guest_byte iovecs (row_start (transfer_args bo layout info hms p) r + c) := by
  simp only [virgl_gbm_transfer, hl, hm] at h1 h2
  rcases transfer_mapped_some _ _ _ _ _ _ _ _ _ h1 with
    ⟨e, _⟩ | ⟨_, hv1, hv2, _, _, s, hs, hsh, _, _⟩
  · rw [hret] at e; exact absurd e (by decide)
  rcases transfer_mapped_some _ _ _ _ _ _ _ _ _ h2 with
    ⟨_, _, _, _, _, _, hbad⟩ | ⟨hret2, _, _, _, _, s', hs', _, hsi', _⟩
  · omega
  refine ⟨hret2, ?_⟩
  intro p hp r hr c hc hg
  have hdisj' : ∀ p q r g r' g', p < q → q < bo.plane_count.toNat →
      RowCopies (transfer_args bo layout info hms p) iovecs r g →
      RowCopies (transfer_args bo layout info hms q) iovecs r' g' →
      host_addr (transfer_args bo layout info hms p) r g ≠
        host_addr (transfer_args bo layout info hms q) r' g' := by
    intro p q r g r' g' hpq hq hc1 hc2
    obtain ⟨a1, a2, a3, _, _⟩ := hc1
    obtain ⟨b1, b2, b3, _, _⟩ := hc2
    exact hdisj q hq p hpq r a1 (g - row_start (transfer_args bo layout info hms p) r)
      (by omega) r' b1 (g' - row_start (transfer_args bo layout info hms q) r') (by omega)
  obtain ⟨_, H1, _⟩ := plane_loop_to_host bo layout info _ hms iovecs hpos
    bo.plane_count.toNat hnw hdisj' bo.plane_count.toNat 0 (by omega) _ s rfl rfl rfl hs
  obtain ⟨G0, G1, _⟩ := plane_loop_to_guest bo layout info d hd _ hms iovecs hpos
    bo.plane_count.toNat hnw bo.plane_count.toNat 0 (by omega) _ s' rfl rfl
    (zeroed_lens iovecs) hs'
  simp only at G0 G1
  -- the last plane, and in it the last row, that copies the byte
  obtain ⟨q, hq, ⟨rq, hrq⟩, hqmax⟩ := exists_max_below
    (fun q => ∃ r', RowCopies (transfer_args bo layout info hms q) iovecs r'
      (row_start (transfer_args bo layout info hms p) r + c))
    bo.plane_count.toNat
    ⟨p, hp, row_copies_of_in_row _ iovecs hpos (hnw p hp) r c hr hc hg⟩
  obtain ⟨rl, hrl, hlast⟩ := exists_last_row _ iovecs _ ⟨rq, hrq⟩
  rw [hsi', G1 q rl _ (Nat.zero_le _) hq hrl hlast
    (fun q' r' h1 h2 hc' => hqmax q' h1 h2 ⟨r', hc'⟩), hsh]
  exact H1 q rl _ (Nat.zero_le _) hq hrl
    (last_row_host_safe _ iovecs (sweep_args_at_strides bo layout info _ _ hms q hv2) rl _ hrl
      hlast)

/-- Witness for C2: the NV12 buffer of 2x4 pixels with its twelve guest bytes
in two segments; the byte at logical offset 9, first byte of the second
chroma row, comes back. -/
theorem transfer_round_trip_witness :
    ∃ r1 r2,
      virgl_gbm_transfer ex_nv12_bo VIRGL_TRANSFER_TO_HOST ex_host ex_nv12_split
        ex_nv12_info = some r1 ∧
      virgl_gbm_transfer ex_nv12_bo VIRGL_TRANSFER_FROM_HOST r1.host (zeroed ex_nv12_split)
        ex_nv12_info = some r2 ∧
      r2.ret = 0 ∧
      guest_byte r2.iovecs
          (row_start (transfer_args ex_nv12_bo biplanar_yuv_420_layout ex_nv12_info 4 1) 1 + 0) =
        guest_byte ex_nv12_split
          (row_start (transfer_args ex_nv12_bo biplanar_yuv_420_layout ex_nv12_info 4 1) 1 + 0) :=
  by
  obtain ⟨r1, h1⟩ := transfer_defined ex_nv12_bo biplanar_yuv_420_layout
    VIRGL_TRANSFER_TO_HOST ex_host ex_nv12_split ex_nv12_info (by decide) (by decide)
  obtain ⟨r2, h2⟩ := transfer_defined ex_nv12_bo biplanar_yuv_420_layout
    VIRGL_TRANSFER_FROM_HOST r1.host (zeroed ex_nv12_split) ex_nv12_info (by decide)
    (by decide)
  have hret : r1.ret = 0 := by
    have e : (virgl_gbm_transfer ex_nv12_bo VIRGL_TRANSFER_TO_HOST ex_host ex_nv12_split
        ex_nv12_info).map (fun r => r.ret) = some 0 := by decide
    rw [h1] at e
    exact Option.some.inj e
  have h := transfer_round_trip ex_nv12_bo biplanar_yuv_420_layout VIRGL_TRANSFER_FROM_HOST
    ex_host ex_nv12_split ex_nv12_info 4 r1 r2 (by decide) rfl (by decide) (by decide)
    (by decide) (by decide) h1 hret h2
  exact ⟨r1, r2, h1, h2, h.1, h.2 1 (by decide) 1 (by decide) 0 (by decide) (by decide)⟩

/-- Counterexample to C2 as stated. First, an R8 buffer of 2x1 pixels whose
two guest bytes lie in segments separated by an empty segment: both
transfers return 0, and the second byte of the row (logical offset 1) comes
back as 0, not 9. Second, an NV12 buffer of 2x2 pixels and a box of 3x4
pixels at x = 1, which reaches beyond the buffer: both transfers return 0,
the byte of row 2, column 2 of plane 0 (logical offset 7) is written to host
offset 11, the chroma plane then writes the byte of offset 6 there, and the
byte comes back as 46, not 53. -/
theorem transfer_round_trip_counterexample :
    round_trip (ex_bo GBM_FORMAT_R8 2 1 1 [0] [] (some 2)) ex_host [⟨[7]⟩, ⟨[]⟩, ⟨[9]⟩]
      ⟨0, 0, 0, ⟨0, 0, 2, 1⟩⟩ = some (0, 0, [7, 0]) ∧
    guest_bytes [⟨[7]⟩, ⟨[]⟩, ⟨[9]⟩] = [7, 9] ∧
    row_start (transfer_args (ex_bo GBM_FORMAT_R8 2 1 1 [0] [] (some 2)) packed_1bpp_layout
      ⟨0, 0, 0, ⟨0, 0, 2, 1⟩⟩ 2 0) 0 + 1 = 1 ∧
    round_trip ex_small_nv12_bo ex_host ex_eight ex_outside_info =
      some (0, 0, [0, 11, 18, 25, 32, 39, 46, 46]) ∧
    guest_bytes ex_eight = [4, 11, 18, 25, 32, 39, 46, 53] ∧
    (∀ v ∈ ex_eight, 0 < v.iov_len) ∧
    2 < (transfer_args ex_small_nv12_bo biplanar_yuv_420_layout ex_outside_info 4
      0).subsampled_height ∧
    2 < row_bytes (transfer_args ex_small_nv12_bo biplanar_yuv_420_layout ex_outside_info 4 0) ∧
    row_start (transfer_args ex_small_nv12_bo biplanar_yuv_420_layout ex_outside_info 4 0) 2 +
      2 = 7 := by
  decide

/-! ### Claims about the validation, the mapping and the export -/

theorem calc_stride0_eq (bo : gbm_bo) (layout : planar_layout)
    (h : bo.width * layout.bytes_per_pixel.getD 0 0 < 4294967296) :
    calc_stride0 bo layout = bo.width * layout.bytes_per_pixel.getD 0 0 := by
  rw [calc_stride0, u32_eq_self h]

/-- C4. Stride rejection. For a buffer with a supported format whose mapping
succeeds, if the resolved plane-0 guest stride is strictly less than
`width * bytes_per_pixel[0]` (the 32-bit product `calc_stride0` the code
compares with, which is the product itself whenever that fits 32 bits, see
`calc_stride0_eq`) or strictly greater than the host-mapped stride,
`virgl_gbm_transfer` returns -1, makes no copy and leaves host and guest
memory as they were. -/
theorem transfer_stride_rejection (bo : gbm_bo) (layout : planar_layout) (direction : Nat)
    (host : HostMem) (iovecs : List iovec) (info : vrend_transfer_info) (hms : Nat)
    (hl : layout_from_format bo.format = some layout) (hm : bo.map_stride = some hms)
    (h : resolve_guest_stride0 info (calc_stride0 bo layout) < calc_stride0 bo layout ∨
      hms < resolve_guest_stride0 info (calc_stride0 bo layout)) :
    ∃ r, virgl_gbm_transfer bo direction host iovecs info = some r ∧ r.ret = -1 ∧
      r.host = host ∧ r.iovecs = iovecs ∧ r.log = [] := by
  simp only [virgl_gbm_transfer, hl, hm, transfer_mapped]
  by_cases h1 : resolve_guest_stride0 info (calc_stride0 bo layout) < calc_stride0 bo layout
  · rw [if_pos h1]; exact ⟨_, rfl, rfl, rfl, rfl, rfl⟩
  · rw [if_neg h1, if_pos (by tauto)]; exact ⟨_, rfl, rfl, rfl, rfl, rfl⟩

/-- Witness for C4: an R8 buffer 4 pixels wide, mapped with stride 4, and a
request with the explicit stride 2. -/
theorem transfer_stride_rejection_witness :
    ∃ r, virgl_gbm_transfer (ex_bo GBM_FORMAT_R8 4 1 1 [0] [] (some 4)) VIRGL_TRANSFER_TO_HOST
        ex_host ex_sweep_iovecs ⟨0, 2, 0, ⟨0, 0, 4, 1⟩⟩ = some r ∧ r.ret = -1 ∧
      r.host = ex_host ∧ r.iovecs = ex_sweep_iovecs ∧ r.log = [] :=
  transfer_stride_rejection (ex_bo GBM_FORMAT_R8 4 1 1 [0] [] (some 4)) packed_1bpp_layout
    VIRGL_TRANSFER_TO_HOST ex_host ex_sweep_iovecs ⟨0, 2, 0, ⟨0, 0, 4, 1⟩⟩ 4 (by decide) rfl
    (by decide)

/-- C5 (amended). Stride acceptance at the bounds. For a buffer with a
supported format whose mapping succeeds, whose plane count does not exceed
the planes of the layout and whose computed minimal stride is at most the
host-mapped stride, a request whose guest stride equals the minimal stride or
equals the host-mapped stride makes `virgl_gbm_transfer` return 0. -/
theorem transfer_stride_acceptance (bo : gbm_bo) (layout : planar_layout) (direction : Nat)
    (host : HostMem) (iovecs : List iovec) (info : vrend_transfer_info) (hms : Nat)
    (hl : layout_from_format bo.format = some layout) (hm : bo.map_stride = some hms)
    (hpc : bo.plane_count ≤ layout.num_planes)
    (hcons : calc_stride0 bo layout ≤ hms)
    (h : resolve_guest_stride0 info (calc_stride0 bo layout) = calc_stride0 bo layout ∨
      resolve_guest_stride0 info (calc_stride0 bo layout) = hms) :
    ∃ r, virgl_gbm_transfer bo direction host iovecs info = some r ∧ r.ret = 0 := by
  simp only [virgl_gbm_transfer, hl, hm, transfer_mapped]
  rw [if_neg (by omega), if_neg (by omega)]
  obtain ⟨s', hs'⟩ := plane_loop_isSome bo layout info direction
    (resolve_guest_stride0 info (calc_stride0 bo layout)) hms bo.plane_count.toNat 0
    ⟨0, 0, host, iovecs, []⟩
    (fun p _ hp => layout_divisors_pos bo.format layout hl p (by omega))
  rw [hs']
  exact ⟨_, rfl, rfl⟩

/-- Witness for C5: an R8 buffer 4 pixels wide mapped with stride 8 and a
request with the explicit stride 4. -/
theorem transfer_stride_acceptance_witness :
    ∃ r, virgl_gbm_transfer (ex_bo GBM_FORMAT_R8 4 1 1 [0] [] (some 8)) VIRGL_TRANSFER_TO_HOST
        ex_host ex_sweep_iovecs ⟨0, 4, 0, ⟨0, 0, 4, 1⟩⟩ = some r ∧ r.ret = 0 :=
  transfer_stride_acceptance (ex_bo GBM_FORMAT_R8 4 1 1 [0] [] (some 8)) packed_1bpp_layout
    VIRGL_TRANSFER_TO_HOST ex_host ex_sweep_iovecs ⟨0, 4, 0, ⟨0, 0, 4, 1⟩⟩ 8 (by decide) rfl
    (by decide) (by decide) (by decide)

/-- Counterexample to C5 as stated: an R8 buffer 8 pixels wide whose mapping
reports the stride 4. The request's stride 8 is exactly
`width * bytes_per_pixel[0]`, yet the transfer returns -1 (second validation
test). And an ARGB8888 buffer that reports two planes: the guest stride is
exactly the host-mapped stride, yet the plane loop divides by the zero
subsampling factor of a plane the layout does not have. -/
theorem transfer_stride_acceptance_counterexample :
    resolve_guest_stride0 ⟨0, 8, 0, ⟨0, 0, 8, 1⟩⟩
      (calc_stride0 (ex_bo GBM_FORMAT_R8 8 1 1 [0] [] (some 4)) packed_1bpp_layout) =
      8 * packed_1bpp_layout.bytes_per_pixel.getD 0 0 ∧
    (virgl_gbm_transfer (ex_bo GBM_FORMAT_R8 8 1 1 [0] [] (some 4)) VIRGL_TRANSFER_TO_HOST
      ex_host ex_sweep_iovecs ⟨0, 8, 0, ⟨0, 0, 8, 1⟩⟩).map (fun r => r.ret) = some (-1) ∧
    resolve_guest_stride0 ⟨0, 8, 0, ⟨0, 0, 2, 1⟩⟩
      (calc_stride0 (ex_bo GBM_FORMAT_ARGB8888 2 1 2 [0, 8] [] (some 8)) packed_4bpp_layout) =
      8 ∧
    (virgl_gbm_transfer (ex_bo GBM_FORMAT_ARGB8888 2 1 2 [0, 8] [] (some 8))
      VIRGL_TRANSFER_TO_HOST ex_host ex_sweep_iovecs ⟨0, 8, 0, ⟨0, 0, 2, 1⟩⟩).isNone = true := by
  decide

/-- C6 (amended). Guest stride resolution. In `virgl_gbm_transfer` the
plane-0 guest stride that is validated and used is the request's explicit
stride when that is nonzero; otherwise the level value, converted to
`uint32_t`, when the level is positive; otherwise (level zero or negative)
`width * bytes_per_pixel[0]`. -/
theorem transfer_guest_stride_resolution (bo : gbm_bo) (layout : planar_layout)
    (direction : Nat) (host : HostMem) (iovecs : List iovec) (info : vrend_transfer_info)
    (hms : Nat)
    (hl : layout_from_format bo.format = some layout) (hm : bo.map_stride = some hms) :
    virgl_gbm_transfer bo direction host iovecs info =
      transfer_mapped bo layout direction host iovecs info hms
        (if info.stride ≠ 0 then info.stride
         else if 0 < info.level then u32_of_int info.level
         else calc_stride0 bo layout) := by
  simp only [virgl_gbm_transfer, hl, hm, resolve_guest_stride0]
  by_cases h : info.stride = 0 <;> simp [h]

/-- Witness for C6: a request without explicit stride whose level is 6. -/
theorem transfer_guest_stride_resolution_witness :
    virgl_gbm_transfer (ex_bo GBM_FORMAT_R8 4 1 1 [0] [] (some 8)) VIRGL_TRANSFER_TO_HOST
        ex_host ex_sweep_iovecs ⟨6, 0, 0, ⟨0, 0, 4, 1⟩⟩ =
      transfer_mapped (ex_bo GBM_FORMAT_R8 4 1 1 [0] [] (some 8)) packed_1bpp_layout
        VIRGL_TRANSFER_TO_HOST ex_host ex_sweep_iovecs ⟨6, 0, 0, ⟨0, 0, 4, 1⟩⟩ 8
        (if (0 : Nat) ≠ 0 then 0 else if (0 : Int) < 6 then u32_of_int 6
         else calc_stride0 (ex_bo GBM_FORMAT_R8 4 1 1 [0] [] (some 8)) packed_1bpp_layout) :=
  transfer_guest_stride_resolution (ex_bo GBM_FORMAT_R8 4 1 1 [0] [] (some 8))
    packed_1bpp_layout VIRGL_TRANSFER_TO_HOST ex_host ex_sweep_iovecs ⟨6, 0, 0, ⟨0, 0, 4, 1⟩⟩ 8
    (by decide) rfl

/-- Counterexample to C6 as stated: a request without explicit stride whose
level is -1. The level is nonzero, so the claim's resolution
(`spec_guest_stride0`) gives the level reinterpreted, 4294967295, which the
validation would reject; the code tests `level > 0`, resolves the stride to
`width * bytes_per_pixel[0] = 4` and returns 0. -/
theorem transfer_guest_stride_resolution_counterexample :
    spec_guest_stride0 ⟨-1, 0, 0, ⟨0, 0, 4, 1⟩⟩
      (calc_stride0 (ex_bo GBM_FORMAT_R8 4 1 1 [0] [] (some 8)) packed_1bpp_layout) =
      4294967295 ∧
    resolve_guest_stride0 ⟨-1, 0, 0, ⟨0, 0, 4, 1⟩⟩
      (calc_stride0 (ex_bo GBM_FORMAT_R8 4 1 1 [0] [] (some 8)) packed_1bpp_layout) = 4 ∧
    (transfer_mapped (ex_bo GBM_FORMAT_R8 4 1 1 [0] [] (some 8)) packed_1bpp_layout
      VIRGL_TRANSFER_TO_HOST ex_host ex_sweep_iovecs ⟨-1, 0, 0, ⟨0, 0, 4, 1⟩⟩ 8
      (spec_guest_stride0 ⟨-1, 0, 0, ⟨0, 0, 4, 1⟩⟩
        (calc_stride0 (ex_bo GBM_FORMAT_R8 4 1 1 [0] [] (some 8)) packed_1bpp_layout))).map
      (fun r => r.ret) = some (-1) ∧
    (virgl_gbm_transfer (ex_bo GBM_FORMAT_R8 4 1 1 [0] [] (some 8)) VIRGL_TRANSFER_TO_HOST
      ex_host ex_sweep_iovecs ⟨-1, 0, 0, ⟨0, 0, 4, 1⟩⟩).map (fun r => r.ret) = some 0 := by
  decide

/-- C9 (the defect). When the buffer is mapped and the stride validation
fails, `virgl_gbm_transfer` returns -1 with the buffer mapped once and
unmapped not at all. -/
theorem transfer_validation_failure_not_unmapped (bo : gbm_bo) (layout : planar_layout)
    (direction : Nat) (host : HostMem) (iovecs : List iovec) (info : vrend_transfer_info)
    (hms : Nat)
    (hl : layout_from_format bo.format = some layout) (hm : bo.map_stride = some hms)
    (h : resolve_guest_stride0 info (calc_stride0 bo layout) < calc_stride0 bo layout ∨
      hms < resolve_guest_stride0 info (calc_stride0 bo layout)) :
    ∃ r, virgl_gbm_transfer bo direction host iovecs info = some r ∧ r.ret = -1 ∧
      r.maps = 1 ∧ r.unmaps = 0 := by
  simp only [virgl_gbm_transfer, hl, hm, transfer_mapped]
  by_cases h1 : resolve_guest_stride0 info (calc_stride0 bo layout) < calc_stride0 bo layout
  · rw [if_pos h1]; exact ⟨_, rfl, rfl, rfl, rfl⟩
  · rw [if_neg h1, if_pos (by tauto)]; exact ⟨_, rfl, rfl, rfl, rfl⟩

/-- Failing input of C9: an R8 buffer 4 pixels wide, mapped with stride 4,
and a request with the explicit stride 2. -/
theorem transfer_validation_failure_not_unmapped_witness :
    ∃ r, virgl_gbm_transfer (ex_bo GBM_FORMAT_R8 4 1 1 [0] [] (some 4)) VIRGL_TRANSFER_TO_HOST
        ex_host ex_sweep_iovecs ⟨0, 2, 0, ⟨0, 0, 4, 1⟩⟩ = some r ∧ r.ret = -1 ∧
      r.maps = 1 ∧ r.unmaps = 0 :=
  transfer_validation_failure_not_unmapped (ex_bo GBM_FORMAT_R8 4 1 1 [0] [] (some 4))
    packed_1bpp_layout VIRGL_TRANSFER_TO_HOST ex_host ex_sweep_iovecs ⟨0, 2, 0, ⟨0, 0, 4, 1⟩⟩ 4
    (by decide) rfl (by decide)

/-- C10 (the defect). For a buffer with two planes that report the same
nonzero handle, an export with descriptors requested and every resolution
succeeding returns 0 with `out_num_fds = 2`, having resolved the handle
twice: the local `handles` array is never written and the search compares
`handles[out_num_fds]`, which is always 0. -/
theorem export_shared_handle_not_deduplicated (bo : gbm_bo)
    (prime : Nat → Nat → PrimeResult) (query : virgl_renderer_export_query) (h : Nat)
    (hpc : bo.plane_count = 2) (h0 : bo.handle_for_plane 0 = h)
    (h1 : bo.handle_for_plane 1 = h) (hne : h ≠ 0) (hin : query.in_export_fds ≠ 0)
    (hp : ∀ n x, (prime n x).ret = 0) :
    (virgl_gbm_export_query bo prime query).1 = 0 ∧
    (virgl_gbm_export_query bo prime query).2.query.out_num_fds = 2 ∧
    (virgl_gbm_export_query bo prime query).2.resolved = [h, h] := by
  have hne' : ¬ (0 = h) := fun e => hne e.symm
  simp [virgl_gbm_export_query, hpc, export_loop, export_plane, find_handle, h0, h1, hin, hp,
    hne']

/-- Failing input of C10: an NV12 buffer whose two planes report handle 7. -/
theorem export_shared_handle_not_deduplicated_witness :
    (virgl_gbm_export_query (ex_bo GBM_FORMAT_NV12 4 4 2 [0, 16] [7, 7] (some 4))
      (fun n _ => ⟨0, 10 + n⟩) ⟨1, 0, [], [], [], 0, 0⟩).1 = 0 ∧
    (virgl_gbm_export_query (ex_bo GBM_FORMAT_NV12 4 4 2 [0, 16] [7, 7] (some 4))
      (fun n _ => ⟨0, 10 + n⟩) ⟨1, 0, [], [], [], 0, 0⟩).2.query.out_num_fds = 2 ∧
    (virgl_gbm_export_query (ex_bo GBM_FORMAT_NV12 4 4 2 [0, 16] [7, 7] (some 4))
      (fun n _ => ⟨0, 10 + n⟩) ⟨1, 0, [], [], [], 0, 0⟩).2.resolved = [7, 7] :=
  export_shared_handle_not_deduplicated (ex_bo GBM_FORMAT_NV12 4 4 2 [0, 16] [7, 7] (some 4))
    (fun n _ => ⟨0, 10 + n⟩) ⟨1, 0, [], [], [], 0, 0⟩ 7 rfl rfl rfl (by decide) (by decide)
    (fun _ _ => rfl)

/-- Witness for C7: the second copy of a sweep over two segments. -/
theorem transfer_internal_segment_bounds_witness :
    (⟨1, 1, 2, 2⟩ : CopyOp) ∈
      (virgl_gbm_transfer_internal (ex_sweep_args VIRGL_TRANSFER_FROM_HOST) ex_host
        ex_sweep_iovecs).log ∧
    (1 < ex_sweep_iovecs.length ∧ 0 < 2 ∧
      1 + 2 ≤ (ex_sweep_iovecs.getD 1 ⟨[]⟩).iov_len) :=
  ⟨by decide, transfer_internal_segment_bounds (ex_sweep_args VIRGL_TRANSFER_FROM_HOST) ex_host
    ex_sweep_iovecs ⟨1, 1, 2, 2⟩ (by decide)⟩

/-- Witness for C8: the first row of a full-buffer transfer of a 2x2 R8
buffer. -/
theorem transfer_host_bounds_plane0_witness :
    CopyOp.in_host_plane (ex_bo GBM_FORMAT_R8 2 2 1 [0] [] (some 2)) packed_1bpp_layout 2 0
      ⟨0, 0, 0, 2⟩ :=
  transfer_host_bounds_plane0 (ex_bo GBM_FORMAT_R8 2 2 1 [0] [] (some 2)) packed_1bpp_layout
    VIRGL_TRANSFER_TO_HOST ex_host [⟨[1, 2, 3, 4]⟩] ⟨0, 0, 0, ⟨0, 0, 2, 2⟩⟩ 2
    ((virgl_gbm_transfer (ex_bo GBM_FORMAT_R8 2 2 1 [0] [] (some 2)) VIRGL_TRANSFER_TO_HOST
      ex_host [⟨[1, 2, 3, 4]⟩] ⟨0, 0, 0, ⟨0, 0, 2, 2⟩⟩).get (by decide))
    (by decide) rfl (Option.some_get _).symm (by decide) (by decide) (by decide) (by decide)
    ⟨0, 0, 0, 2⟩ (by decide)

/-- Counterexample to C8 as stated. First, an R8 buffer of 1x1 pixel mapped
with stride 1, whose plane 0 is one byte at offset 0, and a box at `y = 1`:
the request passes the stride validation, the transfer returns 0, and its
one copy writes the host byte at offset 1, outside the plane. Second, a
YVU420 buffer of 2x2 pixels mapped with stride 2, planes at offsets 0, 4 and
5, and the box of the whole buffer: the copy for plane 2 is made at host
offset 9, the sum of the three offsets, outside the one byte of plane 2 at
offset 5. -/
theorem transfer_host_bounds_counterexample :
    (virgl_gbm_transfer (ex_bo GBM_FORMAT_R8 1 1 1 [0] [] (some 1)) VIRGL_TRANSFER_TO_HOST
      ex_host [⟨[1, 2]⟩] ⟨0, 0, 0, ⟨0, 1, 1, 1⟩⟩).map (fun r => (r.ret, r.log)) =
      some (0, [(0, ⟨0, 1, 1, 1⟩)]) ∧
    ¬ CopyOp.in_host_plane (ex_bo GBM_FORMAT_R8 1 1 1 [0] [] (some 1)) packed_1bpp_layout 1 0
      ⟨0, 1, 1, 1⟩ ∧
    (virgl_gbm_transfer (ex_bo GBM_FORMAT_YVU420 2 2 3 [0, 4, 5] [] (some 2))
      VIRGL_TRANSFER_TO_HOST ex_host [⟨[1, 2, 3, 4, 5, 6]⟩] ⟨0, 0, 0, ⟨0, 0, 2, 2⟩⟩).map
      (fun r => (r.ret, r.log)) =
      some (0, [(0, ⟨0, 0, 0, 2⟩), (0, ⟨0, 2, 2, 2⟩), (1, ⟨0, 4, 4, 1⟩), (2, ⟨0, 5, 9, 1⟩)]) ∧
    ¬ CopyOp.in_host_plane (ex_bo GBM_FORMAT_YVU420 2 2 3 [0, 4, 5] [] (some 2))
      triplanar_yuv_420_layout 2 2 ⟨0, 5, 9, 1⟩ := by
  decide

/-! ### The export loop -/

/-- Every entry of the local array `handles` is zero, since nothing is ever
stored in it. -/
theorem handles_getD (n : Nat) : ([0, 0, 0, 0] : List Nat).getD n 0 = 0 := by
  rcases n with _ | _ | _ | _ | _ | n <;> rfl

/-- The search for a handle other than 0 runs to the end. -/
theorem find_handle_nonzero (n handle : Nat) (hh : handle ≠ 0) (fuel i : Nat)
    (hi : i ≤ n) (hf : n - i ≤ fuel) : find_handle [0, 0, 0, 0] n handle fuel i = n := by
  induction fuel generalizing i with
  | zero => simp only [find_handle]; omega
  | succ fuel ih =>
    simp only [find_handle, handles_getD]
    have hne : ¬ (0 = handle) := fun e => hh e.symm
    by_cases hlt : i < n
    · rw [if_pos hlt, if_neg hne]
      exact ih (i + 1) (by omega) (by omega)
    · rw [if_neg hlt]; omega

/-- The search for handle 0 stops at once when a descriptor was counted. -/
theorem find_handle_zero (n : Nat) (hn : 0 < n) :
    find_handle [0, 0, 0, 0] n 0 n 0 = 0 := by
  obtain ⟨m, rfl⟩ : ∃ m, n = m + 1 := ⟨n - 1, by omega⟩
  simp only [find_handle]
  rw [if_pos hn, if_pos (handles_getD (m + 1))]

/-- The value of `i` after the search, in terms of the handle alone. -/
theorem find_handle_eq (n handle : Nat) :
    find_handle [0, 0, 0, 0] n handle n 0 = if handle = 0 ∧ 0 < n then 0 else n := by
  by_cases h : handle = 0
  · subst h
    by_cases hn : 0 < n
    · rw [find_handle_zero n hn]; simp [hn]
    · have : n = 0 := by omega
      subst this; simp [find_handle]
  · rw [find_handle_nonzero n handle h n 0 (by omega) (by omega)]; simp [h]

theorem getD_set_eq {α : Type} (l : List α) (i j : Nat) (v d : α) (hi : i < l.length) :
    (l.set i v).getD j d = if j = i then v else l.getD j d := by
  simp only [List.getD_eq_getElem?_getD, List.getElem?_set]
  by_cases h : j = i
  · subst h; simp [hi]
  · have h2 : ¬ (i = j) := fun e => h e.symm
    simp [h, h2]

theorem getD_append_left {α : Type} (l : List α) (x d : α) (k : Nat) (hk : k < l.length) :
    (l ++ [x]).getD k d = l.getD k d := by
  simp only [List.getD_eq_getElem?_getD, List.getElem?_append_left hk]

theorem getD_append_last {α : Type} (l : List α) (x d : α) :
    (l ++ [x]).getD l.length d = x := by
  simp [List.getD_eq_getElem?_getD]

/-- One iteration of the export loop keeps the invariant, or leaves for
`err_close` in a state that `ExportErr` describes. -/
theorem export_plane_inv (bo : gbm_bo) (prime : Nat → Nat → PrimeResult)
    (query : virgl_renderer_export_query) (plane : Nat) (s : ExportState) (hp : plane < 4)
    (hinv : ExportInv bo prime query plane s) :
    match export_plane bo prime [0, 0, 0, 0] plane s with
    | .ok s' => ExportInv bo prime query (plane + 1) s'
    | .error e => ExportErr prime e.1 e.2 := by
  have hsl := hinv.strides_len
  have hol := hinv.offsets_len
  have hfl := hinv.fds_len
  have hnl := hinv.num_le
  have hst : ∀ p, p < plane + 1 →
      (s.query.out_strides.set plane (bo.stride_for_plane plane)).getD p 0 =
        bo.stride_for_plane p := by
    intro p hpp
    rw [getD_set_eq _ _ _ _ _ (by omega)]
    by_cases h : p = plane
    · subst h; simp
    · rw [if_neg h]; exact hinv.strides_lo p (by omega)
  have hsh : ∀ p, plane + 1 ≤ p →
      (s.query.out_strides.set plane (bo.stride_for_plane plane)).getD p 0 = 0 := by
    intro p hpp
    rw [getD_set_eq _ _ _ _ _ (by omega), if_neg (by omega)]
    exact hinv.strides_hi p (by omega)
  have hot : ∀ p, p < plane + 1 →
      (s.query.out_offsets.set plane (bo.offset plane)).getD p 0 = bo.offset p := by
    intro p hpp
    rw [getD_set_eq _ _ _ _ _ (by omega)]
    by_cases h : p = plane
    · subst h; simp
    · rw [if_neg h]; exact hinv.offsets_lo p (by omega)
  have hoh : ∀ p, plane + 1 ≤ p →
      (s.query.out_offsets.set plane (bo.offset plane)).getD p 0 = 0 := by
    intro p hpp
    rw [getD_set_eq _ _ _ _ _ (by omega), if_neg (by omega)]
    exact hinv.offsets_hi p (by omega)
  simp only [export_plane, find_handle_eq]
  by_cases hnew : (if bo.handle_for_plane plane = 0 ∧ 0 < s.query.out_num_fds then 0
      else s.query.out_num_fds) = s.query.out_num_fds
  · rw [if_pos hnew]
    by_cases hin : s.query.in_export_fds ≠ 0
    · rw [if_pos hin]
      have hlen := hinv.resolved_len hin
      by_cases hret : (prime s.resolved.length (bo.handle_for_plane plane)).ret ≠ 0
      · rw [if_pos hret]
        refine ⟨hret, by simp only; omega, by simpa using hfl, by simpa using hsl,
          by simpa using hol, hinv.fds_tail, hinv.closed_nil, by simp [hlen], ?_, ?_⟩
        · simp only
          rw [← hlen, getD_append_last]
        · intro k hk
          simp only at hk ⊢
          rw [getD_append_left _ _ _ _ (by omega)]
          exact hinv.resolved_ok k (by omega)
      · rw [if_neg hret]
        have hret0 : (prime s.resolved.length (bo.handle_for_plane plane)).ret = 0 := by
          by_contra h; exact hret h
        refine ⟨hinv.in_export, by simp only; omega, by simpa using hfl, by simpa using hsl,
          by simpa using hol, ?_, hst, hsh, hot, hoh, hinv.closed_nil, ?_, ?_, ?_⟩
        · intro i hi
          simp only at hi ⊢
          rw [getD_set_eq _ _ _ _ _ (by omega), if_neg (by omega)]
          exact hinv.fds_tail i (by omega)
        · intro _; simp [hlen]
        · intro h0; exact absurd h0 hin
        · intro k hk
          simp only [List.length_append, List.length_singleton] at hk
          simp only
          rw [getD_set_eq _ _ _ _ _ (by omega)]
          by_cases hkl : k = s.resolved.length
          · subst hkl
            rw [getD_append_last, if_pos hlen]
            exact ⟨hret0, rfl⟩
          · rw [getD_append_left _ _ _ _ (by omega), if_neg (by omega)]
            exact hinv.resolved_ok k (by omega)
    · rw [if_neg hin]
      have hin0 : s.query.in_export_fds = 0 := by
        by_contra h; exact hin h
      refine ⟨hinv.in_export, by simp only; omega, by simpa using hfl, by simpa using hsl,
        by simpa using hol, ?_, hst, hsh, hot, hoh, hinv.closed_nil, ?_, ?_, ?_⟩
      · intro i hi
        exact hinv.fds_tail i (by simp only at hi; omega)
      · intro h; exact absurd hin0 h
      · intro _; exact hinv.resolved_none hin0
      · intro k hk
        rw [hinv.resolved_none hin0] at hk
        simp at hk
  · rw [if_neg hnew]
    refine ⟨hinv.in_export, by simp only; omega, by simpa using hfl, by simpa using hsl,
      by simpa using hol, hinv.fds_tail, hst, hsh, hot, hoh, hinv.closed_nil,
      hinv.resolved_len, hinv.resolved_none, hinv.resolved_ok⟩

/-- The export loop keeps the invariant up to its last plane, or leaves for
`err_close` in a state that `ExportErr` describes. -/
theorem export_loop_inv (bo : gbm_bo) (prime : Nat → Nat → PrimeResult)
    (query : virgl_renderer_export_query) (count plane : Nat) (s : ExportState)
    (hp : plane + count ≤ 4) (hinv : ExportInv bo prime query plane s) :
    match export_loop bo prime [0, 0, 0, 0] count plane s with
    | .ok s' => ExportInv bo prime query (plane + count) s'
    | .error e => ExportErr prime e.1 e.2 := by
  induction count generalizing plane s with
  | zero => simpa [export_loop] using hinv
  | succ count ih =>
    have h1 := export_plane_inv bo prime query plane s (by omega) hinv
    simp only [export_loop]
    cases hs : export_plane bo prime [0, 0, 0, 0] plane s with
    | error e => rw [hs] at h1; exact h1
    | ok s' =>
      rw [hs] at h1
      have h2 := ih (plane + 1) s' (by omega) h1
      have e : plane + 1 + count = plane + (count + 1) := by omega
      rw [e] at h2
      exact h2

/-- The state in which the export loop starts satisfies the invariant. -/
theorem export_inv_init (bo : gbm_bo) (prime : Nat → Nat → PrimeResult)
    (query : virgl_renderer_export_query) :
    ExportInv bo prime query 0
      ⟨{ query with
          out_num_fds := 0
          out_fourcc := 0
          out_modifier := 0
          out_fds := [-1, -1, -1, -1]
          out_strides := [0, 0, 0, 0]
          out_offsets := [0, 0, 0, 0] }, [], []⟩ := by
  refine ⟨rfl, Nat.le_refl _, rfl, rfl, rfl, ?_, ?_, ?_, ?_, ?_, rfl, fun _ => rfl,
    fun _ => rfl, ?_⟩
  · intro i _
    rcases i with _ | _ | _ | _ | _ | i <;> rfl
  · intro p hp; omega
  · intro p _; exact handles_getD p
  · intro p hp; omega
  · intro p _; exact handles_getD p
  · intro k hk; simp at hk

/-- The two ways an export with a plane count from 0 to 4 ends: the loop
runs through and the invariant holds for the last plane, or the loop leaves
for `err_close`. -/
theorem export_query_cases (bo : gbm_bo) (prime : Nat → Nat → PrimeResult)
    (query : virgl_renderer_export_query) (h0 : 0 ≤ bo.plane_count)
    (h4 : bo.plane_count ≤ 4) :
    (∃ s, ExportInv bo prime query bo.plane_count.toNat s ∧
      virgl_gbm_export_query bo prime query =
        (0, { s with query := { s.query with
                out_modifier := bo.modifier
                out_fourcc := bo.format } })) ∨
    (∃ ret s, ExportErr prime ret s ∧
      virgl_gbm_export_query bo prime query = (ret, err_close s)) := by
  have hc : ¬ (bo.plane_count < 0 ∨ bo.plane_count > 4) := by omega
  have h := export_loop_inv bo prime query bo.plane_count.toNat 0 _ (by omega)
    (export_inv_init bo prime query)
  simp only [virgl_gbm_export_query, if_neg hc]
  cases hs : export_loop bo prime [0, 0, 0, 0] bo.plane_count.toNat 0
      ⟨{ query with
          out_num_fds := 0
          out_fourcc := 0
          out_modifier := 0
          out_fds := [-1, -1, -1, -1]
          out_strides := [0, 0, 0, 0]
          out_offsets := [0, 0, 0, 0] }, [], []⟩ with
  | ok s =>
    rw [hs] at h
    simp only [Nat.zero_add] at h
    exact Or.inl ⟨s, h, rfl⟩
  | error e =>
    rw [hs] at h
    exact Or.inr ⟨e.1, e.2, h, rfl⟩

/-- An export that returns 0 had a plane count from 0 to 4 and ran its loop
through. -/
theorem export_query_ok (bo : gbm_bo) (prime : Nat → Nat → PrimeResult)
    (query : virgl_renderer_export_query)
    (hok : (virgl_gbm_export_query bo prime query).1 = 0) :
    0 ≤ bo.plane_count ∧ bo.plane_count ≤ 4 ∧
    ∃ s, ExportInv bo prime query bo.plane_count.toNat s ∧
      virgl_gbm_export_query bo prime query =
        (0, { s with query := { s.query with
                out_modifier := bo.modifier
                out_fourcc := bo.format } }) := by
  by_cases hc : bo.plane_count < 0 ∨ bo.plane_count > 4
  · simp [virgl_gbm_export_query, hc] at hok
  · have h0 : 0 ≤ bo.plane_count := by omega
    have h4 : bo.plane_count ≤ 4 := by omega
    refine ⟨h0, h4, ?_⟩
    rcases export_query_cases bo prime query h0 h4 with h | ⟨ret, s, he, hq⟩
    · exact h
    · rw [hq] at hok
      exact absurd hok he.ret_ne

/-- An entry of a four-element array read with a default is the entry. -/
theorem getElem?_of_getD {α : Type} (l : List α) (d : α) (i : Nat) (hl : l.length = 4)
    (hi : i < 4) : l[i]? = some (l.getD i d) := by
  have h : i < l.length := by omega
  simp [List.getD_eq_getElem?_getD, List.getElem?_eq_getElem h]

/-- With descriptors that are not negative in the counted slots and -1 in
the others, `err_close` leaves -1 everywhere and closes the counted ones. -/
theorem err_close_fds (fds : List Int) (n : Nat) (f : Nat → Int) (hl : fds.length = 4)
    (hn : n < 4) (hlo : ∀ k, k < n → fds.getD k (-1) = f k ∧ 0 ≤ f k)
    (hhi : ∀ i, n ≤ i → fds.getD i (-1) = -1) :
    (fds.map fun fd => if fd ≥ 0 then (-1 : Int) else fd) = [-1, -1, -1, -1] ∧
    (fds.filter fun fd => decide (fd ≥ 0)) = (List.range n).map f := by
  match fds, hl with
  | [a, b, c, d], _ =>
    have e0 := hhi 0
    have e1 := hhi 1
    have e2 := hhi 2
    have e3 := hhi 3
    have l0 := hlo 0
    have l1 := hlo 1
    have l2 := hlo 2
    simp only [List.getD_cons_zero, List.getD_cons_succ] at e0 e1 e2 e3 l0 l1 l2
    interval_cases n
    · rw [e0 (by omega), e1 (by omega), e2 (by omega), e3 (by omega)]
      simp [List.filter]
    · obtain ⟨r0, p0⟩ := l0 (by omega)
      rw [r0, e1 (by omega), e2 (by omega), e3 (by omega)]
      simp [List.filter, p0, List.range_succ]
    · obtain ⟨r0, p0⟩ := l0 (by omega)
      obtain ⟨r1, p1⟩ := l1 (by omega)
      rw [r0, r1, e2 (by omega), e3 (by omega)]
      simp [List.filter, p0, p1, List.range_succ]
    · obtain ⟨r0, p0⟩ := l0 (by omega)
      obtain ⟨r1, p1⟩ := l1 (by omega)
      obtain ⟨r2, p2⟩ := l2 (by omega)
      rw [r0, r1, r2, e3 (by omega)]
      simp [List.filter, p0, p1, p2, List.range_succ]

/-- The descriptors opened by calls of which all but the last returned 0. -/
theorem opened_fds_failed (prime : Nat → Nat → PrimeResult) (resolved : List Nat) (n : Nat)
    (hl : resolved.length = n + 1)
    (hok : ∀ k, k < n → (prime k (resolved.getD k 0)).ret = 0)
    (hf : (prime n (resolved.getD n 0)).ret ≠ 0) :
    opened_fds prime resolved =
      (List.range n).map fun k => (prime k (resolved.getD k 0)).fd := by
  unfold opened_fds
  rw [hl, List.range_succ, List.filterMap_append]
  simp only [List.filterMap_cons, List.filterMap_nil, if_neg hf, List.append_nil]
  rw [← List.filterMap_eq_map]
  apply List.filterMap_congr
  intro k hk
  rw [List.mem_range] at hk
  simp only [if_pos (hok k hk), Function.comp]

/-- A four-element array mapped to zero. -/
theorem map_zero_four (l : List Nat) (hl : l.length = 4) :
    (l.map fun _ => 0) = [0, 0, 0, 0] := by
  match l, hl with
  | [a, b, c, d], _ => rfl


/-- While every plane from `plane` on reports a handle other than 0, each
iteration of the export loop counts one more descriptor. -/
theorem export_loop_count_nonzero (bo : gbm_bo) (prime : Nat → Nat → PrimeResult)
    (count plane : Nat) (s s' : ExportState)
    (hh : ∀ p, plane ≤ p → p < plane + count → bo.handle_for_plane p ≠ 0)
    (hs : export_loop bo prime [0, 0, 0, 0] count plane s = .ok s') :
    s'.query.out_num_fds = s.query.out_num_fds + count := by
  induction count generalizing plane s with
  | zero =>
    simp only [export_loop, Except.ok.injEq] at hs
    rw [← hs]; rfl
  | succ count ih =>
    simp only [export_loop] at hs
    have hne := hh plane (Nat.le_refl _) (by omega)
    cases h1 : export_plane bo prime [0, 0, 0, 0] plane s with
    | error e => rw [h1] at hs; simp at hs
    | ok s1 =>
      rw [h1] at hs
      have h2 := ih (plane + 1) s1 (fun p hp1 hp2 => hh p (by omega) (by omega)) hs
      have h3 : s1.query.out_num_fds = s.query.out_num_fds + 1 := by
        simp only [export_plane, find_handle_eq, hne, false_and, if_false, if_true] at h1
        by_cases hin : s.query.in_export_fds ≠ 0
        · rw [if_pos hin] at h1
          by_cases hret : (prime s.resolved.length (bo.handle_for_plane plane)).ret ≠ 0
          · rw [if_pos hret] at h1; simp at h1
          · rw [if_neg hret] at h1
            simp only [Except.ok.injEq] at h1
            rw [← h1]
        · rw [if_neg hin] at h1
          simp only [Except.ok.injEq] at h1
          rw [← h1]
      omega

/-- When no plane reports handle 0, an export that returns 0 counts one
descriptor for each plane, whether or not the handles repeat. -/
theorem export_count_nonzero_handles (bo : gbm_bo) (prime : Nat → Nat → PrimeResult)
    (query : virgl_renderer_export_query)
    (hh : ∀ p : Nat, (p : Int) < bo.plane_count → bo.handle_for_plane p ≠ 0)
    (hok : (virgl_gbm_export_query bo prime query).1 = 0) :
    ((virgl_gbm_export_query bo prime query).2.query.out_num_fds : Int) = bo.plane_count := by
  by_cases hc : bo.plane_count < 0 ∨ bo.plane_count > 4
  · simp [virgl_gbm_export_query, hc] at hok
  · simp only [virgl_gbm_export_query, if_neg hc] at hok ⊢
    cases hs : export_loop bo prime [0, 0, 0, 0] bo.plane_count.toNat 0
        ⟨{ query with
            out_num_fds := 0
            out_fourcc := 0
            out_modifier := 0
            out_fds := [-1, -1, -1, -1]
            out_strides := [0, 0, 0, 0]
            out_offsets := [0, 0, 0, 0] }, [], []⟩ with
    | ok s =>
      have h := export_loop_count_nonzero bo prime _ 0 _ s
        (fun p _ hp => hh p (by omega)) hs
      simp only [Nat.zero_add] at h
      simp only [h]
      omega
    | error e =>
      rw [hs] at hok
      have h := export_loop_inv bo prime query bo.plane_count.toNat 0 _ (by omega)
        (export_inv_init bo prime query)
      rw [hs] at h
      exact absurd hok h.ret_ne

/-! ### Claims about the export -/

/-- When no plane reports handle 0 and descriptors are requested, the export
loop passes the handle of every plane to `drmPrimeHandleToFD`, in plane
order. -/
theorem export_loop_resolved_nonzero (bo : gbm_bo) (prime : Nat → Nat → PrimeResult)
    (count plane : Nat) (s s' : ExportState)
    (hh : ∀ p, plane ≤ p → p < plane + count → bo.handle_for_plane p ≠ 0)
    (hin : s.query.in_export_fds ≠ 0)
    (hs : export_loop bo prime [0, 0, 0, 0] count plane s = .ok s') :
    s'.resolved =
      s.resolved ++ (List.range count).map fun k => bo.handle_for_plane (plane + k) := by
  induction count generalizing plane s with
  | zero =>
    simp only [export_loop, Except.ok.injEq] at hs
    rw [← hs]; simp
  | succ count ih =>
    simp only [export_loop] at hs
    have hne := hh plane (Nat.le_refl _) (by omega)
    cases h1 : export_plane bo prime [0, 0, 0, 0] plane s with
    | error e => rw [h1] at hs; simp at hs
    | ok s1 =>
      rw [h1] at hs
      have h3 : s1.resolved = s.resolved ++ [bo.handle_for_plane plane] ∧
          s1.query.in_export_fds = s.query.in_export_fds := by
        simp only [export_plane, find_handle_eq, hne, false_and, if_false, if_true,
          if_pos hin] at h1
        by_cases hret : (prime s.resolved.length (bo.handle_for_plane plane)).ret ≠ 0
        · rw [if_pos hret] at h1; simp at h1
        · rw [if_neg hret] at h1
          simp only [Except.ok.injEq] at h1
          rw [← h1]
          exact ⟨rfl, rfl⟩
      have h2 := ih (plane + 1) s1 (fun p hp1 hp2 => hh p (by omega) (by omega))
        (by rw [h3.2]; exact hin) hs
      rw [h2, h3.1, List.range_succ_eq_map, List.map_cons, List.map_map, List.append_assoc]
      simp only [List.singleton_append, Nat.add_zero, List.cons.injEq, List.append_cancel_left_eq,
        true_and]
      apply List.map_congr_left
      intro k _
      simp only [Function.comp, Nat.succ_eq_add_one]
      congr 1
      omega

/-- C11. Export of distinct handles. For a buffer whose planes report
pairwise distinct handles, none of them 0 (a plane of a buffer never has the
handle 0), an export that returns 0 leaves `out_num_fds` equal to the plane
count, 2 for two planes. When descriptors are requested, the handles passed
to `drmPrimeHandleToFD` are the handles of the planes in plane order, each
of them once. -/
theorem export_distinct_handles_counted (bo : gbm_bo) (prime : Nat → Nat → PrimeResult)
    (query : virgl_renderer_export_query)
    (hh : ∀ p < bo.plane_count.toNat, bo.handle_for_plane p ≠ 0)
    (hd : ∀ p < bo.plane_count.toNat, ∀ q < bo.plane_count.toNat,
      bo.handle_for_plane p = bo.handle_for_plane q → p = q)
    (hok : (virgl_gbm_export_query bo prime query).1 = 0) :
    ((virgl_gbm_export_query bo prime query).2.query.out_num_fds : Int) = bo.plane_count ∧
    (bo.plane_count = 2 → (virgl_gbm_export_query bo prime query).2.query.out_num_fds = 2) ∧
    (query.in_export_fds ≠ 0 →
      (virgl_gbm_export_query bo prime query).2.resolved =
        (List.range bo.plane_count.toNat).map bo.handle_for_plane ∧
      (virgl_gbm_export_query bo prime query).2.resolved.Nodup) := by
  have hcount := export_count_nonzero_handles bo prime query
    (fun p hp => hh p (by omega)) hok
  refine ⟨hcount, fun h2 => by omega, ?_⟩
  intro hin
  have hres : (virgl_gbm_export_query bo prime query).2.resolved =
      (List.range bo.plane_count.toNat).map bo.handle_for_plane := by
    by_cases hc : bo.plane_count < 0 ∨ bo.plane_count > 4
    · simp [virgl_gbm_export_query, hc] at hok
    · simp only [virgl_gbm_export_query, if_neg hc] at hok ⊢
      cases hs : export_loop bo prime [0, 0, 0, 0] bo.plane_count.toNat 0
          ⟨{ query with
              out_num_fds := 0
              out_fourcc := 0
              out_modifier := 0
              out_fds := [-1, -1, -1, -1]
              out_strides := [0, 0, 0, 0]
              out_offsets := [0, 0, 0, 0] }, [], []⟩ with
      | ok s =>
        have h := export_loop_resolved_nonzero bo prime _ 0 _ s
          (fun p _ hp => hh p (by omega)) hin hs
        simp only [List.nil_append, Nat.zero_add] at h
        simp only [h]
      | error e =>
        rw [hs] at hok
        have h := export_loop_inv bo prime query bo.plane_count.toNat 0 _ (by omega)
          (export_inv_init bo prime query)
        rw [hs] at h
        exact absurd hok h.ret_ne
  refine ⟨hres, ?_⟩
  rw [hres]
  refine List.Nodup.map_on ?_ (List.nodup_range _)
  intro p hp q hq e
  exact hd p (List.mem_range.mp hp) q (List.mem_range.mp hq) e

/-- Witness for C11: an NV12 buffer whose planes report the handles 7 and 8.
The export returns 0 with `out_num_fds = 2`, having resolved 7 and 8. -/
theorem export_distinct_handles_counted_witness :
    (virgl_gbm_export_query ex_export_bo (fun n _ => ⟨0, 10 + n⟩)
      ⟨1, 0, [], [], [], 0, 0⟩).1 = 0 ∧
    (virgl_gbm_export_query ex_export_bo (fun n _ => ⟨0, 10 + n⟩)
      ⟨1, 0, [], [], [], 0, 0⟩).2.query.out_num_fds = 2 ∧
    (virgl_gbm_export_query ex_export_bo (fun n _ => ⟨0, 10 + n⟩)
      ⟨1, 0, [], [], [], 0, 0⟩).2.resolved = [7, 8] :=
  ⟨by decide,
    (export_distinct_handles_counted ex_export_bo (fun n _ => ⟨0, 10 + n⟩)
      ⟨1, 0, [], [], [], 0, 0⟩ (by decide) (by decide) (by decide)).2.1 (by decide),
    ((export_distinct_handles_counted ex_export_bo (fun n _ => ⟨0, 10 + n⟩)
      ⟨1, 0, [], [], [], 0, 0⟩ (by decide) (by decide) (by decide)).2.2 (by decide)).1⟩

/-- C12. When a call of `drmPrimeHandleToFD` made by `virgl_gbm_export_query`
returns a value other than 0, the export returns a value other than 0, the
descriptors it closed are exactly the descriptors its earlier calls opened,
each once and in the order they were opened, and the query is left with
`out_num_fds = 0`, the four `out_fds` at -1 and the four strides and offsets
at 0. A call of `drmPrimeHandleToFD` that returns 0 is taken to store a
descriptor that is not negative. -/
theorem export_failure_all_or_nothing (bo : gbm_bo) (prime : Nat → Nat → PrimeResult)
    (query : virgl_renderer_export_query)
    (hfd : ∀ k h, (prime k h).ret = 0 → 0 ≤ (prime k h).fd)
    (hfail : ∃ k, k < (virgl_gbm_export_query bo prime query).2.resolved.length ∧
      (prime k ((virgl_gbm_export_query bo prime query).2.resolved.getD k 0)).ret ≠ 0) :
    (virgl_gbm_export_query bo prime query).1 ≠ 0 ∧
    (virgl_gbm_export_query bo prime query).2.closed =
      opened_fds prime (virgl_gbm_export_query bo prime query).2.resolved ∧
    (virgl_gbm_export_query bo prime query).2.query.out_num_fds = 0 ∧
    (virgl_gbm_export_query bo prime query).2.query.out_fds = [-1, -1, -1, -1] ∧
    (virgl_gbm_export_query bo prime query).2.query.out_strides = [0, 0, 0, 0] ∧
    (virgl_gbm_export_query bo prime query).2.query.out_offsets = [0, 0, 0, 0] := by
  obtain ⟨k, hk, hkf⟩ := hfail
  by_cases hc : bo.plane_count < 0 ∨ bo.plane_count > 4
  · simp [virgl_gbm_export_query, hc] at hk
  · rcases export_query_cases bo prime query (by omega) (by omega) with
      ⟨s, hinv, hq⟩ | ⟨ret, s, he, hq⟩
    · rw [hq] at hk hkf
      exact absurd (hinv.resolved_ok k hk).1 hkf
    · rw [hq]
      have hfds := err_close_fds s.query.out_fds s.query.out_num_fds
        (fun k => (prime k (s.resolved.getD k 0)).fd) he.fds_len he.num_lt
        (fun k hk => ⟨(he.resolved_ok k hk).2, hfd _ _ (he.resolved_ok k hk).1⟩) he.fds_tail
      have hop := opened_fds_failed prime s.resolved s.query.out_num_fds he.resolved_len
        (fun k hk => (he.resolved_ok k hk).1) (by rw [he.failed]; exact he.ret_ne)
      refine ⟨he.ret_ne, ?_, rfl, hfds.1, map_zero_four _ he.strides_len,
        map_zero_four _ he.offsets_len⟩
      simp only [err_close, he.closed_nil, List.nil_append]
      rw [hfds.2, hop]

/-- Witness for C12: two planes with the handles 7 and 8, the resolution of
the second failing with -5 after the first gave descriptor 10. -/
theorem export_failure_all_or_nothing_witness :
    (virgl_gbm_export_query (ex_bo GBM_FORMAT_NV12 4 4 2 [0, 16] [7, 8] (some 4))
      (fun n _ => if n = 0 then ⟨0, 10⟩ else ⟨-5, 0⟩) ⟨1, 0, [], [], [], 0, 0⟩).2.closed =
      [10] ∧
    ((virgl_gbm_export_query (ex_bo GBM_FORMAT_NV12 4 4 2 [0, 16] [7, 8] (some 4))
      (fun n _ => if n = 0 then ⟨0, 10⟩ else ⟨-5, 0⟩) ⟨1, 0, [], [], [], 0, 0⟩).1 ≠ 0 ∧
    (virgl_gbm_export_query (ex_bo GBM_FORMAT_NV12 4 4 2 [0, 16] [7, 8] (some 4))
      (fun n _ => if n = 0 then ⟨0, 10⟩ else ⟨-5, 0⟩) ⟨1, 0, [], [], [], 0, 0⟩).2.closed =
      opened_fds (fun n _ => if n = 0 then ⟨0, 10⟩ else ⟨-5, 0⟩)
        (virgl_gbm_export_query (ex_bo GBM_FORMAT_NV12 4 4 2 [0, 16] [7, 8] (some 4))
          (fun n _ => if n = 0 then ⟨0, 10⟩ else ⟨-5, 0⟩) ⟨1, 0, [], [], [], 0, 0⟩).2.resolved ∧
    (virgl_gbm_export_query (ex_bo GBM_FORMAT_NV12 4 4 2 [0, 16] [7, 8] (some 4))
      (fun n _ => if n = 0 then ⟨0, 10⟩ else ⟨-5, 0⟩)
      ⟨1, 0, [], [], [], 0, 0⟩).2.query.out_num_fds = 0 ∧
    (virgl_gbm_export_query (ex_bo GBM_FORMAT_NV12 4 4 2 [0, 16] [7, 8] (some 4))
      (fun n _ => if n = 0 then ⟨0, 10⟩ else ⟨-5, 0⟩)
      ⟨1, 0, [], [], [], 0, 0⟩).2.query.out_fds = [-1, -1, -1, -1] ∧
    (virgl_gbm_export_query (ex_bo GBM_FORMAT_NV12 4 4 2 [0, 16] [7, 8] (some 4))
      (fun n _ => if n = 0 then ⟨0, 10⟩ else ⟨-5, 0⟩)
      ⟨1, 0, [], [], [], 0, 0⟩).2.query.out_strides = [0, 0, 0, 0] ∧
    (virgl_gbm_export_query (ex_bo GBM_FORMAT_NV12 4 4 2 [0, 16] [7, 8] (some 4))
      (fun n _ => if n = 0 then ⟨0, 10⟩ else ⟨-5, 0⟩)
      ⟨1, 0, [], [], [], 0, 0⟩).2.query.out_offsets = [0, 0, 0, 0]) :=
  ⟨by decide,
    export_failure_all_or_nothing (ex_bo GBM_FORMAT_NV12 4 4 2 [0, 16] [7, 8] (some 4))
      (fun n _ => if n = 0 then ⟨0, 10⟩ else ⟨-5, 0⟩) ⟨1, 0, [], [], [], 0, 0⟩
      (fun k _ h => by
        by_cases hk : k = 0
        · simp [hk]
        · simp [hk] at h)
      ⟨1, by decide, by decide⟩⟩

/-- C13. After every `virgl_gbm_export_query` that returns 0,
`out_num_fds <= plane count <= 4` and `out_fds[i] = -1` for every `i` with
`out_num_fds <= i < 4`. -/
theorem export_descriptor_invariant (bo : gbm_bo) (prime : Nat → Nat → PrimeResult)
    (query : virgl_renderer_export_query)
    (hok : (virgl_gbm_export_query bo prime query).1 = 0) :
    ((virgl_gbm_export_query bo prime query).2.query.out_num_fds : Int) ≤ bo.plane_count ∧
    bo.plane_count ≤ 4 ∧
    ∀ i, (virgl_gbm_export_query bo prime query).2.query.out_num_fds ≤ i → i < 4 →
      (virgl_gbm_export_query bo prime query).2.query.out_fds[i]? = some (-1) := by
  obtain ⟨h0, h4, s, hinv, hq⟩ := export_query_ok bo prime query hok
  rw [hq]
  refine ⟨?_, h4, ?_⟩
  · have := hinv.num_le
    simp only
    omega
  · intro i hi hi4
    simp only at hi ⊢
    rw [getElem?_of_getD _ (-1) i hinv.fds_len hi4, hinv.fds_tail i hi]

/-- Witness for C13: an export of two planes with the handles 7 and 8. -/
theorem export_descriptor_invariant_witness :
    (virgl_gbm_export_query (ex_bo GBM_FORMAT_NV12 4 4 2 [0, 16] [7, 8] (some 4))
      (fun n _ => ⟨0, 10 + n⟩) ⟨1, 0, [], [], [], 0, 0⟩).2.query.out_fds = [10, 11, -1, -1] ∧
    (((virgl_gbm_export_query (ex_bo GBM_FORMAT_NV12 4 4 2 [0, 16] [7, 8] (some 4))
      (fun n _ => ⟨0, 10 + n⟩) ⟨1, 0, [], [], [], 0, 0⟩).2.query.out_num_fds : Int) ≤
      (ex_bo GBM_FORMAT_NV12 4 4 2 [0, 16] [7, 8] (some 4)).plane_count ∧
    (ex_bo GBM_FORMAT_NV12 4 4 2 [0, 16] [7, 8] (some 4)).plane_count ≤ 4 ∧
    ∀ i, (virgl_gbm_export_query (ex_bo GBM_FORMAT_NV12 4 4 2 [0, 16] [7, 8] (some 4))
        (fun n _ => ⟨0, 10 + n⟩) ⟨1, 0, [], [], [], 0, 0⟩).2.query.out_num_fds ≤ i → i < 4 →
      (virgl_gbm_export_query (ex_bo GBM_FORMAT_NV12 4 4 2 [0, 16] [7, 8] (some 4))
        (fun n _ => ⟨0, 10 + n⟩) ⟨1, 0, [], [], [], 0, 0⟩).2.query.out_fds[i]? = some (-1)) :=
  ⟨by decide,
    export_descriptor_invariant (ex_bo GBM_FORMAT_NV12 4 4 2 [0, 16] [7, 8] (some 4))
      (fun n _ => ⟨0, 10 + n⟩) ⟨1, 0, [], [], [], 0, 0⟩ (by decide)⟩

/-- C14. After a `virgl_gbm_export_query` that returns 0, `out_strides[p]`
and `out_offsets[p]` are the stride and the offset the buffer reports for
plane `p` for every `p` below the plane count and 0 for every other `p`
below 4, and `out_modifier` and `out_fourcc` are the modifier and the format
of the buffer. -/
theorem export_success_fields (bo : gbm_bo) (prime : Nat → Nat → PrimeResult)
    (query : virgl_renderer_export_query)
    (hok : (virgl_gbm_export_query bo prime query).1 = 0) :
    (∀ p : Nat, (p : Int) < bo.plane_count →
      (virgl_gbm_export_query bo prime query).2.query.out_strides[p]? =
        some (bo.stride_for_plane p) ∧
      (virgl_gbm_export_query bo prime query).2.query.out_offsets[p]? =
        some (bo.offset p)) ∧
    (∀ p : Nat, bo.plane_count ≤ (p : Int) → p < 4 →
      (virgl_gbm_export_query bo prime query).2.query.out_strides[p]? = some 0 ∧
      (virgl_gbm_export_query bo prime query).2.query.out_offsets[p]? = some 0) ∧
    (virgl_gbm_export_query bo prime query).2.query.out_modifier = bo.modifier ∧
    (virgl_gbm_export_query bo prime query).2.query.out_fourcc = bo.format := by
  obtain ⟨h0, h4, s, hinv, hq⟩ := export_query_ok bo prime query hok
  rw [hq]
  refine ⟨?_, ?_, rfl, rfl⟩
  · intro p hp
    simp only
    rw [getElem?_of_getD _ 0 p hinv.strides_len (by omega),
      getElem?_of_getD _ 0 p hinv.offsets_len (by omega),
      hinv.strides_lo p (by omega), hinv.offsets_lo p (by omega)]
    exact ⟨rfl, rfl⟩
  · intro p hp hp4
    simp only
    rw [getElem?_of_getD _ 0 p hinv.strides_len hp4,
      getElem?_of_getD _ 0 p hinv.offsets_len hp4,
      hinv.strides_hi p (by omega), hinv.offsets_hi p (by omega)]
    exact ⟨rfl, rfl⟩

/-- Witness for C14: the export of an NV12 buffer with the strides 64 and
32, the offsets 0 and 256 and the modifier 72. -/
theorem export_success_fields_witness :
    ((virgl_gbm_export_query ex_export_bo (fun n _ => ⟨0, 10 + n⟩)
        ⟨1, 0, [], [], [], 0, 0⟩).2.query.out_strides = [64, 32, 0, 0] ∧
      (virgl_gbm_export_query ex_export_bo (fun n _ => ⟨0, 10 + n⟩)
        ⟨1, 0, [], [], [], 0, 0⟩).2.query.out_offsets = [0, 256, 0, 0]) ∧
    ((∀ p : Nat, (p : Int) < ex_export_bo.plane_count →
      (virgl_gbm_export_query ex_export_bo (fun n _ => ⟨0, 10 + n⟩)
        ⟨1, 0, [], [], [], 0, 0⟩).2.query.out_strides[p]? =
        some (ex_export_bo.stride_for_plane p) ∧
      (virgl_gbm_export_query ex_export_bo (fun n _ => ⟨0, 10 + n⟩)
        ⟨1, 0, [], [], [], 0, 0⟩).2.query.out_offsets[p]? =
        some (ex_export_bo.offset p)) ∧
    (∀ p : Nat, ex_export_bo.plane_count ≤ (p : Int) → p < 4 →
      (virgl_gbm_export_query ex_export_bo (fun n _ => ⟨0, 10 + n⟩)
        ⟨1, 0, [], [], [], 0, 0⟩).2.query.out_strides[p]? = some 0 ∧
      (virgl_gbm_export_query ex_export_bo (fun n _ => ⟨0, 10 + n⟩)
        ⟨1, 0, [], [], [], 0, 0⟩).2.query.out_offsets[p]? = some 0) ∧
    (virgl_gbm_export_query ex_export_bo (fun n _ => ⟨0, 10 + n⟩)
      ⟨1, 0, [], [], [], 0, 0⟩).2.query.out_modifier = ex_export_bo.modifier ∧
    (virgl_gbm_export_query ex_export_bo (fun n _ => ⟨0, 10 + n⟩)
      ⟨1, 0, [], [], [], 0, 0⟩).2.query.out_fourcc = ex_export_bo.format) :=
  ⟨by decide,
    export_success_fields ex_export_bo (fun n _ => ⟨0, 10 + n⟩) ⟨1, 0, [], [], [], 0, 0⟩
      (by decide)⟩

/-! ### The converters and the layout table -/

/-- The result of `virgl_gbm_convert_format` tells the case taken. -/
theorem convert_format_cases (c : virgl_formats) (f : Nat) :
    (virgl_gbm_convert_format c f = GBM_FORMAT_RGB565 ∧ f = c.VIRGL_FORMAT_B5G6R5_UNORM) ∨
    (virgl_gbm_convert_format c f = GBM_FORMAT_ARGB8888 ∧ f = c.VIRGL_FORMAT_B8G8R8A8_UNORM) ∨
    (virgl_gbm_convert_format c f = GBM_FORMAT_XRGB8888 ∧ f = c.VIRGL_FORMAT_B8G8R8X8_UNORM) ∨
    (virgl_gbm_convert_format c f = GBM_FORMAT_NV12 ∧ f = c.VIRGL_FORMAT_NV12) ∨
    (virgl_gbm_convert_format c f = GBM_FORMAT_ABGR8888 ∧ f = c.VIRGL_FORMAT_R8G8B8A8_UNORM) ∨
    (virgl_gbm_convert_format c f = GBM_FORMAT_XBGR8888 ∧ f = c.VIRGL_FORMAT_R8G8B8X8_UNORM) ∨
    (virgl_gbm_convert_format c f = GBM_FORMAT_R8 ∧ f = c.VIRGL_FORMAT_R8_UNORM) ∨
    (virgl_gbm_convert_format c f = GBM_FORMAT_YVU420 ∧ f = c.VIRGL_FORMAT_YV12) ∨
    (virgl_gbm_convert_format c f = 0 ∧ f ∉ c.codes) := by
  unfold virgl_gbm_convert_format
  split_ifs with h1 h2 h3 h4 h5 h6 h7 h8
  · exact Or.inl ⟨rfl, h1⟩
  · exact Or.inr (Or.inl ⟨rfl, h2⟩)
  · exact Or.inr (Or.inr (Or.inl ⟨rfl, h3⟩))
  · exact Or.inr (Or.inr (Or.inr (Or.inl ⟨rfl, h4⟩)))
  · exact Or.inr (Or.inr (Or.inr (Or.inr (Or.inl ⟨rfl, h5⟩))))
  · exact Or.inr (Or.inr (Or.inr (Or.inr (Or.inr (Or.inl ⟨rfl, h6⟩)))))
  · exact Or.inr (Or.inr (Or.inr (Or.inr (Or.inr (Or.inr (Or.inl ⟨rfl, h7⟩))))))
  · exact Or.inr (Or.inr (Or.inr (Or.inr (Or.inr (Or.inr (Or.inr (Or.inl ⟨rfl, h8⟩)))))))
  · refine Or.inr (Or.inr (Or.inr (Or.inr (Or.inr (Or.inr (Or.inr (Or.inr ⟨rfl, ?_⟩)))))))
    simp [virgl_formats.codes, h1, h2, h3, h4, h5, h6, h7, h8]

/-- The native formats are pairwise different and none of them is 0. -/
theorem gbm_formats_nodup : gbm_formats.Nodup ∧ 0 ∉ gbm_formats := by decide

theorem lor_eq_zero (x y : Nat) : x ||| y = 0 ↔ x = 0 ∧ y = 0 := by
  constructor
  · intro h
    have ht : ∀ i, (x ||| y).testBit i = false := by
      intro i; rw [h]; exact Nat.zero_testBit i
    constructor
    · apply Nat.zero_of_testBit_eq_false
      intro i
      have := ht i
      rw [Nat.testBit_or, Bool.or_eq_false_iff] at this
      exact this.1
    · apply Nat.zero_of_testBit_eq_false
      intro i
      have := ht i
      rw [Nat.testBit_or, Bool.or_eq_false_iff] at this
      exact this.2
  · rintro ⟨rfl, rfl⟩; rfl

/-- A mask meets `a | b` when it meets `a` or meets `b`. -/
theorem lor_land_ne_zero (a b v : Nat) :
    (a ||| b) &&& v ≠ 0 ↔ a &&& v ≠ 0 ∨ b &&& v ≠ 0 := by
  rw [Nat.and_distrib_right, Ne, lor_eq_zero]
  tauto

/-- Masking with a union of masks and then with one of them is masking with
that one. -/
theorem land_of_land_union (a b u v : Nat) (hv : u &&& v = v)
    (h : a &&& u = b &&& u) : a &&& v = b &&& v := by
  have e : ∀ x : Nat, x &&& v = (x &&& u) &&& v := by
    intro x; rw [Nat.and_assoc, hv]
  rw [e a, e b, h]

theorem union_land_left (x y z : Nat) : (x ||| y ||| z) &&& x = x := by
  apply Nat.eq_of_testBit_eq
  intro i
  simp only [Nat.testBit_and, Nat.testBit_or]
  cases x.testBit i <;> cases y.testBit i <;> cases z.testBit i <;> rfl

theorem union_land_mid (x y z : Nat) : (x ||| y ||| z) &&& y = y := by
  apply Nat.eq_of_testBit_eq
  intro i
  simp only [Nat.testBit_and, Nat.testBit_or]
  cases x.testBit i <;> cases y.testBit i <;> cases z.testBit i <;> rfl

theorem union_land_right (x y z : Nat) : (x ||| y ||| z) &&& z = z := by
  apply Nat.eq_of_testBit_eq
  intro i
  simp only [Nat.testBit_and, Nat.testBit_or]
  cases x.testBit i <;> cases y.testBit i <;> cases z.testBit i <;> rfl

/-- The result of `virgl_gbm_convert_flags` as a sum of three independent
tests. -/
theorem convert_flags_eq (c : virgl_binds) (a : Nat) :
    virgl_gbm_convert_flags c a =
      (if a &&& c.VIRGL_BIND_RENDER_TARGET ≠ 0 then 4 else 0) +
      (if a &&& c.VIRGL_BIND_SCANOUT ≠ 0 then 1 else 0) +
      (if a &&& c.VIRGL_BIND_CURSOR ≠ 0 then 2 else 0) := by
  unfold virgl_gbm_convert_flags
  split_ifs <;> rfl

/-- C15. `virgl_gbm_convert_format` is injective where its result is not 0,
and its result is 0 for every input that is none of the eight virtual
formats it names; for each of the eight the result is not 0. -/
theorem convert_format_injective (c : virgl_formats) :
    (∀ f g, virgl_gbm_convert_format c f ≠ 0 →
      virgl_gbm_convert_format c f = virgl_gbm_convert_format c g → f = g) ∧
    (∀ f, f ∉ c.codes → virgl_gbm_convert_format c f = 0) ∧
    (∀ f, f ∈ c.codes → virgl_gbm_convert_format c f ≠ 0) := by
  refine ⟨?_, ?_, ?_⟩
  · intro f g hne heq
    rcases convert_format_cases c f with h | h | h | h | h | h | h | h | h <;>
    rcases convert_format_cases c g with k | k | k | k | k | k | k | k | k <;>
    first
    | exact h.2.trans k.2.symm
    | exact absurd h.1 hne
    | (exfalso; rw [h.1, k.1] at heq; revert heq; decide)
  · intro f hf
    rcases convert_format_cases c f with h | h | h | h | h | h | h | h | h
    all_goals first
    | exact h.1
    | (exfalso; apply hf; rw [h.2]; simp [virgl_formats.codes])
  · intro f hf
    rcases convert_format_cases c f with h | h | h | h | h | h | h | h | h
    all_goals first
    | exact absurd hf h.2
    | (rw [h.1]; decide)

/-- Witness for C15: the codes 7 and 1 are converted to different native
formats, and the code 3, none of the eight, to 0. -/
theorem convert_format_injective_witness :
    (virgl_gbm_convert_format ex_virgl_formats 7 = GBM_FORMAT_RGB565 ∧
      virgl_gbm_convert_format ex_virgl_formats 1 = GBM_FORMAT_ARGB8888 ∧
      virgl_gbm_convert_format ex_virgl_formats 3 = 0) ∧
    ((∀ f g, virgl_gbm_convert_format ex_virgl_formats f ≠ 0 →
      virgl_gbm_convert_format ex_virgl_formats f = virgl_gbm_convert_format ex_virgl_formats g →
        f = g) ∧
    (∀ f, f ∉ ex_virgl_formats.codes → virgl_gbm_convert_format ex_virgl_formats f = 0) ∧
    (∀ f, f ∈ ex_virgl_formats.codes → virgl_gbm_convert_format ex_virgl_formats f ≠ 0)) :=
  ⟨by decide, convert_format_injective ex_virgl_formats⟩

/-- C17. `virgl_gbm_convert_flags` tests the three masks independently: its
result has the rendering bit exactly when the input meets the render-target
mask, the scanout bit exactly when it meets the scanout mask, the cursor bit
exactly when it meets the cursor mask, and no other bit. So two inputs that
agree on the three masks give the same result, and the result for `a | b` is
the union of the results for `a` and `b`. -/
theorem convert_flags_bit_tests (c : virgl_binds) (a b : Nat) :
    ((virgl_gbm_convert_flags c a &&& GBM_BO_USE_RENDERING ≠ 0 ↔
        a &&& c.VIRGL_BIND_RENDER_TARGET ≠ 0) ∧
      (virgl_gbm_convert_flags c a &&& GBM_BO_USE_SCANOUT ≠ 0 ↔
        a &&& c.VIRGL_BIND_SCANOUT ≠ 0) ∧
      (virgl_gbm_convert_flags c a &&& GBM_BO_USE_CURSOR ≠ 0 ↔
        a &&& c.VIRGL_BIND_CURSOR ≠ 0) ∧
      virgl_gbm_convert_flags c a &&&
        (GBM_BO_USE_RENDERING ||| GBM_BO_USE_SCANOUT ||| GBM_BO_USE_CURSOR) =
        virgl_gbm_convert_flags c a) ∧
    (a &&& c.recognized = b &&& c.recognized →
      virgl_gbm_convert_flags c a = virgl_gbm_convert_flags c b) ∧
    virgl_gbm_convert_flags c (a ||| b) =
      virgl_gbm_convert_flags c a ||| virgl_gbm_convert_flags c b := by
  refine ⟨?_, ?_, ?_⟩
  · rw [convert_flags_eq]
    split_ifs with h1 h2 h3 <;>
    refine ⟨⟨fun hx => ?_, fun hy => ?_⟩, ⟨fun hx => ?_, fun hy => ?_⟩,
      ⟨fun hx => ?_, fun hy => ?_⟩, by decide⟩ <;>
    first
    | assumption
    | contradiction
    | decide
  · intro h
    have e1 := land_of_land_union a b c.recognized c.VIRGL_BIND_RENDER_TARGET
      (union_land_left _ _ _) h
    have e2 := land_of_land_union a b c.recognized c.VIRGL_BIND_SCANOUT
      (union_land_mid _ _ _) h
    have e3 := land_of_land_union a b c.recognized c.VIRGL_BIND_CURSOR
      (union_land_right _ _ _) h
    rw [convert_flags_eq, convert_flags_eq, e1, e2, e3]
  · rw [convert_flags_eq, convert_flags_eq c a, convert_flags_eq c b]
    simp only [lor_land_ne_zero]
    by_cases a1 : a &&& c.VIRGL_BIND_RENDER_TARGET ≠ 0 <;>
    by_cases a2 : a &&& c.VIRGL_BIND_SCANOUT ≠ 0 <;>
    by_cases a3 : a &&& c.VIRGL_BIND_CURSOR ≠ 0 <;>
    by_cases b1 : b &&& c.VIRGL_BIND_RENDER_TARGET ≠ 0 <;>
    by_cases b2 : b &&& c.VIRGL_BIND_SCANOUT ≠ 0 <;>
    by_cases b3 : b &&& c.VIRGL_BIND_CURSOR ≠ 0 <;>
    simp only [a1, a2, a3, b1, b2, b3, ne_eq, not_true_eq_false, not_false_eq_true, or_self,
      or_true, or_false, true_or, false_or, if_true, if_false] <;>
    rfl

/-- Witness for C17: the inputs `0x4000a` (render target, scanout and the
bits 3 and, for the second input, 5) and `0x10000` (cursor). -/
theorem convert_flags_bit_tests_witness :
    (virgl_gbm_convert_flags ex_virgl_binds 262154 = 5 ∧
      virgl_gbm_convert_flags ex_virgl_binds 262186 = 5 ∧
      virgl_gbm_convert_flags ex_virgl_binds 65536 = 2 ∧
      virgl_gbm_convert_flags ex_virgl_binds (262154 ||| 65536) = 7 ∧
      262154 &&& ex_virgl_binds.recognized = 262186 &&& ex_virgl_binds.recognized) ∧
    (((virgl_gbm_convert_flags ex_virgl_binds 262154 &&& GBM_BO_USE_RENDERING ≠ 0 ↔
        262154 &&& ex_virgl_binds.VIRGL_BIND_RENDER_TARGET ≠ 0) ∧
      (virgl_gbm_convert_flags ex_virgl_binds 262154 &&& GBM_BO_USE_SCANOUT ≠ 0 ↔
        262154 &&& ex_virgl_binds.VIRGL_BIND_SCANOUT ≠ 0) ∧
      (virgl_gbm_convert_flags ex_virgl_binds 262154 &&& GBM_BO_USE_CURSOR ≠ 0 ↔
        262154 &&& ex_virgl_binds.VIRGL_BIND_CURSOR ≠ 0) ∧
      virgl_gbm_convert_flags ex_virgl_binds 262154 &&&
        (GBM_BO_USE_RENDERING ||| GBM_BO_USE_SCANOUT ||| GBM_BO_USE_CURSOR) =
        virgl_gbm_convert_flags ex_virgl_binds 262154) ∧
    (262154 &&& ex_virgl_binds.recognized = 262186 &&& ex_virgl_binds.recognized →
      virgl_gbm_convert_flags ex_virgl_binds 262154 =
        virgl_gbm_convert_flags ex_virgl_binds 262186) ∧
    virgl_gbm_convert_flags ex_virgl_binds (262154 ||| 262186) =
      virgl_gbm_convert_flags ex_virgl_binds 262154 |||
        virgl_gbm_convert_flags ex_virgl_binds 262186) :=
  ⟨by decide, convert_flags_bit_tests ex_virgl_binds 262154 262186⟩

/-- C16. `layout_from_format` is the fixed table: one plane at 1 byte per
pixel for R8, one plane at 2 for RGB565, one plane at 4 for ARGB8888,
XRGB8888, ABGR8888 and XBGR8888, two planes for NV12 (1x1 at 1 byte per
pixel, then 2x2 at 2), three planes for YVU420 (1 byte per pixel each, the
second and third subsampled 2x2), and no layout for every other format.
Every layout it returns has plane 0 subsampled 1x1, from 1 to 4 planes, and
positive subsampling factors and bytes per pixel for each of its planes. -/
theorem layout_from_format_table :
    layout_from_format GBM_FORMAT_R8 = some ⟨1, [1, 0, 0, 0], [1, 0, 0, 0], [1, 0, 0, 0]⟩ ∧
    layout_from_format GBM_FORMAT_RGB565 =
      some ⟨1, [1, 0, 0, 0], [1, 0, 0, 0], [2, 0, 0, 0]⟩ ∧
    layout_from_format GBM_FORMAT_ARGB8888 =
      some ⟨1, [1, 0, 0, 0], [1, 0, 0, 0], [4, 0, 0, 0]⟩ ∧
    layout_from_format GBM_FORMAT_XRGB8888 =
      some ⟨1, [1, 0, 0, 0], [1, 0, 0, 0], [4, 0, 0, 0]⟩ ∧
    layout_from_format GBM_FORMAT_ABGR8888 =
      some ⟨1, [1, 0, 0, 0], [1, 0, 0, 0], [4, 0, 0, 0]⟩ ∧
    layout_from_format GBM_FORMAT_XBGR8888 =
      some ⟨1, [1, 0, 0, 0], [1, 0, 0, 0], [4, 0, 0, 0]⟩ ∧
    layout_from_format GBM_FORMAT_NV12 = some ⟨2, [1, 2, 0, 0], [1, 2, 0, 0], [1, 2, 0, 0]⟩ ∧
    layout_from_format GBM_FORMAT_YVU420 =
      some ⟨3, [1, 2, 2, 0], [1, 2, 2, 0], [1, 1, 1, 0]⟩ ∧
    (∀ format, format ∉ gbm_formats → layout_from_format format = none) ∧
    (∀ format layout, layout_from_format format = some layout →
      layout.horizontal_subsampling.getD 0 0 = 1 ∧ layout.vertical_subsampling.getD 0 0 = 1 ∧
      1 ≤ layout.num_planes ∧ layout.num_planes ≤ 4 ∧
      ∀ p, p < layout.num_planes →
        0 < layout.horizontal_subsampling.getD p 0 ∧
        0 < layout.vertical_subsampling.getD p 0 ∧
        0 < layout.bytes_per_pixel.getD p 0) := by
  refine ⟨by decide, by decide, by decide, by decide, by decide, by decide, by decide,
    by decide, ?_, ?_⟩
  · intro format hf
    simp only [gbm_formats, List.mem_cons, List.mem_singleton, List.not_mem_nil, or_false,
      not_or] at hf
    obtain ⟨h1, h2, h3, h4, h5, h6, h7, h8⟩ := hf
    simp [layout_from_format, h1, h2, h3, h4, h5, h6, h7, h8]
  · intro format layout hl
    unfold layout_from_format at hl
    split_ifs at hl <;> cases hl <;>
      refine ⟨rfl, rfl, by decide, by decide, ?_⟩ <;>
      intro p hp <;>
      simp only [packed_1bpp_layout, packed_2bpp_layout, packed_4bpp_layout,
        biplanar_yuv_420_layout, triplanar_yuv_420_layout] at hp ⊢ <;>
      interval_cases p <;> decide

/-- Witness for C16: the layout of NV12 and the format 0, which has none. -/
theorem layout_from_format_table_witness :
    layout_from_format 0 = none ∧
    (∀ p, p < biplanar_yuv_420_layout.num_planes →
      0 < biplanar_yuv_420_layout.horizontal_subsampling.getD p 0 ∧
      0 < biplanar_yuv_420_layout.vertical_subsampling.getD p 0 ∧
      0 < biplanar_yuv_420_layout.bytes_per_pixel.getD p 0) :=
  ⟨layout_from_format_table.2.2.2.2.2.2.2.2.1 0 (by decide),
    (layout_from_format_table.2.2.2.2.2.2.2.2.2 GBM_FORMAT_NV12 biplanar_yuv_420_layout
      (by decide)).2.2.2.2⟩

/-! ### The render node locator and the device handle -/

/-- The loop over `undesired` finds the two names of the array and no
other. -/
theorem undesired_found_iff (name : String) :
    undesired_found name = true ↔ name = "vgem" ∨ name = "pvr" := by
  simp [undesired_found, undesired]

theorem spec_rendernode_open_cons (e : dir_entry) (rest : List dir_entry) :
    spec_rendernode_open (some (e :: rest)) =
      if e.decisive then (if e.asprintf_ok then e.fd else -1)
      else spec_rendernode_open (some rest) := by
  simp only [spec_rendernode_open, List.find?_cons]
  cases e.decisive <;> rfl

theorem claim_rendernode_open_cons (e : dir_entry) (rest : List dir_entry) :
    claim_rendernode_open (some (e :: rest)) =
      if e.acceptable then e.fd else claim_rendernode_open (some rest) := by
  simp only [claim_rendernode_open, List.find?_cons]
  cases e.acceptable <;> rfl

/-- The value the scan returns when it starts with `fd = -1`, as it does in
`rendernode_open`. -/
theorem rendernode_scan_value (entries : List dir_entry) (log : List SysEvent) :
    (rendernode_scan entries (-1) log).1 = spec_rendernode_open (some entries) := by
  induction entries generalizing log with
  | nil => rfl
  | cons e rest ih =>
    rw [spec_rendernode_open_cons]
    simp only [rendernode_scan]
    cases hc : e.is_chr
    · simp [dir_entry.decisive, dir_entry.candidate, hc, ih]
    · cases hp : named_renderD e.d_name
      · simp [dir_entry.decisive, dir_entry.candidate, hc, hp, ih]
      · cases ha : e.asprintf_ok
        · simp [dir_entry.decisive, dir_entry.candidate, hc, hp, ha]
        · cases ho : e.open_fd with
          | none =>
            simp [dir_entry.decisive, dir_entry.candidate, dir_entry.acceptable, hc, hp, ha, ho,
              ih]
          | some n =>
            cases hv : e.version_name with
            | none =>
              simp [dir_entry.decisive, dir_entry.candidate, dir_entry.acceptable, hc, hp, ha,
                ho, hv, ih]
            | some name =>
              by_cases hu : undesired_found name = true
              · have hu' := (undesired_found_iff name).1 hu
                have : ¬ (¬ name = "vgem" ∧ ¬ name = "pvr") := by tauto
                simp [dir_entry.decisive, dir_entry.candidate, dir_entry.acceptable, hc, hp, ha,
                  ho, hv, hu, ih, this]
              · have hu' : ¬ (name = "vgem" ∨ name = "pvr") :=
                  fun h => hu ((undesired_found_iff name).2 h)
                have : ¬ name = "vgem" ∧ ¬ name = "pvr" := by tauto
                simp [dir_entry.decisive, dir_entry.candidate, dir_entry.acceptable,
                  dir_entry.fd, hc, hp, ha, ho, hv, hu, this]

/-- The calls the scan makes when it starts with `fd = -1`: each rejected
descriptor is opened and closed at once, and a descriptor that is returned
is the last one opened. -/
theorem rendernode_scan_events (entries : List dir_entry) (log : List SysEvent) :
    ∃ rejected, (rendernode_scan entries (-1) log).2 =
      log ++ rejected_events rejected ++
        (if 0 ≤ (rendernode_scan entries (-1) log).1 then
          [SysEvent.opened (rendernode_scan entries (-1) log).1]
        else []) := by
  induction entries generalizing log with
  | nil => exact ⟨[], by simp [rendernode_scan, rejected_events]⟩
  | cons e rest ih =>
    simp only [rendernode_scan]
    cases hc : e.is_chr
    · simpa using ih log
    · cases hp : named_renderD e.d_name
      · simpa using ih log
      · cases ha : e.asprintf_ok
        · exact ⟨[], by simp [rejected_events]⟩
        · cases ho : e.open_fd with
          | none => simpa using ih log
          | some n =>
            have hrej : ∃ rejected,
                (rendernode_scan rest (-1)
                  (log ++ [SysEvent.opened (n : Int)] ++ [SysEvent.closed (n : Int)])).2 =
                log ++ rejected_events rejected ++
                  (if 0 ≤ (rendernode_scan rest (-1)
                    (log ++ [SysEvent.opened (n : Int)] ++ [SysEvent.closed (n : Int)])).1 then
                    [SysEvent.opened (rendernode_scan rest (-1)
                      (log ++ [SysEvent.opened (n : Int)] ++ [SysEvent.closed (n : Int)])).1]
                  else []) := by
              obtain ⟨rej, h⟩ := ih
                (log ++ [SysEvent.opened (n : Int)] ++ [SysEvent.closed (n : Int)])
              exact ⟨(n : Int) :: rej, by rw [h]; simp [rejected_events]⟩
            cases hv : e.version_name with
            | none => simpa using hrej
            | some name =>
              by_cases hu : undesired_found name = true
              · simpa [hu] using hrej
              · refine ⟨[], ?_⟩
                simp [hu, rejected_events]

/-- When the path of every candidate can be allocated, the scan ends at the
first acceptable entry. -/
theorem spec_eq_claim_rendernode_open (entries : List dir_entry)
    (h : ∀ e ∈ entries, e.candidate = true → e.asprintf_ok = true) :
    spec_rendernode_open (some entries) = claim_rendernode_open (some entries) := by
  induction entries with
  | nil => rfl
  | cons e rest ih =>
    rw [spec_rendernode_open_cons, claim_rendernode_open_cons,
      ih (fun x hx => h x (List.mem_cons_of_mem _ hx))]
    have he := h e (List.mem_cons_self _ _)
    cases hc : e.candidate
    · have ha : e.acceptable = false := by
        simp only [dir_entry.candidate] at hc
        simp [dir_entry.acceptable, hc]
      simp [dir_entry.decisive, hc, ha]
    · have hok := he hc
      cases ha : e.acceptable <;> simp [dir_entry.decisive, hc, ha, hok]

/-- The calls of `rendernode_open` after a successful `opendir`. -/
theorem rendernode_open_events (entries : List dir_entry) :
    ∃ rejected, (rendernode_open (some entries)).2 =
      rejected_events rejected ++
        (if 0 ≤ (rendernode_open (some entries)).1 then
          [SysEvent.opened (rendernode_open (some entries)).1]
        else []) ++ [SysEvent.closedir] := by
  obtain ⟨rejected, h⟩ := rendernode_scan_events entries []
  refine ⟨rejected, ?_⟩
  simp only [rendernode_open]
  rw [h]
  simp

theorem rejected_events_count (rejected : List Int) :
    (rejected_events rejected).count SysEvent.closedir = 0 := by
  induction rejected with
  | nil => rfl
  | cons fd rest ih => simp [rejected_events, ih]

/-- C18 (amended). `rendernode_open` returns what the scan finds at the
first decisive entry, a candidate being a character device named with the
prefix `renderD`: the descriptor of the entry when the entry opens, answers
the version query and reports a driver other than `vgem` and `pvr`, and -1
when the path of the entry cannot be allocated; it returns -1 when there is
no such entry or the directory cannot be opened. So when the path of every
candidate can be allocated it returns the descriptor of the first acceptable
entry. For three candidates that open and report the drivers `vgem`, `pvr`
and `accepted_driver` it returns the descriptor of the third. -/
theorem rendernode_open_selection (dir : Option (List dir_entry)) :
    (rendernode_open dir).1 = spec_rendernode_open dir ∧
    ((∀ entries, dir = some entries → ∀ e ∈ entries, e.candidate = true →
        e.asprintf_ok = true) →
      (rendernode_open dir).1 = claim_rendernode_open dir) ∧
    (∀ (n1 n2 n3 : String) (a b c : Nat), named_renderD n1 = true →
      named_renderD n2 = true → named_renderD n3 = true →
      dir = some [ex_entry n1 a "vgem", ex_entry n2 b "pvr",
        ex_entry n3 c "accepted_driver"] →
      (rendernode_open dir).1 = c) := by
  have hv : (rendernode_open dir).1 = spec_rendernode_open dir := by
    cases dir with
    | none => rfl
    | some entries => exact rendernode_scan_value entries []
  refine ⟨hv, ?_, ?_⟩
  · intro h
    cases dir with
    | none => rfl
    | some entries => rw [hv]; exact spec_eq_claim_rendernode_open entries (h entries rfl)
  · intro n1 n2 n3 a b c h1 h2 h3 hd
    subst hd
    simp [rendernode_open, rendernode_scan, ex_entry, h1, h2, h3, undesired_found, undesired]

/-- Witness for C18: the directory with the drivers `vgem`, `pvr` and
`accepted_driver`, whose third entry opens with descriptor 7. -/
theorem rendernode_open_selection_witness :
    (rendernode_open (some ex_dir)).1 = 7 ∧
    claim_rendernode_open (some ex_dir) = 7 ∧
    (rendernode_open (some ex_dir)).1 = claim_rendernode_open (some ex_dir) :=
  ⟨by decide, by decide,
    (rendernode_open_selection (some ex_dir)).2.1 (fun entries h => by
      cases h
      decide)⟩

/-- Counterexample to C18 as stated: the first candidate has no memory for
its path and the second is acceptable and opens with descriptor 6; the scan
ends at the first with -1, having opened nothing. -/
theorem rendernode_open_selection_counterexample :
    rendernode_open (some ex_dir_nomem) = (-1, [SysEvent.closedir]) ∧
    claim_rendernode_open (some ex_dir_nomem) = 6 := by
  decide

/-- C19. In every run of `rendernode_open` after a successful `opendir`, the
calls are: for each rejected descriptor its `open` followed at once by its
`close`, then the `open` of the returned descriptor when one is returned,
and last the one `closedir`. So each rejected descriptor is closed once
before the next candidate is examined, the returned descriptor is not
closed, and the directory is closed once. When `opendir` fails no call
follows. -/
theorem rendernode_open_cleanup (dir : Option (List dir_entry)) :
    (dir = none → (rendernode_open dir).2 = []) ∧
    (dir ≠ none →
      (∃ rejected, (rendernode_open dir).2 =
        rejected_events rejected ++
          (if 0 ≤ (rendernode_open dir).1 then [SysEvent.opened (rendernode_open dir).1]
          else []) ++ [SysEvent.closedir]) ∧
      (rendernode_open dir).2.count SysEvent.closedir = 1) := by
  cases dir with
  | none => exact ⟨fun _ => rfl, fun h => absurd rfl h⟩
  | some entries =>
    refine ⟨(fun h => by cases h), fun _ => ?_⟩
    obtain ⟨rejected, e⟩ := rendernode_open_events entries
    refine ⟨⟨rejected, e⟩, ?_⟩
    rw [e]
    simp only [List.count_append, rejected_events_count]
    split_ifs <;> simp

/-- Witness for C19: the directory with the drivers `vgem`, `pvr` and
`accepted_driver`. -/
theorem rendernode_open_cleanup_witness :
    rendernode_open (some ex_dir) =
      (7, [SysEvent.opened 5, SysEvent.closed 5, SysEvent.opened 6, SysEvent.closed 6,
        SysEvent.opened 7, SysEvent.closedir]) ∧
    ((∃ rejected, (rendernode_open (some ex_dir)).2 =
        rejected_events rejected ++
          (if 0 ≤ (rendernode_open (some ex_dir)).1 then
            [SysEvent.opened (rendernode_open (some ex_dir)).1]
          else []) ++ [SysEvent.closedir]) ∧
      (rendernode_open (some ex_dir)).2.count SysEvent.closedir = 1) :=
  ⟨by decide, (rendernode_open_cleanup (some ex_dir)).2 (by decide)⟩

/-- C20. With a supplied descriptor `fd >= 0`, `virgl_gbm_init` closes
nothing, whether it succeeds or fails, and `virgl_gbm_fini` of the handle it
returns closes nothing. With `fd < 0`, the handle that `virgl_gbm_init`
returns holds the descriptor that `rendernode_open` opened last and did not
close, and `virgl_gbm_fini` destroys the device and then closes that
descriptor, once. -/
theorem init_fini_descriptor_ownership (calloc_ok : Bool) (dir : Option (List dir_entry))
    (gbm_create_device : Int → Option Nat) (fd : Int) :
    (0 ≤ fd →
      (∀ x, SysEvent.closed x ∉ (virgl_gbm_init calloc_ok dir gbm_create_device fd).2) ∧
      ∀ gbm, (virgl_gbm_init calloc_ok dir gbm_create_device fd).1 = some gbm →
        ∀ x, SysEvent.closed x ∉ virgl_gbm_fini gbm) ∧
    (fd < 0 →
      ∀ gbm, (virgl_gbm_init calloc_ok dir gbm_create_device fd).1 = some gbm →
        0 ≤ gbm.fd ∧
        (∃ pre, (virgl_gbm_init calloc_ok dir gbm_create_device fd).2 =
          pre ++ [SysEvent.opened gbm.fd, SysEvent.closedir]) ∧
        virgl_gbm_fini gbm =
          [SysEvent.device_destroyed gbm.device, SysEvent.closed gbm.fd, SysEvent.freed]) := by
  constructor
  · intro hfd
    have hn : ¬ fd < 0 := by omega
    cases calloc_ok
    · simp [virgl_gbm_init]
    · cases hd : gbm_create_device fd with
      | none => simp [virgl_gbm_init, hn, hd]
      | some device =>
        simp only [virgl_gbm_init, hn, hd, Bool.not_true, Bool.false_eq_true, if_false]
        refine ⟨by simp, ?_⟩
        intro gbm hg x
        simp only [Option.some.injEq] at hg
        subst hg
        simp [virgl_gbm_fini]
  · intro hfd gbm hg
    cases calloc_ok
    · simp [virgl_gbm_init] at hg
    · simp only [virgl_gbm_init, hfd, Bool.not_true, Bool.false_eq_true, if_false, if_true]
        at hg ⊢
      by_cases hr : (rendernode_open dir).1 < 0
      · simp [hr] at hg
      · rw [if_neg hr] at hg ⊢
        cases hd : gbm_create_device (rendernode_open dir).1 with
        | none => rw [hd] at hg; simp at hg
        | some device =>
          rw [hd] at hg
          simp only [Option.some.injEq] at hg
          subst hg
          have h0 : 0 ≤ (rendernode_open dir).1 := by omega
          refine ⟨h0, ?_, by simp [virgl_gbm_fini, h0]⟩
          cases dir with
          | none => simp [rendernode_open] at hr
          | some entries =>
            obtain ⟨rejected, e⟩ := rendernode_open_events entries
            refine ⟨rejected_events rejected, ?_⟩
            rw [e, if_pos h0]
            simp

/-- Witness for C20: a handle made from the supplied descriptor 3, and a
handle made with `fd = -1` over the directory with the drivers `vgem`, `pvr`
and `accepted_driver`. -/
theorem init_fini_descriptor_ownership_witness :
    virgl_gbm_init true (some ex_dir) (fun _ => some 1) 3 = (some ⟨-1, 1⟩, []) ∧
    virgl_gbm_init true (some ex_dir) (fun _ => some 1) (-1) =
      (some ⟨7, 1⟩, [SysEvent.opened 5, SysEvent.closed 5, SysEvent.opened 6,
        SysEvent.closed 6, SysEvent.opened 7, SysEvent.closedir]) ∧
    (∀ x, SysEvent.closed x ∉ virgl_gbm_fini ⟨-1, 1⟩) ∧
    virgl_gbm_fini ⟨7, 1⟩ =
      [SysEvent.device_destroyed 1, SysEvent.closed 7, SysEvent.freed] :=
  ⟨by decide, by decide,
    ((init_fini_descriptor_ownership true (some ex_dir) (fun _ => some 1) 3).1
      (by decide)).2 ⟨-1, 1⟩ (by decide),
    ((init_fini_descriptor_ownership true (some ex_dir) (fun _ => some 1) (-1)).2
      (by decide) ⟨7, 1⟩ (by decide)).2.2⟩

/-! ### The advance of the sweep -/

/-- Once the condition of the loop fails, more fuel changes nothing. -/
theorem sweep_loop_stable (a : SweepArgs) (fuel : Nat) (s : SweepState)
    (h : ¬ ((sweep_loop a fuel s).current_height < a.subsampled_height ∧
      (sweep_loop a fuel s).current_iovec < (sweep_loop a fuel s).iovecs.length))
    (k : Nat) : sweep_loop a (fuel + k) s = sweep_loop a fuel s := by
  induction fuel generalizing s with
  | zero =>
    simp only [sweep_loop] at h
    cases k with
    | zero => rfl
    | succ k =>
      simp only [Nat.zero_add, sweep_loop]
      rw [if_neg h]
  | succ fuel ih =>
    have e : fuel + 1 + k = (fuel + k) + 1 := by omega
    rw [e]
    simp only [sweep_loop] at h ⊢
    by_cases hc : s.current_height < a.subsampled_height ∧ s.current_iovec < s.iovecs.length
    · simp only [if_pos hc] at h ⊢
      exact ih (sweep_step a s) h
    · simp only [if_neg hc]

/-- The loop variables never pass their bounds. -/
theorem sweep_loop_bounds (a : SweepArgs) (fuel : Nat) (s : SweepState)
    (hh : s.current_height ≤ a.subsampled_height) (hk : s.current_iovec ≤ s.iovecs.length) :
    (sweep_loop a fuel s).current_height ≤ a.subsampled_height ∧
    (sweep_loop a fuel s).current_iovec ≤ (sweep_loop a fuel s).iovecs.length := by
  induction fuel generalizing s with
  | zero => exact ⟨hh, hk⟩
  | succ fuel ih =>
    simp only [sweep_loop]
    by_cases hc : s.current_height < a.subsampled_height ∧ s.current_iovec < s.iovecs.length
    · rw [if_pos hc]
      have hl := sweep_step_length a s
      apply ih
      · rcases sweep_step_advance a s with ⟨e1, _⟩ | ⟨e1, _⟩ <;> omega
      · rcases sweep_step_advance a s with ⟨_, e2⟩ | ⟨_, e2⟩ <;> omega
    · rw [if_neg hc]; exact ⟨hh, hk⟩

/-- C27 (amended). In an iteration of `virgl_gbm_transfer_internal` in which
the row range and the segment range overlap, exactly one of the two indices
advances. When the end of the overlap reaches the end of the segment, the
segment index advances and the row index stays, also when the overlap ends
at the end of the row as well. Otherwise the overlap ends at the end of the
row, before the end of the segment, and the row index advances while the
segment index stays. -/
theorem sweep_advance_after_copy (a : SweepArgs) (s : SweepState)
    (hov : max_start a s < min_end a s) :
    (min_end a s ≥ iovec_end_offset s →
      (sweep_step a s).current_iovec = s.current_iovec + 1 ∧
      (sweep_step a s).iovec_start_offset = u32 (s.iovec_start_offset + iovec_size s) ∧
      (sweep_step a s).current_height = s.current_height) ∧
    (min_end a s < iovec_end_offset s →
      min_end a s = box_end_offset a s ∧
      (sweep_step a s).current_height = s.current_height + 1 ∧
      (sweep_step a s).current_iovec = s.current_iovec ∧
      (sweep_step a s).iovec_start_offset = s.iovec_start_offset) := by
  obtain ⟨c1, c2, c3⟩ := sweep_step_ctrl a s
  constructor
  · intro h
    have hn : next_iovec a s = true := by simp [next_iovec, hov, h]
    rw [c1, c2, c3, hn]
    exact ⟨rfl, rfl, rfl⟩
  · intro h
    have hn : next_iovec a s = false := by
      simp only [next_iovec, if_pos hov]
      simpa using h
    rw [c1, c2, c3, hn]
    refine ⟨?_, rfl, rfl, rfl⟩
    unfold min_end at h ⊢
    omega

/-- Witness for C27: a row of two bytes met by a segment of three, and the
same row met by a segment of two. -/
theorem sweep_advance_after_copy_witness :
    ((sweep_step ⟨1, 2, 1, 2, 0, 2, 0, VIRGL_TRANSFER_TO_HOST⟩
        ⟨0, 0, 0, ex_host, [⟨[7, 8, 9]⟩], []⟩).current_height = 1 ∧
      (sweep_step ⟨1, 2, 1, 2, 0, 2, 0, VIRGL_TRANSFER_TO_HOST⟩
        ⟨0, 0, 0, ex_host, [⟨[7, 8, 9]⟩], []⟩).current_iovec = 0) ∧
    ((sweep_step ⟨1, 2, 1, 2, 0, 2, 0, VIRGL_TRANSFER_TO_HOST⟩
        ⟨0, 0, 0, ex_host, [⟨[7, 9]⟩], []⟩).current_iovec = 1 ∧
      (sweep_step ⟨1, 2, 1, 2, 0, 2, 0, VIRGL_TRANSFER_TO_HOST⟩
        ⟨0, 0, 0, ex_host, [⟨[7, 9]⟩], []⟩).current_height = 0) :=
  ⟨⟨((sweep_advance_after_copy ⟨1, 2, 1, 2, 0, 2, 0, VIRGL_TRANSFER_TO_HOST⟩
        ⟨0, 0, 0, ex_host, [⟨[7, 8, 9]⟩], []⟩ (by decide)).2 (by decide)).2.1,
      ((sweep_advance_after_copy ⟨1, 2, 1, 2, 0, 2, 0, VIRGL_TRANSFER_TO_HOST⟩
        ⟨0, 0, 0, ex_host, [⟨[7, 8, 9]⟩], []⟩ (by decide)).2 (by decide)).2.2.1⟩,
    ⟨((sweep_advance_after_copy ⟨1, 2, 1, 2, 0, 2, 0, VIRGL_TRANSFER_TO_HOST⟩
        ⟨0, 0, 0, ex_host, [⟨[7, 9]⟩], []⟩ (by decide)).1 (by decide)).1,
      ((sweep_advance_after_copy ⟨1, 2, 1, 2, 0, 2, 0, VIRGL_TRANSFER_TO_HOST⟩
        ⟨0, 0, 0, ex_host, [⟨[7, 9]⟩], []⟩ (by decide)).1 (by decide)).2.2⟩⟩

/-- Counterexample to C27 as stated: one row of two bytes and one segment of
two bytes. The ranges overlap and the overlap ends at the end of the segment
and at the end of the row; the iteration copies the two bytes and advances
the segment index, and the row index stays at 0. -/
theorem sweep_advance_after_copy_counterexample :
    max_start ⟨1, 2, 1, 2, 0, 2, 0, VIRGL_TRANSFER_TO_HOST⟩
        ⟨0, 0, 0, ex_host, [⟨[7, 9]⟩], []⟩ <
      min_end ⟨1, 2, 1, 2, 0, 2, 0, VIRGL_TRANSFER_TO_HOST⟩
        ⟨0, 0, 0, ex_host, [⟨[7, 9]⟩], []⟩ ∧
    min_end ⟨1, 2, 1, 2, 0, 2, 0, VIRGL_TRANSFER_TO_HOST⟩
        ⟨0, 0, 0, ex_host, [⟨[7, 9]⟩], []⟩ =
      iovec_end_offset ⟨0, 0, 0, ex_host, [⟨[7, 9]⟩], []⟩ ∧
    min_end ⟨1, 2, 1, 2, 0, 2, 0, VIRGL_TRANSFER_TO_HOST⟩
        ⟨0, 0, 0, ex_host, [⟨[7, 9]⟩], []⟩ =
      box_end_offset ⟨1, 2, 1, 2, 0, 2, 0, VIRGL_TRANSFER_TO_HOST⟩
        ⟨0, 0, 0, ex_host, [⟨[7, 9]⟩], []⟩ ∧
    (sweep_step ⟨1, 2, 1, 2, 0, 2, 0, VIRGL_TRANSFER_TO_HOST⟩
        ⟨0, 0, 0, ex_host, [⟨[7, 9]⟩], []⟩).log = [⟨0, 0, 0, 2⟩] ∧
    (sweep_step ⟨1, 2, 1, 2, 0, 2, 0, VIRGL_TRANSFER_TO_HOST⟩
        ⟨0, 0, 0, ex_host, [⟨[7, 9]⟩], []⟩).current_iovec = 1 ∧
    (sweep_step ⟨1, 2, 1, 2, 0, 2, 0, VIRGL_TRANSFER_TO_HOST⟩
        ⟨0, 0, 0, ex_host, [⟨[7, 9]⟩], []⟩).current_height = 0 := by
  decide

/-- C28. In an iteration of `virgl_gbm_transfer_internal` in which the row
range and the segment range do not overlap, no byte is copied, and the
segment index advances when the segment starts no later than the row,
otherwise the row index advances. -/
theorem sweep_advance_without_overlap (a : SweepArgs) (s : SweepState)
    (hov : ¬ max_start a s < min_end a s) :
    (sweep_step a s).host = s.host ∧ (sweep_step a s).iovecs = s.iovecs ∧
    (sweep_step a s).log = s.log ∧
    (s.iovec_start_offset ≤ box_start_offset a s →
      (sweep_step a s).current_iovec = s.current_iovec + 1 ∧
      (sweep_step a s).iovec_start_offset = u32 (s.iovec_start_offset + iovec_size s) ∧
      (sweep_step a s).current_height = s.current_height) ∧
    (box_start_offset a s < s.iovec_start_offset →
      (sweep_step a s).current_height = s.current_height + 1 ∧
      (sweep_step a s).current_iovec = s.current_iovec ∧
      (sweep_step a s).iovec_start_offset = s.iovec_start_offset) := by
  obtain ⟨c1, c2, c3⟩ := sweep_step_ctrl a s
  refine ⟨by simp [sweep_step, hov], by simp [sweep_step, hov], by simp [sweep_step, hov],
    ?_, ?_⟩
  · intro h
    have hn : next_iovec a s = true := by simp [next_iovec, hov, h]
    rw [c1, c2, c3, hn]
    exact ⟨rfl, rfl, rfl⟩
  · intro h
    have hn : next_iovec a s = false := by
      simp only [next_iovec, if_neg hov]
      simpa using h
    rw [c1, c2, c3, hn]
    exact ⟨rfl, rfl, rfl⟩

/-- Witness for C28: a row that starts at offset 4, behind a first segment
of two bytes; the segment is passed without a copy. -/
theorem sweep_advance_without_overlap_witness :
    (sweep_step ⟨1, 2, 1, 2, 4, 2, 0, VIRGL_TRANSFER_TO_HOST⟩
        ⟨0, 0, 0, ex_host, [⟨[7, 9]⟩, ⟨[1, 2, 3, 4]⟩], []⟩).log = [] ∧
    (sweep_step ⟨1, 2, 1, 2, 4, 2, 0, VIRGL_TRANSFER_TO_HOST⟩
        ⟨0, 0, 0, ex_host, [⟨[7, 9]⟩, ⟨[1, 2, 3, 4]⟩], []⟩).current_iovec = 1 ∧
    (sweep_step ⟨1, 2, 1, 2, 4, 2, 0, VIRGL_TRANSFER_TO_HOST⟩
        ⟨0, 0, 0, ex_host, [⟨[7, 9]⟩, ⟨[1, 2, 3, 4]⟩], []⟩).current_height = 0 :=
  ⟨(sweep_advance_without_overlap ⟨1, 2, 1, 2, 4, 2, 0, VIRGL_TRANSFER_TO_HOST⟩
      ⟨0, 0, 0, ex_host, [⟨[7, 9]⟩, ⟨[1, 2, 3, 4]⟩], []⟩ (by decide)).2.2.1,
    ((sweep_advance_without_overlap ⟨1, 2, 1, 2, 4, 2, 0, VIRGL_TRANSFER_TO_HOST⟩
      ⟨0, 0, 0, ex_host, [⟨[7, 9]⟩, ⟨[1, 2, 3, 4]⟩], []⟩ (by decide)).2.2.2.1 (by decide)).1,
    ((sweep_advance_without_overlap ⟨1, 2, 1, 2, 4, 2, 0, VIRGL_TRANSFER_TO_HOST⟩
      ⟨0, 0, 0, ex_host, [⟨[7, 9]⟩, ⟨[1, 2, 3, 4]⟩], []⟩ (by decide)).2.2.2.1
        (by decide)).2.2⟩

/-- C30. Every iteration of the loop of `virgl_gbm_transfer_internal`
advances exactly one of the row index and the segment index, by one. So the
loop ends within `subsampled_height + num_iovecs` iterations: after that many
its condition is false, more iterations change nothing, and the indices,
whose sum is the number of iterations made, stand within their bounds. -/
theorem sweep_termination (a : SweepArgs) (host : HostMem) (iovecs : List iovec) :
    (∀ s, ((sweep_step a s).current_height = s.current_height ∧
        (sweep_step a s).current_iovec = s.current_iovec + 1) ∨
      ((sweep_step a s).current_height = s.current_height + 1 ∧
        (sweep_step a s).current_iovec = s.current_iovec)) ∧
    ¬ ((virgl_gbm_transfer_internal a host iovecs).current_height < a.subsampled_height ∧
      (virgl_gbm_transfer_internal a host iovecs).current_iovec < iovecs.length) ∧
    (∀ k, sweep_loop a (a.subsampled_height + iovecs.length + k) ⟨0, 0, 0, host, iovecs, []⟩ =
      virgl_gbm_transfer_internal a host iovecs) ∧
    (virgl_gbm_transfer_internal a host iovecs).current_height ≤ a.subsampled_height ∧
    (virgl_gbm_transfer_internal a host iovecs).current_iovec ≤ iovecs.length := by
  have hl : (virgl_gbm_transfer_internal a host iovecs).iovecs.length = iovecs.length := by
    have := congrArg List.length (transfer_internal_lens a host iovecs)
    simpa using this
  have hx := transfer_internal_exit a host iovecs
  have hb := sweep_loop_bounds a (a.subsampled_height + iovecs.length)
    ⟨0, 0, 0, host, iovecs, []⟩ (Nat.zero_le _) (Nat.zero_le _)
  refine ⟨sweep_step_advance a, ?_, ?_, hb.1, ?_⟩
  · rw [hl] at hx; exact hx
  · intro k
    exact sweep_loop_stable a _ _ hx k
  · have := hb.2
    rw [← hl]
    exact this

/-! ### Failures of `virgl_gbm_init` and of the transfer before any copy -/

/-- C21 (amended). `virgl_gbm_init` returns a handle whose device was
created on the descriptor in use, or NULL. With `fd < 0` the handle holds
the descriptor the locator left open. When it returns NULL after `calloc`
succeeded, the handle is freed and every descriptor it opened is closed:
with a supplied descriptor the only call is `free`; with `fd < 0` the
rejected descriptors are opened and closed in turn, the directory is closed,
a descriptor the locator returned is closed after the failed device
creation, and the handle is freed last. When `calloc` fails nothing is
called. It returns NULL exactly when `calloc` fails, or `fd < 0` and the
locator finds no render node, or the device cannot be created. -/
theorem init_no_partial_state (calloc_ok : Bool) (dir : Option (List dir_entry))
    (gbm_create_device : Int → Option Nat) (fd : Int) :
    (∀ gbm, (virgl_gbm_init calloc_ok dir gbm_create_device fd).1 = some gbm →
      gbm_create_device (if fd < 0 then gbm.fd else fd) = some gbm.device ∧
      (fd < 0 → 0 ≤ gbm.fd ∧ gbm.fd = (rendernode_open dir).1 ∧
        (virgl_gbm_init calloc_ok dir gbm_create_device fd).2 = (rendernode_open dir).2) ∧
      (0 ≤ fd → gbm.fd = -1 ∧ (virgl_gbm_init calloc_ok dir gbm_create_device fd).2 = [])) ∧
    ((virgl_gbm_init calloc_ok dir gbm_create_device fd).1 = none → calloc_ok = true →
      (0 ≤ fd → (virgl_gbm_init calloc_ok dir gbm_create_device fd).2 = [SysEvent.freed]) ∧
      (fd < 0 → dir = none →
        (virgl_gbm_init calloc_ok dir gbm_create_device fd).2 = [SysEvent.freed]) ∧
      (fd < 0 → dir ≠ none → ∃ rejected,
        (virgl_gbm_init calloc_ok dir gbm_create_device fd).2 =
          rejected_events rejected ++ [SysEvent.closedir, SysEvent.freed] ∨
        ∃ r, 0 ≤ r ∧ (virgl_gbm_init calloc_ok dir gbm_create_device fd).2 =
          rejected_events rejected ++
            [SysEvent.opened r, SysEvent.closedir, SysEvent.closed r, SysEvent.freed])) ∧
    (calloc_ok = false → (virgl_gbm_init calloc_ok dir gbm_create_device fd).2 = []) ∧
    ((virgl_gbm_init calloc_ok dir gbm_create_device fd).1 = none ↔
      calloc_ok = false ∨ (fd < 0 ∧ (rendernode_open dir).1 < 0) ∨
        gbm_create_device (if fd < 0 then (rendernode_open dir).1 else fd) = none) := by
  cases calloc_ok
  · simp [virgl_gbm_init]
  · by_cases hfd : fd < 0
    · have hn : ¬ 0 ≤ fd := by omega
      by_cases hr : (rendernode_open dir).1 < 0
      · simp only [virgl_gbm_init, Bool.not_true, Bool.false_eq_true, if_false, if_pos hfd,
          if_pos hr]
        refine ⟨by simp, fun _ _ => ⟨fun h => absurd h hn, ?_, ?_⟩, by simp, by simp [hfd, hr]⟩
        · intro _ hd
          subst hd
          rfl
        · intro _ hd
          cases dir with
          | none => exact absurd rfl hd
          | some entries =>
            obtain ⟨rejected, e⟩ := rendernode_open_events entries
            refine ⟨rejected, Or.inl ?_⟩
            rw [e, if_neg (by omega)]
            simp
      · have h0 : 0 ≤ (rendernode_open dir).1 := by omega
        cases hd : gbm_create_device (rendernode_open dir).1 with
        | none =>
          simp only [virgl_gbm_init, Bool.not_true, Bool.false_eq_true, if_false, if_pos hfd,
            if_neg hr, hd]
          refine ⟨by simp, fun _ _ => ⟨fun h => absurd h hn, ?_, ?_⟩, by simp, by simp⟩
          · intro _ hdir
            subst hdir
            simp [rendernode_open] at hr
          · intro _ hdir
            cases dir with
            | none => exact absurd rfl hdir
            | some entries =>
              obtain ⟨rejected, e⟩ := rendernode_open_events entries
              refine ⟨rejected, Or.inr ⟨(rendernode_open (some entries)).1, h0, ?_⟩⟩
              rw [e, if_pos h0]
              simp
        | some device =>
          simp only [virgl_gbm_init, Bool.not_true, Bool.false_eq_true, if_false, if_pos hfd,
            if_neg hr, hd]
          refine ⟨?_, by simp, by simp, by simp [hr]⟩
          intro gbm hg
          simp only [Option.some.injEq] at hg
          subst hg
          exact ⟨by simp [hd], fun _ => ⟨h0, by simp, by simp⟩, fun h => absurd h hn⟩
    · have h0 : 0 ≤ fd := by omega
      cases hd : gbm_create_device fd with
      | none =>
        simp only [virgl_gbm_init, Bool.not_true, Bool.false_eq_true, if_false, if_neg hfd, hd]
        exact ⟨by simp, fun _ _ => ⟨fun _ => by simp, fun h => absurd h hfd,
          fun h => absurd h hfd⟩, by simp, by simp⟩
      | some device =>
        simp only [virgl_gbm_init, Bool.not_true, Bool.false_eq_true, if_false, if_neg hfd, hd]
        refine ⟨?_, by simp, by simp, by simp [hfd]⟩
        intro gbm hg
        simp only [Option.some.injEq] at hg
        subst hg
        exact ⟨by simp [hd], fun h => absurd h hfd, fun _ => ⟨by simp, by simp⟩⟩

/-- Witness for C21: `fd = -1` over the directory with the drivers `vgem`,
`pvr` and `accepted_driver`, the device creation failing. -/
theorem init_no_partial_state_witness :
    virgl_gbm_init true (some ex_dir) (fun _ => none) (-1) =
      (none, [SysEvent.opened 5, SysEvent.closed 5, SysEvent.opened 6, SysEvent.closed 6,
        SysEvent.opened 7, SysEvent.closedir, SysEvent.closed 7, SysEvent.freed]) ∧
    ∃ rejected,
      (virgl_gbm_init true (some ex_dir) (fun _ => none) (-1)).2 =
        rejected_events rejected ++ [SysEvent.closedir, SysEvent.freed] ∨
      ∃ r, 0 ≤ r ∧ (virgl_gbm_init true (some ex_dir) (fun _ => none) (-1)).2 =
        rejected_events rejected ++
          [SysEvent.opened r, SysEvent.closedir, SysEvent.closed r, SysEvent.freed] :=
  ⟨by decide,
    ((init_no_partial_state true (some ex_dir) (fun _ => none) (-1)).2.1 (by decide) rfl).2.2
      (by decide) (by decide)⟩

/-- Counterexample to C21 as stated: `calloc` fails while descriptor 3 is
supplied and the device could be created on it; NULL is returned although no
locator ran and no device creation failed. -/
theorem init_no_partial_state_counterexample :
    virgl_gbm_init false (some ex_dir) (fun _ => some 1) 3 = (none, []) ∧
    ¬ ((3 : Int) < 0) ∧ (fun _ => some 1 : Int → Option Nat) 3 ≠ none := by
  decide

/-- C22. When the format of the buffer has no layout, `virgl_gbm_transfer`
returns -1 with the buffer not mapped, whatever `gbm_bo_map` would answer;
when the format has a layout and `gbm_bo_map` fails, it returns -1. In both
cases the host memory and the guest segments are as before and no copy is
made. -/
theorem transfer_pre_copy_failures (bo : gbm_bo) (direction : Nat) (host : HostMem)
    (iovecs : List iovec) (info : vrend_transfer_info) :
    (layout_from_format bo.format = none →
      virgl_gbm_transfer bo direction host iovecs info = some ⟨-1, host, iovecs, [], 0, 0⟩) ∧
    (layout_from_format bo.format ≠ none → bo.map_stride = none →
      virgl_gbm_transfer bo direction host iovecs info = some ⟨-1, host, iovecs, [], 0, 0⟩) := by
  constructor
  · intro h
    simp [virgl_gbm_transfer, h]
  · intro h hm
    cases hl : layout_from_format bo.format with
    | none => exact absurd hl h
    | some layout => simp [virgl_gbm_transfer, hl, hm]

/-- Witness for C22: a buffer of format 0, which has no layout, and an R8
buffer whose mapping fails. -/
theorem transfer_pre_copy_failures_witness :
    virgl_gbm_transfer (ex_bo 0 4 1 1 [0] [] (some 4)) VIRGL_TRANSFER_TO_HOST ex_host
        ex_sweep_iovecs ⟨0, 0, 0, ⟨0, 0, 4, 1⟩⟩ =
      some ⟨-1, ex_host, ex_sweep_iovecs, [], 0, 0⟩ ∧
    virgl_gbm_transfer (ex_bo GBM_FORMAT_R8 4 1 1 [0] [] none) VIRGL_TRANSFER_FROM_HOST ex_host
        ex_sweep_iovecs ⟨0, 0, 0, ⟨0, 0, 4, 1⟩⟩ =
      some ⟨-1, ex_host, ex_sweep_iovecs, [], 0, 0⟩ :=
  ⟨(transfer_pre_copy_failures (ex_bo 0 4 1 1 [0] [] (some 4)) VIRGL_TRANSFER_TO_HOST ex_host
      ex_sweep_iovecs ⟨0, 0, 0, ⟨0, 0, 4, 1⟩⟩).1 (by decide),
    (transfer_pre_copy_failures (ex_bo GBM_FORMAT_R8 4 1 1 [0] [] none)
      VIRGL_TRANSFER_FROM_HOST ex_host ex_sweep_iovecs ⟨0, 0, 0, ⟨0, 0, 4, 1⟩⟩).2
      (by decide) rfl⟩

/-! ### The arguments of the sweep for each plane -/

/-- The plane loop for one more plane is the loop followed by the iteration
for that plane. -/
theorem plane_loop_snoc (bo : gbm_bo) (layout : planar_layout) (info : vrend_transfer_info)
    (direction gs hms : Nat) (count plane : Nat) (s : PlaneState) :
    plane_loop bo layout info direction gs hms (count + 1) plane s =
      (plane_loop bo layout info direction gs hms count plane s).bind
        (plane_step bo layout info direction gs hms (plane + count)) := by
  induction count generalizing plane s with
  | zero =>
    simp only [plane_loop, Nat.add_zero, Option.some_bind]
    cases plane_step bo layout info direction gs hms plane s <;> rfl
  | succ n ih =>
    rw [plane_loop]
    cases h : plane_step bo layout info direction gs hms plane s with
    | none => simp [plane_loop, h]
    | some s1 =>
      simp only
      rw [ih (plane + 1) s1]
      conv_rhs => rw [plane_loop, h]
      have e : plane + 1 + n = plane + (n + 1) := by omega
      rw [e]

/-- The state at the start of the iteration for the next plane. -/
theorem plane_state_at_succ (bo : gbm_bo) (layout : planar_layout)
    (info : vrend_transfer_info) (direction gs hms : Nat) (host : HostMem)
    (iovecs : List iovec) (plane : Nat) :
    plane_state_at bo layout info direction gs hms host iovecs (plane + 1) =
      (plane_state_at bo layout info direction gs hms host iovecs plane).bind
        (plane_step bo layout info direction gs hms plane) := by
  unfold plane_state_at
  rw [plane_loop_snoc, Nat.zero_add]

/-- The running offsets at the start of the iteration for `plane`. -/
theorem plane_state_at_offsets (bo : gbm_bo) (layout : planar_layout)
    (info : vrend_transfer_info) (direction gs hms : Nat) (host : HostMem)
    (iovecs : List iovec) (plane : Nat) (s : PlaneState)
    (h : plane_state_at bo layout info direction gs hms host iovecs plane = some s) :
    s.host_plane_offset = host_plane_offset_at bo plane ∧
    s.guest_plane_offset = guest_plane_offset_at bo layout gs plane := by
  induction plane generalizing s with
  | zero =>
    simp only [plane_state_at, plane_loop, Option.some.injEq] at h
    subst h
    exact ⟨rfl, rfl⟩
  | succ n ih =>
    rw [plane_state_at_succ] at h
    cases hs : plane_state_at bo layout info direction gs hms host iovecs n with
    | none => rw [hs] at h; simp at h
    | some s0 =>
      rw [hs] at h
      obtain ⟨e1, e2⟩ := ih s0 hs
      simp only [Option.some_bind, plane_step] at h
      split at h
      · simp at h
      · simp only [Option.some.injEq] at h
        subst h
        simp only [host_plane_offset_at, guest_plane_offset_at, e1, e2, plane_args]
        exact ⟨trivial, trivial⟩

/-- The call of the sweep for `plane`, in terms of the running offsets. -/
theorem sweep_call_at_eq (bo : gbm_bo) (layout : planar_layout)
    (info : vrend_transfer_info) (direction gs hms : Nat) (host : HostMem)
    (iovecs : List iovec) (plane : Nat) (a : SweepArgs)
    (h : sweep_call_at bo layout info direction gs hms host iovecs plane = some a) :
    a = sweep_args_at bo layout info direction gs hms plane ∧
    layout.horizontal_subsampling.getD plane 0 ≠ 0 ∧
    layout.vertical_subsampling.getD plane 0 ≠ 0 := by
  unfold sweep_call_at at h
  cases hs : plane_state_at bo layout info direction gs hms host iovecs plane with
  | none => rw [hs] at h; simp at h
  | some s =>
    rw [hs] at h
    obtain ⟨e1, e2⟩ := plane_state_at_offsets bo layout info direction gs hms host iovecs
      plane s hs
    simp only [Option.some_bind] at h
    split at h
    · simp at h
    · rename_i hz
      simp only [Option.some.injEq] at h
      refine ⟨?_, by tauto, by tauto⟩
      rw [← h, e1, e2]
      rfl

/-- A transfer that runs its plane loop through calls the sweep for every
plane below the plane count. -/
theorem plane_loop_calls (bo : gbm_bo) (layout : planar_layout)
    (info : vrend_transfer_info) (direction gs hms : Nat) (host : HostMem)
    (iovecs : List iovec) (count : Nat) (t : PlaneState)
    (h : plane_state_at bo layout info direction gs hms host iovecs count = some t)
    (plane : Nat) (hp : plane < count) :
    sweep_call_at bo layout info direction gs hms host iovecs plane =
      some (sweep_args_at bo layout info direction gs hms plane) := by
  induction count generalizing t with
  | zero => omega
  | succ n ih =>
    rw [plane_state_at_succ] at h
    cases hs : plane_state_at bo layout info direction gs hms host iovecs n with
    | none => rw [hs] at h; simp at h
    | some s0 =>
      rw [hs] at h
      by_cases hlt : plane < n
      · exact ih s0 hs hlt
      · have hpn : plane = n := by omega
        subst hpn
        obtain ⟨e1, e2⟩ := plane_state_at_offsets bo layout info direction gs hms host iovecs
          plane s0 hs
        simp only [Option.some_bind, plane_step] at h
        unfold sweep_call_at
        rw [hs]
        simp only [Option.some_bind]
        split at h
        · simp at h
        · rename_i hz
          rw [if_neg hz, e1, e2]
          rfl

/-- The running host offset is the sum of the offsets of the planes so far,
reduced to 32 bits. -/
theorem host_plane_offset_at_succ (bo : gbm_bo) (plane : Nat) :
    host_plane_offset_at bo (plane + 1) = u32 (offset_sum bo plane) := by
  induction plane with
  | zero => simp [host_plane_offset_at, offset_sum, List.range_succ]
  | succ n ih =>
    rw [host_plane_offset_at, ih]
    simp only [offset_sum, u32]
    rw [List.range_succ (n := n + 1), List.map_append, List.sum_append]
    simp only [List.map_cons, List.map_nil, List.sum_cons, List.sum_nil, Nat.add_zero]
    omega

/-- What `transfer_call_at` being defined says about the transfer. -/
theorem transfer_call_at_some (bo : gbm_bo) (direction : Nat) (host : HostMem)
    (iovecs : List iovec) (info : vrend_transfer_info) (plane : Nat) (a : SweepArgs)
    (h : transfer_call_at bo direction host iovecs info plane = some a) :
    ∃ layout hms, layout_from_format bo.format = some layout ∧ bo.map_stride = some hms ∧
      calc_stride0 bo layout ≤ resolve_guest_stride0 info (calc_stride0 bo layout) ∧
      resolve_guest_stride0 info (calc_stride0 bo layout) ≤ hms ∧
      (plane : Int) < bo.plane_count ∧
      layout.horizontal_subsampling.getD plane 0 ≠ 0 ∧
      layout.vertical_subsampling.getD plane 0 ≠ 0 ∧
      a = sweep_args_at bo layout info direction
        (resolve_guest_stride0 info (calc_stride0 bo layout)) hms plane := by
  unfold transfer_call_at at h
  cases hl : layout_from_format bo.format with
  | none => rw [hl] at h; simp at h
  | some layout =>
    cases hm : bo.map_stride with
    | none => rw [hl, hm] at h; simp at h
    | some hms =>
      rw [hl, hm] at h
      simp only at h
      split_ifs at h with h1 h2 h3
      obtain ⟨e, z1, z2⟩ := sweep_call_at_eq bo layout info direction _ hms host iovecs plane a h
      exact ⟨layout, hms, rfl, rfl, by omega, by omega, h3, z1, z2, e⟩

/-- A transfer that returns 0 has called the sweep for every plane below
the plane count. -/
theorem transfer_calls (bo : gbm_bo) (direction : Nat) (host : HostMem)
    (iovecs : List iovec) (info : vrend_transfer_info) (r : TransferResult)
    (hr : virgl_gbm_transfer bo direction host iovecs info = some r) (h0 : r.ret = 0)
    (plane : Nat) (hp : (plane : Int) < bo.plane_count) :
    ∃ a, transfer_call_at bo direction host iovecs info plane = some a := by
  unfold virgl_gbm_transfer at hr
  unfold transfer_call_at
  cases hl : layout_from_format bo.format with
  | none => rw [hl] at hr; simp only [Option.some.injEq] at hr; rw [← hr] at h0; simp at h0
  | some layout =>
    cases hm : bo.map_stride with
    | none =>
      rw [hl, hm] at hr; simp only [Option.some.injEq] at hr; rw [← hr] at h0; simp at h0
    | some hms =>
      rw [hl, hm] at hr
      simp only at hr ⊢
      rcases transfer_mapped_some bo layout direction host iovecs info hms _ r hr with
        ⟨e, _⟩ | ⟨_, v1, v2, _, _, s, hs, _⟩
      · rw [e] at h0; simp at h0
      · rw [if_neg (by omega), if_neg (by omega), if_pos hp]
        refine ⟨_, plane_loop_calls bo layout info direction _ hms host iovecs
          bo.plane_count.toNat s hs plane (by omega)⟩

/-! ### Claims about the per-plane arguments -/

/-- C23 (the defect). The host address `virgl_gbm_transfer` passes to the
sweep for a plane is built on the sum of the offsets the allocator reports
for that plane and for every plane before it, reduced to 32 bits, not on the
offset of the plane alone: the loop does `host_plane_offset +=` with the
offset of each plane in turn. The terms of the box origin are added to that
sum. -/
theorem transfer_host_plane_offset_accumulates (bo : gbm_bo) (layout : planar_layout)
    (direction : Nat) (host : HostMem) (iovecs : List iovec) (info : vrend_transfer_info)
    (hms plane : Nat) (a : SweepArgs)
    (hl : layout_from_format bo.format = some layout) (hm : bo.map_stride = some hms)
    (h : transfer_call_at bo direction host iovecs info plane = some a) :
    a.host_address =
      u32 (u32 (u32 (offset_sum bo plane) +
        u32 (u32 (info.box.y / layout.vertical_subsampling.getD plane 0) *
          (hms / layout.horizontal_subsampling.getD plane 0))) +
        u32 (u32 (info.box.x / layout.horizontal_subsampling.getD plane 0) *
          layout.bytes_per_pixel.getD plane 0)) := by
  obtain ⟨layout', hms', hl', hm', _, _, _, _, _, e⟩ :=
    transfer_call_at_some bo direction host iovecs info plane a h
  rw [hl] at hl'
  rw [hm] at hm'
  simp only [Option.some.injEq] at hl' hm'
  subst hl' hm'
  rw [e]
  simp only [sweep_args_at, plane_args]
  rw [← host_plane_offset_at_succ, host_plane_offset_at]

/-- Failing input of C23: the YVU420 buffer of 2x2 pixels with its planes at
the offsets 0, 4 and 5, and a request for the whole buffer. The sweep for
plane 2 is called with host address 9, the sum of the three offsets, and the
one byte of that plane is copied to host offset 9; the allocator reports
offset 5 for plane 2. -/
theorem transfer_host_plane_offset_accumulates_witness :
    (transfer_call_at ex_yvu_bo VIRGL_TRANSFER_TO_HOST ex_host [⟨[1, 2, 3, 4, 5, 6]⟩]
      ⟨0, 0, 0, ⟨0, 0, 2, 2⟩⟩ 2).map SweepArgs.host_address = some 9 ∧
    ex_yvu_bo.offset 2 = 5 ∧
    (virgl_gbm_transfer ex_yvu_bo VIRGL_TRANSFER_TO_HOST ex_host [⟨[1, 2, 3, 4, 5, 6]⟩]
      ⟨0, 0, 0, ⟨0, 0, 2, 2⟩⟩).map (fun r => (r.ret, r.log.filter fun e => e.1 = 2)) =
      some (0, [(2, ⟨0, 5, 9, 1⟩)]) ∧
    (sweep_args_at ex_yvu_bo triplanar_yuv_420_layout ⟨0, 0, 0, ⟨0, 0, 2, 2⟩⟩
      VIRGL_TRANSFER_TO_HOST 2 2 2).host_address =
      u32 (u32 (u32 (offset_sum ex_yvu_bo 2) +
        u32 (u32 (0 / triplanar_yuv_420_layout.vertical_subsampling.getD 2 0) *
          (2 / triplanar_yuv_420_layout.horizontal_subsampling.getD 2 0))) +
        u32 (u32 (0 / triplanar_yuv_420_layout.horizontal_subsampling.getD 2 0) *
          triplanar_yuv_420_layout.bytes_per_pixel.getD 2 0)) :=
  ⟨by decide, by decide, by decide,
    transfer_host_plane_offset_accumulates ex_yvu_bo triplanar_yuv_420_layout
      VIRGL_TRANSFER_TO_HOST ex_host [⟨[1, 2, 3, 4, 5, 6]⟩] ⟨0, 0, 0, ⟨0, 0, 2, 2⟩⟩ 2 2
      (sweep_args_at ex_yvu_bo triplanar_yuv_420_layout ⟨0, 0, 0, ⟨0, 0, 2, 2⟩⟩
        VIRGL_TRANSFER_TO_HOST 2 2 2) (by decide) rfl (by decide)⟩

/-- The arguments for a plane do not look at the base offset of the
request. -/
theorem plane_loop_offset_irrelevant (bo : gbm_bo) (layout : planar_layout)
    (info : vrend_transfer_info) (o : Nat) (direction gs hms : Nat) (count plane : Nat)
    (s : PlaneState) :
    plane_loop bo layout { info with offset := o } direction gs hms count plane s =
      plane_loop bo layout info direction gs hms count plane s := by
  induction count generalizing plane s with
  | zero => rfl
  | succ n ih =>
    simp only [plane_loop]
    have e : plane_step bo layout { info with offset := o } direction gs hms plane s =
        plane_step bo layout info direction gs hms plane s := rfl
    rw [e]
    cases plane_step bo layout info direction gs hms plane s with
    | none => rfl
    | some s1 => exact ih (plane + 1) s1

theorem transfer_offset_irrelevant (bo : gbm_bo) (direction : Nat) (host : HostMem)
    (iovecs : List iovec) (info : vrend_transfer_info) (o : Nat) :
    virgl_gbm_transfer bo direction host iovecs { info with offset := o } =
      virgl_gbm_transfer bo direction host iovecs info := by
  unfold virgl_gbm_transfer transfer_mapped
  have e : resolve_guest_stride0 { info with offset := o } =
      resolve_guest_stride0 info := rfl
  simp only [e, plane_loop_offset_irrelevant]

theorem transfer_call_offset_irrelevant (bo : gbm_bo) (direction : Nat) (host : HostMem)
    (iovecs : List iovec) (info : vrend_transfer_info) (o plane : Nat) :
    transfer_call_at bo direction host iovecs { info with offset := o } plane =
      transfer_call_at bo direction host iovecs info plane := by
  unfold transfer_call_at sweep_call_at plane_state_at
  have e : resolve_guest_stride0 { info with offset := o } =
      resolve_guest_stride0 info := rfl
  have e2 : ∀ l d g h p x y, plane_args bo l { info with offset := o } d g h p x y =
      plane_args bo l info d g h p x y := fun _ _ _ _ _ _ _ => rfl
  simp only [e, e2, plane_loop_offset_irrelevant]

/-- C24 (amended). In `virgl_gbm_transfer` the running guest plane offset
starts at 0 for plane 0, whatever base offset the request carries: the base
offset is not read. The transfer and the arguments of every sweep are the
same for every base offset, and the guest offset the sweep for plane 0
starts from is made of the origin of the box alone. -/
theorem transfer_guest_base_offset (bo : gbm_bo) (direction : Nat) (host : HostMem)
    (iovecs : List iovec) (info : vrend_transfer_info) :
    (∀ o, virgl_gbm_transfer bo direction host iovecs { info with offset := o } =
      virgl_gbm_transfer bo direction host iovecs info) ∧
    (∀ o plane, transfer_call_at bo direction host iovecs { info with offset := o } plane =
      transfer_call_at bo direction host iovecs info plane) ∧
    (∀ layout gs hms s,
      plane_state_at bo layout info direction gs hms host iovecs 0 = some s →
      s.guest_plane_offset = 0) ∧
    (∀ layout a, layout_from_format bo.format = some layout →
      transfer_call_at bo direction host iovecs info 0 = some a →
      a.guest_resource_offset =
        u32 (u32 (u32 info.box.y * resolve_guest_stride0 info (calc_stride0 bo layout)) +
          u32 (u32 info.box.x * layout.bytes_per_pixel.getD 0 0))) := by
  refine ⟨transfer_offset_irrelevant bo direction host iovecs info,
    transfer_call_offset_irrelevant bo direction host iovecs info, ?_, ?_⟩
  · intro layout gs hms s h
    simp only [plane_state_at, plane_loop, Option.some.injEq] at h
    rw [← h]
  · intro layout a hl h
    obtain ⟨layout', hms', hl', _, _, _, _, _, _, e⟩ :=
      transfer_call_at_some bo direction host iovecs info 0 a h
    rw [hl] at hl'
    simp only [Option.some.injEq] at hl'
    subst hl'
    obtain ⟨p1, p2⟩ := layout_plane0 bo.format layout hl
    rw [e]
    simp only [sweep_args_at, plane_args, guest_plane_offset_at, p1, p2, Nat.div_one,
      Nat.zero_add]
    simp only [u32, Nat.mod_mod]

/-- Witness for C24: an R8 buffer of 4x1 pixels and a request with base
offset 16. -/
theorem transfer_guest_base_offset_witness :
    transfer_call_at ex_r8_bo VIRGL_TRANSFER_TO_HOST ex_host ex_twenty
        ⟨0, 0, 16, ⟨0, 0, 4, 1⟩⟩ 0 =
      transfer_call_at ex_r8_bo VIRGL_TRANSFER_TO_HOST ex_host ex_twenty
        ⟨0, 0, 0, ⟨0, 0, 4, 1⟩⟩ 0 ∧
    (sweep_args_at ex_r8_bo packed_1bpp_layout ⟨0, 0, 16, ⟨0, 0, 4, 1⟩⟩ VIRGL_TRANSFER_TO_HOST
        4 4 0).guest_resource_offset =
      u32 (u32 (u32 0 * resolve_guest_stride0 ⟨0, 0, 16, ⟨0, 0, 4, 1⟩⟩
          (calc_stride0 ex_r8_bo packed_1bpp_layout)) +
        u32 (u32 0 * packed_1bpp_layout.bytes_per_pixel.getD 0 0)) :=
  ⟨((transfer_guest_base_offset ex_r8_bo VIRGL_TRANSFER_TO_HOST ex_host ex_twenty
      ⟨0, 0, 0, ⟨0, 0, 4, 1⟩⟩).2.1 16 0),
    (transfer_guest_base_offset ex_r8_bo VIRGL_TRANSFER_TO_HOST ex_host ex_twenty
      ⟨0, 0, 16, ⟨0, 0, 4, 1⟩⟩).2.2.2 packed_1bpp_layout _ (by decide) (by decide)⟩

/-- Counterexample to C24 as stated: an R8 buffer of 4x1 pixels, twenty
guest bytes and a request for the whole buffer with base offset 16. The
sweep for plane 0 starts from guest offset 0 and copies the guest bytes 0 to
3 (the first of which is 1), not the bytes from offset 16 on. -/
theorem transfer_guest_base_offset_counterexample :
    (⟨0, 0, 16, ⟨0, 0, 4, 1⟩⟩ : vrend_transfer_info).offset = 16 ∧
    (transfer_call_at ex_r8_bo VIRGL_TRANSFER_TO_HOST ex_host ex_twenty
      ⟨0, 0, 16, ⟨0, 0, 4, 1⟩⟩ 0).map SweepArgs.guest_resource_offset = some 0 ∧
    (virgl_gbm_transfer ex_r8_bo VIRGL_TRANSFER_TO_HOST ex_host ex_twenty
      ⟨0, 0, 16, ⟨0, 0, 4, 1⟩⟩).map (fun r => (r.ret, r.log, r.host 0)) =
      some (0, [(0, ⟨0, 0, 0, 4⟩)], 1) := by
  decide

/-- C25. When `virgl_gbm_transfer` calls the sweep for plane `p + 1`, the
running guest plane offset at that plane is the one at plane `p` plus
`(height / vertical_subsampling[p]) * (guest_stride0 / horizontal_subsampling[p])`,
in the 32-bit arithmetic of the code, and the plain sum when that fits in 32
bits; the guest offset passed to the sweep is built on it. -/
theorem transfer_guest_plane_accumulation (bo : gbm_bo) (layout : planar_layout)
    (direction : Nat) (host : HostMem) (iovecs : List iovec) (info : vrend_transfer_info)
    (hms p : Nat) (a : SweepArgs)
    (hl : layout_from_format bo.format = some layout) (hm : bo.map_stride = some hms)
    (h : transfer_call_at bo direction host iovecs info (p + 1) = some a) :
    ∃ s s',
      plane_state_at bo layout info direction
        (resolve_guest_stride0 info (calc_stride0 bo layout)) hms host iovecs p = some s ∧
      plane_state_at bo layout info direction
        (resolve_guest_stride0 info (calc_stride0 bo layout)) hms host iovecs (p + 1) =
        some s' ∧
      s'.guest_plane_offset =
        u32 (s.guest_plane_offset +
          u32 (bo.height / layout.vertical_subsampling.getD p 0 *
            (resolve_guest_stride0 info (calc_stride0 bo layout) /
              layout.horizontal_subsampling.getD p 0))) ∧
      (s.guest_plane_offset + bo.height / layout.vertical_subsampling.getD p 0 *
          (resolve_guest_stride0 info (calc_stride0 bo layout) /
            layout.horizontal_subsampling.getD p 0) < 4294967296 →
        s'.guest_plane_offset =
          s.guest_plane_offset + bo.height / layout.vertical_subsampling.getD p 0 *
            (resolve_guest_stride0 info (calc_stride0 bo layout) /
              layout.horizontal_subsampling.getD p 0)) ∧
      a.guest_resource_offset =
        u32 (u32 (s'.guest_plane_offset +
          u32 (u32 (info.box.y / layout.vertical_subsampling.getD (p + 1) 0) *
            (resolve_guest_stride0 info (calc_stride0 bo layout) /
              layout.horizontal_subsampling.getD (p + 1) 0))) +
          u32 (u32 (info.box.x / layout.horizontal_subsampling.getD (p + 1) 0) *
            layout.bytes_per_pixel.getD (p + 1) 0)) := by
  unfold transfer_call_at at h
  rw [hl, hm] at h
  simp only at h
  split_ifs at h with h1 h2 h3
  unfold sweep_call_at at h
  cases hs' : plane_state_at bo layout info direction
      (resolve_guest_stride0 info (calc_stride0 bo layout)) hms host iovecs (p + 1) with
  | none => rw [hs'] at h; simp at h
  | some s' =>
    rw [hs'] at h
    simp only [Option.some_bind] at h
    split_ifs at h with hz
    simp only [Option.some.injEq] at h
    have hstep := hs'
    rw [plane_state_at_succ] at hstep
    cases hs : plane_state_at bo layout info direction
        (resolve_guest_stride0 info (calc_stride0 bo layout)) hms host iovecs p with
    | none => rw [hs] at hstep; simp at hstep
    | some s =>
      rw [hs] at hstep
      simp only [Option.some_bind, plane_step] at hstep
      split_ifs at hstep with hz'
      simp only [Option.some.injEq] at hstep
      have hg : s'.guest_plane_offset =
          u32 (s.guest_plane_offset +
            u32 (bo.height / layout.vertical_subsampling.getD p 0 *
              (resolve_guest_stride0 info (calc_stride0 bo layout) /
                layout.horizontal_subsampling.getD p 0))) := by
        rw [← hstep]
        simp only [plane_args]
      refine ⟨s, s', rfl, rfl, hg, ?_, ?_⟩
      · intro hfit
        rw [hg, u32_eq_self (n := bo.height / layout.vertical_subsampling.getD p 0 *
            (resolve_guest_stride0 info (calc_stride0 bo layout) /
              layout.horizontal_subsampling.getD p 0)) (by omega)]
        exact u32_eq_self hfit
      · rw [← h]
        simp only [plane_args]

/-- Witness for C25: the NV12 buffer of 2x4 pixels; the luma plane has four
rows of stride 2, so the chroma plane starts at guest offset 8. -/
theorem transfer_guest_plane_accumulation_witness :
    (plane_state_at ex_nv12_bo biplanar_yuv_420_layout ex_nv12_info VIRGL_TRANSFER_TO_HOST
      2 4 ex_host [⟨ex_nv12_bytes⟩] 1).map PlaneState.guest_plane_offset = some 8 ∧
    ∃ s s',
      plane_state_at ex_nv12_bo biplanar_yuv_420_layout ex_nv12_info VIRGL_TRANSFER_TO_HOST
        (resolve_guest_stride0 ex_nv12_info (calc_stride0 ex_nv12_bo biplanar_yuv_420_layout))
        4 ex_host [⟨ex_nv12_bytes⟩] 0 = some s ∧
      plane_state_at ex_nv12_bo biplanar_yuv_420_layout ex_nv12_info VIRGL_TRANSFER_TO_HOST
        (resolve_guest_stride0 ex_nv12_info (calc_stride0 ex_nv12_bo biplanar_yuv_420_layout))
        4 ex_host [⟨ex_nv12_bytes⟩] 1 = some s' ∧
      s'.guest_plane_offset =
        u32 (s.guest_plane_offset +
          u32 (ex_nv12_bo.height / biplanar_yuv_420_layout.vertical_subsampling.getD 0 0 *
            (resolve_guest_stride0 ex_nv12_info
                (calc_stride0 ex_nv12_bo biplanar_yuv_420_layout) /
              biplanar_yuv_420_layout.horizontal_subsampling.getD 0 0))) :=
  ⟨by decide,
    let ⟨s, s', h1, h2, h3, _⟩ := transfer_guest_plane_accumulation ex_nv12_bo
      biplanar_yuv_420_layout VIRGL_TRANSFER_TO_HOST ex_host [⟨ex_nv12_bytes⟩] ex_nv12_info 4 0
      (sweep_args_at ex_nv12_bo biplanar_yuv_420_layout ex_nv12_info VIRGL_TRANSFER_TO_HOST
        2 4 1) (by decide) rfl (by decide)
    ⟨s, s', h1, h2, h3⟩⟩

/-- C26. For every plane `p` for which `virgl_gbm_transfer` calls the sweep,
with a box whose fields fit in 32 bits: the sweep gets the width of the box
divided by `horizontal_subsampling[p]`, its height divided by
`vertical_subsampling[p]`, the guest and host strides of plane 0 divided by
`horizontal_subsampling[p]`, and guest and host offsets whose box terms are
`(y / vertical_subsampling[p])` rows of the plane stride plus
`(x / horizontal_subsampling[p])` pixels. For plane 0 these are the width,
height, strides, `x` and `y` of the request themselves. -/
theorem transfer_plane_geometry (bo : gbm_bo) (layout : planar_layout)
    (direction : Nat) (host : HostMem) (iovecs : List iovec) (info : vrend_transfer_info)
    (hms p : Nat) (a : SweepArgs)
    (hl : layout_from_format bo.format = some layout) (hm : bo.map_stride = some hms)
    (hbox : info.box.x < 4294967296 ∧ info.box.y < 4294967296 ∧
      info.box.width < 4294967296 ∧ info.box.height < 4294967296)
    (h : transfer_call_at bo direction host iovecs info p = some a) :
    (a.planar_bytes_per_pixel = layout.bytes_per_pixel.getD p 0 ∧
      a.subsampled_width = info.box.width / layout.horizontal_subsampling.getD p 0 ∧
      a.subsampled_height = info.box.height / layout.vertical_subsampling.getD p 0 ∧
      a.guest_plane_stride =
        resolve_guest_stride0 info (calc_stride0 bo layout) /
          layout.horizontal_subsampling.getD p 0 ∧
      a.host_plane_stride = hms / layout.horizontal_subsampling.getD p 0 ∧
      a.guest_resource_offset =
        u32 (u32 (guest_plane_offset_at bo layout
            (resolve_guest_stride0 info (calc_stride0 bo layout)) p +
          u32 (info.box.y / layout.vertical_subsampling.getD p 0 * a.guest_plane_stride)) +
          u32 (info.box.x / layout.horizontal_subsampling.getD p 0 *
            layout.bytes_per_pixel.getD p 0)) ∧
      a.host_address =
        u32 (u32 (u32 (host_plane_offset_at bo p + bo.offset p) +
          u32 (info.box.y / layout.vertical_subsampling.getD p 0 * a.host_plane_stride)) +
          u32 (info.box.x / layout.horizontal_subsampling.getD p 0 *
            layout.bytes_per_pixel.getD p 0))) ∧
    (p = 0 →
      a.subsampled_width = info.box.width ∧ a.subsampled_height = info.box.height ∧
      a.guest_plane_stride = resolve_guest_stride0 info (calc_stride0 bo layout) ∧
      a.host_plane_stride = hms ∧
      a.guest_resource_offset =
        u32 (u32 (info.box.y * resolve_guest_stride0 info (calc_stride0 bo layout)) +
          u32 (info.box.x * layout.bytes_per_pixel.getD 0 0)) ∧
      a.host_address =
        u32 (u32 (u32 (bo.offset 0) + u32 (info.box.y * hms)) +
          u32 (info.box.x * layout.bytes_per_pixel.getD 0 0))) := by
  obtain ⟨layout', hms', hl', hm', _, _, _, _, _, e⟩ :=
    transfer_call_at_some bo direction host iovecs info p a h
  rw [hl] at hl'
  rw [hm] at hm'
  simp only [Option.some.injEq] at hl' hm'
  subst hl' hm'
  obtain ⟨bx, by', bw, bh⟩ := hbox
  have dx : ∀ d, u32 (info.box.x / d) = info.box.x / d := fun d =>
    u32_eq_self (lt_of_le_of_lt (Nat.div_le_self _ _) bx)
  have dy : ∀ d, u32 (info.box.y / d) = info.box.y / d := fun d =>
    u32_eq_self (lt_of_le_of_lt (Nat.div_le_self _ _) by')
  have dw : ∀ d, u32 (info.box.width / d) = info.box.width / d := fun d =>
    u32_eq_self (lt_of_le_of_lt (Nat.div_le_self _ _) bw)
  have dh : ∀ d, u32 (info.box.height / d) = info.box.height / d := fun d =>
    u32_eq_self (lt_of_le_of_lt (Nat.div_le_self _ _) bh)
  have hall : a.planar_bytes_per_pixel = layout.bytes_per_pixel.getD p 0 ∧
      a.subsampled_width = info.box.width / layout.horizontal_subsampling.getD p 0 ∧
      a.subsampled_height = info.box.height / layout.vertical_subsampling.getD p 0 ∧
      a.guest_plane_stride =
        resolve_guest_stride0 info (calc_stride0 bo layout) /
          layout.horizontal_subsampling.getD p 0 ∧
      a.host_plane_stride = hms / layout.horizontal_subsampling.getD p 0 ∧
      a.guest_resource_offset =
        u32 (u32 (guest_plane_offset_at bo layout
            (resolve_guest_stride0 info (calc_stride0 bo layout)) p +
          u32 (info.box.y / layout.vertical_subsampling.getD p 0 * a.guest_plane_stride)) +
          u32 (info.box.x / layout.horizontal_subsampling.getD p 0 *
            layout.bytes_per_pixel.getD p 0)) ∧
      a.host_address =
        u32 (u32 (u32 (host_plane_offset_at bo p + bo.offset p) +
          u32 (info.box.y / layout.vertical_subsampling.getD p 0 * a.host_plane_stride)) +
          u32 (info.box.x / layout.horizontal_subsampling.getD p 0 *
            layout.bytes_per_pixel.getD p 0)) := by
    rw [e]
    simp only [sweep_args_at, plane_args, dx, dy, dw, dh]
    exact ⟨trivial, trivial, trivial, trivial, trivial, trivial, trivial⟩
  refine ⟨hall, ?_⟩
  intro hp
  subst hp
  obtain ⟨p1, p2⟩ := layout_plane0 bo.format layout hl
  obtain ⟨_, a2, a3, a4, a5, a6, a7⟩ := hall
  rw [p1] at a2 a4 a5 a6 a7
  rw [p2] at a3 a6 a7
  simp only [Nat.div_one] at a2 a3 a4 a5 a6 a7
  refine ⟨a2, a3, a4, a5, ?_, ?_⟩
  · rw [a6, a4]
    simp only [guest_plane_offset_at, Nat.zero_add, u32, Nat.mod_mod]
  · rw [a7, a5]
    simp only [host_plane_offset_at, Nat.zero_add]

/-- Witness for C26: the chroma plane of the NV12 buffer of 2x4 pixels
mapped with stride 4 gets one pixel of two bytes in each of two rows, at the
strides 1 and 2. -/
theorem transfer_plane_geometry_witness :
    transfer_call_at ex_nv12_bo VIRGL_TRANSFER_TO_HOST ex_host [⟨ex_nv12_bytes⟩] ex_nv12_info
      1 = some ⟨2, 1, 2, 1, 8, 2, 16, VIRGL_TRANSFER_TO_HOST⟩ ∧
    (⟨2, 1, 2, 1, 8, 2, 16, VIRGL_TRANSFER_TO_HOST⟩ : SweepArgs).subsampled_width =
      ex_nv12_info.box.width / biplanar_yuv_420_layout.horizontal_subsampling.getD 1 0 ∧
    (⟨2, 1, 2, 1, 8, 2, 16, VIRGL_TRANSFER_TO_HOST⟩ : SweepArgs).guest_plane_stride =
      resolve_guest_stride0 ex_nv12_info (calc_stride0 ex_nv12_bo biplanar_yuv_420_layout) /
        biplanar_yuv_420_layout.horizontal_subsampling.getD 1 0 :=
  ⟨by decide,
    (transfer_plane_geometry ex_nv12_bo biplanar_yuv_420_layout VIRGL_TRANSFER_TO_HOST ex_host
      [⟨ex_nv12_bytes⟩] ex_nv12_info 4 1 ⟨2, 1, 2, 1, 8, 2, 16, VIRGL_TRANSFER_TO_HOST⟩
      (by decide) rfl (by decide) (by decide)).1.2.1,
    (transfer_plane_geometry ex_nv12_bo biplanar_yuv_420_layout VIRGL_TRANSFER_TO_HOST ex_host
      [⟨ex_nv12_bytes⟩] ex_nv12_info 4 1 ⟨2, 1, 2, 1, 8, 2, 16, VIRGL_TRANSFER_TO_HOST⟩
      (by decide) rfl (by decide) (by decide)).1.2.2.2.1⟩

/-! ### Rows the sweep does not reach -/

/-- The row index never decreases. -/
theorem sweep_loop_height_mono (a : SweepArgs) (fuel : Nat) (s : SweepState) :
    s.current_height ≤ (sweep_loop a fuel s).current_height := by
  induction fuel generalizing s with
  | zero => exact Nat.le_refl _
  | succ fuel ih =>
    simp only [sweep_loop]
    split_ifs with hc
    · have h1 := ih (sweep_step a s)
      rcases sweep_step_advance a s with ⟨e1, _⟩ | ⟨e1, _⟩ <;> omega
    · exact Nat.le_refl _

/-- An iteration does not look at the number of rows. -/
theorem sweep_step_height_irrelevant (a : SweepArgs) (H : Nat) (s : SweepState) :
    sweep_step { a with subsampled_height := H } s = sweep_step a s := rfl

/-- The loop runs the same with fewer rows, as long as the row it stops at
is among them. -/
theorem sweep_loop_truncate (a : SweepArgs) (H : Nat) (hH : H ≤ a.subsampled_height)
    (fuel : Nat) (s : SweepState)
    (hf : (sweep_loop a fuel s).current_height < H ∨ H = a.subsampled_height) :
    sweep_loop { a with subsampled_height := H } fuel s = sweep_loop a fuel s := by
  induction fuel generalizing s with
  | zero => rfl
  | succ fuel ih =>
    simp only [sweep_loop] at hf ⊢
    by_cases hc : s.current_height < a.subsampled_height ∧ s.current_iovec < s.iovecs.length
    · simp only [if_pos hc] at hf ⊢
      have hm := sweep_loop_height_mono a fuel (sweep_step a s)
      have hlt : s.current_height < H := by
        rcases hf with h | h
        · rcases sweep_step_advance a s with ⟨e1, _⟩ | ⟨e1, _⟩ <;> omega
        · omega
      rw [if_pos ⟨hlt, hc.2⟩, sweep_step_height_irrelevant]
      exact ih (sweep_step a s) hf
    · simp only [if_neg hc]
      rw [if_neg]
      intro h
      exact hc ⟨by omega, h.2⟩

/-- The sweep over fewer rows, as long as the row it stops at is among
them, is the same sweep. -/
theorem transfer_internal_truncate (a : SweepArgs) (host : HostMem) (iovecs : List iovec)
    (H : Nat) (hlo : (virgl_gbm_transfer_internal a host iovecs).current_height < H)
    (hH : H ≤ a.subsampled_height) :
    virgl_gbm_transfer_internal { a with subsampled_height := H } host iovecs =
      virgl_gbm_transfer_internal a host iovecs := by
  have hx := transfer_internal_exit { a with subsampled_height := H } host iovecs
  have hs := sweep_loop_stable { a with subsampled_height := H } (H + iovecs.length)
    ⟨0, 0, 0, host, iovecs, []⟩ hx (a.subsampled_height - H)
  have e : H + iovecs.length + (a.subsampled_height - H) =
      a.subsampled_height + iovecs.length := by omega
  rw [e] at hs
  unfold virgl_gbm_transfer_internal at hlo ⊢
  simp only
  rw [← hs]
  exact sweep_loop_truncate a H hH _ _ (Or.inl hlo)

/-- The host bytes an iteration writes lie in the row it is made for. -/
theorem copy_in_host_row (a : SweepArgs) (s : SweepState)
    (hov : max_start a s < min_end a s) :
    host_row_lo a s.current_height ≤ host_start a s ∧
    host_start a s + copy_iovec_size a s ≤ host_row_lo a s.current_height + row_bytes a := by
  have h1 : u32 (a.subsampled_width * a.planar_bytes_per_pixel) ≤ row_bytes a := u32_le _
  have h2 := u32_lt (a.guest_resource_offset + u32 (s.current_height * a.guest_plane_stride))
  have h3 := u32_lt (a.subsampled_width * a.planar_bytes_per_pixel)
  simp only [host_row_lo, host_start, copy_iovec_size]
  simp only [max_start, min_end, box_end_offset, box_start_offset] at hov ⊢
  generalize u32 (a.guest_resource_offset + u32 (s.current_height * a.guest_plane_stride)) = b
    at *
  generalize u32 (a.subsampled_width * a.planar_bytes_per_pixel) = w at *
  generalize iovec_end_offset s = ie at *
  generalize u32 (s.current_height * a.host_plane_stride) = d at *
  simp only [u32] at hov ⊢
  omega

/-- The host bytes outside the rows from the current one to the one at which
the loop stops are not written. -/
theorem sweep_loop_host_frame (a : SweepArgs) (fuel : Nat) (s : SweepState) (x : Nat)
    (hx : ∀ r, s.current_height ≤ r → r ≤ (sweep_loop a fuel s).current_height →
      r < a.subsampled_height →
      ¬ (host_row_lo a r ≤ x ∧ x < host_row_lo a r + row_bytes a)) :
    (sweep_loop a fuel s).host x = s.host x := by
  induction fuel generalizing s with
  | zero => rfl
  | succ fuel ih =>
    simp only [sweep_loop] at hx ⊢
    by_cases hc : s.current_height < a.subsampled_height ∧ s.current_iovec < s.iovecs.length
    · simp only [if_pos hc] at hx ⊢
      have hm := sweep_loop_height_mono a fuel (sweep_step a s)
      have hadv : s.current_height ≤ (sweep_step a s).current_height := by
        rcases sweep_step_advance a s with ⟨e1, _⟩ | ⟨e1, _⟩ <;> omega
      rw [ih (sweep_step a s) (fun r h1 h2 h3 => hx r (by omega) h2 h3)]
      rw [sweep_step_host]
      split_ifs with hcopy
      · have hrow := hx s.current_height (Nat.le_refl _) (by omega) hc.1
        obtain ⟨c1, c2⟩ := copy_in_host_row a s hcopy.1
        simp only [memcpy_to_host]
        rw [if_neg]
        intro hin
        exact hrow ⟨by omega, by omega⟩
      · rfl
    · simp only [if_neg hc]

/-- While the segments are shorter than 4 GiB in total, `iovec_start_offset`
stays the logical start of the current segment. -/
theorem sweep_step_start_eq (a : SweepArgs) (s : SweepState)
    (hS : s.iovec_start_offset = seg_start s.iovecs s.current_iovec)
    (hk : s.current_iovec < s.iovecs.length) (htot : total_len s.iovecs < 4294967296) :
    (sweep_step a s).iovec_start_offset =
      seg_start (sweep_step a s).iovecs (sweep_step a s).current_iovec := by
  obtain ⟨_, c2, c3⟩ := sweep_step_ctrl a s
  rw [seg_start_congr _ _ _ (sweep_step_lens a s), c2, c3]
  have hend := seg_end_le s hk
  have hcur : cur_iovec s = s.iovecs.getD s.current_iovec ⟨[]⟩ := rfl
  cases next_iovec a s
  · simpa using hS
  · simp only [if_true]
    rw [seg_start_succ _ _ hk, ← hcur, ← hS]
    rw [← hS] at hend
    simp only [iovec_size]
    rw [u32_eq_self (n := (cur_iovec s).iov_len) (by omega)]
    exact u32_eq_self (by omega)

/-- The guest bytes outside the current row are not written by an
iteration. -/
theorem sweep_step_guest_frame (a : SweepArgs) (s : SweepState)
    (hS : s.iovec_start_offset = seg_start s.iovecs s.current_iovec)
    (hk : s.current_iovec < s.iovecs.length) (g : Nat)
    (hg : ¬ (guest_row_lo a s.current_height ≤ g ∧ g < guest_row_hi a s.current_height)) :
    guest_byte (sweep_step a s).iovecs g = guest_byte s.iovecs g := by
  rw [sweep_step_iovecs]
  split_ifs with hcopy
  · have hcur : cur_iovec s = s.iovecs.getD s.current_iovec ⟨[]⟩ := rfl
    have hset := guest_byte_set s.iovecs s.current_iovec
      (memcpy_to_guest (cur_iovec s) (offset_in_iovec a s) s.host (host_start a s)
        (copy_iovec_size a s)) g hk (memcpy_to_guest_iov_len _ _ _ _ _)
    rw [hset, memcpy_to_guest_iov_len, ← hS]
    have hlo : guest_row_lo a s.current_height ≤ max_start a s := by
      simp only [guest_row_lo, max_start, box_start_offset]
      exact le_max_right _ _
    have hhi : min_end a s ≤ guest_row_hi a s.current_height := by
      simp only [guest_row_hi, guest_row_lo, min_end, box_end_offset, box_start_offset]
      exact min_le_right _ _
    have hst : s.iovec_start_offset ≤ max_start a s := le_max_left _ _
    by_cases hin : s.iovec_start_offset ≤ g ∧
        g < s.iovec_start_offset + (cur_iovec s).iov_len
    · rw [if_pos hin, memcpy_to_guest_getElem? _ _ _ _ _ _ (by omega), offset_in_iovec_eq]
      rw [if_neg (by simp only [copy_iovec_size]; omega)]
      have h := guest_byte_seg s.iovecs s.current_iovec (g - s.iovec_start_offset) hk
        (by rw [← hcur]; omega)
      rw [← hS, ← hcur, show s.iovec_start_offset + (g - s.iovec_start_offset) = g by omega]
        at h
      exact h.symm
    · rw [if_neg hin]
  · rfl

/-- The guest bytes outside the rows from the current one to the one at
which the loop stops are not written. -/
theorem sweep_loop_guest_frame (a : SweepArgs) (fuel : Nat) (s : SweepState) (g : Nat)
    (hS : s.iovec_start_offset = seg_start s.iovecs s.current_iovec)
    (htot : total_len s.iovecs < 4294967296)
    (hg : ∀ r, s.current_height ≤ r → r ≤ (sweep_loop a fuel s).current_height →
      r < a.subsampled_height →
      ¬ (guest_row_lo a r ≤ g ∧ g < guest_row_hi a r)) :
    guest_byte (sweep_loop a fuel s).iovecs g = guest_byte s.iovecs g := by
  induction fuel generalizing s with
  | zero => rfl
  | succ fuel ih =>
    simp only [sweep_loop] at hg ⊢
    by_cases hc : s.current_height < a.subsampled_height ∧ s.current_iovec < s.iovecs.length
    · simp only [if_pos hc] at hg ⊢
      have hm := sweep_loop_height_mono a fuel (sweep_step a s)
      have hadv : s.current_height ≤ (sweep_step a s).current_height := by
        rcases sweep_step_advance a s with ⟨e1, _⟩ | ⟨e1, _⟩ <;> omega
      rw [ih (sweep_step a s) (sweep_step_start_eq a s hS hc.2 htot)
        (by rw [total_len_congr _ _ (sweep_step_lens a s)]; exact htot)
        (fun r h1 h2 h3 => hg r (by omega) h2 h3)]
      exact sweep_step_guest_frame a s hS hc.2 g
        (hg s.current_height (Nat.le_refl _) (by omega) hc.1)
    · simp only [if_neg hc]

/-- With a host stride of at least the row width and no wrap of the host
displacements, the host bytes of a row the sweep does not reach are as
before. -/
theorem host_unreached_row (a : SweepArgs) (host : HostMem) (iovecs : List iovec)
    (hH : row_bytes a ≤ a.host_plane_stride)
    (hnw : ∀ r, r < a.subsampled_height → r * a.host_plane_stride < 4294967296)
    (r c : Nat) (hr : (virgl_gbm_transfer_internal a host iovecs).current_height < r) :
    (virgl_gbm_transfer_internal a host iovecs).host
        (a.host_address + r * a.host_plane_stride + c) =
      host (a.host_address + r * a.host_plane_stride + c) := by
  apply sweep_loop_host_frame a _ ⟨0, 0, 0, host, iovecs, []⟩
  intro r' _ h2 h3 hin
  have h2' : r' ≤ (virgl_gbm_transfer_internal a host iovecs).current_height := h2
  simp only [host_row_lo] at hin
  rw [u32_eq_self (hnw r' h3)] at hin
  have hmul : (r' + 1) * a.host_plane_stride ≤ r * a.host_plane_stride :=
    Nat.mul_le_mul_right _ (by omega)
  rw [Nat.add_mul, Nat.one_mul] at hmul
  omega

/-- With a guest stride of at least the row width and nothing wrapping, the
guest bytes of a row the sweep does not reach are as before. -/
theorem guest_unreached_row (a : SweepArgs) (host : HostMem) (iovecs : List iovec)
    (hW : row_bytes a ≤ a.guest_plane_stride) (hnw : NoWrap a iovecs)
    (r c : Nat) (hr : (virgl_gbm_transfer_internal a host iovecs).current_height < r) :
    guest_byte (virgl_gbm_transfer_internal a host iovecs).iovecs (row_start a r + c) =
      guest_byte iovecs (row_start a r + c) := by
  obtain ⟨n1, n2, _⟩ := hnw
  apply sweep_loop_guest_frame a _ ⟨0, 0, 0, host, iovecs, []⟩ _ (seg_start_zero _).symm n1
  intro r' _ h2 h3 hin
  have h2' : r' ≤ (virgl_gbm_transfer_internal a host iovecs).current_height := h2
  have hb := n2 r' h3
  simp only [row_start, row_bytes] at hb
  have e1 : guest_row_lo a r' = row_start a r' := by
    simp only [guest_row_lo, row_start]
    rw [u32_eq_self (n := r' * a.guest_plane_stride) (by omega)]
    exact u32_eq_self (by omega)
  have e2 : guest_row_hi a r' ≤ row_start a r' + row_bytes a := by
    simp only [guest_row_hi, e1]
    refine le_trans (u32_le _) ?_
    have := u32_le (a.subsampled_width * a.planar_bytes_per_pixel)
    simp only [row_bytes]
    omega
  rw [e1] at hin
  have hstep := row_start_step a r' r (by omega)
  omega

/-- A request that passes the validation, on a buffer with no more planes
than its layout, makes the transfer return 0, whatever the segments are. -/
theorem transfer_validated_returns_zero (bo : gbm_bo) (layout : planar_layout)
    (direction : Nat) (host : HostMem) (iovecs : List iovec) (info : vrend_transfer_info)
    (hms : Nat) (hl : layout_from_format bo.format = some layout)
    (hm : bo.map_stride = some hms) (hpc : bo.plane_count ≤ layout.num_planes)
    (h1 : calc_stride0 bo layout ≤ resolve_guest_stride0 info (calc_stride0 bo layout))
    (h2 : resolve_guest_stride0 info (calc_stride0 bo layout) ≤ hms) :
    ∃ r, virgl_gbm_transfer bo direction host iovecs info = some r ∧ r.ret = 0 := by
  simp only [virgl_gbm_transfer, hl, hm, transfer_mapped]
  rw [if_neg (by omega), if_neg (by omega)]
  obtain ⟨s', hs'⟩ := plane_loop_isSome bo layout info direction
    (resolve_guest_stride0 info (calc_stride0 bo layout)) hms bo.plane_count.toNat 0
    ⟨0, 0, host, iovecs, []⟩
    (fun p _ hp => layout_divisors_pos bo.format layout hl p (by omega))
  rw [hs']
  exact ⟨_, rfl, rfl⟩

/-- C29 (amended). When the segments are exhausted before all rows are
visited, also when there is no segment at all, the sweep stops, and
`virgl_gbm_transfer` returns 0 for a request that passed the validation. No
copy is made for a row beyond the one at which the sweep stopped: the sweep
is the same as over the rows up to that one only, and it leaves every host
byte and (for segments of less than 4 GiB in total) every guest byte as it
was, except bytes inside the byte range of one of the rows up to that one.
So a row that was not reached is left as it was on the destination side
when the stride of the plane on that side is at least the width of a row in
bytes and nothing wraps at 32 bits. -/
theorem transfer_under_coverage (a : SweepArgs) (host : HostMem) (iovecs : List iovec)
    (bo : gbm_bo) (layout : planar_layout) (info : vrend_transfer_info) (hms : Nat) :
    ¬ ((virgl_gbm_transfer_internal a host iovecs).current_height < a.subsampled_height ∧
      (virgl_gbm_transfer_internal a host iovecs).current_iovec < iovecs.length) ∧
    (iovecs = [] →
      (virgl_gbm_transfer_internal a host iovecs).current_height = 0 ∧
      (virgl_gbm_transfer_internal a host iovecs).host = host ∧
      (virgl_gbm_transfer_internal a host iovecs).iovecs = [] ∧
      (virgl_gbm_transfer_internal a host iovecs).log = []) ∧
    (∀ H, (virgl_gbm_transfer_internal a host iovecs).current_height < H →
      H ≤ a.subsampled_height →
      virgl_gbm_transfer_internal { a with subsampled_height := H } host iovecs =
        virgl_gbm_transfer_internal a host iovecs) ∧
    (∀ x, (∀ r, r ≤ (virgl_gbm_transfer_internal a host iovecs).current_height →
        r < a.subsampled_height →
        ¬ (host_row_lo a r ≤ x ∧ x < host_row_lo a r + row_bytes a)) →
      (virgl_gbm_transfer_internal a host iovecs).host x = host x) ∧
    (total_len iovecs < 4294967296 →
      ∀ g, (∀ r, r ≤ (virgl_gbm_transfer_internal a host iovecs).current_height →
        r < a.subsampled_height →
        ¬ (guest_row_lo a r ≤ g ∧ g < guest_row_hi a r)) →
      guest_byte (virgl_gbm_transfer_internal a host iovecs).iovecs g = guest_byte iovecs g) ∧
    (row_bytes a ≤ a.host_plane_stride →
      (∀ r, r < a.subsampled_height → r * a.host_plane_stride < 4294967296) →
      ∀ r c, (virgl_gbm_transfer_internal a host iovecs).current_height < r →
        r < a.subsampled_height → c < row_bytes a →
        (virgl_gbm_transfer_internal a host iovecs).host
            (a.host_address + r * a.host_plane_stride + c) =
          host (a.host_address + r * a.host_plane_stride + c)) ∧
    (row_bytes a ≤ a.guest_plane_stride → NoWrap a iovecs →
      ∀ r c, (virgl_gbm_transfer_internal a host iovecs).current_height < r →
        r < a.subsampled_height →
        guest_byte (virgl_gbm_transfer_internal a host iovecs).iovecs (row_start a r + c) =
          guest_byte iovecs (row_start a r + c)) ∧
    (layout_from_format bo.format = some layout → bo.map_stride = some hms →
      bo.plane_count ≤ layout.num_planes →
      calc_stride0 bo layout ≤ resolve_guest_stride0 info (calc_stride0 bo layout) →
      resolve_guest_stride0 info (calc_stride0 bo layout) ≤ hms →
      ∃ r, virgl_gbm_transfer bo a.direction host iovecs info = some r ∧ r.ret = 0) := by
  have hl : (virgl_gbm_transfer_internal a host iovecs).iovecs.length = iovecs.length := by
    have := congrArg List.length (transfer_internal_lens a host iovecs)
    simpa using this
  have hx := transfer_internal_exit a host iovecs
  rw [hl] at hx
  refine ⟨hx, ?_, fun H h1 h2 => transfer_internal_truncate a host iovecs H h1 h2, ?_, ?_,
    fun h1 h2 r c h3 _ _ => host_unreached_row a host iovecs h1 h2 r c h3,
    fun h1 h2 r c h3 _ => guest_unreached_row a host iovecs h1 h2 r c h3,
    fun h1 h2 h3 h4 h5 =>
      transfer_validated_returns_zero bo layout a.direction host iovecs info hms h1 h2 h3 h4
        h5⟩
  · intro he
    subst he
    have e : virgl_gbm_transfer_internal a host [] = ⟨0, 0, 0, host, [], []⟩ := by
      unfold virgl_gbm_transfer_internal
      cases h : a.subsampled_height + ([] : List iovec).length with
      | zero => rfl
      | succ n => simp [sweep_loop]
    rw [e]
    exact ⟨rfl, rfl, rfl, rfl⟩
  · intro x hx'
    exact sweep_loop_host_frame a _ ⟨0, 0, 0, host, iovecs, []⟩ x
      (fun r _ h2 h3 => hx' r h2 h3)
  · intro htot g hg
    exact sweep_loop_guest_frame a _ ⟨0, 0, 0, host, iovecs, []⟩ g (seg_start_zero _).symm htot
      (fun r _ h2 h3 => hg r h2 h3)

/-- Witness for C29: two rows of two bytes at stride 2 and one segment of
two bytes. The sweep stops at row 0 with the segment used up, the host bytes
of row 1 are as before, and the transfer of the same request on an R8 buffer
of 2x2 pixels returns 0. -/
theorem transfer_under_coverage_witness :
    (virgl_gbm_transfer_internal ⟨1, 2, 2, 2, 0, 2, 0, VIRGL_TRANSFER_TO_HOST⟩ ex_host
      [⟨[7, 9]⟩]).current_height = 0 ∧
    (virgl_gbm_transfer_internal ⟨1, 2, 2, 2, 0, 2, 0, VIRGL_TRANSFER_TO_HOST⟩ ex_host
      [⟨[7, 9]⟩]).current_iovec = 1 ∧
    (virgl_gbm_transfer_internal ⟨1, 2, 2, 2, 0, 2, 0, VIRGL_TRANSFER_TO_HOST⟩ ex_host
      [⟨[7, 9]⟩]).host (0 + 1 * 2 + 0) = ex_host (0 + 1 * 2 + 0) ∧
    ∃ r, virgl_gbm_transfer (ex_bo GBM_FORMAT_R8 2 2 1 [0] [] (some 2)) VIRGL_TRANSFER_TO_HOST
      ex_host [⟨[7, 9]⟩] ⟨0, 0, 0, ⟨0, 0, 2, 2⟩⟩ = some r ∧ r.ret = 0 :=
  ⟨by decide, by decide,
    (transfer_under_coverage ⟨1, 2, 2, 2, 0, 2, 0, VIRGL_TRANSFER_TO_HOST⟩ ex_host [⟨[7, 9]⟩]
      (ex_bo GBM_FORMAT_R8 2 2 1 [0] [] (some 2)) packed_1bpp_layout
      ⟨0, 0, 0, ⟨0, 0, 2, 2⟩⟩ 2).2.2.2.2.2.1 (by decide) (by decide) 1 0 (by decide)
      (by decide) (by decide),
    (transfer_under_coverage ⟨1, 2, 2, 2, 0, 2, 0, VIRGL_TRANSFER_TO_HOST⟩ ex_host [⟨[7, 9]⟩]
      (ex_bo GBM_FORMAT_R8 2 2 1 [0] [] (some 2)) packed_1bpp_layout
      ⟨0, 0, 0, ⟨0, 0, 2, 2⟩⟩ 2).2.2.2.2.2.2.2 (by decide) rfl (by decide) (by decide)
      (by decide)⟩

/-- Counterexample to C29 as stated. First, a sweep towards the host of two
rows of two bytes at host stride 1 over one segment of two bytes: it stops
at row 0 with the segment used up, and the host byte at offset 1, the first
byte of row 1, has changed from 11 to 9. Second, an NV12 buffer of 4x4
pixels mapped with stride 4, its chroma plane at offset 16, a request for
the whole buffer and twenty guest bytes: the transfer returns 0, the sweep
for the chroma plane (two rows of four bytes at stride 2) stops at row 0
with the segment used up, and the host byte at offset 18, the first byte of
row 1 of that plane, has changed from 28 to 19. -/
theorem transfer_under_coverage_counterexample :
    ((virgl_gbm_transfer_internal ⟨1, 2, 2, 2, 0, 1, 0, VIRGL_TRANSFER_TO_HOST⟩ ex_host
        [⟨[7, 9]⟩]).current_height = 0 ∧
      (virgl_gbm_transfer_internal ⟨1, 2, 2, 2, 0, 1, 0, VIRGL_TRANSFER_TO_HOST⟩ ex_host
        [⟨[7, 9]⟩]).current_iovec = 1 ∧
      host_row_lo ⟨1, 2, 2, 2, 0, 1, 0, VIRGL_TRANSFER_TO_HOST⟩ 1 = 1 ∧
      ex_host 1 = 11 ∧
      (virgl_gbm_transfer_internal ⟨1, 2, 2, 2, 0, 1, 0, VIRGL_TRANSFER_TO_HOST⟩ ex_host
        [⟨[7, 9]⟩]).host 1 = 9) ∧
    ((virgl_gbm_transfer (ex_bo GBM_FORMAT_NV12 4 4 2 [0, 16] [] (some 4))
        VIRGL_TRANSFER_TO_HOST ex_host ex_twenty ⟨0, 0, 0, ⟨0, 0, 4, 4⟩⟩).map
          (fun r => (r.ret, r.log.filter (fun e => e.1 = 1), r.host 18)) =
        some (0, [(1, ⟨0, 16, 16, 4⟩)], 19) ∧
      transfer_call_at (ex_bo GBM_FORMAT_NV12 4 4 2 [0, 16] [] (some 4))
        VIRGL_TRANSFER_TO_HOST ex_host ex_twenty ⟨0, 0, 0, ⟨0, 0, 4, 4⟩⟩ 1 =
        some ⟨2, 2, 2, 2, 16, 2, 16, VIRGL_TRANSFER_TO_HOST⟩ ∧
      (virgl_gbm_transfer_internal ⟨2, 2, 2, 2, 16, 2, 16, VIRGL_TRANSFER_TO_HOST⟩ ex_host
        ex_twenty).current_height = 0 ∧
      (virgl_gbm_transfer_internal ⟨2, 2, 2, 2, 16, 2, 16, VIRGL_TRANSFER_TO_HOST⟩ ex_host
        ex_twenty).current_iovec = 1 ∧
      host_row_lo ⟨2, 2, 2, 2, 16, 2, 16, VIRGL_TRANSFER_TO_HOST⟩ 1 = 18 ∧
      ex_host 18 = 28) := by
  decide

/-! ### The format pipeline and the export without descriptors -/

/-- C34. For every virtual format for which `virgl_gbm_convert_format` does
not return 0, `layout_from_format` of the result is a layout, not NULL. -/
theorem convert_format_has_layout (c : virgl_formats) (f : Nat)
    (h : virgl_gbm_convert_format c f ≠ 0) :
    ∃ layout, layout_from_format (virgl_gbm_convert_format c f) = some layout := by
  rcases convert_format_cases c f with k | k | k | k | k | k | k | k | k
  · rw [k.1]; exact ⟨packed_2bpp_layout, by decide⟩
  · rw [k.1]; exact ⟨packed_4bpp_layout, by decide⟩
  · rw [k.1]; exact ⟨packed_4bpp_layout, by decide⟩
  · rw [k.1]; exact ⟨biplanar_yuv_420_layout, by decide⟩
  · rw [k.1]; exact ⟨packed_4bpp_layout, by decide⟩
  · rw [k.1]; exact ⟨packed_4bpp_layout, by decide⟩
  · rw [k.1]; exact ⟨packed_1bpp_layout, by decide⟩
  · rw [k.1]; exact ⟨triplanar_yuv_420_layout, by decide⟩
  · exact absurd k.1 h

/-- Witness for C34: the code 166 is converted to NV12, which has the
biplanar layout. -/
theorem convert_format_has_layout_witness :
    layout_from_format (virgl_gbm_convert_format ex_virgl_formats 166) =
      some biplanar_yuv_420_layout ∧
    ∃ layout, layout_from_format (virgl_gbm_convert_format ex_virgl_formats 166) =
      some layout :=
  ⟨by decide, convert_format_has_layout ex_virgl_formats 166 (by decide)⟩

/-- C35. When the buffer reports a plane count below 0 or above 4,
`virgl_gbm_export_query` returns -1, calls `drmPrimeHandleToFD` for no
handle, closes nothing and leaves the query as the caller passed it. -/
theorem export_bad_plane_count (bo : gbm_bo) (prime : Nat → Nat → PrimeResult)
    (query : virgl_renderer_export_query)
    (h : bo.plane_count < 0 ∨ bo.plane_count > 4) :
    (virgl_gbm_export_query bo prime query).1 = -1 ∧
    (virgl_gbm_export_query bo prime query).2.query = query ∧
    (virgl_gbm_export_query bo prime query).2.resolved = [] ∧
    (virgl_gbm_export_query bo prime query).2.closed = [] := by
  simp [virgl_gbm_export_query, h]

/-- Witness for C35: a buffer that reports five planes, and one that reports
a negative plane count. -/
theorem export_bad_plane_count_witness :
    virgl_gbm_export_query (ex_bo GBM_FORMAT_NV12 4 4 5 [0, 16] [7, 8] (some 4))
        (fun n _ => ⟨0, 10 + n⟩) ⟨1, 3, [5, 6], [1], [2], 9, 9⟩ =
      (-1, ⟨⟨1, 3, [5, 6], [1], [2], 9, 9⟩, [], []⟩) ∧
    (virgl_gbm_export_query (ex_bo GBM_FORMAT_NV12 4 4 (-1) [0, 16] [7, 8] (some 4))
        (fun n _ => ⟨0, 10 + n⟩) ⟨1, 3, [5, 6], [1], [2], 9, 9⟩).1 = -1 ∧
    (virgl_gbm_export_query (ex_bo GBM_FORMAT_NV12 4 4 (-1) [0, 16] [7, 8] (some 4))
        (fun n _ => ⟨0, 10 + n⟩) ⟨1, 3, [5, 6], [1], [2], 9, 9⟩).2.query =
      ⟨1, 3, [5, 6], [1], [2], 9, 9⟩ :=
  ⟨by decide,
    (export_bad_plane_count (ex_bo GBM_FORMAT_NV12 4 4 (-1) [0, 16] [7, 8] (some 4))
      (fun n _ => ⟨0, 10 + n⟩) ⟨1, 3, [5, 6], [1], [2], 9, 9⟩ (Or.inl (by decide))).1,
    (export_bad_plane_count (ex_bo GBM_FORMAT_NV12 4 4 (-1) [0, 16] [7, 8] (some 4))
      (fun n _ => ⟨0, 10 + n⟩) ⟨1, 3, [5, 6], [1], [2], 9, 9⟩ (Or.inl (by decide))).2.1⟩

/-- An iteration of the export loop with no descriptors requested resolves
nothing and leaves `out_fds` alone. -/
theorem export_plane_no_fds (bo : gbm_bo) (prime : Nat → Nat → PrimeResult)
    (handles : List Nat) (plane : Nat) (s : ExportState)
    (hin : s.query.in_export_fds = 0) :
    ∃ s', export_plane bo prime handles plane s = .ok s' ∧
      s'.query.in_export_fds = 0 ∧ s'.query.out_fds = s.query.out_fds ∧
      s'.resolved = s.resolved ∧ s'.closed = s.closed := by
  simp only [export_plane, hin, ne_eq, not_true_eq_false, if_false]
  split_ifs
  · exact ⟨_, rfl, rfl, rfl, rfl, rfl⟩
  · exact ⟨_, rfl, rfl, rfl, rfl, rfl⟩

theorem export_loop_no_fds (bo : gbm_bo) (prime : Nat → Nat → PrimeResult)
    (handles : List Nat) (count plane : Nat) (s : ExportState)
    (hin : s.query.in_export_fds = 0) :
    ∃ s', export_loop bo prime handles count plane s = .ok s' ∧
      s'.query.in_export_fds = 0 ∧ s'.query.out_fds = s.query.out_fds ∧
      s'.resolved = s.resolved ∧ s'.closed = s.closed := by
  induction count generalizing plane s with
  | zero => exact ⟨s, rfl, hin, rfl, rfl, rfl⟩
  | succ n ih =>
    obtain ⟨s1, e1, i1, f1, r1, c1⟩ := export_plane_no_fds bo prime handles plane s hin
    obtain ⟨s2, e2, i2, f2, r2, c2⟩ := ih (plane + 1) s1 i1
    refine ⟨s2, ?_, i2, f2.trans f1, r2.trans r1, c2.trans c1⟩
    simp only [export_loop, e1]
    exact e2

/-- An iteration counts the same with and without descriptors requested,
when every resolution succeeds. -/
theorem export_plane_same_counts (bo : gbm_bo) (prime prime' : Nat → Nat → PrimeResult)
    (handles : List Nat) (plane : Nat) (s t : ExportState)
    (hs : s.query.in_export_fds = 0) (ht : t.query.in_export_fds ≠ 0)
    (hp : ∀ n x, (prime' n x).ret = 0) (h : SameCounts s t) :
    ∃ s' t', export_plane bo prime handles plane s = .ok s' ∧
      export_plane bo prime' handles plane t = .ok t' ∧
      s'.query.in_export_fds = 0 ∧ t'.query.in_export_fds ≠ 0 ∧ SameCounts s' t' := by
  obtain ⟨h1, h2, h3, h4, h5⟩ := h
  simp only [export_plane, hs, ht, hp, ← h1, ← h2, ← h3, ne_eq, not_true_eq_false,
    not_false_eq_true, if_false, if_true]
  split_ifs
  · exact ⟨_, _, rfl, rfl, rfl, ht, rfl, rfl, rfl, h4, h5⟩
  · exact ⟨_, _, rfl, rfl, rfl, ht, rfl, rfl, rfl, h4, h5⟩

theorem export_loop_same_counts (bo : gbm_bo) (prime prime' : Nat → Nat → PrimeResult)
    (handles : List Nat) (count plane : Nat) (s t : ExportState)
    (hs : s.query.in_export_fds = 0) (ht : t.query.in_export_fds ≠ 0)
    (hp : ∀ n x, (prime' n x).ret = 0) (h : SameCounts s t) :
    ∃ s' t', export_loop bo prime handles count plane s = .ok s' ∧
      export_loop bo prime' handles count plane t = .ok t' ∧ SameCounts s' t' := by
  induction count generalizing plane s t with
  | zero => exact ⟨s, t, rfl, rfl, h⟩
  | succ n ih =>
    obtain ⟨s1, t1, e1, e2, i1, i2, c⟩ :=
      export_plane_same_counts bo prime prime' handles plane s t hs ht hp h
    obtain ⟨s2, t2, e3, e4, c2⟩ := ih (plane + 1) s1 t1 i1 i2 c
    refine ⟨s2, t2, ?_, ?_, c2⟩
    · simp only [export_loop, e1]; exact e3
    · simp only [export_loop, e2]; exact e4

/-- C36. When `in_export_fds` of the query is zero and the plane count is
from 0 to 4, `virgl_gbm_export_query` returns 0 without a single call of
`drmPrimeHandleToFD`, closes nothing and leaves the four `out_fds` at -1;
`out_num_fds`, the strides, the offsets, the modifier and the fourcc are the
ones of an export of the same buffer with descriptors requested in which
every resolution succeeds. -/
theorem export_without_descriptors (bo : gbm_bo) (prime : Nat → Nat → PrimeResult)
    (query : virgl_renderer_export_query) (hin : query.in_export_fds = 0)
    (h0 : 0 ≤ bo.plane_count) (h4 : bo.plane_count ≤ 4) :
    (virgl_gbm_export_query bo prime query).1 = 0 ∧
    (virgl_gbm_export_query bo prime query).2.resolved = [] ∧
    (virgl_gbm_export_query bo prime query).2.closed = [] ∧
    (virgl_gbm_export_query bo prime query).2.query.out_fds = [-1, -1, -1, -1] ∧
    (virgl_gbm_export_query bo prime query).2.query.out_modifier = bo.modifier ∧
    (virgl_gbm_export_query bo prime query).2.query.out_fourcc = bo.format ∧
    ∀ (prime' : Nat → Nat → PrimeResult) (m : Nat), m ≠ 0 → (∀ n x, (prime' n x).ret = 0) →
      (virgl_gbm_export_query bo prime' { query with in_export_fds := m }).1 = 0 ∧
      SameCounts (virgl_gbm_export_query bo prime query).2
        (virgl_gbm_export_query bo prime' { query with in_export_fds := m }).2 := by
  have hc : ¬ (bo.plane_count < 0 ∨ bo.plane_count > 4) := by omega
  obtain ⟨s1, e1, _, f1, r1, c1⟩ := export_loop_no_fds bo prime [0, 0, 0, 0]
    bo.plane_count.toNat 0
    ⟨{ query with
        out_num_fds := 0
        out_fourcc := 0
        out_modifier := 0
        out_fds := [-1, -1, -1, -1]
        out_strides := [0, 0, 0, 0]
        out_offsets := [0, 0, 0, 0] }, [], []⟩ hin
  have hq : virgl_gbm_export_query bo prime query =
      (0, { s1 with query := { s1.query with
              out_modifier := bo.modifier
              out_fourcc := bo.format } }) := by
    simp only [virgl_gbm_export_query, if_neg hc, e1]
  refine ⟨by rw [hq], by rw [hq]; exact r1, by rw [hq]; exact c1, by rw [hq]; exact f1,
    by rw [hq], by rw [hq], ?_⟩
  intro prime' m hm hp
  obtain ⟨s2, t2, e2, e3, c2⟩ := export_loop_same_counts bo prime prime' [0, 0, 0, 0]
    bo.plane_count.toNat 0
    ⟨{ query with
        out_num_fds := 0
        out_fourcc := 0
        out_modifier := 0
        out_fds := [-1, -1, -1, -1]
        out_strides := [0, 0, 0, 0]
        out_offsets := [0, 0, 0, 0] }, [], []⟩
    ⟨{ query with
        in_export_fds := m
        out_num_fds := 0
        out_fourcc := 0
        out_modifier := 0
        out_fds := [-1, -1, -1, -1]
        out_strides := [0, 0, 0, 0]
        out_offsets := [0, 0, 0, 0] }, [], []⟩ hin hm hp ⟨rfl, rfl, rfl, rfl, rfl⟩
  rw [e1] at e2
  simp only [Except.ok.injEq] at e2
  subst e2
  have hq' : virgl_gbm_export_query bo prime' { query with in_export_fds := m } =
      (0, { t2 with query := { t2.query with
              out_modifier := bo.modifier
              out_fourcc := bo.format } }) := by
    simp only [virgl_gbm_export_query, if_neg hc, e3]
  rw [hq, hq']
  obtain ⟨k1, k2, k3, _, _⟩ := c2
  exact ⟨rfl, k1, k2, k3, rfl, rfl⟩

/-- Witness for C36: the export of the NV12 buffer with the strides 64 and
32 and the handles 7 and 8, without and with descriptors. -/
theorem export_without_descriptors_witness :
    virgl_gbm_export_query ex_export_bo (fun _ _ => ⟨-5, 0⟩) ⟨0, 0, [], [], [], 0, 0⟩ =
      (0, ⟨⟨0, 2, [-1, -1, -1, -1], [64, 32, 0, 0], [0, 256, 0, 0], 72, GBM_FORMAT_NV12⟩,
        [], []⟩) ∧
    (virgl_gbm_export_query ex_export_bo (fun n _ => ⟨0, 10 + n⟩)
      ⟨1, 0, [], [], [], 0, 0⟩).2.query =
      ⟨1, 2, [10, 11, -1, -1], [64, 32, 0, 0], [0, 256, 0, 0], 72, GBM_FORMAT_NV12⟩ ∧
    SameCounts (virgl_gbm_export_query ex_export_bo (fun _ _ => ⟨-5, 0⟩)
        ⟨0, 0, [], [], [], 0, 0⟩).2
      (virgl_gbm_export_query ex_export_bo (fun n _ => ⟨0, 10 + n⟩)
        { (⟨0, 0, [], [], [], 0, 0⟩ : virgl_renderer_export_query) with
          in_export_fds := 1 }).2 :=
  ⟨by decide, by decide,
    ((export_without_descriptors ex_export_bo (fun _ _ => ⟨-5, 0⟩) ⟨0, 0, [], [], [], 0, 0⟩
      rfl (by decide) (by decide)).2.2.2.2.2.2 (fun n _ => ⟨0, 10 + n⟩) 1 (by decide)
      (fun _ _ => rfl)).2⟩

/-! ### The planes of the layout and the planes of the buffer -/

/-- Beyond the planes of a layout the subsampling factors are zero. -/
theorem layout_divisors_zero (format : Nat) (layout : planar_layout)
    (hl : layout_from_format format = some layout) (p : Nat) (hp : layout.num_planes ≤ p) :
    layout.horizontal_subsampling.getD p 0 = 0 ∧ layout.vertical_subsampling.getD p 0 = 0 := by
  unfold layout_from_format at hl
  split_ifs at hl <;> cases hl <;>
    simp only [packed_1bpp_layout, packed_2bpp_layout, packed_4bpp_layout,
      biplanar_yuv_420_layout, triplanar_yuv_420_layout] at hp ⊢ <;>
    rcases p with _ | _ | _ | _ | _ | p <;> first | omega | exact ⟨rfl, rfl⟩

/-- The plane loop is undefined when it reaches a plane whose subsampling
factor is zero. -/
theorem plane_loop_none (bo : gbm_bo) (layout : planar_layout) (info : vrend_transfer_info)
    (direction gs hms : Nat) (count plane : Nat) (s : PlaneState) (p : Nat)
    (h1 : plane ≤ p) (h2 : p < plane + count)
    (hz : layout.horizontal_subsampling.getD p 0 = 0) :
    plane_loop bo layout info direction gs hms count plane s = none := by
  induction count generalizing plane s with
  | zero => omega
  | succ n ih =>
    simp only [plane_loop]
    by_cases hp : p = plane
    · subst hp
      have hs : plane_step bo layout info direction gs hms p s = none := by
        simp only [plane_step]
        rw [if_pos (Or.inl hz)]
      rw [hs]
    · cases hs : plane_step bo layout info direction gs hms plane s with
      | none => rfl
      | some s1 => exact ih (plane + 1) s1 (by omega) (by omega)

/-- C32 (amended). For a buffer whose format has a layout and whose plane
count is at most the number of planes of the layout, every plane the loop of
`virgl_gbm_transfer` visits is a plane of the layout, both subsampling
factors it divides by are at least 1, and the transfer is defined. The loop
runs to the plane count of the buffer without comparing it with the layout:
when the plane count is larger, the buffer is mapped and the request passes
the validation, the loop reaches a plane whose factors are 0. -/
theorem transfer_plane_divisors (bo : gbm_bo) (layout : planar_layout) (direction : Nat)
    (host : HostMem) (iovecs : List iovec) (info : vrend_transfer_info)
    (hl : layout_from_format bo.format = some layout) :
    (bo.plane_count ≤ layout.num_planes →
      (∀ plane : Nat, (plane : Int) < bo.plane_count →
        plane < layout.num_planes ∧ 1 ≤ layout.horizontal_subsampling.getD plane 0 ∧
        1 ≤ layout.vertical_subsampling.getD plane 0) ∧
      ∃ r, virgl_gbm_transfer bo direction host iovecs info = some r) ∧
    ((layout.num_planes : Int) < bo.plane_count →
      layout.horizontal_subsampling.getD layout.num_planes 0 = 0 ∧
      layout.vertical_subsampling.getD layout.num_planes 0 = 0 ∧
      ∀ hms, bo.map_stride = some hms →
        calc_stride0 bo layout ≤ resolve_guest_stride0 info (calc_stride0 bo layout) →
        resolve_guest_stride0 info (calc_stride0 bo layout) ≤ hms →
        virgl_gbm_transfer bo direction host iovecs info = none) := by
  constructor
  · intro hpc
    refine ⟨?_, transfer_defined bo layout direction host iovecs info hl hpc⟩
    intro plane hp
    have hlt : plane < layout.num_planes := by omega
    obtain ⟨d1, d2⟩ := layout_divisors_pos bo.format layout hl plane hlt
    exact ⟨hlt, by omega, by omega⟩
  · intro hpc
    obtain ⟨z1, z2⟩ := layout_divisors_zero bo.format layout hl layout.num_planes
      (Nat.le_refl _)
    refine ⟨z1, z2, ?_⟩
    intro hms hm v1 v2
    simp only [virgl_gbm_transfer, hl, hm, transfer_mapped]
    rw [if_neg (by omega), if_neg (by omega)]
    rw [plane_loop_none bo layout info direction _ hms bo.plane_count.toNat 0 _
      layout.num_planes (Nat.zero_le _) (by omega) z1]

/-- Witness for C32: the NV12 buffer of 2x4 pixels with its two planes. -/
theorem transfer_plane_divisors_witness :
    (∀ plane : Nat, (plane : Int) < ex_nv12_bo.plane_count →
      plane < biplanar_yuv_420_layout.num_planes ∧
      1 ≤ biplanar_yuv_420_layout.horizontal_subsampling.getD plane 0 ∧
      1 ≤ biplanar_yuv_420_layout.vertical_subsampling.getD plane 0) ∧
    ∃ r, virgl_gbm_transfer ex_nv12_bo VIRGL_TRANSFER_TO_HOST ex_host [⟨ex_nv12_bytes⟩]
      ex_nv12_info = some r :=
  (transfer_plane_divisors ex_nv12_bo biplanar_yuv_420_layout VIRGL_TRANSFER_TO_HOST ex_host
    [⟨ex_nv12_bytes⟩] ex_nv12_info (by decide)).1 (by decide)

/-- Counterexample to C32 as stated: an R8 buffer that reports two planes.
Its format has the layout with one plane; the loop visits plane 1, whose
subsampling factors are 0, and the division is undefined. -/
theorem transfer_plane_divisors_counterexample :
    layout_from_format (ex_bo GBM_FORMAT_R8 4 1 2 [0, 4] [] (some 4)).format =
      some packed_1bpp_layout ∧
    packed_1bpp_layout.num_planes = 1 ∧
    (ex_bo GBM_FORMAT_R8 4 1 2 [0, 4] [] (some 4)).plane_count = 2 ∧
    packed_1bpp_layout.horizontal_subsampling.getD 1 0 = 0 ∧
    packed_1bpp_layout.vertical_subsampling.getD 1 0 = 0 ∧
    (virgl_gbm_transfer (ex_bo GBM_FORMAT_R8 4 1 2 [0, 4] [] (some 4)) VIRGL_TRANSFER_TO_HOST
      ex_host ex_sweep_iovecs ⟨0, 0, 0, ⟨0, 0, 4, 1⟩⟩).isNone = true := by
  decide

/-- For every plane of every layout other than the chroma plane of NV12, a
guest stride that passes the validation gives the plane a stride of at least
the width of a row in bytes, for a box no wider than the buffer. -/
theorem plane_stride_covers_row (format : Nat) (layout : planar_layout)
    (hl : layout_from_format format = some layout) (p : Nat) (hp : p < layout.num_planes)
    (hnv : ¬ (format = GBM_FORMAT_NV12 ∧ p = 1)) (width box_width gs : Nat)
    (hb : box_width ≤ width)
    (hfit : width * layout.bytes_per_pixel.getD 0 0 < 4294967296)
    (hv : u32 (width * layout.bytes_per_pixel.getD 0 0) ≤ gs) :
    box_width / layout.horizontal_subsampling.getD p 0 * layout.bytes_per_pixel.getD p 0 ≤
      gs / layout.horizontal_subsampling.getD p 0 := by
  rw [u32_eq_self hfit] at hv
  unfold layout_from_format at hl
  split_ifs at hl with f1 f2 f3 f4 f5 <;> cases hl <;>
    simp only [packed_1bpp_layout, packed_2bpp_layout, packed_4bpp_layout,
      biplanar_yuv_420_layout, triplanar_yuv_420_layout] at hp hv hfit ⊢ <;>
    interval_cases p <;>
    simp only [List.getD_cons_zero, List.getD_cons_succ] at hv hfit ⊢ <;>
    omega

/-- C31 (the defect). For an NV12 buffer, the sweep for the chroma plane
gets the guest stride `guest_stride0 / 2` and rows of
`(box width / 2) * 2` bytes: the stride leaves out the two bytes per pixel
of that plane. With a guest stride of at most the box width, as for a tight
stride and a box of the full width, the stride is smaller than the row, so
consecutive rows of the plane overlap. -/
theorem nv12_chroma_rows_overlap (bo : gbm_bo) (direction : Nat) (host : HostMem)
    (iovecs : List iovec) (info : vrend_transfer_info) (a : SweepArgs)
    (hf : bo.format = GBM_FORMAT_NV12)
    (h : transfer_call_at bo direction host iovecs info 1 = some a)
    (hw : 2 ≤ info.box.width) (hb : info.box.width < 4294967296)
    (hgs : resolve_guest_stride0 info (calc_stride0 bo biplanar_yuv_420_layout) ≤
      info.box.width) :
    a.guest_plane_stride =
      resolve_guest_stride0 info (calc_stride0 bo biplanar_yuv_420_layout) / 2 ∧
    row_bytes a = info.box.width / 2 * 2 ∧
    a.guest_plane_stride < row_bytes a ∧
    row_start a 1 < row_start a 0 + row_bytes a := by
  have hl : layout_from_format bo.format = some biplanar_yuv_420_layout := by
    rw [hf]; decide
  obtain ⟨layout', hms', hl', _, _, _, _, _, _, e⟩ :=
    transfer_call_at_some bo direction host iovecs info 1 a h
  rw [hl] at hl'
  simp only [Option.some.injEq] at hl'
  subst hl'
  have e1 : a.guest_plane_stride =
      resolve_guest_stride0 info (calc_stride0 bo biplanar_yuv_420_layout) / 2 := by
    rw [e]; rfl
  have e2 : row_bytes a = info.box.width / 2 * 2 := by
    rw [e]
    simp only [row_bytes, sweep_args_at, plane_args]
    have : u32 (info.box.width / List.getD biplanar_yuv_420_layout.horizontal_subsampling 1 0)
        = info.box.width / 2 :=
      u32_eq_self (lt_of_le_of_lt (Nat.div_le_self _ _) hb)
    rw [this]
    rfl
  refine ⟨e1, e2, by omega, ?_⟩
  simp only [row_start]
  omega

/-- Failing input of C31: an NV12 buffer of 4x4 pixels mapped with stride 4
and a request for the whole buffer. The guest stride 4 passes the
validation; the chroma plane gets stride 2 for rows of 4 bytes, so its rows
start at the guest offsets 16 and 18 and are 4 bytes long. -/
theorem nv12_chroma_rows_overlap_witness :
    (virgl_gbm_transfer (ex_bo GBM_FORMAT_NV12 4 4 2 [0, 16] [] (some 4))
      VIRGL_TRANSFER_TO_HOST ex_host ex_twenty ⟨0, 0, 0, ⟨0, 0, 4, 4⟩⟩).map
        (fun r => r.ret) = some 0 ∧
    ((⟨2, 2, 2, 2, 16, 2, 16, VIRGL_TRANSFER_TO_HOST⟩ : SweepArgs).guest_plane_stride =
      resolve_guest_stride0 ⟨0, 0, 0, ⟨0, 0, 4, 4⟩⟩
        (calc_stride0 (ex_bo GBM_FORMAT_NV12 4 4 2 [0, 16] [] (some 4))
          biplanar_yuv_420_layout) / 2 ∧
      row_bytes ⟨2, 2, 2, 2, 16, 2, 16, VIRGL_TRANSFER_TO_HOST⟩ = 4 / 2 * 2 ∧
      (⟨2, 2, 2, 2, 16, 2, 16, VIRGL_TRANSFER_TO_HOST⟩ : SweepArgs).guest_plane_stride <
        row_bytes ⟨2, 2, 2, 2, 16, 2, 16, VIRGL_TRANSFER_TO_HOST⟩ ∧
      row_start ⟨2, 2, 2, 2, 16, 2, 16, VIRGL_TRANSFER_TO_HOST⟩ 1 <
        row_start ⟨2, 2, 2, 2, 16, 2, 16, VIRGL_TRANSFER_TO_HOST⟩ 0 +
          row_bytes ⟨2, 2, 2, 2, 16, 2, 16, VIRGL_TRANSFER_TO_HOST⟩) :=
  ⟨by decide,
    nv12_chroma_rows_overlap (ex_bo GBM_FORMAT_NV12 4 4 2 [0, 16] [] (some 4))
      VIRGL_TRANSFER_TO_HOST ex_host ex_twenty ⟨0, 0, 0, ⟨0, 0, 4, 4⟩⟩
      ⟨2, 2, 2, 2, 16, 2, 16, VIRGL_TRANSFER_TO_HOST⟩ rfl (by decide) (by decide) (by decide)
      (by decide)⟩

/-! ### The dispatch of the fuzzer loop -/

theorem vtest_commands_entry (id : Nat) (f : vtest_handler)
    (h : vtest_commands.getD id none = some f) :
    1 ≤ id ∧ id ≤ vtest_commands.length - 1 ∧ vtest_commands[id]? = some (some f) := by
  have hlt : id < 15 := by
    by_contra hge
    have : vtest_commands.getD id none = none := by
      apply List.getD_eq_default
      simp only [vtest_commands, List.length_cons, List.length_nil]
      omega
    rw [this] at h
    cases h
  interval_cases id <;> cases h <;> decide

/-- Every handler the loop invokes is the entry of the table at its command
id, and that id is between 1 and the size of the table minus 1. -/
theorem fuzzer_loop_handlers (c : vtest_protocol) (create_fences : Bool)
    (reads : List vtest_read) (initialized : Bool) (id : Nat) (f : vtest_handler)
    (len : Nat) (ret : Int)
    (h : FuzzEvent.handler id f len ret ∈ vtest_fuzzer_loop c create_fences reads initialized) :
    1 ≤ id ∧ id ≤ vtest_commands.length - 1 ∧ vtest_commands[id]? = some (some f) := by
  induction reads generalizing initialized with
  | nil => simp [vtest_fuzzer_loop] at h
  | cons r rest ih =>
    simp only [vtest_fuzzer_loop] at h
    cases hg : vtest_commands.getD r.header1 none with
    | none =>
      simp only [hg] at h
      split_ifs at h <;> simp at h
      exact ih true h
    | some g =>
      simp only [hg] at h
      split_ifs at h <;> simp at h <;>
      first
      | exact ih true (by assumption)
      | (rcases h with ⟨rfl, rfl, _, _⟩ | _ <;>
         first
         | exact vtest_commands_entry _ _ hg
         | exact ih true (by assumption))
      | (obtain ⟨rfl, rfl, _, _⟩ := h
         exact vtest_commands_entry _ _ hg)

/-- A handler is invoked only after the first header had the command id
`VCMD_CREATE_RENDERER` and `vtest_create_renderer` succeeded for it. -/
theorem fuzzer_loop_first (c : vtest_protocol) (create_fences : Bool)
    (reads : List vtest_read) (id : Nat) (f : vtest_handler) (len : Nat) (ret : Int)
    (h : FuzzEvent.handler id f len ret ∈ vtest_fuzzer_loop c create_fences reads false) :
    ∃ r0 rest, reads = r0 :: rest ∧
      ¬ (r0.ret < 0 ∨ r0.ret.toNat < 4 * c.VTEST_HDR_SIZE) ∧
      r0.header1 = c.VCMD_CREATE_RENDERER ∧ 0 ≤ r0.call_ret ∧
      vtest_fuzzer_loop c create_fences reads false =
        FuzzEvent.read :: FuzzEvent.create_renderer r0.header0 r0.call_ret ::
          FuzzEvent.poll :: vtest_fuzzer_loop c create_fences rest true ∧
      FuzzEvent.handler id f len ret ∈ vtest_fuzzer_loop c create_fences rest true := by
  cases reads with
  | nil => simp [vtest_fuzzer_loop] at h
  | cons r rest =>
    refine ⟨r, rest, rfl, ?_⟩
    simp only [vtest_fuzzer_loop, Bool.not_false, if_true] at h ⊢
    by_cases h1 : r.ret < 0 ∨ r.ret.toNat < 4 * c.VTEST_HDR_SIZE
    · rw [if_pos h1] at h
      simp at h
    · rw [if_neg h1] at h ⊢
      by_cases h2 : r.header1 ≠ c.VCMD_CREATE_RENDERER
      · rw [if_pos h2] at h
        simp at h
      · rw [if_neg h2] at h ⊢
        by_cases h3 : r.call_ret < 0
        · rw [if_pos h3] at h
          simp at h
        · rw [if_neg h3] at h ⊢
          simp only [List.mem_cons, reduceCtorEq, false_or] at h
          exact ⟨h1, not_not.mp h2, not_lt.mp h3, rfl, h⟩

/-- A header that is not accepted ends the loop: no header is read after it
and no call is made for it. -/
theorem fuzzer_loop_rejected (c : vtest_protocol) (create_fences : Bool)
    (pre : List vtest_read) (r : vtest_read) (post : List vtest_read) (initialized : Bool)
    (h1 : pre = [] → initialized = false → r.header1 ≠ c.VCMD_CREATE_RENDERER)
    (h2 : pre ≠ [] ∨ initialized = true → not_dispatched r) :
    (vtest_fuzzer_loop c create_fences (pre ++ r :: post) initialized).countP
        FuzzEvent.is_read ≤ pre.length + 1 ∧
    (vtest_fuzzer_loop c create_fences (pre ++ r :: post) initialized).countP
        FuzzEvent.is_call ≤ pre.length ∧
    vtest_fuzzer_loop c create_fences (pre ++ r :: post) initialized =
      vtest_fuzzer_loop c create_fences (pre ++ [r]) initialized := by
  induction pre generalizing initialized with
  | nil =>
    simp only [List.nil_append, vtest_fuzzer_loop]
    cases initialized with
    | false =>
      have := h1 rfl rfl
      simp only [Bool.not_false, if_true, if_pos this]
      split_ifs <;> simp [FuzzEvent.is_read, FuzzEvent.is_call]
    | true =>
      have hn := h2 (Or.inr rfl)
      simp only [Bool.not_true, Bool.false_eq_true, if_false]
      by_cases h5 : r.header1 ≤ 0 ∨ r.header1 ≥ vtest_commands.length
      · simp only [if_pos h5]
        split_ifs <;> simp [FuzzEvent.is_read, FuzzEvent.is_call]
      · have h6 : vtest_commands.getD r.header1 none = none := by
          rcases hn with hn | hn | hn
          · exact absurd (Or.inl (by omega)) h5
          · exact absurd (Or.inr hn) h5
          · exact hn
        simp only [if_neg h5, h6]
        split_ifs <;> simp [FuzzEvent.is_read, FuzzEvent.is_call]
  | cons p pre ih =>
    obtain ⟨i1, i2, i3⟩ := ih true (fun _ hf => by cases hf)
      (fun _ => h2 (Or.inl (List.cons_ne_nil _ _)))
    simp only [List.cons_append, vtest_fuzzer_loop, List.length_cons]
    cases hg : vtest_commands.getD p.header1 none with
    | none =>
      split_ifs <;> refine ⟨?_, ?_, ?_⟩ <;>
        first
        | (simp [FuzzEvent.is_read, FuzzEvent.is_call, List.countP_cons,
            List.countP_append] <;> omega)
        | simp [i3]
    | some g =>
      split_ifs <;> refine ⟨?_, ?_, ?_⟩ <;>
        first
        | (simp [FuzzEvent.is_read, FuzzEvent.is_call, List.countP_cons,
            List.countP_append] <;> omega)
        | simp [i3]

/-- C37. Fuzzer command dispatch in `vtest_fuzzer_run_renderer`. Whenever a
handler of the table `vtest_commands` is invoked, its command id is between
1 and the size of the table minus 1 and the handler is the entry of the
table at that id (so the entry is not NULL); the first header read had the
command id `VCMD_CREATE_RENDERER`, `vtest_create_renderer` was called for it
and succeeded, and that call comes before the handler. Any other header ends
the loop: when the first header has another command id nothing is called but
`vtest_destroy_renderer`; when a later header has the id 0, an id beyond the
table or an id whose entry is NULL, no header is read after it, no call is
made for it, and the headers after it have no influence on the run. The run
always ends with `vtest_destroy_renderer`. -/
theorem fuzzer_command_dispatch (c : vtest_protocol) (create_fences : Bool)
    (reads : List vtest_read) :
    (∀ id f len ret,
      FuzzEvent.handler id f len ret ∈ vtest_fuzzer_run_renderer c create_fences reads →
      (1 ≤ id ∧ id ≤ vtest_commands.length - 1 ∧ vtest_commands[id]? = some (some f)) ∧
      ∃ r0 rest tail, reads = r0 :: rest ∧
        ¬ (r0.ret < 0 ∨ r0.ret.toNat < 4 * c.VTEST_HDR_SIZE) ∧
        r0.header1 = c.VCMD_CREATE_RENDERER ∧ 0 ≤ r0.call_ret ∧
        vtest_fuzzer_run_renderer c create_fences reads =
          FuzzEvent.read :: FuzzEvent.create_renderer r0.header0 r0.call_ret ::
            FuzzEvent.poll :: tail ∧
        FuzzEvent.handler id f len ret ∈ tail) ∧
    (∀ r post, reads = r :: post → r.header1 ≠ c.VCMD_CREATE_RENDERER →
      vtest_fuzzer_run_renderer c create_fences reads =
        [FuzzEvent.read, FuzzEvent.destroy_renderer]) ∧
    (∀ pre r post, reads = pre ++ r :: post → pre ≠ [] → not_dispatched r →
      (vtest_fuzzer_run_renderer c create_fences reads).countP FuzzEvent.is_read ≤
        pre.length + 1 ∧
      (vtest_fuzzer_run_renderer c create_fences reads).countP FuzzEvent.is_call ≤
        pre.length ∧
      vtest_fuzzer_run_renderer c create_fences reads =
        vtest_fuzzer_run_renderer c create_fences (pre ++ [r])) ∧
    (vtest_fuzzer_run_renderer c create_fences reads).getLast? =
      some FuzzEvent.destroy_renderer := by
  refine ⟨?_, ?_, ?_, ?_⟩
  · intro id f len ret h
    have h' : FuzzEvent.handler id f len ret ∈
        vtest_fuzzer_loop c create_fences reads false := by
      simpa [vtest_fuzzer_run_renderer] using h
    refine ⟨fuzzer_loop_handlers c create_fences reads false id f len ret h', ?_⟩
    obtain ⟨r0, rest, e, a1, a2, a3, a4, a5⟩ :=
      fuzzer_loop_first c create_fences reads id f len ret h'
    refine ⟨r0, rest, vtest_fuzzer_loop c create_fences rest true ++
      [FuzzEvent.destroy_renderer], e, a1, a2, a3, ?_, List.mem_append_left _ a5⟩
    simp only [vtest_fuzzer_run_renderer, a4, List.cons_append]
  · intro r post e hne
    subst e
    simp only [vtest_fuzzer_run_renderer, vtest_fuzzer_loop, Bool.not_false, if_true,
      if_pos hne]
    split_ifs <;> rfl
  · intro pre r post e hpre hr
    subst e
    obtain ⟨i1, i2, i3⟩ := fuzzer_loop_rejected c create_fences pre r post false
      (fun hp => absurd hp hpre) (fun _ => hr)
    refine ⟨?_, ?_, ?_⟩
    · simpa [vtest_fuzzer_run_renderer, List.countP_append, FuzzEvent.is_read] using i1
    · simpa [vtest_fuzzer_run_renderer, List.countP_append, FuzzEvent.is_call] using i2
    · simp only [vtest_fuzzer_run_renderer, i3]
  · simp [vtest_fuzzer_run_renderer]

/-- Witness for C37: a run that creates the renderer, creates a resource and
submits a command, then reads a header with the command id 8, whose table
entry is NULL; the header after it is never read. -/
theorem fuzzer_command_dispatch_witness :
    vtest_fuzzer_run_renderer ex_vtest_protocol true ex_reads =
      [FuzzEvent.read, FuzzEvent.create_renderer 1 0, FuzzEvent.poll,
       FuzzEvent.read, FuzzEvent.poll,
       FuzzEvent.handler 2 vtest_handler.vtest_create_resource 10 0, FuzzEvent.create_fence,
       FuzzEvent.read, FuzzEvent.poll,
       FuzzEvent.handler 6 vtest_handler.vtest_submit_cmd 3 0, FuzzEvent.create_fence,
       FuzzEvent.read, FuzzEvent.poll, FuzzEvent.destroy_renderer] ∧
    (1 ≤ 6 ∧ 6 ≤ vtest_commands.length - 1 ∧
      vtest_commands[6]? = some (some vtest_handler.vtest_submit_cmd)) ∧
    (List.countP FuzzEvent.is_read (vtest_fuzzer_run_renderer ex_vtest_protocol true ex_reads) ≤
        (ex_reads.take 3).length + 1 ∧
      List.countP FuzzEvent.is_call (vtest_fuzzer_run_renderer ex_vtest_protocol true ex_reads) ≤
        (ex_reads.take 3).length ∧
      vtest_fuzzer_run_renderer ex_vtest_protocol true ex_reads =
        vtest_fuzzer_run_renderer ex_vtest_protocol true (ex_reads.take 3 ++ [⟨8, 0, 8, 0⟩])) :=
  ⟨by decide,
    ((fuzzer_command_dispatch ex_vtest_protocol true ex_reads).1 6
      vtest_handler.vtest_submit_cmd 3 0 (by decide)).1,
    (fuzzer_command_dispatch ex_vtest_protocol true ex_reads).2.2.1 (ex_reads.take 3)
      ⟨8, 0, 8, 0⟩ [⟨8, 0, 1, 0⟩] (by decide) (by decide) (by decide)⟩

/-! ### The direction of a transfer -/

/-- The sweep towards the host leaves the guest segments as they are. -/
theorem sweep_loop_to_host_iovecs (a : SweepArgs) (hd : a.direction = VIRGL_TRANSFER_TO_HOST)
    (fuel : Nat) (s : SweepState) : (sweep_loop a fuel s).iovecs = s.iovecs := by
  induction fuel generalizing s with
  | zero => rfl
  | succ n ih =>
    simp only [sweep_loop]
    split_ifs
    · rw [ih, sweep_step_iovecs, if_neg (fun h => h.2 hd)]
    · rfl

/-- The sweep in any other direction leaves host memory as it is. -/
theorem sweep_loop_to_guest_host (a : SweepArgs) (hd : a.direction ≠ VIRGL_TRANSFER_TO_HOST)
    (fuel : Nat) (s : SweepState) : (sweep_loop a fuel s).host = s.host := by
  induction fuel generalizing s with
  | zero => rfl
  | succ n ih =>
    simp only [sweep_loop]
    split_ifs
    · rw [ih, sweep_step_host, if_neg (fun h => hd h.2)]
    · rfl

/-- The sweep only tests whether the direction is `VIRGL_TRANSFER_TO_HOST`:
two directions that both differ from it give the same iteration. -/
theorem sweep_step_other_direction (a : SweepArgs) (d : Nat)
    (hd : a.direction ≠ VIRGL_TRANSFER_TO_HOST) (hd' : d ≠ VIRGL_TRANSFER_TO_HOST)
    (s : SweepState) :
    sweep_step { a with direction := d } s = sweep_step a s := by
  unfold sweep_step
  simp only [if_neg hd, if_neg hd']
  rfl

theorem sweep_loop_other_direction (a : SweepArgs) (d : Nat)
    (hd : a.direction ≠ VIRGL_TRANSFER_TO_HOST) (hd' : d ≠ VIRGL_TRANSFER_TO_HOST)
    (fuel : Nat) (s : SweepState) :
    sweep_loop { a with direction := d } fuel s = sweep_loop a fuel s := by
  induction fuel generalizing s with
  | zero => rfl
  | succ n ih =>
    simp only [sweep_loop]
    rw [sweep_step_other_direction a d hd hd', ih]

/-- The machine start of a segment depends on the segment sizes only. -/
theorem machine_start_congr (l l' : List iovec)
    (h : l.map iovec.iov_len = l'.map iovec.iov_len) (k : Nat) :
    machine_start l k = machine_start l' k := by
  induction k with
  | zero => rfl
  | succ k ih =>
    have e : (l.getD k ⟨[]⟩).iov_len = (l'.getD k ⟨[]⟩).iov_len := by
      have hlen : l.length = l'.length := by
        have := congrArg List.length h
        simpa using this
      by_cases hk : k < l.length
      · rw [← getD_map_iov_len l k hk, ← getD_map_iov_len l' k (by omega), h]
      · rw [List.getD_eq_default _ _ (by omega), List.getD_eq_default _ _ (by omega)]
    simp only [machine_start, ih, e]

/-- While the segments are shorter than 4 GiB in total, the machine start of
a segment is its logical start. -/
theorem machine_start_eq_seg_start (l : List iovec) (htot : total_len l < 4294967296)
    (k : Nat) (hk : k ≤ l.length) : machine_start l k = seg_start l k := by
  induction k with
  | zero => rw [seg_start_zero]; rfl
  | succ k ih =>
    have h1 := seg_start_succ l k (by omega)
    have h2 := seg_start_le l (k + 1)
    simp only [machine_start, ih (by omega)]
    rw [u32_eq_self (n := (l.getD k ⟨[]⟩).iov_len) (by omega), h1]
    exact u32_eq_self (by omega)

/-- Every logical offset below the total length is an offset in a segment. -/
theorem exists_seg_of_lt (l : List iovec) (g : Nat) (hg : g < total_len l) :
    ∃ k j, k < l.length ∧ j < (l.getD k ⟨[]⟩).iov_len ∧ g = seg_start l k + j := by
  induction l generalizing g with
  | nil => simp [total_len] at hg
  | cons v vs ih =>
    rw [total_len_cons] at hg
    by_cases h : g < v.iov_len
    · exact ⟨0, g, by simp, by simpa using h, by rw [seg_start_zero]; omega⟩
    · obtain ⟨k, j, hk, hj, e⟩ := ih (g - v.iov_len) (by omega)
      refine ⟨k + 1, j, by simpa using hk, by simpa using hj, ?_⟩
      rw [seg_start_cons_succ]
      omega

/-- The start offset the sweep keeps is the machine start of the current
segment, from one iteration to the next. -/
theorem sweep_step_machine_start (a : SweepArgs) (s : SweepState)
    (hS : s.iovec_start_offset = machine_start s.iovecs s.current_iovec) :
    (sweep_step a s).iovec_start_offset =
      machine_start (sweep_step a s).iovecs (sweep_step a s).current_iovec := by
  obtain ⟨_, e2, e3⟩ := sweep_step_ctrl a s
  rw [machine_start_congr _ _ (sweep_step_lens a s), e2, e3]
  split_ifs
  · simp only [machine_start, ← hS, iovec_size, cur_iovec]
  · exact hS

/-- An iteration writes, in the guest segments, only bytes whose offset from
the machine start of their segment lies in the current row. -/
theorem sweep_step_seg_frame (a : SweepArgs) (s : SweepState)
    (hS : s.iovec_start_offset = machine_start s.iovecs s.current_iovec)
    (hk : s.current_iovec < s.iovecs.length) (k j : Nat)
    (hg : ¬ (guest_row_lo a s.current_height ≤ machine_start s.iovecs k + j ∧
      machine_start s.iovecs k + j < guest_row_hi a s.current_height)) :
    seg_byte (sweep_step a s).iovecs k j = seg_byte s.iovecs k j := by
  rw [sweep_step_iovecs]
  split_ifs with hcopy
  · simp only [seg_byte]
    rw [getD_set_eq _ _ _ _ _ hk]
    split_ifs with hkk
    · subst hkk
      have hlo : guest_row_lo a s.current_height ≤ max_start a s := by
        simp only [guest_row_lo, max_start, box_start_offset]
        exact le_max_right _ _
      have hhi : min_end a s ≤ guest_row_hi a s.current_height := by
        simp only [guest_row_hi, guest_row_lo, min_end, box_end_offset, box_start_offset]
        exact min_le_right _ _
      have hst : s.iovec_start_offset ≤ max_start a s := le_max_left _ _
      by_cases hj : j < (cur_iovec s).iov_len
      · rw [memcpy_to_guest_getElem? _ _ _ _ _ _ hj, offset_in_iovec_eq]
        rw [if_neg (by simp only [copy_iovec_size]; omega)]
        rfl
      · have h1 : (memcpy_to_guest (cur_iovec s) (offset_in_iovec a s) s.host (host_start a s)
            (copy_iovec_size a s)).iov_base[j]? = none := by
          apply List.getElem?_eq_none
          have := memcpy_to_guest_iov_len (cur_iovec s) (offset_in_iovec a s) s.host
            (host_start a s) (copy_iovec_size a s)
          simp only [iovec.iov_len] at this hj
          omega
        have h2 : (s.iovecs.getD s.current_iovec ⟨[]⟩).iov_base[j]? = none := by
          apply List.getElem?_eq_none
          simp only [cur_iovec, iovec.iov_len] at hj
          omega
        rw [h1, h2]
    · rfl
  · rfl

/-- The sweep writes, in the guest segments, only bytes whose offset from
the machine start of their segment lies in a row from the current one to
the one at which it stops. -/
theorem sweep_loop_seg_frame (a : SweepArgs) (fuel : Nat) (s : SweepState) (k j : Nat)
    (hS : s.iovec_start_offset = machine_start s.iovecs s.current_iovec)
    (hg : ∀ r, s.current_height ≤ r → r ≤ (sweep_loop a fuel s).current_height →
      r < a.subsampled_height →
      ¬ (guest_row_lo a r ≤ machine_start s.iovecs k + j ∧
        machine_start s.iovecs k + j < guest_row_hi a r)) :
    seg_byte (sweep_loop a fuel s).iovecs k j = seg_byte s.iovecs k j := by
  induction fuel generalizing s with
  | zero => rfl
  | succ n ih =>
    simp only [sweep_loop] at hg ⊢
    by_cases hc : s.current_height < a.subsampled_height ∧ s.current_iovec < s.iovecs.length
    · simp only [if_pos hc] at hg ⊢
      have hm := sweep_loop_height_mono a n (sweep_step a s)
      have hadv : s.current_height ≤ (sweep_step a s).current_height := by
        rcases sweep_step_advance a s with ⟨e1, _⟩ | ⟨e1, _⟩ <;> omega
      rw [ih (sweep_step a s) (sweep_step_machine_start a s hS)
        (fun r h1 h2 h3 => by
          rw [machine_start_congr _ _ (sweep_step_lens a s)]
          exact hg r (by omega) h2 h3)]
      exact sweep_step_seg_frame a s hS hc.2 k j
        (hg s.current_height (Nat.le_refl _) (by omega) hc.1)
    · simp only [if_neg hc]

/-- The plane loop only tests whether the direction is
`VIRGL_TRANSFER_TO_HOST`. -/
theorem plane_loop_other_direction (bo : gbm_bo) (layout : planar_layout)
    (info : vrend_transfer_info) (d d' gs hms : Nat)
    (hd : d ≠ VIRGL_TRANSFER_TO_HOST) (hd' : d' ≠ VIRGL_TRANSFER_TO_HOST)
    (count plane : Nat) (s : PlaneState) :
    plane_loop bo layout info d' gs hms count plane s =
      plane_loop bo layout info d gs hms count plane s := by
  induction count generalizing plane s with
  | zero => rfl
  | succ n ih =>
    have e : plane_step bo layout info d' gs hms plane s =
        plane_step bo layout info d gs hms plane s := by
      simp only [plane_step]
      split_ifs
      · rfl
      · have e1 : plane_args bo layout info d' gs hms plane s.host_plane_offset
            s.guest_plane_offset =
            { plane_args bo layout info d gs hms plane s.host_plane_offset
                s.guest_plane_offset with direction := d' } := rfl
        have e2 := sweep_loop_other_direction
          (plane_args bo layout info d gs hms plane s.host_plane_offset s.guest_plane_offset)
          d' hd hd'
          ((plane_args bo layout info d gs hms plane s.host_plane_offset
            s.guest_plane_offset).subsampled_height + s.iovecs.length)
          ⟨0, 0, 0, s.host, s.iovecs, []⟩
        simp only [virgl_gbm_transfer_internal, e1]
        rw [e2]
    simp only [plane_loop, e, ih]

/-- What a run of the plane loop leaves as it is: the sizes of the segments;
the guest segments when the direction is towards the host, host memory
otherwise; the host bytes outside the rows of the sweeps; and the guest
bytes whose offset from the machine start of their segment is outside the
rows of the sweeps. -/
theorem plane_loop_frame (bo : gbm_bo) (layout : planar_layout) (info : vrend_transfer_info)
    (d gs hms : Nat) (count plane : Nat) (s t : PlaneState)
    (hat : s.host_plane_offset = host_plane_offset_at bo plane)
    (hgt : s.guest_plane_offset = guest_plane_offset_at bo layout gs plane)
    (hrun : plane_loop bo layout info d gs hms count plane s = some t) :
    t.iovecs.map iovec.iov_len = s.iovecs.map iovec.iov_len ∧
    (d = VIRGL_TRANSFER_TO_HOST → t.iovecs = s.iovecs) ∧
    (d ≠ VIRGL_TRANSFER_TO_HOST → t.host = s.host) ∧
    (∀ x, (∀ p r, plane ≤ p → p < plane + count →
        r < (sweep_args_at bo layout info d gs hms p).subsampled_height →
        ¬ (host_row_lo (sweep_args_at bo layout info d gs hms p) r ≤ x ∧
          x < host_row_lo (sweep_args_at bo layout info d gs hms p) r +
            row_bytes (sweep_args_at bo layout info d gs hms p))) →
      t.host x = s.host x) ∧
    (∀ k j, (∀ p r, plane ≤ p → p < plane + count →
        r < (sweep_args_at bo layout info d gs hms p).subsampled_height →
        ¬ (guest_row_lo (sweep_args_at bo layout info d gs hms p) r ≤
            machine_start s.iovecs k + j ∧
          machine_start s.iovecs k + j <
            guest_row_hi (sweep_args_at bo layout info d gs hms p) r)) →
      seg_byte t.iovecs k j = seg_byte s.iovecs k j) := by
  induction count generalizing plane s with
  | zero =>
    simp only [plane_loop, Option.some.injEq] at hrun
    subst hrun
    exact ⟨rfl, fun _ => rfl, fun _ => rfl, fun _ _ => rfl, fun _ _ _ => rfl⟩
  | succ n ih =>
    simp only [plane_loop, plane_step] at hrun
    split at hrun
    · exact absurd hrun (by simp)
    · rename_i s1 hs1
      split at hs1
      · exact absurd hs1 (by simp)
      · simp only [Option.some.injEq] at hs1
        subst hs1
        have ea : plane_args bo layout info d gs hms plane s.host_plane_offset
            s.guest_plane_offset = sweep_args_at bo layout info d gs hms plane := by
          simp only [sweep_args_at, ← hat, ← hgt]
        rw [ea] at hrun
        obtain ⟨i1, i2, i3, i4, i5⟩ := ih (plane + 1) _
          (by simp only [host_plane_offset_at, hat])
          (by simp only [guest_plane_offset_at, hgt, sweep_args_at, plane_args]) hrun
        simp only at i1 i2 i3 i4 i5
        have hlens := transfer_internal_lens (sweep_args_at bo layout info d gs hms plane)
          s.host s.iovecs
        refine ⟨i1.trans hlens, ?_, ?_, ?_, ?_⟩
        · intro hd
          rw [i2 hd]
          exact sweep_loop_to_host_iovecs _ hd _ _
        · intro hd
          rw [i3 hd]
          exact sweep_loop_to_guest_host _ hd _ _
        · intro x hx
          rw [i4 x (fun p r h1 h2 h3 => hx p r (by omega) (by omega) h3)]
          exact sweep_loop_host_frame _ _ ⟨0, 0, 0, s.host, s.iovecs, []⟩ x
            (fun r _ _ h3 => hx plane r (Nat.le_refl _) (by omega) h3)
        · intro k j hg
          rw [i5 k j (fun p r h1 h2 h3 => by
            rw [machine_start_congr _ _ hlens]
            exact hg p r (by omega) (by omega) h3)]
          exact sweep_loop_seg_frame _ _ ⟨0, 0, 0, s.host, s.iovecs, []⟩ k j rfl
            (fun r _ _ h3 => hg plane r (Nat.le_refl _) (by omega) h3)

/-- A transfer only tests whether the direction is
`VIRGL_TRANSFER_TO_HOST`: two directions that both differ from it give the
same result. -/
theorem transfer_other_direction (bo : gbm_bo) (d d' : Nat) (host : HostMem)
    (iovecs : List iovec) (info : vrend_transfer_info)
    (hd : d ≠ VIRGL_TRANSFER_TO_HOST) (hd' : d' ≠ VIRGL_TRANSFER_TO_HOST) :
    virgl_gbm_transfer bo d' host iovecs info = virgl_gbm_transfer bo d host iovecs info := by
  unfold virgl_gbm_transfer
  cases layout_from_format bo.format with
  | none => rfl
  | some layout =>
    cases bo.map_stride with
    | none => rfl
    | some hms =>
      simp only [transfer_mapped, plane_loop_other_direction bo layout info d d' _ hms hd hd']

/-- What a transfer leaves as it is, with the rows being those of the sweeps
it runs. -/
theorem transfer_frames (bo : gbm_bo) (direction : Nat) (host : HostMem)
    (iovecs : List iovec) (info : vrend_transfer_info) (r : TransferResult)
    (hr : virgl_gbm_transfer bo direction host iovecs info = some r) :
    r.iovecs.map iovec.iov_len = iovecs.map iovec.iov_len ∧
    (direction = VIRGL_TRANSFER_TO_HOST → r.iovecs = iovecs) ∧
    (direction ≠ VIRGL_TRANSFER_TO_HOST → r.host = host) ∧
    (∀ x, (∀ p a row, transfer_call_at bo direction host iovecs info p = some a →
        row < a.subsampled_height →
        ¬ (host_row_lo a row ≤ x ∧ x < host_row_lo a row + row_bytes a)) →
      r.host x = host x) ∧
    (∀ k j, (∀ p a row, transfer_call_at bo direction host iovecs info p = some a →
        row < a.subsampled_height →
        ¬ (guest_row_lo a row ≤ machine_start iovecs k + j ∧
          machine_start iovecs k + j < guest_row_hi a row)) →
      seg_byte r.iovecs k j = seg_byte iovecs k j) := by
  have hr0 := hr
  unfold virgl_gbm_transfer at hr
  cases hl : layout_from_format bo.format with
  | none =>
    simp only [hl, Option.some.injEq] at hr
    subst hr
    exact ⟨rfl, fun _ => rfl, fun _ => rfl, fun _ _ => rfl, fun _ _ _ => rfl⟩
  | some layout =>
    cases hm : bo.map_stride with
    | none =>
      simp only [hl, hm, Option.some.injEq] at hr
      subst hr
      exact ⟨rfl, fun _ => rfl, fun _ => rfl, fun _ _ => rfl, fun _ _ _ => rfl⟩
    | some hms =>
      simp only [hl, hm] at hr
      rcases transfer_mapped_some bo layout direction host iovecs info hms _ r hr with
        ⟨_, eh, ei, _⟩ | ⟨h0, _, _, _, _, s, hrun, eh, ei, _⟩
      · rw [eh, ei]
        exact ⟨rfl, fun _ => rfl, fun _ => rfl, fun _ _ => rfl, fun _ _ _ => rfl⟩
      · obtain ⟨i1, i2, i3, i4, i5⟩ := plane_loop_frame bo layout info direction
          (resolve_guest_stride0 info (calc_stride0 bo layout)) hms bo.plane_count.toNat 0
          ⟨0, 0, host, iovecs, []⟩ s rfl rfl hrun
        simp only at i1 i2 i3 i4 i5
        have hcall : ∀ p, p < 0 + bo.plane_count.toNat →
            transfer_call_at bo direction host iovecs info p =
              some (sweep_args_at bo layout info direction
                (resolve_guest_stride0 info (calc_stride0 bo layout)) hms p) := by
          intro p hp
          obtain ⟨a, ha⟩ := transfer_calls bo direction host iovecs info r hr0 h0 p
            (by omega)
          obtain ⟨layout', hms', hl', hm', _, _, _, _, _, e⟩ :=
            transfer_call_at_some bo direction host iovecs info p a ha
          rw [hl] at hl'
          rw [hm] at hm'
          simp only [Option.some.injEq] at hl' hm'
          subst hl'; subst hm'
          rw [ha, e]
        rw [eh, ei]
        exact ⟨i1, i2, i3,
          fun x hx => i4 x (fun p row _ h2 h3 => hx p _ row (hcall p h2) h3),
          fun k j hg => i5 k j (fun p row _ h2 h3 => hg p _ row (hcall p h2) h3)⟩

/-- The sweeps of a transfer are those of the planes below the plane count of
the buffer. -/
theorem transfer_call_at_lt (bo : gbm_bo) (direction : Nat) (host : HostMem)
    (iovecs : List iovec) (info : vrend_transfer_info) (p : Nat) (a : SweepArgs)
    (h : transfer_call_at bo direction host iovecs info p = some a) :
    p < bo.plane_count.toNat := by
  obtain ⟨_, _, _, _, _, _, hp, _⟩ := transfer_call_at_some bo direction host iovecs info p a h
  omega

/-- C33. Direction frame of `virgl_gbm_transfer`, for every transfer that
returns. With the direction `VIRGL_TRANSFER_TO_HOST` the guest segments are
after the transfer what they were before. With any other direction value
host memory is what it was before, and the transfer gives the result it
gives for every other such value, `VIRGL_TRANSFER_FROM_HOST` among them. In
both cases the destination bytes outside the rows of the box are unchanged,
the rows being those of the sweeps the transfer runs for the planes: a host
byte outside the byte ranges of all rows of all planes keeps its value, and
so does a guest byte whose offset, counted from the start the code computes
for its segment, is outside the byte ranges of all rows of all planes; while
the segments are shorter than 4 GiB in total that offset is the logical
offset of the byte in the concatenated segments. -/
theorem transfer_direction_frame (bo : gbm_bo) (direction : Nat) (host : HostMem)
    (iovecs : List iovec) (info : vrend_transfer_info) (r : TransferResult)
    (hr : virgl_gbm_transfer bo direction host iovecs info = some r) :
    (direction = VIRGL_TRANSFER_TO_HOST → r.iovecs = iovecs) ∧
    (direction ≠ VIRGL_TRANSFER_TO_HOST →
      r.host = host ∧
      virgl_gbm_transfer bo VIRGL_TRANSFER_FROM_HOST host iovecs info = some r ∧
      ∀ d, d ≠ VIRGL_TRANSFER_TO_HOST →
        virgl_gbm_transfer bo d host iovecs info = some r) ∧
    (∀ x, outside_host_rows bo direction host iovecs info x → r.host x = host x) ∧
    (∀ k j, outside_guest_rows bo direction host iovecs info (machine_start iovecs k + j) →
      seg_byte r.iovecs k j = seg_byte iovecs k j) ∧
    (total_len iovecs < 4294967296 →
      ∀ g, outside_guest_rows bo direction host iovecs info g →
        guest_byte r.iovecs g = guest_byte iovecs g) := by
  obtain ⟨f1, f2, f3, f4, f5⟩ := transfer_frames bo direction host iovecs info r hr
  have f5' : ∀ k j,
      outside_guest_rows bo direction host iovecs info (machine_start iovecs k + j) →
      seg_byte r.iovecs k j = seg_byte iovecs k j := fun k j hg =>
    f5 k j (fun p a row h1 h2 =>
      hg p (transfer_call_at_lt bo direction host iovecs info p a h1) a h1 row h2)
  refine ⟨f2, ?_, ?_, f5', ?_⟩
  · intro hd
    have hother : ∀ d, d ≠ VIRGL_TRANSFER_TO_HOST →
        virgl_gbm_transfer bo d host iovecs info = some r := fun d hd' => by
      rw [transfer_other_direction bo direction d host iovecs info hd hd', hr]
    exact ⟨f3 hd, hother _ (by decide), hother⟩
  · intro x hx
    exact f4 x (fun p a row h1 h2 =>
      hx p (transfer_call_at_lt bo direction host iovecs info p a h1) a h1 row h2)
  · intro htot g hg
    by_cases hlt : g < total_len iovecs
    · obtain ⟨k, j, hk, hj, e⟩ := exists_seg_of_lt iovecs g hlt
      have hlen : r.iovecs.length = iovecs.length := by
        have := congrArg List.length f1
        simpa using this
      have hj' : j < (r.iovecs.getD k ⟨[]⟩).iov_len := by
        rw [← getD_map_iov_len r.iovecs k (by omega), f1, getD_map_iov_len iovecs k hk]
        exact hj
      have e1 := guest_byte_seg iovecs k j hk hj
      have e2 := guest_byte_seg r.iovecs k j (by omega) hj'
      rw [seg_start_congr _ _ k f1] at e2
      rw [e, e1, e2]
      have hms := machine_start_eq_seg_start iovecs htot k (by omega)
      apply f5' k j
      rw [hms, ← e]
      exact hg
    · rw [guest_byte_of_total_le r.iovecs g (by rw [total_len_congr _ _ f1]; omega),
        guest_byte_of_total_le iovecs g (by omega)]

/-- Witness for C33: the NV12 buffer of 2x4 pixels, mapped with stride 4,
and twelve guest bytes in one segment. Towards the host the segment is as
before and so is the host byte at offset 2, which lies between the rows of
the luma plane. With the direction value 7 host memory is as before, the
result is the one for `VIRGL_TRANSFER_FROM_HOST`, and the guest byte at
offset 11, which follows the last row of the chroma plane, is as before. -/
theorem transfer_direction_frame_witness :
    (∃ r, virgl_gbm_transfer ex_nv12_bo VIRGL_TRANSFER_TO_HOST ex_host [⟨ex_nv12_bytes⟩]
        ex_nv12_info = some r ∧
      r.iovecs = [⟨ex_nv12_bytes⟩] ∧ r.host 2 = ex_host 2) ∧
    (∃ r, virgl_gbm_transfer ex_nv12_bo 7 ex_host [⟨ex_nv12_bytes⟩] ex_nv12_info = some r ∧
      r.host = ex_host ∧
      virgl_gbm_transfer ex_nv12_bo VIRGL_TRANSFER_FROM_HOST ex_host [⟨ex_nv12_bytes⟩]
        ex_nv12_info = some r ∧
      guest_byte r.iovecs 11 = guest_byte [⟨ex_nv12_bytes⟩] 11) :=
  ⟨
    let ⟨r, hr⟩ := transfer_defined ex_nv12_bo biplanar_yuv_420_layout VIRGL_TRANSFER_TO_HOST
      ex_host [⟨ex_nv12_bytes⟩] ex_nv12_info (by decide) (by decide)
    ⟨r, hr,
      (transfer_direction_frame ex_nv12_bo VIRGL_TRANSFER_TO_HOST ex_host [⟨ex_nv12_bytes⟩]
        ex_nv12_info r hr).1 rfl,
      (transfer_direction_frame ex_nv12_bo VIRGL_TRANSFER_TO_HOST ex_host [⟨ex_nv12_bytes⟩]
        ex_nv12_info r hr).2.2.1 2 (by decide)⟩,
    let ⟨r, hr⟩ := transfer_defined ex_nv12_bo biplanar_yuv_420_layout 7
      ex_host [⟨ex_nv12_bytes⟩] ex_nv12_info (by decide) (by decide)
    ⟨r, hr,
      ((transfer_direction_frame ex_nv12_bo 7 ex_host [⟨ex_nv12_bytes⟩]
        ex_nv12_info r hr).2.1 (by decide)).1,
      ((transfer_direction_frame ex_nv12_bo 7 ex_host [⟨ex_nv12_bytes⟩]
        ex_nv12_info r hr).2.1 (by decide)).2.1,
      (transfer_direction_frame ex_nv12_bo 7 ex_host [⟨ex_nv12_bytes⟩]
        ex_nv12_info r hr).2.2.2.2 (by decide) 11 (by decide)⟩⟩

end VirglGbm
